import Mathlib

/-!
# learncc: register pool, label counter and parser

A shallow embedding of the code generator's register allocator and label
counter (`codegen.c`) and of the parser (`parse.c`): token handling, node
constructors, scopes and symbol look-up, the expression grammar and the grammar
of declarations and statements. The properties proved of them follow the
definitions.
-/

namespace Learncc

/-! ## Failure of a run -/

/-- Ways in which a call does not return. `error msg` is a call of `error()`
(utils.c): the message is printed and the process is terminated. `undefined`
is a dereference of a null pointer or an access outside an array. `out_of_fuel`
belongs to the embedding only: the recursion bound of a parsing function was
reached. -/
inductive Failure where
  | error (msg : String)
  | undefined
  | out_of_fuel
  deriving DecidableEq, Repr

/-! ## codegen.c: the register pool -/

/-- The array `static int reg_stat[4]`. -/
abbrev RegStat := Fin 4 → Int

/-- The pool after `free_all_reg` (and at program start): all four flags 0. -/
def free_all_reg : RegStat := fun _ => 0

/-- The loop of `alloc_reg` over the indices still to visit: the first index
whose flag is 0 gets flag 1 and is returned; past the last index the function
calls `error("out of registers")`. -/
def alloc_reg_loop (s : RegStat) : List (Fin 4) → Except Failure (Int × RegStat)
  | [] => .error (.error "out of registers")
  | i :: rest =>
    if s i = 0 then .ok ((i.val : Int), Function.update s i 1)
    else alloc_reg_loop s rest

/-- The function `alloc_reg`: `for (int i = 0; i < 4; i++)`. -/
def alloc_reg (s : RegStat) : Except Failure (Int × RegStat) :=
  alloc_reg_loop s [0, 1, 2, 3]

/-- The function `free_reg`. A negative `r` returns at once; an index past the
array is an access outside `reg_stat`. -/
def free_reg (s : RegStat) (r : Int) : Except Failure RegStat :=
  if r < 0 then .ok s
  else if h : r.toNat < 4 then
    if s ⟨r.toNat, h⟩ = 0 then .error (.error "free an unused register")
    else .ok (Function.update s ⟨r.toNat, h⟩ 0)
  else .error .undefined

/-- Flag `i` is set. -/
def busy (s : RegStat) (i : Fin 4) : Prop := s i ≠ 0

instance (s : RegStat) (i : Fin 4) : Decidable (busy s i) := by
  unfold busy; infer_instance

/-! ## codegen.c: the label counter -/

/-- The value of an `int` after an increment, kept in 32 bits. -/
def wrap32 (x : Int) : Int := (x + 2 ^ 31) % 2 ^ 32 - 2 ^ 31

/-- The text `sprintf` writes for `%d`. -/
def fmt_d (c : Int) : String := Int.repr c

/-- The function `new_label` on the counter `label_id`: the text returned is
the content of the entry `string(buf)` hands back, which is the content of
`buf`. -/
def new_label (label_id : Int) : String × Int :=
  ("L" ++ fmt_d label_id, wrap32 (label_id + 1))

/-- The labels returned by `n` successive calls of `new_label`, oldest first,
with the counter after the last call. -/
def new_labels : Nat → Int → List String × Int
  | 0, c => ([], c)
  | n + 1, c =>
    let r := new_label c
    let rest := new_labels n r.2
    (r.1 :: rest.1, rest.2)

/-- The pool states a disciplined run can be in, each with the set of registers
live in it (returned by an `alloc_reg` and not freed since). A run starts from
the all-free pool; it goes on with a successful `alloc_reg`, whose register
becomes live, or with a successful `free_reg` of a live register. -/
inductive Reachable : RegStat → Finset Int → Prop where
  | init : Reachable free_all_reg ∅
  | alloc {s s' : RegStat} {live : Finset Int} {r : Int} :
      Reachable s live → alloc_reg s = .ok (r, s') → Reachable s' (insert r live)
  | free {s s' : RegStat} {live : Finset Int} {r : Int} :
      Reachable s live → r ∈ live → free_reg s r = .ok s' → Reachable s' (live.erase r)

/-! ## inc.h: types, tokens and AST nodes -/

/-- The type objects a `Type` pointer can point to: the nine canonical integer
and void types and the pointer and array types built on them. -/
inductive Ty where
  | void | char | short | int | long | uchar | ushort | uint | ulong
  | ptr (base : Ty)
  | array (base : Ty) (n : Nat)
  deriving DecidableEq, Repr

/-- A `Type` pointer; `none` is `NULL`. -/
abbrev CType := Option Ty

/-- A `const char*` handed out by the string table, compared by identity, which
for interned strings is equality of content; `none` is `NULL`. -/
abbrev CStr := Option String

def voidtype : CType := some .void
def chartype : CType := some .char
def shorttype : CType := some .short
def inttype : CType := some .int
def longtype : CType := some .long
def uchartype : CType := some .uchar
def ushorttype : CType := some .ushort
def uinttype : CType := some .uint
def ulongtype : CType := some .ulong

/-- The token kinds of inc.h, in the order of the enum; `TK_PRINT` and `TK_EOI`
are used by parse.c and stand after the enumerators the header lists. -/
inductive TK where
  | TK_OPENING_BRACES | TK_CLOSING_BRACES | TK_OPENING_PARENTHESES
  | TK_CLOSING_PARENTHESES | TK_OPENING_BRACKETS | TK_CLOSING_BRACKETS
  | TK_ELLIPSIS | TK_COMMA | TK_SIMI | TK_STAR | TK_ADD | TK_SUB | TK_SLASH
  | TK_ANDAND | TK_BARBAR | TK_AND | TK_EQUALEQUAL | TK_EQUAL | TK_NOTEQUAL
  | TK_GREATEREQUAL | TK_GREATER | TK_LESSEQUAL | TK_LESS
  | TK_VOID | TK_CHAR | TK_UNSIGNED | TK_SIGNED | TK_INT | TK_SHORT | TK_LONG
  | TK_IF | TK_ELSE | TK_WHILE | TK_DO | TK_FOR | TK_BREAK | TK_CONTINUE
  | TK_RETURN | TK_IDENT | TK_NUM | TK_STRING | TK_PRINT | TK_EOI
  deriving DecidableEq, Repr

open TK

/-- The payload of `struct token`; the `next` link is the tail of the list the
token stands in. -/
structure Token where
  kind : TK
  value : Int
  name : CStr
  deriving DecidableEq, Repr

/-! The node kinds: the enumerators of inc.h with their values. -/

abbrev A_ASSIGN : Int := 0
abbrev A_L_OR : Int := 1
abbrev A_L_AND : Int := 2
abbrev A_EQ : Int := 3
abbrev A_NE : Int := 4
abbrev A_LT : Int := 5
abbrev A_GT : Int := 6
abbrev A_LE : Int := 7
abbrev A_GE : Int := 8
abbrev A_ADD : Int := 9
abbrev A_SUB : Int := 10
abbrev A_MUL : Int := 11
abbrev A_DIV : Int := 12
abbrev A_ADDRESS_OF : Int := 13
abbrev A_DEFERENCE : Int := 14
abbrev A_FUNC_CALL : Int := 15
abbrev A_ARRAY_SUBSCRIPTING : Int := 16
abbrev A_NUM : Int := 17
abbrev A_VAR : Int := 18
abbrev A_IF : Int := 19
abbrev A_DOWHILE : Int := 20
abbrev A_FOR : Int := 21
abbrev A_BREAK : Int := 22
abbrev A_CONTINUE : Int := 23
abbrev A_RETURN : Int := 24
abbrev A_DLIST : Int := 25
abbrev A_BLOCK : Int := 26
abbrev A_EXPR_STAT : Int := 27
abbrev A_CONVERSION : Int := 28
abbrev A_NOOP : Int := 29
abbrev A_VARARG : Int := 30
abbrev A_FUNCTION : Int := 31
abbrev A_STRING_LITERAL : Int := 32

/-- The kind parse.c gives a function definition; the header calls it
`A_FUNCTION`. -/
abbrev A_FUNC_DEF : Int := A_FUNCTION

/-- The fields of `struct node` that are not node pointers, as far as parse.c
uses them. -/
structure Attrs where
  kind : Int
  type : CType
  name : CStr
  intvalue : Int
  is_global : Int
  callee_name : CStr
  is_function : Int
  deriving DecidableEq, Repr

/-- A `Node` pointer: `null`, or a `struct node` with its plain fields and its
node-pointer fields. A list linked through `next` or `scope_next` is the chain
of these fields down to `null`. The field `prev` is not kept: a ring made by
`mklist` is held as the chain of `next` links from its head, with `null` where
the ring closes back on the head. -/
inductive Node where
  | null
  | mk (a : Attrs) (next scope_next left right body cond then_ els init post args params locals : Node)
  deriving DecidableEq, Repr

namespace Node

/-- The plain fields of a node; `none` for the null pointer. -/
def attrs : Node → Option Attrs
  | .null => none
  | .mk a _ _ _ _ _ _ _ _ _ _ _ _ _ => some a

/-- The field `kind` of a node that is not null. -/
def kind : Node → Int
  | .null => 0
  | .mk a _ _ _ _ _ _ _ _ _ _ _ _ _ => a.kind

/-- The field `type` of a node that is not null. -/
def type : Node → CType
  | .null => none
  | .mk a _ _ _ _ _ _ _ _ _ _ _ _ _ => a.type

/-- The field `name` of a node that is not null. -/
def name : Node → CStr
  | .null => none
  | .mk a _ _ _ _ _ _ _ _ _ _ _ _ _ => a.name

/-- The field `intvalue` of a node that is not null. -/
def intvalue : Node → Int
  | .null => 0
  | .mk a _ _ _ _ _ _ _ _ _ _ _ _ _ => a.intvalue

/-- The field `is_global` of a node that is not null. -/
def is_global : Node → Int
  | .null => 0
  | .mk a _ _ _ _ _ _ _ _ _ _ _ _ _ => a.is_global

/-- The field `callee_name` of a node that is not null. -/
def callee_name : Node → CStr
  | .null => none
  | .mk a _ _ _ _ _ _ _ _ _ _ _ _ _ => a.callee_name

/-- The field `is_function` of a node that is not null. -/
def is_function : Node → Int
  | .null => 0
  | .mk a _ _ _ _ _ _ _ _ _ _ _ _ _ => a.is_function

/-- The field `next` of a node that is not null. -/
def next : Node → Node
  | .null => .null
  | .mk _ next _ _ _ _ _ _ _ _ _ _ _ _ => next

/-- The field `scope_next` of a node that is not null. -/
def scope_next : Node → Node
  | .null => .null
  | .mk _ _ scope_next _ _ _ _ _ _ _ _ _ _ _ => scope_next

/-- The field `left` of a node that is not null. -/
def left : Node → Node
  | .null => .null
  | .mk _ _ _ left _ _ _ _ _ _ _ _ _ _ => left

/-- The field `right` of a node that is not null. -/
def right : Node → Node
  | .null => .null
  | .mk _ _ _ _ right _ _ _ _ _ _ _ _ _ => right

/-- The field `body` of a node that is not null. -/
def body : Node → Node
  | .null => .null
  | .mk _ _ _ _ _ body _ _ _ _ _ _ _ _ => body

/-- The field `cond` of a node that is not null. -/
def cond : Node → Node
  | .null => .null
  | .mk _ _ _ _ _ _ cond _ _ _ _ _ _ _ => cond

/-- The field `then` of a node that is not null. -/
def then_ : Node → Node
  | .null => .null
  | .mk _ _ _ _ _ _ _ then_ _ _ _ _ _ _ => then_

/-- The field `els` of a node that is not null. -/
def els : Node → Node
  | .null => .null
  | .mk _ _ _ _ _ _ _ _ els _ _ _ _ _ => els

/-- The field `init` of a node that is not null. -/
def init : Node → Node
  | .null => .null
  | .mk _ _ _ _ _ _ _ _ _ init _ _ _ _ => init

/-- The field `post` of a node that is not null. -/
def post : Node → Node
  | .null => .null
  | .mk _ _ _ _ _ _ _ _ _ _ post _ _ _ => post

/-- The field `args` of a node that is not null. -/
def args : Node → Node
  | .null => .null
  | .mk _ _ _ _ _ _ _ _ _ _ _ args _ _ => args

/-- The field `params` of a node that is not null. -/
def params : Node → Node
  | .null => .null
  | .mk _ _ _ _ _ _ _ _ _ _ _ _ params _ => params

/-- The field `locals` of a node that is not null. -/
def locals : Node → Node
  | .null => .null
  | .mk _ _ _ _ _ _ _ _ _ _ _ _ _ locals => locals

/-- The assignment `n->kind = v` on a node that is not null. -/
def set_kind : Node → Int → Node
  | .null, _ => .null
  | .mk ⟨_, ty, nm, iv, ig, cn, fn⟩ next scope_next left right body cond then_
      els init post args params locals, v =>
    .mk ⟨v, ty, nm, iv, ig, cn, fn⟩ next scope_next left right body cond then_
      els init post args params locals

/-- The assignment `n->type = v` on a node that is not null. -/
def set_type : Node → CType → Node
  | .null, _ => .null
  | .mk ⟨k, _, nm, iv, ig, cn, fn⟩ next scope_next left right body cond then_
      els init post args params locals, v =>
    .mk ⟨k, v, nm, iv, ig, cn, fn⟩ next scope_next left right body cond then_
      els init post args params locals

/-- The assignment `n->name = v` on a node that is not null. -/
def set_name : Node → CStr → Node
  | .null, _ => .null
  | .mk ⟨k, ty, _, iv, ig, cn, fn⟩ next scope_next left right body cond then_
      els init post args params locals, v =>
    .mk ⟨k, ty, v, iv, ig, cn, fn⟩ next scope_next left right body cond then_
      els init post args params locals

/-- The assignment `n->intvalue = v` on a node that is not null. -/
def set_intvalue : Node → Int → Node
  | .null, _ => .null
  | .mk ⟨k, ty, nm, _, ig, cn, fn⟩ next scope_next left right body cond then_
      els init post args params locals, v =>
    .mk ⟨k, ty, nm, v, ig, cn, fn⟩ next scope_next left right body cond then_
      els init post args params locals

/-- The assignment `n->is_global = v` on a node that is not null. -/
def set_is_global : Node → Int → Node
  | .null, _ => .null
  | .mk ⟨k, ty, nm, iv, _, cn, fn⟩ next scope_next left right body cond then_
      els init post args params locals, v =>
    .mk ⟨k, ty, nm, iv, v, cn, fn⟩ next scope_next left right body cond then_
      els init post args params locals

/-- The assignment `n->callee_name = v` on a node that is not null. -/
def set_callee_name : Node → CStr → Node
  | .null, _ => .null
  | .mk ⟨k, ty, nm, iv, ig, _, fn⟩ next scope_next left right body cond then_
      els init post args params locals, v =>
    .mk ⟨k, ty, nm, iv, ig, v, fn⟩ next scope_next left right body cond then_
      els init post args params locals

/-- The assignment `n->is_function = v` on a node that is not null. -/
def set_is_function : Node → Int → Node
  | .null, _ => .null
  | .mk ⟨k, ty, nm, iv, ig, cn, _⟩ next scope_next left right body cond then_
      els init post args params locals, v =>
    .mk ⟨k, ty, nm, iv, ig, cn, v⟩ next scope_next left right body cond then_
      els init post args params locals

/-- The assignment `n->next = v` on a node that is not null. -/
def set_next : Node → Node → Node
  | .null, _ => .null
  | .mk a _ scope_next left right body cond then_ els init post args params locals, v =>
    .mk a v scope_next left right body cond then_ els init post args params locals

/-- The assignment `n->scope_next = v` on a node that is not null. -/
def set_scope_next : Node → Node → Node
  | .null, _ => .null
  | .mk a next _ left right body cond then_ els init post args params locals, v =>
    .mk a next v left right body cond then_ els init post args params locals

/-- The assignment `n->left = v` on a node that is not null. -/
def set_left : Node → Node → Node
  | .null, _ => .null
  | .mk a next scope_next _ right body cond then_ els init post args params locals, v =>
    .mk a next scope_next v right body cond then_ els init post args params locals

/-- The assignment `n->right = v` on a node that is not null. -/
def set_right : Node → Node → Node
  | .null, _ => .null
  | .mk a next scope_next left _ body cond then_ els init post args params locals, v =>
    .mk a next scope_next left v body cond then_ els init post args params locals

/-- The assignment `n->body = v` on a node that is not null. -/
def set_body : Node → Node → Node
  | .null, _ => .null
  | .mk a next scope_next left right _ cond then_ els init post args params locals, v =>
    .mk a next scope_next left right v cond then_ els init post args params locals

/-- The assignment `n->cond = v` on a node that is not null. -/
def set_cond : Node → Node → Node
  | .null, _ => .null
  | .mk a next scope_next left right body _ then_ els init post args params locals, v =>
    .mk a next scope_next left right body v then_ els init post args params locals

/-- The assignment `n->then = v` on a node that is not null. -/
def set_then_ : Node → Node → Node
  | .null, _ => .null
  | .mk a next scope_next left right body cond _ els init post args params locals, v =>
    .mk a next scope_next left right body cond v els init post args params locals

/-- The assignment `n->els = v` on a node that is not null. -/
def set_els : Node → Node → Node
  | .null, _ => .null
  | .mk a next scope_next left right body cond then_ _ init post args params locals, v =>
    .mk a next scope_next left right body cond then_ v init post args params locals

/-- The assignment `n->init = v` on a node that is not null. -/
def set_init : Node → Node → Node
  | .null, _ => .null
  | .mk a next scope_next left right body cond then_ els _ post args params locals, v =>
    .mk a next scope_next left right body cond then_ els v post args params locals

/-- The assignment `n->post = v` on a node that is not null. -/
def set_post : Node → Node → Node
  | .null, _ => .null
  | .mk a next scope_next left right body cond then_ els init _ args params locals, v =>
    .mk a next scope_next left right body cond then_ els init v args params locals

/-- The assignment `n->args = v` on a node that is not null. -/
def set_args : Node → Node → Node
  | .null, _ => .null
  | .mk a next scope_next left right body cond then_ els init post _ params locals, v =>
    .mk a next scope_next left right body cond then_ els init post v params locals

/-- The assignment `n->params = v` on a node that is not null. -/
def set_params : Node → Node → Node
  | .null, _ => .null
  | .mk a next scope_next left right body cond then_ els init post args _ locals, v =>
    .mk a next scope_next left right body cond then_ els init post args v locals

/-- The assignment `n->locals = v` on a node that is not null. -/
def set_locals : Node → Node → Node
  | .null, _ => .null
  | .mk a next scope_next left right body cond then_ els init post args params _, v =>
    .mk a next scope_next left right body cond then_ els init post args params v

end Node

/-! ## parse.c: token handling -/

/-- The function `match` on the token pointer `t`: the stream is the list of
tokens from `t` on; with no token left `t->kind` reads through a null
pointer. -/
def match_ (kind : TK) : List Token → Except Failure Bool
  | [] => .error .undefined
  | c :: _ => .ok (decide (c.kind = kind))

/-- The function `expect`: the current token and the stream after it, or the
error "token expected". -/
def expect (kind : TK) : List Token → Except Failure (Token × List Token)
  | [] => .error .undefined
  | c :: rest =>
    if c.kind = kind then .ok (c, rest)
    else .error (.error "parse: token of %s expected but got %s")

/-- The function `consume`: the current token when it has the kind asked for,
with the stream moved past it, and `none` (NULL) with the stream as it was
otherwise. -/
def consume (kind : TK) : List Token → Except Failure (Option Token × List Token)
  | [] => .error .undefined
  | c :: rest =>
    if c.kind = kind then .ok (some c, rest) else .ok (none, c :: rest)

/-! ## parse.c: node constructors -/

/-- The function `mknode`: a zeroed `struct node` with its kind set. -/
def mknode (kind : Int) : Node :=
  .mk ⟨kind, none, none, 0, 0, none, 0⟩
    .null .null .null .null .null .null .null .null .null .null .null .null .null

/-- The function `mkaux`. -/
def mkaux (kind : Int) (body : Node) : Node :=
  (mknode kind).set_body body

/-- The function `mkuniary`. -/
def mkuniary (op : Int) (left : Node) : Node :=
  (mknode op).set_left left

/-- The function `mkbinary`. `usual_arithmetic_conversion` is defined outside
the files at hand and is the parameter `uac`, a function from two `Type`
pointers to a `Type` pointer. Reading `left->type` or `right->type` through a
null pointer is `undefined`. -/
def mkbinary (uac : CType → CType → CType) (kind : Int) (left right : Node) :
    Except Failure Node :=
  match left.attrs, right.attrs with
  | some la, some ra =>
    if kind = A_ASSIGN then
      let right1 :=
        if la.type ≠ ra.type then (mkaux A_CONVERSION right).set_type la.type else right
      .ok ((((mknode kind).set_type la.type).set_left left).set_right right1)
    else
      let t := uac la.type ra.type
      let left1 := if la.type ≠ t then (mkaux A_CONVERSION left).set_type t else left
      let right1 := if ra.type ≠ t then (mkaux A_CONVERSION right).set_type t else right
      let ty := if kind ≥ A_EQ ∧ kind ≤ A_GE then inttype else t
      .ok ((((mknode kind).set_type ty).set_left left1).set_right right1)
  | _, _ => .error .undefined

/-! ## parse.c: lists -/

/-- The function `mklist`: a ring of one `A_DLIST` node. -/
def mklist (body : Node) : Node := mkaux A_DLIST body

/-- The chain `head` with `node` linked in after its last member. -/
def chain_append : Node → Node → Node
  | .null, node => node
  | .mk a next scope_next left right body cond then_ els init post args params locals, node =>
    .mk a (chain_append next node) scope_next left right body cond then_ els init post args
      params locals

/-- The function `list_insert`: `node` goes to the end of the ring of `head`;
the head is returned. -/
def list_insert (head node : Node) : Node := chain_append head node

/-! ## parse.c: variables and scope -/

/-- The parser's static variables: the token pointer `t`, the lists `locals`
and `globals`, the chain of open scopes (innermost first, each with its `list`;
the empty chain is the null `scope` pointer) and the flag `is_function`. -/
structure PState where
  t : List Token
  locals : Node
  globals : Node
  scope : List Node
  is_function : Int
  deriving DecidableEq, Repr

namespace PState

/-- An assignment to the static variable `t`. -/
def set_t : PState → List Token → PState
  | ⟨_, locals, globals, scope, is_function⟩, v => ⟨v, locals, globals, scope, is_function⟩

/-- An assignment to the static variable `locals`. -/
def set_locals : PState → Node → PState
  | ⟨t, _, globals, scope, is_function⟩, v => ⟨t, v, globals, scope, is_function⟩

/-- An assignment to the static variable `globals`. -/
def set_globals : PState → Node → PState
  | ⟨t, locals, _, scope, is_function⟩, v => ⟨t, locals, v, scope, is_function⟩

/-- An assignment to the static variable `scope`. -/
def set_scope : PState → List Node → PState
  | ⟨t, locals, globals, _, is_function⟩, v => ⟨t, locals, globals, v, is_function⟩

/-- An assignment to the static variable `is_function`. -/
def set_is_function : PState → Int → PState
  | ⟨t, locals, globals, scope, _⟩, v => ⟨t, locals, globals, scope, v⟩

end PState

/-- The function `enter_scope`: a zeroed scope in front of the chain. -/
def enter_scope (st : PState) : PState :=
  st.set_scope (Node.null :: st.scope)

/-- The function `exit_scope`; with no scope open it reads `scope->outer`
through a null pointer. -/
def exit_scope (st : PState) : Except Failure PState :=
  match st.scope with
  | [] => .error .undefined
  | _ :: outer => .ok (st.set_scope outer)

/-- The loop of `find_scope` from the node `n` on, along `scope_next`. -/
def find_scope (name : CStr) : Node → Node
  | .null => .null
  | .mk a next scope_next left right body cond then_ els init post args params locals =>
    if name = a.name then
      .mk a next scope_next left right body cond then_ els init post args params locals
    else find_scope name scope_next

/-- The loop of `find_global` from the node `n` on, along `next`; the function
itself starts it at `globals`. -/
def find_global (name : CStr) : Node → Node
  | .null => .null
  | .mk a next scope_next left right body cond then_ els init post args params locals =>
    if name = a.name then
      .mk a next scope_next left right body cond then_ els init post args params locals
    else find_global name next

/-- The loop of `find_var` over the scope chain. -/
def find_var_scopes (name : CStr) : List Node → Node
  | [] => .null
  | list :: outer =>
    if find_scope name list ≠ .null then find_scope name list
    else find_var_scopes name outer

/-- The function `find_var`: the scopes from the innermost outward, then the
global list, where a function is an error. -/
def find_var (name : CStr) (globals : Node) (scope : List Node) : Except Failure Node :=
  if find_var_scopes name scope ≠ .null then .ok (find_var_scopes name scope)
  else
    let v := find_global name globals
    if v ≠ .null ∧ v.is_function ≠ 0 then
      .error (.error "%s is a function, variable expected")
    else .ok v

/-- The function `mkvar`. -/
def mkvar (name : CStr) (ty : CType) : Node :=
  ((mknode A_VAR).set_name name).set_type ty

/-- The function `mklvar`; with no scope open `find_scope` reads `s->list`
through a null pointer. -/
def mklvar (name : CStr) (ty : CType) (st : PState) : Except Failure (Node × PState) :=
  match st.scope with
  | [] => .error .undefined
  | list :: outer =>
    if find_scope name list ≠ .null then
      .error (.error "redefine local variable \"%s\"")
    else
      let n := (((mkvar name ty).set_is_global 0).set_next st.locals).set_scope_next list
      .ok (n, (st.set_locals n).set_scope (n :: outer))

/-- The function `mkgvar`. -/
def mkgvar (name : CStr) (ty : CType) (st : PState) : Except Failure (Node × PState) :=
  if find_global name st.globals ≠ .null then
    .error (.error "redefine global variable \"%s\"")
  else
    let n := ((mkvar name ty).set_is_global 1).set_next st.globals
    .ok (n, st.set_globals n)

/-! ## parse.c: the expression grammar

The functions below read the lists `globals` and the scope chain and move only
the token pointer, so they take the two as arguments and return the stream
left after the expression. The first argument bounds the depth of the calls:
each call and each turn of a loop passes on one less, and at 0 the result is
`out_of_fuel`. -/

section Expressions

variable (uac : CType → CType → CType) (globals : Node) (scope : List Node)

mutual

/-- The function `primary`. -/
def primary : Nat → List Token → Except Failure (Node × List Token)
  | 0, _ => .error .out_of_fuel
  | fuel + 1, t => do
    let (num, t) ← consume TK_NUM t
    match num with
    | some tok => pure (((mknode A_NUM).set_type inttype).set_intvalue tok.value, t)
    | none =>
      let (id, t) ← consume TK_IDENT t
      match id with
      | some tok =>
        if (← match_ TK_OPENING_PARENTHESES t) then
          let n := (mknode A_FUNC_CALL).set_callee_name tok.name
          let (args, t) ← arg_list fuel t
          let n := n.set_args args
          let f := find_global n.callee_name globals
          if f = .null then .error (.error "function %s not defined")
          else if f.is_function = 0 then
            .error (.error "%s is a variable, function expected")
          else pure (n.set_type f.type, t)
        else
          let v ← find_var tok.name globals scope
          if v = .null then .error (.error "undefined variable")
          else pure (v, t)
      | none =>
        let (par, t) ← consume TK_OPENING_PARENTHESES t
        match par with
        | some _ =>
          let (n, t) ← eq_expr fuel t
          let (_, t) ← expect TK_CLOSING_PARENTHESES t
          pure (n, t)
        | none => .error (.error "parse: primary get unexpected token")

/-- The loop of `arg_list`, with the head of the ring built so far. -/
def arg_list_loop : Nat → Node → List Token → Except Failure (Node × List Token)
  | 0, _, _ => .error .out_of_fuel
  | fuel + 1, head, t => do
    let (close, t) ← consume TK_CLOSING_PARENTHESES t
    match close with
    | some _ => pure (head, t)
    | none =>
      let (e, t) ← expression fuel t
      let head := list_insert head (mklist e)
      if (← match_ TK_CLOSING_PARENTHESES t) then arg_list_loop fuel head t
      else
        let (_, t) ← expect TK_COMMA t
        arg_list_loop fuel head t

/-- The function `arg_list`. -/
def arg_list : Nat → List Token → Except Failure (Node × List Token)
  | 0, _ => .error .out_of_fuel
  | fuel + 1, t => do
    let head := mklist .null
    let (_, t) ← expect TK_OPENING_PARENTHESES t
    arg_list_loop fuel head t

/-- The loop `for (;;)` of `mul_expr`, with the node `n` built so far. -/
def mul_expr_loop : Nat → Node → List Token → Except Failure (Node × List Token)
  | 0, _, _ => .error .out_of_fuel
  | fuel + 1, n, t => do
    let (star, t) ← consume TK_STAR t
    match star with
    | some _ =>
      let (r, t) ← primary fuel t
      mul_expr_loop fuel (← mkbinary uac A_MUL n r) t
    | none =>
      let (slash, t) ← consume TK_SLASH t
      match slash with
      | some _ =>
        let (r, t) ← primary fuel t
        mul_expr_loop fuel (← mkbinary uac A_DIV n r) t
      | none => pure (n, t)

/-- The function `mul_expr`. -/
def mul_expr : Nat → List Token → Except Failure (Node × List Token)
  | 0, _ => .error .out_of_fuel
  | fuel + 1, t => do
    let (n, t) ← primary fuel t
    mul_expr_loop fuel n t

/-- The loop `for (;;)` of `sum_expr`. -/
def sum_expr_loop : Nat → Node → List Token → Except Failure (Node × List Token)
  | 0, _, _ => .error .out_of_fuel
  | fuel + 1, n, t => do
    let (add, t) ← consume TK_ADD t
    match add with
    | some _ =>
      let (r, t) ← mul_expr fuel t
      sum_expr_loop fuel (← mkbinary uac A_ADD n r) t
    | none =>
      let (sub, t) ← consume TK_SUB t
      match sub with
      | some _ =>
        let (r, t) ← mul_expr fuel t
        sum_expr_loop fuel (← mkbinary uac A_SUB n r) t
      | none => pure (n, t)

/-- The function `sum_expr`. -/
def sum_expr : Nat → List Token → Except Failure (Node × List Token)
  | 0, _ => .error .out_of_fuel
  | fuel + 1, t => do
    let (n, t) ← mul_expr fuel t
    sum_expr_loop fuel n t

/-- The loop `for (;;)` of `rel_expr`. -/
def rel_expr_loop : Nat → Node → List Token → Except Failure (Node × List Token)
  | 0, _, _ => .error .out_of_fuel
  | fuel + 1, n, t => do
    let (gt, t) ← consume TK_GREATER t
    match gt with
    | some _ =>
      let (r, t) ← sum_expr fuel t
      rel_expr_loop fuel (← mkbinary uac A_GT n r) t
    | none =>
      let (lt, t) ← consume TK_LESS t
      match lt with
      | some _ =>
        let (r, t) ← sum_expr fuel t
        rel_expr_loop fuel (← mkbinary uac A_LT n r) t
      | none =>
        let (ge, t) ← consume TK_GREATEREQUAL t
        match ge with
        | some _ =>
          let (r, t) ← sum_expr fuel t
          rel_expr_loop fuel (← mkbinary uac A_GE n r) t
        | none =>
          let (le, t) ← consume TK_LESSEQUAL t
          match le with
          | some _ =>
            let (r, t) ← sum_expr fuel t
            rel_expr_loop fuel (← mkbinary uac A_LE n r) t
          | none => pure (n, t)

/-- The function `rel_expr`. -/
def rel_expr : Nat → List Token → Except Failure (Node × List Token)
  | 0, _ => .error .out_of_fuel
  | fuel + 1, t => do
    let (n, t) ← sum_expr fuel t
    rel_expr_loop fuel n t

/-- The loop `for (;;)` of `eq_expr`. -/
def eq_expr_loop : Nat → Node → List Token → Except Failure (Node × List Token)
  | 0, _, _ => .error .out_of_fuel
  | fuel + 1, n, t => do
    let (eq, t) ← consume TK_EQUALEQUAL t
    match eq with
    | some _ =>
      let (r, t) ← rel_expr fuel t
      eq_expr_loop fuel (← mkbinary uac A_EQ n r) t
    | none =>
      let (ne, t) ← consume TK_NOTEQUAL t
      match ne with
      | some _ =>
        let (r, t) ← rel_expr fuel t
        eq_expr_loop fuel (← mkbinary uac A_NE n r) t
      | none => pure (n, t)

/-- The function `eq_expr`. -/
def eq_expr : Nat → List Token → Except Failure (Node × List Token)
  | 0, _ => .error .out_of_fuel
  | fuel + 1, t => do
    let (n, t) ← rel_expr fuel t
    eq_expr_loop fuel n t

/-- The function `assign_expr`. -/
def assign_expr : Nat → List Token → Except Failure (Node × List Token)
  | 0, _ => .error .out_of_fuel
  | fuel + 1, t => do
    let (n, t) ← eq_expr fuel t
    if !(← match_ TK_EQUAL t) then pure (n, t)
    else if n.kind ≠ A_VAR then .error (.error "lvalue expected!")
    else
      let n := n.set_kind A_VAR
      let (_, t) ← expect TK_EQUAL t
      let (r, t) ← expression fuel t
      pure (← mkbinary uac A_ASSIGN n r, t)

/-- The function `expression`. -/
def expression : Nat → List Token → Except Failure (Node × List Token)
  | 0, _ => .error .out_of_fuel
  | fuel + 1, t => assign_expr fuel t

end

end Expressions

/-! ## Tokens and states of concrete programs -/

/-- A token without payload. -/
def tk (kind : TK) : Token := ⟨kind, 0, none⟩

/-- The token of the number `v`. -/
def tk_num (v : Int) : Token := ⟨TK_NUM, v, none⟩

/-- The token of the identifier `s`. -/
def tk_ident (s : String) : Token := ⟨TK_IDENT, 0, some s⟩

/-- A usual arithmetic conversion for concrete runs: the type of the left
operand. -/
def uac_left : CType → CType → CType := fun a _ => a

/-- The global list after `int a; long b;`. -/
def globals_ab : Node :=
  ((mkvar (some "b") longtype).set_is_global 1).set_next
    ((mkvar (some "a") inttype).set_is_global 1)

/-- The local variable node of `int a`, declared first in its function and in
its block. -/
def local_a : Node :=
  (((mkvar (some "a") inttype).set_is_global 0).set_next .null).set_scope_next .null

/-- The parser state inside `int main() { int a;` with `long a; }` ahead. -/
def state_in_block : PState :=
  ⟨[tk TK_LONG, tk_ident "a", tk TK_SIMI, tk TK_CLOSING_BRACES, tk TK_EOI],
    local_a, (mknode A_FUNC_DEF).set_name (some "main"), [local_a, .null], 1⟩

/-- The parser state after `int a; long b;` with `char a;` ahead. -/
def state_top_level : PState :=
  ⟨[tk TK_CHAR, tk_ident "a", tk TK_SIMI, tk TK_EOI], .null, globals_ab, [], 0⟩

/-- The value of a run that has returned; for a run that has failed, a null
node and the initial state. -/
def returned (x : Except Failure (Node × PState)) : Node × PState :=
  match x with
  | .ok r => r
  | .error _ => (.null, ⟨[], .null, .null, [], 0⟩)

/-! ## parse.c: declarations and statements

These functions also change `locals`, `globals`, the scope chain and
`is_function`, so they pass the whole parser state along. -/

/-- The function `expect` on the parser state. -/
def expect_st (kind : TK) (st : PState) : Except Failure (Token × PState) := do
  let (c, t) ← expect kind st.t
  pure (c, st.set_t t)

/-- The function `consume` on the parser state. -/
def consume_st (kind : TK) (st : PState) : Except Failure (Option Token × PState) := do
  let (c, t) ← consume kind st.t
  pure (c, st.set_t t)

/-- The function `type_spec`. -/
def type_spec (t : List Token) : Except Failure (CType × List Token) := do
  let (c, t) ← consume TK_VOID t
  if c.isSome then pure (voidtype, t) else
  let (c, t) ← consume TK_UNSIGNED t
  let r ← (if c.isSome then do
      let (c, t) ← consume TK_CHAR t
      if c.isSome then pure (some uchartype, t) else
      let (c, t) ← consume TK_SHORT t
      if c.isSome then pure (some ushorttype, t) else
      let (c, t) ← consume TK_INT t
      if c.isSome then pure (some uinttype, t) else
      let (c, t) ← consume TK_LONG t
      if c.isSome then pure (some ulongtype, t) else
      pure (none, t)
    else pure (none, t) : Except Failure (Option CType × List Token))
  match r with
  | (some ty, t) => pure (ty, t)
  | (none, t) =>
    let (c, t) ← consume TK_CHAR t
    if c.isSome then pure (chartype, t) else
    let (c, t) ← consume TK_SHORT t
    if c.isSome then pure (shorttype, t) else
    let (c, t) ← consume TK_INT t
    if c.isSome then pure (inttype, t) else
    let (c, t) ← consume TK_LONG t
    if c.isSome then pure (longtype, t) else
    .error (.error "unknown type %s")

/-- The function `check_next_top_level_item`: the look-ahead runs on a copy of
the token pointer, which is put back; only `is_function` changes. -/
def check_next_top_level_item (st : PState) : Except Failure PState := do
  let (_, t) ← type_spec st.t
  let (id, t) ← consume TK_IDENT t
  match id with
  | none => pure (st.set_is_function 0)
  | some _ =>
    let (par, _) ← consume TK_OPENING_PARENTHESES t
    pure (st.set_is_function (if par.isSome then 1 else 0))

/-- The function `declaration`. -/
def declaration (st : PState) : Except Failure (Node × PState) := do
  let (ty, t) ← type_spec st.t
  let st := st.set_t t
  let (tok, st) ← expect_st TK_IDENT st
  let (_, st) ← (if st.is_function ≠ 0 then mklvar tok.name ty st else mkgvar tok.name ty st)
  let (_, st) ← expect_st TK_SIMI st
  pure (.null, st)

/-- The loop of `param_list`, with the head of the ring built so far. -/
def param_list_loop : Nat → Node → PState → Except Failure (Node × PState)
  | 0, _, _ => .error .out_of_fuel
  | fuel + 1, head, st => do
    let (close, st) ← consume_st TK_CLOSING_PARENTHESES st
    match close with
    | some _ => pure (head, st)
    | none =>
      let (ty, t) ← type_spec st.t
      let st := st.set_t t
      let (tok, st) ← expect_st TK_IDENT st
      let (v, st) ← mklvar tok.name ty st
      let head := list_insert head (mklist v)
      if (← match_ TK_CLOSING_PARENTHESES st.t) then param_list_loop fuel head st
      else
        let (_, st) ← expect_st TK_COMMA st
        param_list_loop fuel head st

/-- The function `param_list`. -/
def param_list (fuel : Nat) (st : PState) : Except Failure (Node × PState) := do
  let head := mklist .null
  let (_, st) ← expect_st TK_OPENING_PARENTHESES st
  param_list_loop fuel head st

section Statements

variable (uac : CType → CType → CType)

/-- A call of one of the expression functions on the parser state. -/
def with_tokens (f : Node → List Node → List Token → Except Failure (Node × List Token))
    (st : PState) : Except Failure (Node × PState) := do
  let (n, t) ← f st.globals st.scope st.t
  pure (n, st.set_t t)

/-- The function `expr_stat`. -/
def expr_stat (fuel : Nat) (st : PState) : Except Failure (Node × PState) := do
  let (semi, st) ← consume_st TK_SIMI st
  match semi with
  | some _ => pure (.null, st)
  | none =>
    let (n, st) ← with_tokens (fun g s => expression uac g s fuel) st
    let (_, st) ← expect_st TK_SIMI st
    pure (mkaux A_EXPR_STAT n, st)

mutual

/-- The function `statement`. -/
def statement : Nat → PState → Except Failure (Node × PState)
  | 0, _ => .error .out_of_fuel
  | fuel + 1, st => do
    if (← match_ TK_OPENING_BRACES st.t) then comp_stat fuel st else
    let (c, st) ← consume_st TK_PRINT st
    if c.isSome then
      let n := mknode A_FUNC_CALL
      let (e, st) ← with_tokens (fun g s => expression uac g s fuel) st
      let n := n.set_args (list_insert (mklist .null) (mklist e))
      let n := (n.set_callee_name (some "print")).set_type inttype
      let (_, st) ← expect_st TK_SIMI st
      pure (n, st)
    else
    if (← match_ TK_IF st.t) then if_stat fuel st else
    if (← match_ TK_WHILE st.t) then while_stat fuel st else
    if (← match_ TK_DO st.t) then dowhile_stat fuel st else
    if (← match_ TK_FOR st.t) then for_stat fuel st else
    let (c, st) ← consume_st TK_BREAK st
    if c.isSome then
      let (_, st) ← expect_st TK_SIMI st
      pure (mknode A_BREAK, st)
    else
    let (c, st) ← consume_st TK_CONTINUE st
    if c.isSome then
      let (_, st) ← expect_st TK_SIMI st
      pure (mknode A_CONTINUE, st)
    else
    let (c, st) ← consume_st TK_RETURN st
    if c.isSome then
      let n := mknode A_RETURN
      let (semi, st) ← consume_st TK_SIMI st
      if semi.isSome then pure (n, st) else
      let (e, st) ← with_tokens (fun g s => expression uac g s fuel) st
      match e.attrs, st.globals.attrs with
      | some ea, some ga =>
        let body := if ea.type ≠ ga.type then (mkaux A_CONVERSION e).set_type ga.type else e
        let n := n.set_body body
        let (_, st) ← expect_st TK_SIMI st
        pure (n, st)
      | _, _ => .error .undefined
    else expr_stat uac fuel st

/-- The loop of `comp_stat`, with the chain `head.next` built so far. -/
def comp_stat_loop : Nat → Node → PState → Except Failure (Node × PState)
  | 0, _, _ => .error .out_of_fuel
  | fuel + 1, body, st =>
    match st.t with
    | [] => .error .undefined
    | c :: _ =>
      if c.kind ≠ TK_CLOSING_BRACES then do
        let (n, st) ← (if c.kind.toCtorIdx ≥ TK_VOID.toCtorIdx ∧
            c.kind.toCtorIdx ≤ TK_LONG.toCtorIdx then declaration st else statement fuel st)
        comp_stat_loop fuel (chain_append body n) st
      else pure (body, st)

/-- The function `comp_stat`. -/
def comp_stat : Nat → PState → Except Failure (Node × PState)
  | 0, _ => .error .out_of_fuel
  | fuel + 1, st => do
    let (_, st) ← expect_st TK_OPENING_BRACES st
    let st := enter_scope st
    let (body, st) ← comp_stat_loop fuel .null st
    let (_, st) ← expect_st TK_CLOSING_BRACES st
    let st ← exit_scope st
    pure (mkaux A_BLOCK body, st)

/-- The function `if_stat`. -/
def if_stat : Nat → PState → Except Failure (Node × PState)
  | 0, _ => .error .out_of_fuel
  | fuel + 1, st => do
    let n := mknode A_IF
    let (_, st) ← expect_st TK_IF st
    let (_, st) ← expect_st TK_OPENING_PARENTHESES st
    let (c, st) ← with_tokens (fun g s => expression uac g s fuel) st
    let n := n.set_cond c
    let (_, st) ← expect_st TK_CLOSING_PARENTHESES st
    let (th, st) ← statement fuel st
    let n := n.set_then_ th
    let (e, st) ← consume_st TK_ELSE st
    if e.isSome then
      let (el, st) ← statement fuel st
      pure (n.set_els el, st)
    else pure (n, st)

/-- The function `while_stat`. -/
def while_stat : Nat → PState → Except Failure (Node × PState)
  | 0, _ => .error .out_of_fuel
  | fuel + 1, st => do
    let n := mknode A_FOR
    let (_, st) ← expect_st TK_WHILE st
    let (_, st) ← expect_st TK_OPENING_PARENTHESES st
    let (c, st) ← with_tokens (fun g s => eq_expr uac g s fuel) st
    let n := n.set_cond c
    let (_, st) ← expect_st TK_CLOSING_PARENTHESES st
    let (b, st) ← statement fuel st
    pure (n.set_body b, st)

/-- The function `dowhile_stat`. -/
def dowhile_stat : Nat → PState → Except Failure (Node × PState)
  | 0, _ => .error .out_of_fuel
  | fuel + 1, st => do
    let n := mknode A_DOWHILE
    let (_, st) ← expect_st TK_DO st
    let (b, st) ← statement fuel st
    let n := n.set_body b
    let (_, st) ← expect_st TK_WHILE st
    let (_, st) ← expect_st TK_OPENING_PARENTHESES st
    let (c, st) ← with_tokens (fun g s => expression uac g s fuel) st
    let n := n.set_cond c
    let (_, st) ← expect_st TK_CLOSING_PARENTHESES st
    let (_, st) ← expect_st TK_SIMI st
    pure (n, st)

/-- The function `for_stat`. -/
def for_stat : Nat → PState → Except Failure (Node × PState)
  | 0, _ => .error .out_of_fuel
  | fuel + 1, st => do
    let n := mknode A_FOR
    let (_, st) ← expect_st TK_FOR st
    let (_, st) ← expect_st TK_OPENING_PARENTHESES st
    let (semi, st) ← consume_st TK_SIMI st
    let (n, st) ← (if semi.isSome then pure (n, st) else do
      let (i, st) ← expr_stat uac fuel st
      pure (n.set_init i, st) : Except Failure (Node × PState))
    let (semi, st) ← consume_st TK_SIMI st
    let (n, st) ← (if semi.isSome then pure (n, st) else do
      let (c, st) ← with_tokens (fun g s => expression uac g s fuel) st
      let (_, st) ← expect_st TK_SIMI st
      pure (n.set_cond c, st) : Except Failure (Node × PState))
    let (close, st) ← consume_st TK_CLOSING_PARENTHESES st
    let (n, st) ← (if close.isSome then pure (n, st) else do
      let (p, st) ← with_tokens (fun g s => expression uac g s fuel) st
      let (_, st) ← expect_st TK_CLOSING_PARENTHESES st
      pure (n.set_post (mkaux A_EXPR_STAT p), st) : Except Failure (Node × PState))
    let (b, st) ← statement fuel st
    pure (n.set_body b, st)

end

/-- The number of nodes in a chain linked through `next`. -/
def chain_length : Node → Nat
  | .null => 0
  | .mk _ next _ _ _ _ _ _ _ _ _ _ _ _ => chain_length next + 1

/-- An assignment through a pointer to a node that stands in a chain linked
through `next`: `f` is applied to the node that has `k` nodes after it, the
rest of the chain is kept. -/
def chain_assign (f : Node → Node) (k : Nat) : Node → Node
  | .null => .null
  | .mk a next scope_next left right body cond then_ els init post args params locals =>
    if chain_length next = k then
      f (.mk a next scope_next left right body cond then_ els init post args params locals)
    else
      .mk a (chain_assign f k next) scope_next left right body cond then_ els init post args
        params locals

/-- The function `function`. The node `n` is linked into `globals` before its
fields `params`, `body` and `locals` are assigned; these assignments reach the
node where it stands in the list. -/
def function (fuel : Nat) (st : PState) : Except Failure (Node × PState) := do
  let st := st.set_locals .null
  let n := mknode A_FUNC_DEF
  let (ty, t) ← type_spec st.t
  let st := st.set_t t
  let n := n.set_type ty
  let (tok, st) ← expect_st TK_IDENT st
  let n := (n.set_name tok.name).set_is_function 1
  let k := chain_length st.globals
  let n := n.set_next st.globals
  let st := st.set_globals n
  let st := enter_scope st
  let (params, st) ← param_list fuel st
  let st := st.set_globals (chain_assign (fun n => n.set_params params) k st.globals)
  let (body, st) ← comp_stat uac fuel st
  let st := st.set_globals (chain_assign (fun n => n.set_body body) k st.globals)
  let st := st.set_globals (chain_assign (fun n => n.set_locals st.locals) k st.globals)
  let st ← exit_scope st
  pure (.null, st)

/-- The function `trans_unit`: its loop, which returns `globals`. -/
def trans_unit : Nat → PState → Except Failure (Node × PState)
  | 0, _ => .error .out_of_fuel
  | fuel + 1, st =>
    match st.t with
    | [] => .error .undefined
    | c :: _ =>
      if c.kind ≠ TK_EOI then do
        let st ← check_next_top_level_item st
        let (_, st) ← (if st.is_function ≠ 0 then function uac fuel st else declaration st)
        trans_unit fuel st
      else pure (st.globals, st)

/-- The function `parse`, from the parser's initial state: all its static
variables are zero. -/
def parse (fuel : Nat) (root : List Token) : Except Failure (Node × PState) :=
  trans_unit uac fuel ⟨root, .null, .null, [], 0⟩

end Statements

deriving instance DecidableEq for Except

/-! ## Notions used in the statements -/

/-- The live set is the set of indices whose flag is set. -/
def LiveIsBusy (s : RegStat) (live : Finset Int) : Prop :=
  ∀ r : Int, r ∈ live ↔ ∃ i : Fin 4, (i.val : Int) = r ∧ busy s i

/-- The nodes of a scope's list, the newest first: the chain along
`scope_next`. -/
def scope_members : Node → List Node
  | .null => []
  | .mk a next scope_next left right body cond then_ els init post args params locals =>
    .mk a next scope_next left right body cond then_ els init post args params locals ::
      scope_members scope_next

/-- The nodes of the global list (or of `locals`), the newest first: the chain
along `next`. -/
def global_members : Node → List Node
  | .null => []
  | .mk a next scope_next left right body cond then_ els init post args params locals =>
    .mk a next scope_next left right body cond then_ els init post args params locals ::
      global_members next

/-- Some node of the list `l` carries the name `name`. -/
def declares (l : List Node) (name : CStr) : Prop := ∃ v ∈ l, v.name = name

instance (l : List Node) (name : CStr) : Decidable (declares l name) := by
  unfold declares; infer_instance

/-- The state `st'` has the scope chain, the global list and the flag
`is_function` of `st`. -/
def Frame (st st' : PState) : Prop :=
  st'.scope = st.scope ∧ st'.globals = st.globals ∧ st'.is_function = st.is_function

/-- The state `st'` is further on in the block that is innermost in `st`: the
outer scopes, the global list and `is_function` are those of `st`, and every
name the innermost scope declared in `st` is still found there, at the same
node. -/
def SameBlock (st st' : PState) : Prop :=
  ∃ list list' outer, st.scope = list :: outer ∧ st'.scope = list' :: outer ∧
    st'.globals = st.globals ∧ st'.is_function = st.is_function ∧
    ∀ name, find_scope name list ≠ .null → find_scope name list' = find_scope name list

/-- The states reached from `st` by parsing further items of the same block,
each a declaration or a statement, as the loop of `comp_stat` does. -/
inductive BlockSteps (uac : CType → CType → CType) : PState → PState → Prop where
  | refl (st : PState) : BlockSteps uac st st
  | decl {st st1 st2 : PState} {n : Node} :
      BlockSteps uac st st1 → declaration st1 = .ok (n, st2) → BlockSteps uac st st2
  | stmt {st st1 st2 : PState} {n : Node} (fuel : Nat) :
      BlockSteps uac st st1 → statement uac fuel st1 = .ok (n, st2) → BlockSteps uac st st2

/-- The states reached from `st` by parsing further top-level items, each as
one turn of the loop of `trans_unit` does: the look-ahead, then a function
definition or a global declaration. -/
inductive TopSteps (uac : CType → CType → CType) : PState → PState → Prop where
  | refl (st : PState) : TopSteps uac st st
  | item {st st1 st1' st2 : PState} {n : Node} (fuel : Nat) :
      TopSteps uac st st1 → check_next_top_level_item st1 = .ok st1' →
      (if st1'.is_function ≠ 0 then function uac fuel st1' else declaration st1') =
        .ok (n, st2) →
      TopSteps uac st st2

/-- What the body of an `A_RETURN` node is in a function of return type `R`:
null for `return;`, and for `return e;` the expression `e` itself when its type
is `R`, otherwise a conversion node of type `R` around `e`. -/
def return_body_ok (R : CType) (b : Node) : Prop :=
  b = .null ∨
  ∃ e, e ≠ .null ∧ b = if e.type ≠ R then (mkaux A_CONVERSION e).set_type R else e

/-- Every `A_RETURN` node of a statement tree has a body as `return_body_ok`
says: the tree is walked along `next`, into the body of a block and of a loop
and into both branches of an `if`. -/
def returns_typed (R : CType) : Node → Prop
  | .null => True
  | .mk a next _ _ _ body _ then_ els _ _ _ _ _ =>
    returns_typed R next ∧
    (a.kind = A_RETURN → return_body_ok R body) ∧
    (a.kind = A_BLOCK ∨ a.kind = A_FOR ∨ a.kind = A_DOWHILE → returns_typed R body) ∧
    (a.kind = A_IF → returns_typed R then_ ∧ returns_typed R els)


/-- The parser state at the start of
`long f() { int x; if (x) return x; return; }`, after
`check_next_top_level_item` has set `is_function`. -/
def state_long_f : PState :=
  ⟨[tk TK_LONG, tk_ident "f", tk TK_OPENING_PARENTHESES, tk TK_CLOSING_PARENTHESES,
    tk TK_OPENING_BRACES, tk TK_INT, tk_ident "x", tk TK_SIMI,
    tk TK_IF, tk TK_OPENING_PARENTHESES, tk_ident "x", tk TK_CLOSING_PARENTHESES,
    tk TK_RETURN, tk_ident "x", tk TK_SIMI,
    tk TK_RETURN, tk TK_SIMI, tk TK_CLOSING_BRACES, tk TK_EOI],
    .null, .null, [], 1⟩

/-! ## Precedence and associativity -/

/-- The operators of `mul_expr` with the node kinds they build. -/
def mul_ops (k : TK) : Option Int :=
  if k = TK_STAR then some A_MUL else if k = TK_SLASH then some A_DIV else none

/-- The operators of `sum_expr` with the node kinds they build. -/
def sum_ops (k : TK) : Option Int :=
  if k = TK_ADD then some A_ADD else if k = TK_SUB then some A_SUB else none

/-- The operators of `rel_expr` with the node kinds they build. -/
def rel_ops (k : TK) : Option Int :=
  if k = TK_GREATER then some A_GT else if k = TK_LESS then some A_LT
  else if k = TK_GREATEREQUAL then some A_GE else if k = TK_LESSEQUAL then some A_LE
  else none

/-- The operators of `eq_expr` with the node kinds they build. -/
def eq_ops (k : TK) : Option Int :=
  if k = TK_EQUALEQUAL then some A_EQ else if k = TK_NOTEQUAL then some A_NE else none

/-- The sequence of operators and operands of one level of the grammar, read
from the stream up to the first token that is not an operator of the level:
each operand is read by `sub`, the function of the next higher level. This is
the reading of a level as the specification describes it, to be compared with
the loops of `mul_expr`, `sum_expr`, `rel_expr` and `eq_expr`. -/
def spec_read_operands (sub : Nat → List Token → Except Failure (Node × List Token))
    (ops : TK → Option Int) : Nat → List Token → Except Failure (List (Int × Node) × List Token)
  | 0, _ => .error .out_of_fuel
  | _ + 1, [] => .error .undefined
  | fuel + 1, c :: rest =>
    match ops c.kind with
    | some k => do
      let (r, t) ← sub fuel rest
      let (ps, t) ← spec_read_operands sub ops fuel t
      pure ((k, r) :: ps, t)
    | none => pure ([], c :: rest)

/-- The left fold of a sequence of operators and operands over a first
operand: `((first op1 r1) op2 r2) ...`. -/
def spec_left_fold (uac : CType → CType → CType) (first : Node) (ps : List (Int × Node)) :
    Except Failure Node :=
  ps.foldlM (fun acc p => mkbinary uac p.1 acc p.2) first

/-- The node of a binary operator with its fields set: `kind(left, right)` of
type `ty`. -/
def binop (kind : Int) (ty : CType) (left right : Node) : Node :=
  (((mknode kind).set_type ty).set_left left).set_right right

/-- The node of the global variable `int name`. -/
def int_var (name : String) : Node := (mkvar (some name) inttype).set_is_global 1

/-- The node of `a` in the global list after `int a; int b; int c;`. -/
def var_a : Node := int_var "a"

/-- The node of `b` in the global list after `int a; int b; int c;`. -/
def var_b : Node := (int_var "b").set_next var_a

/-- The node of `c` in the global list after `int a; int b; int c;`. -/
def var_c : Node := (int_var "c").set_next var_b

/-- The global list after `int a; int b; int c;`. -/
def globals_abc : Node := var_c

/-! ## Failures inside a declaration -/

/-- The statements of `declaration` before its last call, `expect(TK_SIMI)`:
the type specifier, the identifier, and `mklvar` or `mkgvar`. -/
def declaration_before_semi (st : PState) : Except Failure (Node × PState) := do
  let (ty, t) ← type_spec st.t
  let st := st.set_t t
  let (tok, st) ← expect_st TK_IDENT st
  if st.is_function ≠ 0 then mklvar tok.name ty st else mkgvar tok.name ty st

/-- The statements of `function` up to `enter_scope()`: the node is made and
linked into `globals`. The number returned is the place of the node in the
list, counted from its end. -/
def function_before_params (st : PState) : Except Failure (Nat × PState) := do
  let st := st.set_locals .null
  let n := mknode A_FUNC_DEF
  let (ty, t) ← type_spec st.t
  let st := st.set_t t
  let n := n.set_type ty
  let (tok, st) ← expect_st TK_IDENT st
  let n := (n.set_name tok.name).set_is_function 1
  let k := chain_length st.globals
  let n := n.set_next st.globals
  let st := st.set_globals n
  pure (k, enter_scope st)

/-- The statements of `function` from `n->params = param_list()` on, for the
node at place `k` of `globals`. -/
def function_from_params (uac : CType → CType → CType) (fuel : Nat) (k : Nat) (st : PState) :
    Except Failure (Node × PState) := do
  let (params, st) ← param_list fuel st
  let st := st.set_globals (chain_assign (fun n => n.set_params params) k st.globals)
  let (body, st) ← comp_stat uac fuel st
  let st := st.set_globals (chain_assign (fun n => n.set_body body) k st.globals)
  let st := st.set_globals (chain_assign (fun n => n.set_locals st.locals) k st.globals)
  let st ← exit_scope st
  pure (.null, st)

/-- The parser state at the start of the global declaration `int x` with its
`;` missing. -/
def state_int_x : PState :=
  ⟨[tk TK_INT, tk_ident "x", tk TK_EOI], .null, .null, [], 0⟩

/-- The parser state at the start of `int f() { + }`, after
`check_next_top_level_item` has set `is_function`. -/
def state_bad_body : PState :=
  ⟨[tk TK_INT, tk_ident "f", tk TK_OPENING_PARENTHESES, tk TK_CLOSING_PARENTHESES,
    tk TK_OPENING_BRACES, tk TK_ADD, tk TK_CLOSING_BRACES, tk TK_EOI], .null, .null, [], 1⟩

/-- The parser state inside `int main() { int a;` with the declaration `long b`
ahead, its `;` missing. -/
def state_local_no_semi : PState :=
  ⟨[tk TK_LONG, tk_ident "b", tk TK_CLOSING_BRACES, tk TK_EOI],
    local_a, (mknode A_FUNC_DEF).set_name (some "main"), [local_a, .null], 1⟩

/-! ## utils.c: the string table

A `char*` argument is the list of the bytes at the pointer; a read past the
list gives 0. An entry of the table is the pointer `s` returned by `calloc`
and the C string stored there. `unsigned long` has 64 bits. -/

/-- The macro `STSIZE`. -/
abbrev STSIZE : Nat := 128

/-- The loop of `hash`: `hash = ((hash << 5) + hash) + str[i]` for `n` bytes,
in `unsigned long`. -/
def hash_loop : List Nat → Nat → Nat → Nat
  | _, 0, hash => hash
  | str, n + 1, hash =>
    hash_loop str.tail n ((((hash * 2 ^ 5) % 2 ^ 64 + hash) % 2 ^ 64 + str.headD 0) % 2 ^ 64)

/-- The function `hash`. -/
def hash (str : List Nat) (n : Nat) : Nat := hash_loop str n 5381

/-- The library function `strlen`: the number of bytes before the first NUL. -/
def strlen (s : List Nat) : Nat := (s.takeWhile (fun c => c ≠ 0)).length

/-- The library function `strncmp`: at most `n` bytes are compared, up to the
first difference or a NUL in both. -/
def strncmp : List Nat → List Nat → Nat → Int
  | _, _, 0 => 0
  | a, b, n + 1 =>
    if a.headD 0 ≠ b.headD 0 then (a.headD 0 : Int) - (b.headD 0 : Int)
    else if a.headD 0 = 0 then 0
    else strncmp a.tail b.tail n

/-- The C string that `strncpy(dst, src, n)` leaves in a zeroed buffer of
`n + 1` bytes: the bytes of `src` up to its first NUL, at most `n`. -/
def strncpy (src : List Nat) (n : Nat) : List Nat :=
  (src.take n).takeWhile (fun c => c ≠ 0)

/-- A `struct string` of the table: the pointer `s` and the C string at it.
The field `next` is the rest of the bucket's list. -/
structure StrEntry where
  /-- The pointer `s`, as returned by `calloc`. -/
  s : Nat
  /-- The bytes at `s` up to the terminating NUL. -/
  chars : List Nat
  deriving DecidableEq, Repr

/-- The array `string_table` with the number of blocks `calloc` has handed
out; the next block gets that number as its address. -/
structure StringTable where
  /-- The array `string_table`: the list of each bucket, newest first. -/
  string_table : Nat → List StrEntry
  /-- The number of strings allocated so far. -/
  allocated : Nat

/-- The table at program start: every bucket is NULL. -/
def StringTable.init : StringTable := ⟨fun _ => [], 0⟩

/-- The function `stringn`: the pointer returned and the table after the
call. -/
def stringn (s : List Nat) (n : Nat) (tb : StringTable) : Nat × StringTable :=
  let h := hash s n % STSIZE
  match (tb.string_table h).find?
      (fun i => decide (strlen i.chars = n) && decide (strncmp i.chars s n = 0)) with
  | some i => (i.s, tb)
  | none =>
    let new : StrEntry := ⟨tb.allocated, strncpy s n⟩
    (new.s, ⟨fun k => if k = h then new :: tb.string_table k else tb.string_table k,
      tb.allocated + 1⟩)

/-- The function `string`. -/
def string (s : List Nat) (tb : StringTable) : Nat × StringTable :=
  stringn s (strlen s) tb

/-- A call `stringn(s, n)` whose `n` bytes are there and hold no NUL. -/
def nul_free_range (s : List Nat) (n : Nat) : Prop :=
  n ≤ s.length ∧ ∀ c ∈ s.take n, c ≠ 0

/-- The tables reached from `tb` by calls of `stringn` on ranges without NUL;
a call `string(a)` for a C string `a` is the call `stringn(a, strlen(a))`, which
is of this kind. -/
inductive Interns : StringTable → StringTable → Prop where
  | refl (tb : StringTable) : Interns tb tb
  | call {tb tb1 : StringTable} (s : List Nat) (n : Nat) :
      Interns tb tb1 → nul_free_range s n → Interns tb (stringn s n tb1).2

/-- The tables reached from `tb` by any calls of `stringn` on `n` bytes that
are there. -/
inductive InternsAny : StringTable → StringTable → Prop where
  | refl (tb : StringTable) : InternsAny tb tb
  | call {tb tb1 : StringTable} (s : List Nat) (n : Nat) :
      InternsAny tb tb1 → n ≤ s.length → InternsAny tb (stringn s n tb1).2

/-- The entries of the table whose string is `a`, over all buckets. -/
def entries_of (tb : StringTable) (a : List Nat) : List StrEntry :=
  (List.range STSIZE).flatMap (fun h => (tb.string_table h).filter (fun e => e.chars = a))

/-- The invariant of the table under calls on ranges without NUL: every entry
holds a string without NUL, stands in the bucket of its hash and was
allocated; the strings of one bucket differ; one pointer holds one string. -/
def TableInv (tb : StringTable) : Prop :=
  (∀ h e, e ∈ tb.string_table h →
    (∀ c ∈ e.chars, c ≠ 0) ∧ h = hash e.chars e.chars.length % STSIZE ∧ e.s < tb.allocated) ∧
  (∀ h, (tb.string_table h).Pairwise (fun e1 e2 => e1.chars ≠ e2.chars)) ∧
  (∀ h1 h2 e1 e2, e1 ∈ tb.string_table h1 → e2 ∈ tb.string_table h2 → e1.s = e2.s →
    e1.chars = e2.chars)

/-! ## codegen.c: the tree it reads and the lines it writes

`codegen.c` reads the fields `op`, `left`, `mid`, `right`, `next`, `intvalue`
and `sym` of a node and tests `op` against node kinds of its own; the header
that declares this node and these kinds is not among the sources, so both are
declared here as `codegen.c` uses them. -/

/-- Modelled from the spec: the node kinds `codegen.c` tests `n->op` against,
and `other` for any further value of the enumeration. -/
inductive Op where
  | A_IF | A_WHILE | A_DOWHILE | A_FOR | A_BREAK | A_CONTINUE | A_FUNCDEF
  | A_PRINT | A_ADD | A_SUB | A_DIV | A_MUL | A_NUM | A_IDENT | A_LVIDENT | A_ASSIGN
  | A_EQ | A_NOTEQ | A_GT | A_LT | A_GE | A_LE
  | other (code : Int)
  deriving DecidableEq, Repr

/-- Modelled from the spec: the node `codegen.c` reads, with the fields it
reads; `null` is the null pointer. -/
inductive GNode where
  | null
  | mk (op : Op) (left mid right next : GNode) (intvalue : Int) (sym : CStr)
  deriving DecidableEq, Repr

/-- A line written to `stdout`. A label definition and the four jumps keep
their label apart; `ins` holds the text of any other line. -/
inductive Asm where
  | ins (text : String)
  | label (l : String)
  | jmp (l : String)
  | jz (l : String)
  | jnz (l : String)
  | je (l : String)
  deriving DecidableEq, Repr

/-- The text of a line as `fprintf` writes it. -/
def Asm.render : Asm → String
  | .ins text => text
  | .label l => l ++ ":\n"
  | .jmp l => "\tjmp\t" ++ l ++ "\n"
  | .jz l => "\tjz\t" ++ l ++ "\n"
  | .jnz l => "\tjnz\t" ++ l ++ "\n"
  | .je l => "\tje\t" ++ l ++ "\n"

/-- A `struct jumploc`. The two pointers point to local variables of the loop
function that called `iter_enter`; the entry holds the values of these two
variables, a write through a pointer is a write to the entry, and the loop
function reads its variables from the entry. `none` is NULL. -/
structure JumpLoc where
  lcontinue : Option String
  lbreak : Option String
  deriving DecidableEq, Repr

/-- The static variables of `codegen.c` and the lines written so far, oldest
first. `iterjumploc` is the list linked through `next`, innermost loop
first. -/
structure GState where
  reg_stat : RegStat
  label_id : Int
  iterjumploc : List JumpLoc
  out : List Asm

namespace GState

/-- The assignment to `reg_stat`. -/
def set_reg_stat : GState → RegStat → GState
  | ⟨_, l, j, o⟩, v => ⟨v, l, j, o⟩

/-- The assignment to `label_id`. -/
def set_label_id : GState → Int → GState
  | ⟨r, _, j, o⟩, v => ⟨r, v, j, o⟩

/-- The assignment to `iterjumploc`. -/
def set_iterjumploc : GState → List JumpLoc → GState
  | ⟨r, l, _, o⟩, v => ⟨r, l, v, o⟩

/-- The output with one more line. -/
def emit : GState → Asm → GState
  | ⟨r, l, j, o⟩, a => ⟨r, l, j, o ++ [a]⟩

/-- The state at program start. -/
def init : GState := ⟨free_all_reg, 0, [], []⟩

end GState

/-- The array `reg_list`; an index outside it is an access outside the
array. -/
def reg_list (r : Int) : Except Failure String :=
  if r = 0 then .ok "r8" else if r = 1 then .ok "r9" else if r = 2 then .ok "r10"
  else if r = 3 then .ok "r11" else .error .undefined

/-- The array `reg_list_b`. -/
def reg_list_b (r : Int) : Except Failure String :=
  if r = 0 then .ok "r8b" else if r = 1 then .ok "r9b" else if r = 2 then .ok "r10b"
  else if r = 3 then .ok "r11b" else .error .undefined

/-- A `char*` printed with `%s`; printing a null pointer is undefined. -/
def str_arg : Option String → Except Failure String
  | some l => .ok l
  | none => .error .undefined

/-- The function `alloc_reg` on the state of the generator. -/
def alloc_reg_st (s : GState) : Except Failure (Int × GState) := do
  let (r, rs) ← alloc_reg s.reg_stat
  pure (r, s.set_reg_stat rs)

/-- The function `free_reg` on the state of the generator. -/
def free_reg_st (r : Int) (s : GState) : Except Failure GState := do
  let rs ← free_reg s.reg_stat r
  pure (s.set_reg_stat rs)

/-- The function `new_label` on the state of the generator. -/
def new_label_st (s : GState) : String × GState :=
  ((new_label s.label_id).1, s.set_label_id (new_label s.label_id).2)

/-! ## codegen.c: instructions -/

/-- The function `load`. -/
def load (value : Int) (s : GState) : Except Failure (Int × GState) := do
  let (r, s) ← alloc_reg_st s
  let name ← reg_list r
  pure (r, s.emit (.ins ("\tmov\t$" ++ fmt_d value ++ ", %" ++ name ++ "\n")))

/-- The function `loadglobal`; `findsym` is not among the sources and is a
parameter. -/
def loadglobal (findsym : CStr → Bool) (id : CStr) (s : GState) :
    Except Failure (Int × GState) := do
  if !findsym id then .error (.error "use undefined global variable %s") else
  let (r, s) ← alloc_reg_st s
  let name ← reg_list r
  let id ← str_arg id
  pure (r, s.emit (.ins ("\tmov\t" ++ id ++ "(%rip), %" ++ name ++ "\n")))

/-- The function `storglobal`. -/
def storglobal (findsym : CStr → Bool) (id : CStr) (r : Int) (s : GState) :
    Except Failure (Int × GState) := do
  if !findsym id then .error (.error "use undefined global variable %s") else
  let name ← reg_list r
  let id ← str_arg id
  pure (r, s.emit (.ins ("\tmov\t%" ++ name ++ ", " ++ id ++ "(%rip)\n")))

/-- The function `print`. -/
def print (r1 : Int) (s : GState) : Except Failure (Int × GState) := do
  let name ← reg_list r1
  let s := s.emit (.ins ("\tmov\t%" ++ name ++ ", %rdi\n"))
  let s := s.emit (.ins "\tpush\t%rbx\n")
  let s := s.emit (.ins "\tcall\tprint\n")
  let s := s.emit (.ins "\tpop\t%rbx\n")
  let s := s.emit (.ins ("\tmov\t%rax, %" ++ name ++ "\n"))
  pure (r1, s)

/-- The function `add`. -/
def add (r1 r2 : Int) (s : GState) : Except Failure (Int × GState) := do
  let n1 ← reg_list r1
  let n2 ← reg_list r2
  let s := s.emit (.ins ("\tadd\t%" ++ n1 ++ ", %" ++ n2 ++ "\n"))
  let s ← free_reg_st r1 s
  pure (r2, s)

/-- The function `sub`. -/
def sub (r1 r2 : Int) (s : GState) : Except Failure (Int × GState) := do
  let n2 ← reg_list r2
  let n1 ← reg_list r1
  let s := s.emit (.ins ("\tsub\t%" ++ n2 ++ ", %" ++ n1 ++ "\n"))
  let s ← free_reg_st r2 s
  pure (r1, s)

/-- The function `mul`. -/
def mul (r1 r2 : Int) (s : GState) : Except Failure (Int × GState) := do
  let n1 ← reg_list r1
  let n2 ← reg_list r2
  let s := s.emit (.ins ("\timul\t%" ++ n1 ++ ", %" ++ n2 ++ "\n"))
  let s ← free_reg_st r1 s
  pure (r2, s)

/-- The function `divide`. -/
def divide (r1 r2 : Int) (s : GState) : Except Failure (Int × GState) := do
  let n1 ← reg_list r1
  let s := s.emit (.ins ("\tmov\t%" ++ n1 ++ ", %rax\n"))
  let s := s.emit (.ins "\tcqo\n")
  let n2 ← reg_list r2
  let s := s.emit (.ins ("\tdiv\t%" ++ n2 ++ "\n"))
  let s := s.emit (.ins ("\tmov\t%rax, %" ++ n1 ++ "\n"))
  let s ← free_reg_st r2 s
  pure (r1, s)

/-- The function `compare`. -/
def compare (r1 r2 : Int) (cd : String) (s : GState) : Except Failure (Int × GState) := do
  let n2 ← reg_list r2
  let n1 ← reg_list r1
  let s := s.emit (.ins ("\tcmp\t%" ++ n2 ++ ", %" ++ n1 ++ "\n"))
  let b1 ← reg_list_b r1
  let s := s.emit (.ins ("\tset" ++ cd ++ "\t%" ++ b1 ++ "\n"))
  let s := s.emit (.ins ("\tand\t$255, %" ++ n1 ++ "\n"))
  let s ← free_reg_st r2 s
  pure (r1, s)

/-- The lines `cmp $0, reg` of a condition, with the register freed after
them: `fprintf(stdout, "\tcmp\t$%d, %%%s\n", 0, reg_list[reg]); free_reg(reg);` -/
def cmp_zero (reg : Int) (s : GState) : Except Failure GState := do
  let name ← reg_list reg
  let s := s.emit (.ins ("\tcmp\t$" ++ fmt_d 0 ++ ", %" ++ name ++ "\n"))
  free_reg_st reg s

/-! ## codegen.c: loops and jumps -/

/-- The function `iter_enter`, with the values of the two variables whose
addresses it is given. -/
def iter_enter (lcontinue lbreak : Option String) (s : GState) : GState :=
  s.set_iterjumploc (⟨lcontinue, lbreak⟩ :: s.iterjumploc)

/-- The function `iter_exit`; the entry taken off is returned, for the reads
of the two variables that follow. With no entry, `iterjumploc->next` reads
through a null pointer. -/
def iter_exit (s : GState) : Except Failure (JumpLoc × GState) :=
  match s.iterjumploc with
  | [] => .error .undefined
  | j :: rest => .ok (j, s.set_iterjumploc rest)

/-- The entry `iterjumploc` points to; a null `iterjumploc` is read through
in `gen_break` and `gen_continue`. -/
def iter_top (s : GState) : Except Failure JumpLoc :=
  match s.iterjumploc with
  | [] => .error .undefined
  | j :: _ => .ok j

/-- The function `gen_break`. -/
def gen_break (s : GState) : Except Failure (Int × GState) :=
  match s.iterjumploc with
  | [] => .error .undefined
  | j :: rest =>
    match j.lbreak with
    | none =>
      let (l, s) := new_label_st s
      let s := s.set_iterjumploc (⟨j.lcontinue, some l⟩ :: rest)
      .ok (-1, s.emit (.jmp l))
    | some l => .ok (-1, s.emit (.jmp l))

/-- The function `gen_continue`. -/
def gen_continue (s : GState) : Except Failure (Int × GState) :=
  match s.iterjumploc with
  | [] => .error .undefined
  | j :: rest =>
    match j.lcontinue with
    | none =>
      let (l, s) := new_label_st s
      let s := s.set_iterjumploc (⟨some l, j.lbreak⟩ :: rest)
      .ok (-1, s.emit (.jmp l))
    | some l => .ok (-1, s.emit (.jmp l))

/-- The type of a call `astgen(n, storreg)` for given `n` and `storreg`. -/
abbrev Gen := GState → Except Failure (Int × GState)

/-- The function `gen_if`; `cond`, `tstat` and `fstat` are its calls of
`astgen` on `n->left`, `n->mid` and `n->right`, and `has_fstat` tells whether
`n->right` is not null. -/
def gen_if (has_fstat : Bool) (cond tstat fstat : Gen) (s : GState) :
    Except Failure (Int × GState) := do
  let (lend, s) := new_label_st s
  let (lfalse, s) := if has_fstat then new_label_st s else (lend, s)
  let (reg, s) ← cond s
  let s ← cmp_zero reg s
  let s := s.emit (.jz lfalse)
  let (r, s) ← tstat s
  let s ← free_reg_st r s
  let s ← (if has_fstat then do
      let s := s.emit (.jmp lend)
      let s := s.emit (.label lfalse)
      let (r, s) ← fstat s
      free_reg_st r s
    else pure s : Except Failure GState)
  let s := s.emit (.label lend)
  pure (-1, s)

/-- The function `gen_while`; `cond` and `stat` are its calls of `astgen` on
`n->left` and `n->right`. -/
def gen_while (cond stat : Gen) (s : GState) : Except Failure (Int × GState) := do
  let (lcond, s) := new_label_st s
  let (lend, s) := new_label_st s
  let s := iter_enter (some lcond) (some lend) s
  let s := s.emit (.label (← str_arg (← iter_top s).lcontinue))
  let (reg, s) ← cond s
  let s ← cmp_zero reg s
  let s := s.emit (.jz (← str_arg (← iter_top s).lbreak))
  let (r, s) ← stat s
  let s ← free_reg_st r s
  let s := s.emit (.jmp (← str_arg (← iter_top s).lcontinue))
  let s := s.emit (.label (← str_arg (← iter_top s).lbreak))
  let (_, s) ← iter_exit s
  pure (-1, s)

/-- The function `gen_dowhile`; `stat` and `cond` are its calls of `astgen` on
`n->left` and `n->right`. -/
def gen_dowhile (stat cond : Gen) (s : GState) : Except Failure (Int × GState) := do
  let (lstat, s) := new_label_st s
  let s := iter_enter (some lstat) none s
  let s := s.emit (.label (← str_arg (← iter_top s).lcontinue))
  let (r, s) ← stat s
  let s ← free_reg_st r s
  let (reg, s) ← cond s
  let s ← cmp_zero reg s
  let s := s.emit (.jnz (← str_arg (← iter_top s).lcontinue))
  let (j, s) ← iter_exit s
  let s := match j.lbreak with
    | some lend => s.emit (.label lend)
    | none => s
  pure (-1, s)

/-- The function `gen_for`; `cond_expr`, `stat` and `post_expr` are its calls
of `astgen` on `n->left`, `n->right` and `n->mid`, and the two flags tell
whether `n->left` and `n->mid` are not null. -/
def gen_for (has_cond has_post : Bool) (cond_expr stat post_expr : Gen) (s : GState) :
    Except Failure (Int × GState) := do
  let (lcond, s) := new_label_st s
  let (lend, s) := new_label_st s
  let lcontinue := if has_post then none else some lcond
  let s := s.emit (.label lcond)
  let s ← (if has_cond then do
      let (reg, s) ← cond_expr s
      let s ← cmp_zero reg s
      pure (s.emit (.je lend))
    else pure s : Except Failure GState)
  let s := iter_enter lcontinue (some lend) s
  let (r, s) ← stat s
  let s ← free_reg_st r s
  let (j, s) ← iter_exit s
  let s ← (if has_post then do
      let s := match j.lcontinue with
        | some l => s.emit (.label l)
        | none => s
      let (r, s) ← post_expr s
      free_reg_st r s
    else pure s : Except Failure GState)
  let s := s.emit (.jmp lcond)
  let s := s.emit (.label (← str_arg j.lbreak))
  pure (-1, s)

/-- The function `gen_func`; `stat` is its call of `astgen` on `n->right`, and
the flag tells whether `n->left` or `n->mid` is not null. -/
def gen_func (has_type_or_proto : Bool) (sym : CStr) (stat : Gen) (s : GState) :
    Except Failure (Int × GState) := do
  if has_type_or_proto then .error (.error "func type or proto is not void") else
  let s := s.emit (.ins ".text\n")
  let name ← str_arg sym
  let s := s.emit (.ins (".global " ++ name ++ "\n"))
  let s := s.emit (.label name)
  let (r, s) ← stat s
  let s ← free_reg_st r s
  pure (-1, s.emit (.ins "\tret\n"))

/-! ## codegen.c: astgen -/

/-- The `switch (n->op)` of `astgen`, for a node that is none of the statement
kinds handled before it. -/
def astgen_switch (findsym : CStr → Bool) (op : Op) (intvalue : Int) (sym : CStr)
    (lreg rreg storreg : Int) (s : GState) : Except Failure (Int × GState) :=
  match op with
  | .A_PRINT => print lreg s
  | .A_ADD => add lreg rreg s
  | .A_SUB => sub lreg rreg s
  | .A_DIV => divide lreg rreg s
  | .A_MUL => mul lreg rreg s
  | .A_NUM => load intvalue s
  | .A_IDENT => loadglobal findsym sym s
  | .A_LVIDENT => storglobal findsym sym storreg s
  | .A_ASSIGN => .ok (rreg, s)
  | .A_EQ => compare lreg rreg "e" s
  | .A_NOTEQ => compare lreg rreg "ne" s
  | .A_GT => compare lreg rreg "g" s
  | .A_LT => compare lreg rreg "l" s
  | .A_GE => compare lreg rreg "ge" s
  | .A_LE => compare lreg rreg "le" s
  | _ => .error (.error "unknown ast type %s")

/-- The part of the loop body of `astgen` after the statement kinds: the calls
of `astgen` on `n->left` and `n->right`, which are `left` and `right` here,
the `switch`, and `if (n->next) free_reg(reg)`. The flags tell whether
`n->left`, `n->right` and `n->next` are not null. -/
def astgen_expr (findsym : CStr → Bool) (op : Op) (intvalue : Int) (sym : CStr)
    (has_left has_right has_next : Bool) (left : Gen) (right : Int → Gen) (storreg : Int)
    (s : GState) : Except Failure (Int × GState) := do
  let (lreg, s) ← (if has_left then left s else pure (-1, s) : Except Failure (Int × GState))
  let (rreg, s) ← (if has_right then right lreg s
    else pure (-1, s) : Except Failure (Int × GState))
  let (reg, s) ← astgen_switch findsym op intvalue sym lreg rreg storreg s
  let s ← (if has_next then free_reg_st reg s else pure s : Except Failure GState)
  pure (reg, s)

/-- The function `astgen`: one turn of its loop `for (; n; n = n->next)` for
the node `n`, then the turns for `n->next`. The value is the `reg` of the last
turn, and -1 for a null `n`. -/
def astgen (findsym : CStr → Bool) : GNode → Int → GState → Except Failure (Int × GState)
  | .null, _, s => .ok (-1, s)
  | .mk op left mid right next intvalue sym, storreg, s => do
    let (reg, s) ← (match op with
      | .A_IF =>
        gen_if (decide (right ≠ .null)) (astgen findsym left (-1)) (astgen findsym mid (-1))
          (astgen findsym right (-1)) s
      | .A_WHILE => gen_while (astgen findsym left (-1)) (astgen findsym right (-1)) s
      | .A_DOWHILE => gen_dowhile (astgen findsym left (-1)) (astgen findsym right (-1)) s
      | .A_FOR =>
        gen_for (decide (left ≠ .null)) (decide (mid ≠ .null)) (astgen findsym left (-1))
          (astgen findsym right (-1)) (astgen findsym mid (-1)) s
      | .A_BREAK => gen_break s
      | .A_CONTINUE => gen_continue s
      | .A_FUNCDEF =>
        gen_func (decide (left ≠ .null ∨ mid ≠ .null)) sym (astgen findsym right (-1)) s
      | _ =>
        astgen_expr findsym op intvalue sym (decide (left ≠ .null)) (decide (right ≠ .null))
          (decide (next ≠ .null)) (astgen findsym left (-1)) (astgen findsym right) storreg s
      : Except Failure (Int × GState))
    if next = .null then pure (reg, s) else astgen findsym next storreg s

/-! ## Concrete runs of the code generator -/

/-- The state of the generator after two calls of `alloc_reg` from program
start: registers 0 and 1 are busy. -/
def state_two_busy : GState :=
  ⟨Function.update (Function.update free_all_reg 0 1) 1 1, 0, [], []⟩

/-- A symbol table that holds every name. -/
def findsym_all : CStr → Bool := fun _ => true

/-- The node of the number `v`. -/
def g_num (v : Int) : GNode := .mk .A_NUM .null .null .null .null v none

/-- The node of a binary operator or of a statement with the given children
and no sibling. -/
def g_node (op : Op) (left mid right : GNode) : GNode :=
  .mk op left mid right .null 0 none

/-- The node `n` with the sibling chain `next` linked after it. -/
def g_seq : GNode → GNode → GNode
  | .null, next => next
  | .mk op left mid right _ intvalue sym, next => .mk op left mid right next intvalue sym

/-- The lines written by a run that has returned; none for a run that has
failed. -/
def lines (x : Except Failure (Int × GState)) : List Asm :=
  match x with
  | .ok r => r.2.out
  | .error _ => []

/-- The value of a run of the generator that has returned; for a run that has
failed, -1 and the state at program start. -/
def gen_returned (x : Except Failure (Int × GState)) : Int × GState :=
  match x with
  | .ok r => r
  | .error _ => (-1, GState.init)

/-- The tree of `print 1 + 2 * 3; x = 4 - 1;`. -/
def print_then_assign : GNode :=
  g_seq (g_node .A_PRINT
      (g_node .A_ADD (g_num 1) .null (g_node .A_MUL (g_num 2) .null (g_num 3))) .null .null)
    (g_node .A_ASSIGN (g_node .A_SUB (g_num 4) .null (g_num 1)) .null
      (.mk .A_LVIDENT .null .null .null .null 0 (some "x")))

/-- The tree of `while (1) ;`. -/
def while_plain : GNode := g_node .A_WHILE (g_num 1) .null .null

/-- The tree of `while (1) break;`. -/
def while_with_break : GNode :=
  g_node .A_WHILE (g_num 1) .null (g_node .A_BREAK .null .null .null)

/-- The tree of `for (;;) ;`. -/
def for_plain : GNode := g_node .A_FOR .null .null .null

/-- The tree of `do continue; while (1);`. -/
def dowhile_continue : GNode :=
  g_node .A_DOWHILE (g_node .A_CONTINUE .null .null .null) .null (g_num 1)

/-! ## Register balance -/

/-- The pool `S'` is the pool `S` after a call that returned `r`: either `r`
is -1 and the pool is as it was, or `r` is a register that was free in `S` and
is the one flag set since. -/
def Balanced (S : RegStat) (r : Int) (S' : RegStat) : Prop :=
  (r = -1 ∧ S' = S) ∨ ∃ i : Fin 4, r = (i : Int) ∧ S i = 0 ∧ S' = Function.update S i 1

/-- The node chains of the register balance: numbers and identifiers are
leaves, `print` has its operand on the left only, the operands of the
arithmetic operators and of the comparisons are such chains, the right child
of an assignment is a single A_LVIDENT leaf, the children of `if`, `while`,
`do-while` and `for` are such chains, and the siblings along `next` are nodes
of these kinds. -/
def wf_chain : GNode → Prop
  | .null => True
  | .mk op left mid right next _ _ =>
    wf_chain next ∧
    match op with
    | .A_NUM => left = .null ∧ right = .null
    | .A_IDENT => left = .null ∧ right = .null
    | .A_PRINT => wf_chain left ∧ right = .null
    | .A_ADD => wf_chain left ∧ wf_chain right
    | .A_SUB => wf_chain left ∧ wf_chain right
    | .A_MUL => wf_chain left ∧ wf_chain right
    | .A_DIV => wf_chain left ∧ wf_chain right
    | .A_EQ => wf_chain left ∧ wf_chain right
    | .A_NOTEQ => wf_chain left ∧ wf_chain right
    | .A_GT => wf_chain left ∧ wf_chain right
    | .A_LT => wf_chain left ∧ wf_chain right
    | .A_GE => wf_chain left ∧ wf_chain right
    | .A_LE => wf_chain left ∧ wf_chain right
    | .A_ASSIGN => wf_chain left ∧
        ∃ m iv sym, right = .mk .A_LVIDENT .null m .null .null iv sym
    | .A_IF => wf_chain left ∧ wf_chain mid ∧ wf_chain right
    | .A_FOR => wf_chain left ∧ wf_chain mid ∧ wf_chain right
    | .A_WHILE => wf_chain left ∧ wf_chain right
    | .A_DOWHILE => wf_chain left ∧ wf_chain right
    | .A_BREAK => True
    | .A_CONTINUE => True
    | _ => False

/-- A call of `astgen` that keeps the register balance. -/
def GenBalanced (g : Gen) : Prop :=
  ∀ s r s', g s = .ok (r, s') → Balanced s.reg_stat r s'.reg_stat

/-- The kinds of the arithmetic operators and the comparisons. -/
def is_binary : Op → Bool
  | .A_ADD | .A_SUB | .A_MUL | .A_DIV | .A_EQ | .A_NOTEQ | .A_GT | .A_LT | .A_GE | .A_LE => true
  | _ => false

/-! ## Loops: which jumps belong to which loop -/

/-- The chain holds a `break` that belongs to the loop around it: one that is
generated while the entry of that loop is the first of `iterjumploc`. The
condition and the body of a `while` or `do-while` and the body of a `for` are
generated under the entry of their own loop; the condition and the post
expression of a `for` are generated outside its entry. -/
def breaks_here : GNode → Bool
  | .null => false
  | .mk op left mid right next _ _ =>
    (match op with
      | .A_BREAK => true
      | .A_CONTINUE => false
      | .A_IF => breaks_here left || breaks_here mid || breaks_here right
      | .A_WHILE => false
      | .A_DOWHILE => false
      | .A_FOR => breaks_here left || breaks_here mid
      | .A_FUNCDEF => breaks_here right
      | _ => breaks_here left || breaks_here right) || breaks_here next

/-- The chain holds a `continue` that belongs to the loop around it. -/
def continues_here : GNode → Bool
  | .null => false
  | .mk op left mid right next _ _ =>
    (match op with
      | .A_BREAK => false
      | .A_CONTINUE => true
      | .A_IF => continues_here left || continues_here mid || continues_here right
      | .A_WHILE => false
      | .A_DOWHILE => false
      | .A_FOR => continues_here left || continues_here mid
      | .A_FUNCDEF => continues_here right
      | _ => continues_here left || continues_here right) || continues_here next

/-- The line is neither a label definition nor a jump. -/
def is_ins : Asm → Bool
  | .ins _ => true
  | _ => false

/-- The value of `*iterjumploc->lbreak`; `none` also when no loop is
entered. -/
def top_break : List JumpLoc → Option String
  | [] => none
  | j :: _ => j.lbreak

/-- The value of `*iterjumploc->lcontinue`. -/
def top_continue : List JumpLoc → Option String
  | [] => none
  | j :: _ => j.lcontinue

/-- A label variable that was set keeps its value. -/
def SlotLe (a b : Option String) : Prop := ∀ x, a = some x → b = some x

/-- The list `iterjumploc` after a call of `astgen`: the same entries, the
label variables of the first entry set where they were null. -/
def Filled (st st' : List JumpLoc) : Prop :=
  st'.length = st.length ∧ st'.tail = st.tail ∧
  SlotLe (top_break st) (top_break st') ∧ SlotLe (top_continue st) (top_continue st')

/-- The label `L` is the one the variable holds, if it holds one. -/
def Compatible (slot : Option String) (L : String) : Prop := ∀ x, slot = some x → x = L

/-- The statement kinds `astgen` hands to a function of their own. -/
def is_stmt : Op → Bool
  | .A_IF | .A_WHILE | .A_DOWHILE | .A_FOR | .A_BREAK | .A_CONTINUE | .A_FUNCDEF => true
  | _ => false

/-- The lowering of a chain as the specification describes it: `Lowers B C n
out` says that `out` are the lines of the chain `n` when `B` is the break
target and `C` the continue target of the loop around it. Every `break` and
`continue` of the chain that belongs to that loop jumps to `B` and to `C`; a
loop has targets of its own for its condition and body, defines its break
target as its last line (a `do-while` only if a `break` belongs to it), and
the lines of an operator are those of its operands followed by lines that are
neither labels nor jumps. This is the reading of the specification, to be
compared with `astgen`. -/
inductive Lowers : String → String → GNode → List Asm → Prop where
  | null (B C : String) : Lowers B C .null []
  | break_ {B C : String} {left mid right next : GNode} {iv : Int} {sym : CStr}
      {ox : List Asm} :
      Lowers B C next ox →
      Lowers B C (.mk .A_BREAK left mid right next iv sym) (.jmp B :: ox)
  | continue_ {B C : String} {left mid right next : GNode} {iv : Int} {sym : CStr}
      {ox : List Asm} :
      Lowers B C next ox →
      Lowers B C (.mk .A_CONTINUE left mid right next iv sym) (.jmp C :: ox)
  | if_ {B C : String} {left mid right next : GNode} {iv : Int} {sym : CStr}
      {oc ot oe ox : List Asm} (lend lfalse : String) (cmp : Asm) :
      is_ins cmp = true → (right = .null → lfalse = lend) →
      Lowers B C left oc → Lowers B C mid ot → Lowers B C right oe → Lowers B C next ox →
      Lowers B C (.mk .A_IF left mid right next iv sym)
        (oc ++ [cmp, .jz lfalse] ++ ot ++
          (if right ≠ .null then [.jmp lend, .label lfalse] ++ oe else []) ++
          [.label lend] ++ ox)
  | while_ {B C : String} {left mid right next : GNode} {iv : Int} {sym : CStr}
      {oc ob ox : List Asm} (lcond lend : String) (cmp : Asm) :
      is_ins cmp = true →
      Lowers lend lcond left oc → Lowers lend lcond right ob → Lowers B C next ox →
      Lowers B C (.mk .A_WHILE left mid right next iv sym)
        ([.label lcond] ++ oc ++ [cmp, .jz lend] ++ ob ++ [.jmp lcond, .label lend] ++ ox)
  | dowhile {B C : String} {left mid right next : GNode} {iv : Int} {sym : CStr}
      {ob oc ox : List Asm} (lstat lend : String) (cmp : Asm) :
      is_ins cmp = true →
      Lowers lend lstat left ob → Lowers lend lstat right oc → Lowers B C next ox →
      Lowers B C (.mk .A_DOWHILE left mid right next iv sym)
        ([.label lstat] ++ ob ++ oc ++ [cmp, .jnz lstat] ++
          (if (breaks_here left || breaks_here right) = true then [.label lend] else []) ++ ox)
  | for_ {B C : String} {left mid right next : GNode} {iv : Int} {sym : CStr}
      {oc ob op ox : List Asm} (lcond lend lcont : String) (cmp : Asm) :
      is_ins cmp = true → (mid = .null → lcont = lcond) →
      Lowers B C left oc → Lowers lend lcont right ob → Lowers B C mid op →
      Lowers B C next ox →
      Lowers B C (.mk .A_FOR left mid right next iv sym)
        ([.label lcond] ++ (if left ≠ .null then oc ++ [cmp, .je lend] else []) ++ ob ++
          (if mid ≠ .null ∧ continues_here right = true then [.label lcont] else []) ++ op ++
          [.jmp lcond, .label lend] ++ ox)
  | func {B C : String} {left mid right next : GNode} {iv : Int} {name : String}
      {ob ox : List Asm} (i1 i2 i3 : Asm) :
      is_ins i1 = true → is_ins i2 = true → is_ins i3 = true →
      Lowers B C right ob → Lowers B C next ox →
      Lowers B C (.mk .A_FUNCDEF left mid right next iv (some name))
        ([i1, i2, .label name] ++ ob ++ [i3] ++ ox)
  | expr {B C : String} {op : Op} {left mid right next : GNode} {iv : Int} {sym : CStr}
      {ol or_ ox : List Asm} (inss : List Asm) :
      is_stmt op = false → (∀ a ∈ inss, is_ins a = true) →
      Lowers B C left ol → Lowers B C right or_ → Lowers B C next ox →
      Lowers B C (.mk op left mid right next iv sym) (ol ++ or_ ++ inss ++ ox)

/-- The lines `new` were written between `s` and `s'`, and `iterjumploc` kept
its entries. -/
def Step (s s' : GState) (new : List Asm) : Prop :=
  s'.out = s.out ++ new ∧ Filled s.iterjumploc s'.iterjumploc

/-- A label variable of the first entry was set if `b` says a jump to it was
generated, and kept its value otherwise. -/
def Track (b : Bool) (slot slot' : Option String) : Prop :=
  (b = true → slot' ≠ none) ∧ (b = false → slot' = slot)

/-- The lines `new` were written between `s` and `s'` under one first entry of
`iterjumploc`, whose break variable was set if `bb` and whose continue variable
was set if `cc`. -/
def Ctx (s s' : GState) (new : List Asm) (bb cc : Bool) : Prop :=
  Step s s' new ∧
    Track bb (top_break s.iterjumploc) (top_break s'.iterjumploc) ∧
    Track cc (top_continue s.iterjumploc) (top_continue s'.iterjumploc)

/-- What a call of `astgen` on the chain `n` from `s` to `s'` has done. -/
def LowersPost (n : GNode) (s s' : GState) : Prop :=
  ∃ new, Ctx s s' new (breaks_here n) (continues_here n) ∧
    ∀ B C, Compatible (top_break s'.iterjumploc) B →
      Compatible (top_continue s'.iterjumploc) C → Lowers B C n new

/-- A call of `astgen` on the chain `n`. -/
def GenLowers (g : Gen) (n : GNode) : Prop :=
  ∀ s r s', g s = .ok (r, s') → LowersPost n s s'

/-- What one turn of the loop of `astgen` for a node with the given fields has
done, whatever chain follows the node. -/
def NodePost (op : Op) (left mid right : GNode) (iv : Int) (sym : CStr) (s s' : GState) :
    Prop :=
  ∃ new, Ctx s s' new (breaks_here (.mk op left mid right .null iv sym))
      (continues_here (.mk op left mid right .null iv sym)) ∧
    ∀ B C, Compatible (top_break s'.iterjumploc) B →
      Compatible (top_continue s'.iterjumploc) C →
      ∀ next ox, Lowers B C next ox →
        Lowers B C (.mk op left mid right next iv sym) (new ++ ox)

/-- The step from `s` to `s'` wrote the lines `inss`, none of them a label or
a jump, and left `iterjumploc` and `label_id` as they were. -/
def InsOnly (s s' : GState) (inss : List Asm) : Prop :=
  s'.out = s.out ++ inss ∧ s'.iterjumploc = s.iterjumploc ∧ s'.label_id = s.label_id ∧
    ∀ a ∈ inss, is_ins a = true

/-! ## Labels: each is defined once -/

/-- The text of the label `new_label` returns when `label_id` is `k`. -/
def lab (k : Nat) : String := (new_label (k : Int)).1

/-- A bound on the number of calls of `new_label` that `astgen` makes for a
chain: two for an `if`, a `while` and a `for`, one for a `do-while`, a `break`
and a `continue`. -/
def label_bound : GNode → Nat
  | .null => 0
  | .mk op left mid right next _ _ =>
    (match op with
      | .A_IF => 2
      | .A_WHILE => 2
      | .A_DOWHILE => 1
      | .A_FOR => 2
      | .A_BREAK => 1
      | .A_CONTINUE => 1
      | _ => 0) + label_bound left + label_bound mid + label_bound right + label_bound next

/-- The chain holds no function definition. -/
def no_funcdef : GNode → Bool
  | .null => true
  | .mk op left mid right next _ _ =>
    decide (op ≠ .A_FUNCDEF) && no_funcdef left && no_funcdef mid && no_funcdef right &&
      no_funcdef next

/-- Every label the lines `new` define has a number from `lo` up to `hi`, and
no label is defined twice. -/
def DefsIn (new : List Asm) (lo hi : Nat) : Prop :=
  (∀ l, Asm.label l ∈ new → ∃ k, lo ≤ k ∧ k < hi ∧ l = lab k) ∧
  ∀ l, new.count (Asm.label l) ≤ 1

/-- A label variable that was set while the lines `new` were written holds a
label with a number from `lo` up to `hi` that `new` does not define. -/
def SlotFresh (a b : Option String) (lo hi : Nat) (new : List Asm) : Prop :=
  ∀ x, b = some x → a = some x ∨ ((∃ k, lo ≤ k ∧ k < hi ∧ x = lab k) ∧ Asm.label x ∉ new)

/-- The lines `new` were written between `s` and `s'`; they define labels
numbered from `a` up to `b`, each once, the label variables of the first
entry of `iterjumploc` that were set hold labels numbered from `l` up to `h`
that are not yet defined, and `iterjumploc` kept its entries. -/
def Seg (s s' : GState) (new : List Asm) (a b l h : Nat) : Prop :=
  s'.out = s.out ++ new ∧ DefsIn new a b ∧
  SlotFresh (top_break s.iterjumploc) (top_break s'.iterjumploc) l h new ∧
  SlotFresh (top_continue s.iterjumploc) (top_continue s'.iterjumploc) l h new ∧
  Filled s.iterjumploc s'.iterjumploc

/-- What a call of `astgen` on the chain `n` has done to the labels, when the
counter `label_id` cannot overflow during the call. -/
def FreshPost (n : GNode) (s s' : GState) : Prop :=
  ∀ lo : Nat, s.label_id = (lo : Int) → lo + label_bound n < 2 ^ 31 →
    ∃ (hi : Nat) (new : List Asm), s'.label_id = (hi : Int) ∧ lo ≤ hi ∧
      hi ≤ lo + label_bound n ∧
      Seg s s' new lo hi lo hi

/-- A call of `astgen` on the chain `n`, as to the labels. -/
def GenFresh (g : Gen) (n : GNode) : Prop :=
  ∀ s r s', g s = .ok (r, s') → FreshPost n s s'
/-! ## Loops: the target of a break -/

/-- The child of a loop node that is its body: `n->left` for a `do-while`,
`n->right` for a `while` and a `for`. -/
def loop_body (op : Op) (left right : GNode) : GNode :=
  match op with
  | .A_DOWHILE => left
  | _ => right

/-- The tree of `while (1) { while (1) break; break; }`. -/
def while_nested_break : GNode :=
  g_node .A_WHILE (g_num 1) .null
    (g_seq while_with_break (g_node .A_BREAK .null .null .null))

/-- The tree of `do { while (1) break; break; } while (1);`. -/
def dowhile_nested_break : GNode :=
  g_node .A_DOWHILE (g_seq while_with_break (g_node .A_BREAK .null .null .null)) .null
    (g_num 1)

/-- The tree of `L1() { while (1) break; }`, a function with the name of a
label. -/
def func_named_label : GNode :=
  .mk .A_FUNCDEF .null .null while_with_break .null 0 (some "L1")

/-- The state in which `gen_func` calls `astgen` on the body of the function
`L1` of a program that starts with it. -/
def state_in_func_named_label : GState :=
  ((GState.init.emit (.ins ".text\n")).emit (.ins ".global L1\n")).emit (.label "L1")

/-- The tree of `main() { while (1) break; } L1() { }`: the function that
follows the loop has the name of a label. -/
def func_label_after : GNode :=
  .mk .A_FUNCDEF .null .null while_with_break
    (.mk .A_FUNCDEF .null .null .null .null 0 (some "L1")) 0 (some "main")
/-! ## Loops: the target of a continue -/

/-- The tree of `for (;;2) continue;`. -/
def for_continue_post : GNode :=
  g_node .A_FOR .null (g_num 2) (g_node .A_CONTINUE .null .null .null)

/-- The tree of `for (;;2) ;`. -/
def for_post_plain : GNode := g_node .A_FOR .null (g_num 2) .null

/-- The tree of `for (;;) continue;`. -/
def for_continue_plain : GNode :=
  g_node .A_FOR .null .null (g_node .A_CONTINUE .null .null .null)

/-- The tree of `while (1) continue;`. -/
def while_continue : GNode :=
  g_node .A_WHILE (g_num 1) .null (g_node .A_CONTINUE .null .null .null)

/-- The tree of `L2() { for (;;2) continue; }`, a function with the name of a
label. -/
def func_named_continue_label : GNode :=
  .mk .A_FUNCDEF .null .null for_continue_post .null 0 (some "L2")

/-- The state in which `gen_func` calls `astgen` on the body of the function
`L2` of a program that starts with it. -/
def state_in_func_named_continue_label : GState :=
  ((GState.init.emit (.ins ".text\n")).emit (.ins ".global L2\n")).emit (.label "L2")
/-! ## Labels and jump targets of the output -/

/-- The label a jump line names; `none` for a line that is not a jump. -/
def jump_target : Asm → Option String
  | .jmp l => some l
  | .jz l => some l
  | .jnz l => some l
  | .je l => some l
  | _ => none

/-- Every jump of the lines `o` goes to a label that the lines `out` define, or
to the break target `B` if `bb`, or to the continue target `C` if `cc`. -/
def Resolved (B C : String) (bb cc : Bool) (o out : List Asm) : Prop :=
  ∀ a ∈ o, ∀ t, jump_target a = some t →
    Asm.label t ∈ out ∨ (t = B ∧ bb = true) ∨ (t = C ∧ cc = true)

/-- The tree of `if (1) { do { continue; } while (2); } else { for (;3;4) break; }`. -/
def if_with_loops : GNode :=
  g_node .A_IF (g_num 1)
    (g_node .A_DOWHILE (g_node .A_CONTINUE .null .null .null) .null (g_num 2))
    (g_node .A_FOR (g_num 3) (g_num 4) (g_node .A_BREAK .null .null .null))
/-! ## Function definitions and the global list -/

/-- The node `function` leaves at the head of `globals` for a definition
`ty name() { }` parsed when the list was `globals`. -/
def empty_function (ty : CType) (name : CStr) (globals : Node) : Node :=
  (((((((mknode A_FUNC_DEF).set_type ty).set_name name).set_is_function 1).set_next
    globals).set_params (mklist .null)).set_body (mkaux A_BLOCK .null)).set_locals .null

/-- The node `primary` returns for the call `name()` of a function of type
`ty`. -/
def empty_call (ty : CType) (name : CStr) : Node :=
  (((mknode A_FUNC_CALL).set_callee_name name).set_args (mklist .null)).set_type ty

/-- The tokens of `int x; int x() { }`. -/
def tokens_var_then_function : List Token :=
  [tk TK_INT, tk_ident "x", tk TK_SIMI,
    tk TK_INT, tk_ident "x", tk TK_OPENING_PARENTHESES, tk TK_CLOSING_PARENTHESES,
    tk TK_OPENING_BRACES, tk TK_CLOSING_BRACES, tk TK_EOI]

/-- The tokens of `int f() { } long f() { f(); }`. -/
def tokens_function_twice : List Token :=
  [tk TK_INT, tk_ident "f", tk TK_OPENING_PARENTHESES, tk TK_CLOSING_PARENTHESES,
    tk TK_OPENING_BRACES, tk TK_CLOSING_BRACES,
    tk TK_LONG, tk_ident "f", tk TK_OPENING_PARENTHESES, tk TK_CLOSING_PARENTHESES,
    tk TK_OPENING_BRACES, tk_ident "f", tk TK_OPENING_PARENTHESES,
    tk TK_CLOSING_PARENTHESES, tk TK_SIMI, tk TK_CLOSING_BRACES, tk TK_EOI]

/-- The parser state after `int x;` with `int x() { }` ahead, after
`check_next_top_level_item` has set `is_function`. -/
def state_x_declared : PState :=
  ⟨[tk TK_INT, tk_ident "x", tk TK_OPENING_PARENTHESES, tk TK_CLOSING_PARENTHESES,
    tk TK_OPENING_BRACES, tk TK_CLOSING_BRACES, tk TK_EOI], .null,
    (mkvar (some "x") inttype).set_is_global 1, [], 1⟩
/-! ## Register demand of expressions -/

/-- The number of flags set in the pool. -/
def busy_count (S : RegStat) : Nat :=
  (if S 0 ≠ 0 then 1 else 0) + (if S 1 ≠ 0 then 1 else 0) + (if S 2 ≠ 0 then 1 else 0) +
    (if S 3 ≠ 0 then 1 else 0)

/-- The expression trees over numeric literals: an A_NUM leaf, or an
arithmetic operator or a comparison over two such trees; no sibling follows
the node. -/
def num_expr : GNode → Bool
  | .null => false
  | .mk op left _ right next _ _ =>
    decide (next = .null) &&
      (match op with
        | .A_NUM => decide (left = .null) && decide (right = .null)
        | _ => is_binary op && num_expr left && num_expr right)

/-- The register demand as the specification defines it: 1 for a numeric
literal, and for an operator the larger of the demand of the left operand and
one more than the demand of the right operand. -/
def need : GNode → Nat
  | .null => 0
  | .mk op left _ right _ _ _ =>
    match op with
    | .A_NUM => 1
    | _ => max (need left) (1 + need right)

/-- The largest number of flags set in the pool during a run of `astgen` on a
chain of nodes that are none of the statement kinds, a failed run included.
The pool changes in `alloc_reg` and `free_reg` only, at most once in each of
the functions the `switch` calls, so the pools seen are: the one at the start,
those seen during the calls on `n->left` and `n->right`, the one after the
`switch`, and those seen during the turns for `n->next`. The states are the
ones `astgen` passes through. -/
def expr_peak (findsym : CStr → Bool) : GNode → Int → GState → Nat
  | .null, _, s => busy_count s.reg_stat
  | .mk op left _ right next intvalue sym, storreg, s =>
    let p0 := busy_count s.reg_stat
    let pl := if left = .null then p0 else max p0 (expr_peak findsym left (-1) s)
    match (if left = .null then .ok (-1, s) else astgen findsym left (-1) s :
      Except Failure (Int × GState)) with
    | .error _ => pl
    | .ok (lreg, s1) =>
      let pr := if right = .null then pl else max pl (expr_peak findsym right lreg s1)
      match (if right = .null then .ok (-1, s1) else astgen findsym right lreg s1 :
        Except Failure (Int × GState)) with
      | .error _ => pr
      | .ok (rreg, s2) =>
        match astgen_switch findsym op intvalue sym lreg rreg storreg s2 with
        | .error _ => pr
        | .ok (reg, s3) =>
          let p3 := max pr (busy_count s3.reg_stat)
          if next = .null then p3
          else
            match free_reg_st reg s3 with
            | .error _ => p3
            | .ok s4 => max p3 (expr_peak findsym next storreg s4)

/-- The tree of the left-nested sum `((1 + 2) + 3) + ...` with `n` operators. -/
def left_nested : Nat → GNode
  | 0 => g_num 1
  | n + 1 => g_node .A_ADD (left_nested n) .null (g_num (n + 2))

/-- The tree of the right-nested sum `1 + (2 + (3 + (4 + 5)))`. -/
def right_nested_five : GNode :=
  g_node .A_ADD (g_num 1) .null (g_node .A_ADD (g_num 2) .null
    (g_node .A_ADD (g_num 3) .null (g_node .A_ADD (g_num 4) .null (g_num 5))))

/-- The tree of the right-nested sum `1 + (2 + (3 + 4))`. -/
def right_nested_four : GNode :=
  g_node .A_ADD (g_num 1) .null (g_node .A_ADD (g_num 2) .null
    (g_node .A_ADD (g_num 3) .null (g_num 4)))
/-! ## Conversion nodes -/

/-- The nodes the node-pointer fields of `n` point to. -/
def children : Node → List Node
  | .null => []
  | .mk _ next scope_next left right body cond then_ els init post args params locals =>
    [next, scope_next, left, right, body, cond, then_, els, init, post, args, params, locals]

/-- The node `m` is reached from `n` through node-pointer fields. -/
inductive Reaches : Node → Node → Prop where
  | here (n : Node) : Reaches n n
  | step {n c m : Node} : c ∈ children n → Reaches c m → Reaches n m

/-- Every A_CONVERSION node reached from `n` through node-pointer fields wraps
a node, its `body`, and has a `type` different from the `type` of that node. -/
def conv_ok : Node → Bool
  | .null => true
  | .mk a next scope_next left right body cond then_ els init post args params locals =>
    (decide (a.kind ≠ A_CONVERSION) || (decide (body ≠ .null) && decide (a.type ≠ body.type))) &&
    conv_ok next && conv_ok scope_next && conv_ok left && conv_ok right && conv_ok body &&
    conv_ok cond && conv_ok then_ && conv_ok els && conv_ok init && conv_ok post &&
    conv_ok args && conv_ok params && conv_ok locals

/-- The lists the parser holds, `globals`, `locals` and the list of every open
scope, satisfy `conv_ok`. -/
def state_conv_ok (st : PState) : Bool :=
  conv_ok st.globals && conv_ok st.locals && st.scope.all conv_ok

/-- The tokens of
`long f() { char c; int i; long l; l = i; i = c + l; return i; }`. -/
def tokens_conversions : List Token :=
  [tk TK_LONG, tk_ident "f", tk TK_OPENING_PARENTHESES, tk TK_CLOSING_PARENTHESES,
    tk TK_OPENING_BRACES,
    tk TK_CHAR, tk_ident "c", tk TK_SIMI,
    tk TK_INT, tk_ident "i", tk TK_SIMI,
    tk TK_LONG, tk_ident "l", tk TK_SIMI,
    tk_ident "l", tk TK_EQUAL, tk_ident "i", tk TK_SIMI,
    tk_ident "i", tk TK_EQUAL, tk_ident "c", tk TK_ADD, tk_ident "l", tk TK_SIMI,
    tk TK_RETURN, tk_ident "i", tk TK_SIMI,
    tk TK_CLOSING_BRACES, tk TK_EOI]

/-- The expression function `f` returns only nodes that satisfy `conv_ok`. -/
def ExprConv (f : List Token → Except Failure (Node × List Token)) : Prop :=
  ∀ t n t', f t = .ok (n, t') → conv_ok n = true

/-- The loop `f` of an expression function, started with a node that satisfies
`conv_ok`, returns only nodes that satisfy it. -/
def LoopConv (f : Node → List Token → Except Failure (Node × List Token)) : Prop :=
  ∀ n0 t n t', conv_ok n0 = true → f n0 t = .ok (n, t') → conv_ok n = true

/-- The statement function `f`, called in a state whose lists satisfy
`conv_ok`, returns only nodes that satisfy it, in a state whose lists do. -/
def StmtConv (f : PState → Except Failure (Node × PState)) : Prop :=
  ∀ st n st', state_conv_ok st = true → f st = .ok (n, st') →
    conv_ok n = true ∧ state_conv_ok st' = true

/-! ## The parser state: reading a variable after an assignment -/

namespace PState

@[simp]
theorem t_set_t (st : PState) (v : List Token) : (st.set_t v).t = v := by
  cases st; rfl

@[simp]
theorem locals_set_t (st : PState) (v : List Token) : (st.set_t v).locals = st.locals := by
  cases st; rfl

@[simp]
theorem globals_set_t (st : PState) (v : List Token) : (st.set_t v).globals = st.globals := by
  cases st; rfl

@[simp]
theorem scope_set_t (st : PState) (v : List Token) : (st.set_t v).scope = st.scope := by
  cases st; rfl

@[simp]
theorem is_function_set_t (st : PState) (v : List Token) : (st.set_t v).is_function = st.is_function := by
  cases st; rfl

@[simp]
theorem t_set_locals (st : PState) (v : Node) : (st.set_locals v).t = st.t := by
  cases st; rfl

@[simp]
theorem locals_set_locals (st : PState) (v : Node) : (st.set_locals v).locals = v := by
  cases st; rfl

@[simp]
theorem globals_set_locals (st : PState) (v : Node) : (st.set_locals v).globals = st.globals := by
  cases st; rfl

@[simp]
theorem scope_set_locals (st : PState) (v : Node) : (st.set_locals v).scope = st.scope := by
  cases st; rfl

@[simp]
theorem is_function_set_locals (st : PState) (v : Node) : (st.set_locals v).is_function = st.is_function := by
  cases st; rfl

@[simp]
theorem t_set_globals (st : PState) (v : Node) : (st.set_globals v).t = st.t := by
  cases st; rfl

@[simp]
theorem locals_set_globals (st : PState) (v : Node) : (st.set_globals v).locals = st.locals := by
  cases st; rfl

@[simp]
theorem globals_set_globals (st : PState) (v : Node) : (st.set_globals v).globals = v := by
  cases st; rfl

@[simp]
theorem scope_set_globals (st : PState) (v : Node) : (st.set_globals v).scope = st.scope := by
  cases st; rfl

@[simp]
theorem is_function_set_globals (st : PState) (v : Node) : (st.set_globals v).is_function = st.is_function := by
  cases st; rfl

@[simp]
theorem t_set_scope (st : PState) (v : List Node) : (st.set_scope v).t = st.t := by
  cases st; rfl

@[simp]
theorem locals_set_scope (st : PState) (v : List Node) : (st.set_scope v).locals = st.locals := by
  cases st; rfl

@[simp]
theorem globals_set_scope (st : PState) (v : List Node) : (st.set_scope v).globals = st.globals := by
  cases st; rfl

@[simp]
theorem scope_set_scope (st : PState) (v : List Node) : (st.set_scope v).scope = v := by
  cases st; rfl

@[simp]
theorem is_function_set_scope (st : PState) (v : List Node) : (st.set_scope v).is_function = st.is_function := by
  cases st; rfl

@[simp]
theorem t_set_is_function (st : PState) (v : Int) : (st.set_is_function v).t = st.t := by
  cases st; rfl

@[simp]
theorem locals_set_is_function (st : PState) (v : Int) : (st.set_is_function v).locals = st.locals := by
  cases st; rfl

@[simp]
theorem globals_set_is_function (st : PState) (v : Int) : (st.set_is_function v).globals = st.globals := by
  cases st; rfl

@[simp]
theorem scope_set_is_function (st : PState) (v : Int) : (st.set_is_function v).scope = st.scope := by
  cases st; rfl

@[simp]
theorem is_function_set_is_function (st : PState) (v : Int) : (st.set_is_function v).is_function = v := by
  cases st; rfl

end PState
/-! ## Properties of the register pool -/

theorem alloc_reg_at (s : RegStat) (i : Fin 4) (hi : s i = 0) (hlt : ∀ j, j < i → s j ≠ 0) :
    alloc_reg s = .ok ((i.val : Int), Function.update s i 1) := by
  have h0 := hlt 0; have h1 := hlt 1; have h2 := hlt 2; have h3 := hlt 3
  fin_cases i <;> simp_all [alloc_reg, alloc_reg_loop]
  rfl

theorem exists_least_clear (s : RegStat) (h : ∃ i, s i = 0) :
    ∃ i, s i = 0 ∧ ∀ j, j < i → s j ≠ 0 := by
  classical
  obtain ⟨k, hk⟩ := h
  by_cases h0 : s 0 = 0
  · exact ⟨0, h0, fun j hj => absurd hj (by omega)⟩
  by_cases h1 : s 1 = 0
  · exact ⟨1, h1, fun j hj => by fin_cases j <;> simp_all⟩
  by_cases h2 : s 2 = 0
  · refine ⟨2, h2, fun j hj => ?_⟩
    fin_cases j 
    · simpa using h0
    · simpa using h1
    · simp at hj
    · exact absurd hj (by decide)
  by_cases h3 : s 3 = 0
  · refine ⟨3, h3, fun j hj => ?_⟩
    fin_cases j 
    · simpa using h0
    · simpa using h1
    · simpa using h2
    · simp at hj
  · exfalso; fin_cases k <;> simp_all

theorem alloc_reg_all_busy (s : RegStat) (h : ∀ i, busy s i) :
    alloc_reg s = .error (.error "out of registers") := by
  have h0 := h 0; have h1 := h 1; have h2 := h 2; have h3 := h 3
  simp only [busy] at h0 h1 h2 h3
  simp [alloc_reg, alloc_reg_loop, h0, h1, h2, h3]

theorem alloc_reg_some_clear (s : RegStat) (h : ∃ i, s i = 0) :
    ∃ i s', alloc_reg s = .ok ((i.val : Int), s') ∧ s i = 0 ∧ (∀ j, j < i → busy s j) ∧
      busy s' i ∧ ∀ j, j ≠ i → s' j = s j := by
  obtain ⟨i, hi, hlt⟩ := exists_least_clear s h
  refine ⟨i, Function.update s i 1, alloc_reg_at s i hi hlt, hi, hlt, by simp [busy], ?_⟩
  intro j hj; simp [Function.update, hj]

theorem free_reg_negative (s : RegStat) (r : Int) (hr : r < 0) : free_reg s r = .ok s := by
  simp [free_reg, hr]

theorem free_reg_clear (s : RegStat) (i : Fin 4) (hi : ¬ busy s i) :
    free_reg s (i.val : Int) = .error (.error "free an unused register") := by
  have : ¬ ((i.val : Int) < 0) := by omega
  simp only [busy, ne_eq, not_not] at hi
  simp [free_reg, this, hi]

theorem free_reg_set (s : RegStat) (i : Fin 4) (hi : busy s i) :
    ∃ s', free_reg s (i.val : Int) = .ok s' ∧ ¬ busy s' i ∧ ∀ j, j ≠ i → s' j = s j := by
  have : ¬ ((i.val : Int) < 0) := by omega
  simp only [busy, ne_eq] at hi
  refine ⟨Function.update s i 0, by simp [free_reg, this, hi], by simp [busy], ?_⟩
  intro j hj; simp [Function.update, hj]

/-- C1: `alloc_reg`, for every state of the four flags: when some flag is clear
it returns the smallest index whose flag is clear, sets that flag and leaves
the other three as they were; when all four are set it fails with the error
"out of registers" and returns no register. -/
theorem alloc_reg_spec (s : RegStat) :
    ((∃ i, s i = 0) →
      ∃ i s', alloc_reg s = .ok ((i.val : Int), s') ∧ s i = 0 ∧ (∀ j, j < i → busy s j) ∧
        busy s' i ∧ ∀ j, j ≠ i → s' j = s j) ∧
    ((∀ i, busy s i) → alloc_reg s = .error (.error "out of registers")) :=
  ⟨alloc_reg_some_clear s, alloc_reg_all_busy s⟩

theorem alloc_reg_spec_witness :
    (∃ i s', alloc_reg (Function.update free_all_reg 0 1) = .ok ((i.val : Int), s') ∧
        Function.update free_all_reg 0 1 i = 0 ∧
        (∀ j, j < i → busy (Function.update free_all_reg 0 1) j) ∧
        busy s' i ∧ ∀ j, j ≠ i → s' j = Function.update free_all_reg 0 1 j) ∧
      alloc_reg (fun _ => 1) = .error (.error "out of registers") :=
  ⟨(alloc_reg_spec (Function.update free_all_reg 0 1)).1 ⟨1, by decide⟩,
   (alloc_reg_spec (fun _ => 1)).2 (by decide)⟩

/-- C3: `free_reg(r)` for every pool state and every `r <= 3`: a negative `r`
succeeds and leaves the four flags as they were; an index whose flag is clear
fails with the error "free an unused register"; an index whose flag is set
succeeds, clears that flag and leaves the other three as they were. -/
theorem free_reg_spec (s : RegStat) (r : Int) (hr : r ≤ 3) :
    (r < 0 → free_reg s r = .ok s) ∧
    (∀ i : Fin 4, (i.val : Int) = r → ¬ busy s i →
      free_reg s r = .error (.error "free an unused register")) ∧
    (∀ i : Fin 4, (i.val : Int) = r → busy s i →
      ∃ s', free_reg s r = .ok s' ∧ ¬ busy s' i ∧ ∀ j, j ≠ i → s' j = s j) ∧
    (0 ≤ r → ∃ i : Fin 4, (i.val : Int) = r) := by
  refine ⟨free_reg_negative s r, ?_, ?_, ?_⟩
  · rintro i rfl hi; exact free_reg_clear s i hi
  · rintro i rfl hi; exact free_reg_set s i hi
  · intro h0
    exact ⟨⟨r.toNat, by omega⟩, by simp [Int.toNat_of_nonneg h0]⟩

theorem free_reg_spec_witness :
    ((2 : Int) < 0 → free_reg (Function.update free_all_reg 2 1) 2 = .ok (Function.update free_all_reg 2 1)) ∧
    (∀ i : Fin 4, (i.val : Int) = 2 → ¬ busy (Function.update free_all_reg 2 1) i →
      free_reg (Function.update free_all_reg 2 1) 2 = .error (.error "free an unused register")) ∧
    (∀ i : Fin 4, (i.val : Int) = 2 → busy (Function.update free_all_reg 2 1) i →
      ∃ s', free_reg (Function.update free_all_reg 2 1) 2 = .ok s' ∧ ¬ busy s' i ∧
        ∀ j, j ≠ i → s' j = Function.update free_all_reg 2 1 j) ∧
    ((0 : Int) ≤ 2 → ∃ i : Fin 4, (i.val : Int) = 2) :=
  free_reg_spec (Function.update free_all_reg 2 1) 2 (by decide)

theorem alloc_reg_ok_inv {s s' : RegStat} {r : Int} (h : alloc_reg s = .ok (r, s')) :
    ∃ i : Fin 4, r = (i.val : Int) ∧ s i = 0 ∧ s' = Function.update s i 1 := by
  by_cases hc : ∃ i, s i = 0
  · obtain ⟨i, hi, hlt⟩ := exists_least_clear s hc
    rw [alloc_reg_at s i hi hlt] at h
    injection h with h
    injection h with h1 h2
    exact ⟨i, h1.symm, hi, h2.symm⟩
  · have hall : ∀ i, busy s i := fun i hi => hc ⟨i, hi⟩
    rw [alloc_reg_all_busy s hall] at h
    cases h

theorem free_reg_ok_inv {s s' : RegStat} {i : Fin 4} (h : free_reg s (i.val : Int) = .ok s') :
    busy s i ∧ s' = Function.update s i 0 := by
  have hn : ¬ ((i.val : Int) < 0) := by omega
  by_cases hb : s i = 0
  · simp [free_reg, hn, hb] at h
  · simp [free_reg, hn, hb] at h
    exact ⟨hb, h.symm⟩

theorem reachable_liveIsBusy {s : RegStat} {live : Finset Int} (h : Reachable s live) :
    LiveIsBusy s live := by
  induction h with
  | init => intro r; simp [free_all_reg, busy]
  | @alloc s s' live r _ ha ih =>
    obtain ⟨i, rfl, hi, rfl⟩ := alloc_reg_ok_inv ha
    intro q
    rw [Finset.mem_insert, ih q]
    constructor
    · rintro (rfl | ⟨j, rfl, hj⟩)
      · exact ⟨i, rfl, by simp [busy]⟩
      · refine ⟨j, rfl, ?_⟩
        by_cases hji : j = i
        · subst hji; simp [busy]
        · simpa [busy, Function.update, hji] using hj
    · rintro ⟨j, rfl, hj⟩
      by_cases hji : j = i
      · left; rw [hji]
      · right; exact ⟨j, rfl, by simpa [busy, Function.update, hji] using hj⟩
  | @free s s' live r _ hr hf ih =>
    obtain ⟨i, rfl, hi⟩ := (ih r).1 hr
    obtain ⟨_, rfl⟩ := free_reg_ok_inv hf
    intro q
    rw [Finset.mem_erase, ih q]
    constructor
    · rintro ⟨hne, j, rfl, hj⟩
      have hji : j ≠ i := fun e => hne (by rw [e])
      exact ⟨j, rfl, by simpa [busy, Function.update, hji] using hj⟩
    · rintro ⟨j, rfl, hj⟩
      have hji : j ≠ i := by
        rintro rfl; simp [busy] at hj
      refine ⟨fun e => hji (Fin.ext (by exact_mod_cast e)), j, rfl, ?_⟩
      simpa [busy, Function.update, hji] using hj

theorem liveIsBusy_card {s : RegStat} {live : Finset Int} (h : LiveIsBusy s live) :
    live.card = (Finset.univ.filter (fun i : Fin 4 => busy s i)).card := by
  have : live = (Finset.univ.filter (fun i : Fin 4 => busy s i)).image (fun i => (i.val : Int)) := by
    ext r; rw [h r]; simp [and_comm]
  rw [this, Finset.card_image_of_injective]
  intro a b hab
  have hab' : (a.val : Int) = (b.val : Int) := hab
  exact Fin.ext (by exact_mod_cast hab')

/-- C2: in every state a run from the all-free pool can reach while each
`free_reg` is given a live register, the set flags are exactly the live
registers; with fewer than four live `alloc_reg` succeeds and returns a register
that is not live; with four live it fails with the error "out of registers";
and freeing a live register succeeds. -/
theorem pool_discipline (s : RegStat) (live : Finset Int) (h : Reachable s live) :
    (∀ i : Fin 4, busy s i ↔ (i.val : Int) ∈ live) ∧
    (∀ r ∈ live, 0 ≤ r ∧ r ≤ 3) ∧
    live.card ≤ 4 ∧
    (live.card < 4 → ∃ r s', alloc_reg s = .ok (r, s') ∧ r ∉ live ∧ Reachable s' (insert r live)) ∧
    (live.card = 4 → alloc_reg s = .error (.error "out of registers")) ∧
    (∀ r ∈ live, ∃ s', free_reg s r = .ok s' ∧ Reachable s' (live.erase r)) := by
  have hinv := reachable_liveIsBusy h
  have hcard := liveIsBusy_card hinv
  have hbusy : ∀ i : Fin 4, busy s i ↔ (i.val : Int) ∈ live := by
    intro i
    rw [hinv]
    constructor
    · intro hb; exact ⟨i, rfl, hb⟩
    · rintro ⟨j, hj, hb⟩
      have : j = i := Fin.ext (by exact_mod_cast hj)
      exact this ▸ hb
  refine ⟨hbusy, ?_, ?_, ?_, ?_, ?_⟩
  · intro r hr
    obtain ⟨i, rfl, _⟩ := (hinv r).1 hr
    have := i.isLt
    omega
  · rw [hcard]
    exact (Finset.card_le_univ _).trans (by simp)
  · intro hlt
    have hex : ∃ i, s i = 0 := by
      by_contra hno
      have hall : ∀ i : Fin 4, busy s i := fun i hi => hno ⟨i, hi⟩
      have : Finset.univ.filter (fun i : Fin 4 => busy s i) = Finset.univ := by
        ext i; simp [hall i]
      rw [hcard, this] at hlt
      simp at hlt
    obtain ⟨i, s', ha, hi, _, _, _⟩ := alloc_reg_some_clear s hex
    refine ⟨(i.val : Int), s', ha, ?_, Reachable.alloc h ha⟩
    intro hmem
    exact (hbusy i).2 hmem hi
  · intro h4
    apply alloc_reg_all_busy s
    intro i
    have hfull : Finset.univ.filter (fun i : Fin 4 => busy s i) = Finset.univ := by
      apply Finset.eq_univ_of_card
      rw [← hcard, h4]; simp
    have : i ∈ Finset.univ.filter (fun i : Fin 4 => busy s i) := by rw [hfull]; simp
    simpa using this
  · intro r hr
    obtain ⟨i, rfl, hb⟩ := (hinv r).1 hr
    obtain ⟨s', hf, _⟩ := free_reg_set s i hb
    exact ⟨s', hf, Reachable.free h hr hf⟩

theorem pool_discipline_witness :
    Reachable (Function.update free_all_reg 0 1) (insert (0 : Int) (∅ : Finset Int)) ∧
    ((∀ i : Fin 4, busy (Function.update free_all_reg 0 1) i ↔
        (i.val : Int) ∈ insert (0 : Int) (∅ : Finset Int)) ∧
    (∀ r ∈ insert (0 : Int) (∅ : Finset Int), 0 ≤ r ∧ r ≤ 3) ∧
    (insert (0 : Int) (∅ : Finset Int)).card ≤ 4 ∧
    ((insert (0 : Int) (∅ : Finset Int)).card < 4 →
      ∃ r s', alloc_reg (Function.update free_all_reg 0 1) = .ok (r, s') ∧
        r ∉ insert (0 : Int) (∅ : Finset Int) ∧
        Reachable s' (insert r (insert (0 : Int) (∅ : Finset Int)))) ∧
    ((insert (0 : Int) (∅ : Finset Int)).card = 4 →
      alloc_reg (Function.update free_all_reg 0 1) = .error (.error "out of registers")) ∧
    (∀ r ∈ insert (0 : Int) (∅ : Finset Int),
      ∃ s', free_reg (Function.update free_all_reg 0 1) r = .ok s' ∧
        Reachable s' ((insert (0 : Int) (∅ : Finset Int)).erase r))) :=
  ⟨Reachable.alloc Reachable.init rfl,
   pool_discipline _ _ (Reachable.alloc Reachable.init rfl)⟩

/-! ## Properties of the label counter -/

/-- The number a string of decimal digits stands for, on top of `acc`. -/
theorem digitChar_toNat (d : Nat) (h : d < 10) : (Nat.digitChar d).toNat - 48 = d := by
  interval_cases d <;> rfl

theorem toDigitsCore_decode (fuel : Nat) : ∀ (n : Nat) (ds : List Char), n < fuel →
    ∃ pre, Nat.toDigitsCore 10 fuel n ds = pre ++ ds ∧
      pre.foldl (fun a c => 10 * a + (c.toNat - 48)) 0 = n := by
  induction fuel with
  | zero => intro n ds h; omega
  | succ f ih =>
    intro n ds h
    by_cases h0 : n / 10 = 0
    · refine ⟨[Nat.digitChar (n % 10)], by simp [Nat.toDigitsCore, h0], ?_⟩
      simp only [List.foldl_cons, List.foldl_nil]
      rw [digitChar_toNat _ (Nat.mod_lt _ (by norm_num))]
      omega
    · have hlt : n / 10 < f := by omega
      obtain ⟨pre, hpre, hval⟩ := ih (n / 10) (Nat.digitChar (n % 10) :: ds) hlt
      refine ⟨pre ++ [Nat.digitChar (n % 10)], ?_, ?_⟩
      · simp [Nat.toDigitsCore, h0, hpre]
      · rw [List.foldl_append, hval]
        simp only [List.foldl_cons, List.foldl_nil]
        rw [digitChar_toNat _ (Nat.mod_lt _ (by norm_num))]
        omega

theorem nat_repr_injective : Function.Injective Nat.repr := by
  intro a b h
  obtain ⟨pa, hpa, hva⟩ := toDigitsCore_decode (a + 1) a [] (by omega)
  obtain ⟨pb, hpb, hvb⟩ := toDigitsCore_decode (b + 1) b [] (by omega)
  have h' : Nat.toDigits 10 a = Nat.toDigits 10 b := by
    have := congrArg String.data h
    simpa [Nat.repr, List.asString] using this
  simp only [Nat.toDigits, hpa, hpb, List.append_nil] at h'
  rw [← hva, ← hvb, h']

theorem label_text_injective (a b : Nat) (h : "L" ++ Nat.repr a = "L" ++ Nat.repr b) : a = b := by
  apply nat_repr_injective
  have := congrArg String.data h
  simp only [String.data_append, List.append_cancel_left_eq] at this
  exact String.ext this

theorem wrap32_succ (c : Int) (h0 : -(2 ^ 31) ≤ c) (h1 : c < 2 ^ 31 - 1) : wrap32 (c + 1) = c + 1 := by
  unfold wrap32
  omega

theorem new_label_nat (n : Nat) (h : n < 2 ^ 31 - 1) :
    new_label (n : Int) = ("L" ++ Nat.repr n, ((n + 1 : Nat) : Int)) := by
  unfold new_label
  rw [wrap32_succ _ (by omega) (by omega)]
  rfl

theorem new_labels_from (k : Nat) : ∀ (c : Nat), c + k ≤ 2 ^ 31 - 1 →
    new_labels k (c : Int) =
      ((List.range' c k).map (fun i => "L" ++ Nat.repr i), ((c + k : Nat) : Int)) := by
  induction k with
  | zero => intro c _; simp [new_labels]
  | succ k ih =>
    intro c h
    simp only [new_labels]
    rw [new_label_nat c (by omega)]
    simp only
    rw [ih (c + 1) (by omega)]
    simp [List.range'_succ, Nat.add_assoc, Nat.add_comm 1 k]

/-- C4: with the counter at `c`, `new_label` returns the text `L` followed by
the decimal digits of `c` and leaves the counter at `c + 1`; in a run of
`n < 2 ^ 31` calls from counter 0 the `i`-th label is `L` followed by the digits
of `i` (the numbers increase strictly) and no label text is returned twice. -/
theorem new_label_spec (n : Nat) (hn : n < 2 ^ 31) :
    (∀ c : Nat, c < n →
      new_label (c : Int) = ("L" ++ Nat.repr c, ((c + 1 : Nat) : Int)) ∧
      (Nat.repr c).data.foldl (fun a ch => 10 * a + (ch.toNat - 48)) 0 = c) ∧
    new_labels n 0 = ((List.range n).map (fun i => "L" ++ Nat.repr i), (n : Int)) ∧
    (new_labels n 0).1.Nodup ∧
    (∀ i j : Nat, i < j → j < n →
      (new_labels n 0).1.get? i = some ("L" ++ Nat.repr i) ∧
      (new_labels n 0).1.get? j = some ("L" ++ Nat.repr j) ∧
      "L" ++ Nat.repr i ≠ "L" ++ Nat.repr j) := by
  have hrun : new_labels n 0 = ((List.range n).map (fun i => "L" ++ Nat.repr i), (n : Int)) := by
    have := new_labels_from n 0 (by omega)
    simpa [List.range_eq_range'] using this
  refine ⟨?_, hrun, ?_, ?_⟩
  · intro c hc
    refine ⟨new_label_nat c (by omega), ?_⟩
    obtain ⟨pre, hpre, hval⟩ := toDigitsCore_decode (c + 1) c [] (by omega)
    simp only [Nat.repr, Nat.toDigits, List.asString, hpre, List.append_nil]
    exact hval
  · rw [hrun]
    exact (List.nodup_range n).map (fun a b h => label_text_injective a b h)
  · intro i j hij hj
    rw [hrun]
    refine ⟨?_, ?_, fun h => ?_⟩
    · simp [List.get?_eq_getElem?, List.getElem?_map, List.getElem?_range (by omega : i < n)]
    · simp [List.get?_eq_getElem?, List.getElem?_map, List.getElem?_range hj]
    · have := label_text_injective i j h
      omega

theorem new_label_spec_witness :
    (∀ c : Nat, c < 3 →
      new_label (c : Int) = ("L" ++ Nat.repr c, ((c + 1 : Nat) : Int)) ∧
      (Nat.repr c).data.foldl (fun a ch => 10 * a + (ch.toNat - 48)) 0 = c) ∧
    new_labels 3 0 = ((List.range 3).map (fun i => "L" ++ Nat.repr i), ((3 : Nat) : Int)) ∧
    (new_labels 3 0).1.Nodup ∧
    (∀ i j : Nat, i < j → j < 3 →
      (new_labels 3 0).1.get? i = some ("L" ++ Nat.repr i) ∧
      (new_labels 3 0).1.get? j = some ("L" ++ Nat.repr j) ∧
      "L" ++ Nat.repr i ≠ "L" ++ Nat.repr j) :=
  new_label_spec 3 (by norm_num)


/-! ## Properties of the node constructors -/

theorem mkbinary_assign_eq (uac : CType → CType → CType) (l r : Node)
    (hl : l ≠ .null) (hr : r ≠ .null) :
    mkbinary uac A_ASSIGN l r =
      .ok ((((mknode A_ASSIGN).set_type l.type).set_left l).set_right
        (if l.type ≠ r.type then (mkaux A_CONVERSION r).set_type l.type else r)) := by
  cases l with
  | null => exact absurd rfl hl
  | mk la _ _ _ _ _ _ _ _ _ _ _ _ _ =>
    cases r with
    | null => exact absurd rfl hr
    | mk ra _ _ _ _ _ _ _ _ _ _ _ _ _ => simp [mkbinary, Node.attrs, Node.type]

theorem mkbinary_other_eq (uac : CType → CType → CType) (k : Int) (l r : Node)
    (hk : k ≠ A_ASSIGN) (hl : l ≠ .null) (hr : r ≠ .null) :
    mkbinary uac k l r =
      .ok ((((mknode k).set_type
          (if k ≥ A_EQ ∧ k ≤ A_GE then inttype else uac l.type r.type)).set_left
          (if l.type ≠ uac l.type r.type then
            (mkaux A_CONVERSION l).set_type (uac l.type r.type) else l)).set_right
          (if r.type ≠ uac l.type r.type then
            (mkaux A_CONVERSION r).set_type (uac l.type r.type) else r)) := by
  cases l with
  | null => exact absurd rfl hl
  | mk la _ _ _ _ _ _ _ _ _ _ _ _ _ =>
    cases r with
    | null => exact absurd rfl hr
    | mk ra _ _ _ _ _ _ _ _ _ _ _ _ _ => simp [mkbinary, Node.attrs, Node.type, hk]

/-- C9: for all nodes `l`, `r` (not null), `mkbinary(A_ASSIGN, l, r)` returns
a node whose type is the type of `l` and whose left child is `l` itself; its
right child is `r` itself when the type of `r` is that of `l`, and otherwise a
conversion node of the type of `l` whose body is `r`. -/
theorem mkbinary_assign_spec (uac : CType → CType → CType) (l r : Node)
    (hl : l ≠ .null) (hr : r ≠ .null) :
    ∃ n, mkbinary uac A_ASSIGN l r = .ok n ∧ n.kind = A_ASSIGN ∧ n.type = l.type ∧
      n.left = l ∧
      (r.type = l.type → n.right = r) ∧
      (r.type ≠ l.type →
        n.right.kind = A_CONVERSION ∧ n.right.type = l.type ∧ n.right.body = r) := by
  refine ⟨_, mkbinary_assign_eq uac l r hl hr, ?_, ?_, ?_, ?_, ?_⟩
  · rfl
  · rfl
  · rfl
  · intro h
    have h' : ¬ (l.type ≠ r.type) := fun e => e h.symm
    rw [if_neg h']; rfl
  · intro h
    have h' : l.type ≠ r.type := fun e => h e.symm
    rw [if_pos h']
    exact ⟨rfl, rfl, rfl⟩

theorem mkbinary_assign_spec_witness :
    ∃ n, mkbinary uac_left A_ASSIGN (mkvar (some "a") longtype) (mknode A_NUM) = .ok n ∧
      n.kind = A_ASSIGN ∧ n.type = (mkvar (some "a") longtype).type ∧
      n.left = mkvar (some "a") longtype ∧
      ((mknode A_NUM).type = (mkvar (some "a") longtype).type → n.right = mknode A_NUM) ∧
      ((mknode A_NUM).type ≠ (mkvar (some "a") longtype).type →
        n.right.kind = A_CONVERSION ∧ n.right.type = (mkvar (some "a") longtype).type ∧
        n.right.body = mknode A_NUM) :=
  mkbinary_assign_spec uac_left (mkvar (some "a") longtype) (mknode A_NUM)
    (by decide) (by decide)

/-- C10: for every kind `k` other than `A_ASSIGN` and all nodes `l`, `r` (not
null), with `u` the usual arithmetic conversion of their types,
`mkbinary(k, l, r)` returns a node both of whose children have type `u`, each
the operand itself when its type is `u` and otherwise a conversion node of type
`u` around it; the node's own type is `inttype` for the six comparisons and `u`
for `+`, `-`, `*`, `/`. -/
theorem mkbinary_other_spec (uac : CType → CType → CType) (k : Int) (l r : Node)
    (hk : k ≠ A_ASSIGN) (hl : l ≠ .null) (hr : r ≠ .null) :
    ∃ n, mkbinary uac k l r = .ok n ∧ n.kind = k ∧
      n.left.type = uac l.type r.type ∧ n.right.type = uac l.type r.type ∧
      (l.type = uac l.type r.type → n.left = l) ∧
      (l.type ≠ uac l.type r.type → n.left.kind = A_CONVERSION ∧ n.left.body = l) ∧
      (r.type = uac l.type r.type → n.right = r) ∧
      (r.type ≠ uac l.type r.type → n.right.kind = A_CONVERSION ∧ n.right.body = r) ∧
      (k = A_EQ ∨ k = A_NE ∨ k = A_LT ∨ k = A_GT ∨ k = A_LE ∨ k = A_GE → n.type = inttype) ∧
      (k = A_ADD ∨ k = A_SUB ∨ k = A_MUL ∨ k = A_DIV → n.type = uac l.type r.type) := by
  refine ⟨_, mkbinary_other_eq uac k l r hk hl hr, rfl, ?_, ?_, ?_, ?_, ?_, ?_, ?_, ?_⟩
  · by_cases h : l.type = uac l.type r.type
    · rw [if_neg (not_not.mpr h)]; exact h
    · rw [if_pos h]; rfl
  · by_cases h : r.type = uac l.type r.type
    · rw [if_neg (not_not.mpr h)]; exact h
    · rw [if_pos h]; rfl
  · intro h; rw [if_neg (not_not.mpr h)]; rfl
  · intro h; rw [if_pos h]; exact ⟨rfl, rfl⟩
  · intro h; rw [if_neg (not_not.mpr h)]; rfl
  · intro h; rw [if_pos h]; exact ⟨rfl, rfl⟩
  · intro h
    have : k ≥ A_EQ ∧ k ≤ A_GE := by
      rcases h with h | h | h | h | h | h <;> subst h <;> decide
    rw [if_pos this]; rfl
  · intro h
    have : ¬ (k ≥ A_EQ ∧ k ≤ A_GE) := by
      rcases h with h | h | h | h <;> subst h <;> decide
    rw [if_neg this]; rfl

theorem mkbinary_other_spec_witness :
    ∃ n, mkbinary uac_left A_LT (mkvar (some "a") longtype) (mknode A_NUM) = .ok n ∧
      n.kind = A_LT ∧
      n.left.type = uac_left (mkvar (some "a") longtype).type (mknode A_NUM).type ∧
      n.right.type = uac_left (mkvar (some "a") longtype).type (mknode A_NUM).type ∧
      ((mkvar (some "a") longtype).type =
          uac_left (mkvar (some "a") longtype).type (mknode A_NUM).type →
        n.left = mkvar (some "a") longtype) ∧
      ((mkvar (some "a") longtype).type ≠
          uac_left (mkvar (some "a") longtype).type (mknode A_NUM).type →
        n.left.kind = A_CONVERSION ∧ n.left.body = mkvar (some "a") longtype) ∧
      ((mknode A_NUM).type = uac_left (mkvar (some "a") longtype).type (mknode A_NUM).type →
        n.right = mknode A_NUM) ∧
      ((mknode A_NUM).type ≠ uac_left (mkvar (some "a") longtype).type (mknode A_NUM).type →
        n.right.kind = A_CONVERSION ∧ n.right.body = mknode A_NUM) ∧
      (A_LT = A_EQ ∨ A_LT = A_NE ∨ A_LT = A_LT ∨ A_LT = A_GT ∨ A_LT = A_LE ∨ A_LT = A_GE →
        n.type = inttype) ∧
      (A_LT = A_ADD ∨ A_LT = A_SUB ∨ A_LT = A_MUL ∨ A_LT = A_DIV →
        n.type = uac_left (mkvar (some "a") longtype).type (mknode A_NUM).type) :=
  mkbinary_other_spec uac_left A_LT (mkvar (some "a") longtype) (mknode A_NUM)
    (by decide) (by decide) (by decide)

/-! ## Results of the monad of failures -/

theorem bind_eq_ok {ε α β : Type} (x : Except ε α) (f : α → Except ε β) (b : β) :
    (x >>= f) = .ok b ↔ ∃ a, x = .ok a ∧ f a = .ok b := by
  cases x with
  | error e => simp [bind, Except.bind]
  | ok a => simp [bind, Except.bind]

theorem pure_eq_ok {ε α : Type} (a b : α) : (pure a : Except ε α) = .ok b ↔ a = b := by
  simp [pure, Except.pure]

theorem mkbinary_ne_null (uac : CType → CType → CType) (k : Int) (l r n : Node)
    (h : mkbinary uac k l r = .ok n) : n ≠ .null := by
  unfold mkbinary at h
  split at h
  · split at h <;> (injection h with h; subst h; simp [mknode, Node.set_type, Node.set_left, Node.set_right])
  · cases h

theorem primary_ne_null_step (uac : CType → CType → CType) (globals : Node) (scope : List Node)
    (fuel : Nat)
    (ih : ∀ t n t', eq_expr uac globals scope fuel t = .ok (n, t') → n ≠ .null) :
    ∀ t n t', primary uac globals scope (fuel + 1) t = .ok (n, t') → n ≠ .null := by
  intro t n t' h
  simp only [primary, bind_eq_ok, Prod.exists] at h
  obtain ⟨num, t1, h1, h⟩ := h
  cases num with
  | some tok =>
    simp only [pure_eq_ok, Prod.mk.injEq] at h
    rw [← h.1]; simp [mknode, Node.set_type, Node.set_intvalue]
  | none =>
    simp only [bind_eq_ok, Prod.exists] at h
    obtain ⟨id, t2, h2, h⟩ := h
    cases id with
    | some tok =>
      simp only [bind_eq_ok, Prod.exists] at h
      obtain ⟨b, hb, h⟩ := h
      cases b with
      | true =>
        simp only [if_true, bind_eq_ok, Prod.exists] at h
        obtain ⟨args, t3, h3, h⟩ := h
        split at h
        · cases h
        · split at h
          · cases h
          · simp only [pure_eq_ok, Prod.mk.injEq] at h
            rw [← h.1]; simp [mknode, Node.set_type, Node.set_callee_name, Node.set_args]
      | false =>
        simp only [Bool.false_eq_true, if_false, bind_eq_ok] at h
        obtain ⟨v, hv, h⟩ := h
        split at h
        · cases h
        · simp only [pure_eq_ok, Prod.mk.injEq] at h
          rw [← h.1]; assumption
    | none =>
      simp only [bind_eq_ok, Prod.exists] at h
      obtain ⟨par, t3, h3, h⟩ := h
      cases par with
      | some _ =>
        simp only [bind_eq_ok, Prod.exists, pure_eq_ok, Prod.mk.injEq] at h
        obtain ⟨m, t4, h4, _, t5, _, h⟩ := h
        rw [← h.1]; exact ih _ _ _ h4
      | none => cases h

theorem mul_expr_loop_ne_null_step (uac : CType → CType → CType) (globals : Node) (scope : List Node)
    (fuel : Nat)
    (ih : ∀ n0 t n t', n0 ≠ .null → mul_expr_loop uac globals scope fuel n0 t = .ok (n, t') →
      n ≠ .null) :
    ∀ n0 t n t', n0 ≠ .null → mul_expr_loop uac globals scope (fuel + 1) n0 t = .ok (n, t') →
      n ≠ .null := by
  intro n0 t n t' h0 h
  simp only [mul_expr_loop, bind_eq_ok, Prod.exists] at h
  obtain ⟨c, t1, _, h⟩ := h
  cases c with
  | some _ =>
    simp only [bind_eq_ok, Prod.exists] at h
    obtain ⟨r, t2, _, m, hm, h⟩ := h
    exact ih _ _ _ _ (mkbinary_ne_null uac _ _ _ _ hm) h
  | none =>
    simp only [bind_eq_ok, Prod.exists] at h
    obtain ⟨c, t1, _, h⟩ := h
    cases c with
    | some _ =>
      simp only [bind_eq_ok, Prod.exists] at h
      obtain ⟨r, t2, _, m, hm, h⟩ := h
      exact ih _ _ _ _ (mkbinary_ne_null uac _ _ _ _ hm) h
    | none =>
      simp only [pure_eq_ok, Prod.mk.injEq] at h
      rw [← h.1]; exact h0

theorem mul_expr_ne_null_step (uac : CType → CType → CType) (globals : Node) (scope : List Node)
    (fuel : Nat)
    (ih1 : ∀ t n t', primary uac globals scope fuel t = .ok (n, t') → n ≠ .null)
    (ih2 : ∀ n0 t n t', n0 ≠ .null → mul_expr_loop uac globals scope fuel n0 t = .ok (n, t') →
      n ≠ .null) :
    ∀ t n t', mul_expr uac globals scope (fuel + 1) t = .ok (n, t') → n ≠ .null := by
  intro t n t' h
  simp only [mul_expr, bind_eq_ok, Prod.exists] at h
  obtain ⟨m, t1, hm, h⟩ := h
  exact ih2 _ _ _ _ (ih1 _ _ _ hm) h

theorem sum_expr_loop_ne_null_step (uac : CType → CType → CType) (globals : Node) (scope : List Node)
    (fuel : Nat)
    (ih : ∀ n0 t n t', n0 ≠ .null → sum_expr_loop uac globals scope fuel n0 t = .ok (n, t') →
      n ≠ .null) :
    ∀ n0 t n t', n0 ≠ .null → sum_expr_loop uac globals scope (fuel + 1) n0 t = .ok (n, t') →
      n ≠ .null := by
  intro n0 t n t' h0 h
  simp only [sum_expr_loop, bind_eq_ok, Prod.exists] at h
  obtain ⟨c, t1, _, h⟩ := h
  cases c with
  | some _ =>
    simp only [bind_eq_ok, Prod.exists] at h
    obtain ⟨r, t2, _, m, hm, h⟩ := h
    exact ih _ _ _ _ (mkbinary_ne_null uac _ _ _ _ hm) h
  | none =>
    simp only [bind_eq_ok, Prod.exists] at h
    obtain ⟨c, t1, _, h⟩ := h
    cases c with
    | some _ =>
      simp only [bind_eq_ok, Prod.exists] at h
      obtain ⟨r, t2, _, m, hm, h⟩ := h
      exact ih _ _ _ _ (mkbinary_ne_null uac _ _ _ _ hm) h
    | none =>
      simp only [pure_eq_ok, Prod.mk.injEq] at h
      rw [← h.1]; exact h0

theorem sum_expr_ne_null_step (uac : CType → CType → CType) (globals : Node) (scope : List Node)
    (fuel : Nat)
    (ih1 : ∀ t n t', mul_expr uac globals scope fuel t = .ok (n, t') → n ≠ .null)
    (ih2 : ∀ n0 t n t', n0 ≠ .null → sum_expr_loop uac globals scope fuel n0 t = .ok (n, t') →
      n ≠ .null) :
    ∀ t n t', sum_expr uac globals scope (fuel + 1) t = .ok (n, t') → n ≠ .null := by
  intro t n t' h
  simp only [sum_expr, bind_eq_ok, Prod.exists] at h
  obtain ⟨m, t1, hm, h⟩ := h
  exact ih2 _ _ _ _ (ih1 _ _ _ hm) h

theorem rel_expr_loop_ne_null_step (uac : CType → CType → CType) (globals : Node) (scope : List Node)
    (fuel : Nat)
    (ih : ∀ n0 t n t', n0 ≠ .null → rel_expr_loop uac globals scope fuel n0 t = .ok (n, t') →
      n ≠ .null) :
    ∀ n0 t n t', n0 ≠ .null → rel_expr_loop uac globals scope (fuel + 1) n0 t = .ok (n, t') →
      n ≠ .null := by
  intro n0 t n t' h0 h
  simp only [rel_expr_loop, bind_eq_ok, Prod.exists] at h
  obtain ⟨c, t1, _, h⟩ := h
  cases c with
  | some _ =>
    simp only [bind_eq_ok, Prod.exists] at h
    obtain ⟨r, t2, _, m, hm, h⟩ := h
    exact ih _ _ _ _ (mkbinary_ne_null uac _ _ _ _ hm) h
  | none =>
    simp only [bind_eq_ok, Prod.exists] at h
    obtain ⟨c, t1, _, h⟩ := h
    cases c with
    | some _ =>
      simp only [bind_eq_ok, Prod.exists] at h
      obtain ⟨r, t2, _, m, hm, h⟩ := h
      exact ih _ _ _ _ (mkbinary_ne_null uac _ _ _ _ hm) h
    | none =>
      simp only [bind_eq_ok, Prod.exists] at h
      obtain ⟨c, t1, _, h⟩ := h
      cases c with
      | some _ =>
        simp only [bind_eq_ok, Prod.exists] at h
        obtain ⟨r, t2, _, m, hm, h⟩ := h
        exact ih _ _ _ _ (mkbinary_ne_null uac _ _ _ _ hm) h
      | none =>
        simp only [bind_eq_ok, Prod.exists] at h
        obtain ⟨c, t1, _, h⟩ := h
        cases c with
        | some _ =>
          simp only [bind_eq_ok, Prod.exists] at h
          obtain ⟨r, t2, _, m, hm, h⟩ := h
          exact ih _ _ _ _ (mkbinary_ne_null uac _ _ _ _ hm) h
        | none =>
          simp only [pure_eq_ok, Prod.mk.injEq] at h
          rw [← h.1]; exact h0

theorem rel_expr_ne_null_step (uac : CType → CType → CType) (globals : Node) (scope : List Node)
    (fuel : Nat)
    (ih1 : ∀ t n t', sum_expr uac globals scope fuel t = .ok (n, t') → n ≠ .null)
    (ih2 : ∀ n0 t n t', n0 ≠ .null → rel_expr_loop uac globals scope fuel n0 t = .ok (n, t') →
      n ≠ .null) :
    ∀ t n t', rel_expr uac globals scope (fuel + 1) t = .ok (n, t') → n ≠ .null := by
  intro t n t' h
  simp only [rel_expr, bind_eq_ok, Prod.exists] at h
  obtain ⟨m, t1, hm, h⟩ := h
  exact ih2 _ _ _ _ (ih1 _ _ _ hm) h

theorem eq_expr_loop_ne_null_step (uac : CType → CType → CType) (globals : Node) (scope : List Node)
    (fuel : Nat)
    (ih : ∀ n0 t n t', n0 ≠ .null → eq_expr_loop uac globals scope fuel n0 t = .ok (n, t') →
      n ≠ .null) :
    ∀ n0 t n t', n0 ≠ .null → eq_expr_loop uac globals scope (fuel + 1) n0 t = .ok (n, t') →
      n ≠ .null := by
  intro n0 t n t' h0 h
  simp only [eq_expr_loop, bind_eq_ok, Prod.exists] at h
  obtain ⟨c, t1, _, h⟩ := h
  cases c with
  | some _ =>
    simp only [bind_eq_ok, Prod.exists] at h
    obtain ⟨r, t2, _, m, hm, h⟩ := h
    exact ih _ _ _ _ (mkbinary_ne_null uac _ _ _ _ hm) h
  | none =>
    simp only [bind_eq_ok, Prod.exists] at h
    obtain ⟨c, t1, _, h⟩ := h
    cases c with
    | some _ =>
      simp only [bind_eq_ok, Prod.exists] at h
      obtain ⟨r, t2, _, m, hm, h⟩ := h
      exact ih _ _ _ _ (mkbinary_ne_null uac _ _ _ _ hm) h
    | none =>
      simp only [pure_eq_ok, Prod.mk.injEq] at h
      rw [← h.1]; exact h0

theorem eq_expr_ne_null_step (uac : CType → CType → CType) (globals : Node) (scope : List Node)
    (fuel : Nat)
    (ih1 : ∀ t n t', rel_expr uac globals scope fuel t = .ok (n, t') → n ≠ .null)
    (ih2 : ∀ n0 t n t', n0 ≠ .null → eq_expr_loop uac globals scope fuel n0 t = .ok (n, t') →
      n ≠ .null) :
    ∀ t n t', eq_expr uac globals scope (fuel + 1) t = .ok (n, t') → n ≠ .null := by
  intro t n t' h
  simp only [eq_expr, bind_eq_ok, Prod.exists] at h
  obtain ⟨m, t1, hm, h⟩ := h
  exact ih2 _ _ _ _ (ih1 _ _ _ hm) h

theorem assign_expr_ne_null_step (uac : CType → CType → CType) (globals : Node)
    (scope : List Node) (fuel : Nat)
    (ih : ∀ t n t', eq_expr uac globals scope fuel t = .ok (n, t') → n ≠ .null) :
    ∀ t n t', assign_expr uac globals scope (fuel + 1) t = .ok (n, t') → n ≠ .null := by
  intro t n t' h
  simp only [assign_expr, bind_eq_ok, Prod.exists] at h
  obtain ⟨m, t1, hm, b, _, h⟩ := h
  split at h
  · simp only [pure_eq_ok, Prod.mk.injEq] at h
    rw [← h.1]; exact ih _ _ _ hm
  · split at h
    · cases h
    · simp only [bind_eq_ok, Prod.exists, pure_eq_ok, Prod.mk.injEq] at h
      obtain ⟨_, _, _, r, t3, _, a, ha, h⟩ := h
      rw [← h.1]; exact mkbinary_ne_null uac _ _ _ _ ha

/-- No expression function returns the null pointer. -/
theorem expr_ne_null (uac : CType → CType → CType) (globals : Node) (scope : List Node)
    (fuel : Nat) :
    (∀ t n t', primary uac globals scope fuel t = .ok (n, t') → n ≠ .null) ∧
    (∀ n0 t n t', n0 ≠ .null → mul_expr_loop uac globals scope fuel n0 t = .ok (n, t') →
      n ≠ .null) ∧
    (∀ t n t', mul_expr uac globals scope fuel t = .ok (n, t') → n ≠ .null) ∧
    (∀ n0 t n t', n0 ≠ .null → sum_expr_loop uac globals scope fuel n0 t = .ok (n, t') →
      n ≠ .null) ∧
    (∀ t n t', sum_expr uac globals scope fuel t = .ok (n, t') → n ≠ .null) ∧
    (∀ n0 t n t', n0 ≠ .null → rel_expr_loop uac globals scope fuel n0 t = .ok (n, t') →
      n ≠ .null) ∧
    (∀ t n t', rel_expr uac globals scope fuel t = .ok (n, t') → n ≠ .null) ∧
    (∀ n0 t n t', n0 ≠ .null → eq_expr_loop uac globals scope fuel n0 t = .ok (n, t') →
      n ≠ .null) ∧
    (∀ t n t', eq_expr uac globals scope fuel t = .ok (n, t') → n ≠ .null) ∧
    (∀ t n t', assign_expr uac globals scope fuel t = .ok (n, t') → n ≠ .null) ∧
    (∀ t n t', expression uac globals scope fuel t = .ok (n, t') → n ≠ .null) := by
  induction fuel with
  | zero =>
    refine ⟨?_, ?_, ?_, ?_, ?_, ?_, ?_, ?_, ?_, ?_, ?_⟩ <;> intros <;>
      simp_all [primary, mul_expr_loop, mul_expr, sum_expr_loop, sum_expr, rel_expr_loop,
        rel_expr, eq_expr_loop, eq_expr, assign_expr, expression]
  | succ fuel ih =>
    obtain ⟨i1, i2, i3, i4, i5, i6, i7, i8, i9, i10, _⟩ := ih
    refine ⟨primary_ne_null_step uac globals scope fuel i9,
      mul_expr_loop_ne_null_step uac globals scope fuel i2,
      mul_expr_ne_null_step uac globals scope fuel i1 i2,
      sum_expr_loop_ne_null_step uac globals scope fuel i4,
      sum_expr_ne_null_step uac globals scope fuel i3 i4,
      rel_expr_loop_ne_null_step uac globals scope fuel i6,
      rel_expr_ne_null_step uac globals scope fuel i5 i6,
      eq_expr_loop_ne_null_step uac globals scope fuel i8,
      eq_expr_ne_null_step uac globals scope fuel i7 i8,
      assign_expr_ne_null_step uac globals scope fuel i9, ?_⟩
    intro t n t' h
    simp only [expression] at h
    exact i10 _ _ _ h

/-! ## Properties of the look-up functions -/

theorem find_scope_spec (name : CStr) (list : Node) :
    (declares (scope_members list) name →
      find_scope name list ≠ .null ∧ find_scope name list ∈ scope_members list ∧
      (find_scope name list).name = name) ∧
    (¬ declares (scope_members list) name → find_scope name list = .null) := by
  induction list with
  | null => simp [declares, scope_members, find_scope]
  | mk a next scope_next left right body cond then_ els init post args params locals
      _ ih _ _ _ _ _ _ _ _ _ _ _ =>
    by_cases hn : name = a.name
    · simp [declares, scope_members, find_scope, hn, Node.name]
    · have hn' : ¬ a.name = name := fun e => hn e.symm
      simp only [declares, scope_members, find_scope, hn, if_false, List.mem_cons,
        exists_eq_or_imp, Node.name, hn', false_or] at ih ⊢
      refine ⟨fun h => ⟨(ih.1 h).1, Or.inr (ih.1 h).2.1, (ih.1 h).2.2⟩, ih.2⟩

theorem find_global_spec (name : CStr) (globals : Node) :
    (declares (global_members globals) name →
      find_global name globals ≠ .null ∧ find_global name globals ∈ global_members globals ∧
      (find_global name globals).name = name) ∧
    (¬ declares (global_members globals) name → find_global name globals = .null) := by
  induction globals with
  | null => simp [declares, global_members, find_global]
  | mk a next scope_next left right body cond then_ els init post args params locals
      ih _ _ _ _ _ _ _ _ _ _ _ _ =>
    by_cases hn : name = a.name
    · simp [declares, global_members, find_global, hn, Node.name]
    · have hn' : ¬ a.name = name := fun e => hn e.symm
      simp only [declares, global_members, find_global, hn, if_false, List.mem_cons,
        exists_eq_or_imp, Node.name, hn', false_or] at ih ⊢
      refine ⟨fun h => ⟨(ih.1 h).1, Or.inr (ih.1 h).2.1, (ih.1 h).2.2⟩, ih.2⟩

theorem find_var_scopes_none (name : CStr) (scope : List Node)
    (h : ∀ list ∈ scope, ¬ declares (scope_members list) name) :
    find_var_scopes name scope = .null := by
  induction scope with
  | nil => rfl
  | cons list outer ih =>
    have h1 := (find_scope_spec name list).2 (h list (List.mem_cons_self _ _))
    simp only [find_var_scopes, h1, ne_eq, not_true_eq_false, if_false]
    exact ih (fun l hl => h l (List.mem_cons_of_mem _ hl))

theorem find_var_undeclared (name : CStr) (globals : Node) (scope : List Node)
    (hs : ∀ list ∈ scope, ¬ declares (scope_members list) name)
    (hg : ¬ declares (global_members globals) name) :
    find_var name globals scope = .ok .null := by
  simp [find_var, find_var_scopes_none name scope hs, (find_global_spec name globals).2 hg]

theorem primary_undeclared (uac : CType → CType → CType) (globals : Node) (scope : List Node)
    (fuel : Nat) (tok c : Token) (rest : List Token)
    (hk : tok.kind = TK_IDENT) (hc : c.kind ≠ TK_OPENING_PARENTHESES)
    (hs : ∀ list ∈ scope, ¬ declares (scope_members list) tok.name)
    (hg : ¬ declares (global_members globals) tok.name) :
    primary uac globals scope (fuel + 1) (tok :: c :: rest) =
      .error (.error "undefined variable") := by
  simp [primary, consume, match_, hk, hc, find_var_undeclared tok.name globals scope hs hg,
    bind, Except.bind]

theorem primary_undeclared_any (uac : CType → CType → CType) (globals : Node)
    (scope : List Node) (fuel : Nat) (tok c : Token) (rest : List Token)
    (hk : tok.kind = TK_IDENT) (hc : c.kind ≠ TK_OPENING_PARENTHESES)
    (hs : ∀ list ∈ scope, ¬ declares (scope_members list) tok.name)
    (hg : ¬ declares (global_members globals) tok.name) :
    primary uac globals scope fuel (tok :: c :: rest) = .error .out_of_fuel ∨
    primary uac globals scope fuel (tok :: c :: rest) = .error (.error "undefined variable") := by
  cases fuel with
  | zero => left; rfl
  | succ fuel => right; exact primary_undeclared uac globals scope fuel tok c rest hk hc hs hg

/-- An expression that starts with an undeclared identifier: whatever the bound
on the depth, the result is a failure, and from depth 7 on it is the error
"undefined variable". -/
theorem expression_undeclared (uac : CType → CType → CType) (globals : Node)
    (scope : List Node) (tok c : Token) (rest : List Token)
    (hk : tok.kind = TK_IDENT) (hc : c.kind ≠ TK_OPENING_PARENTHESES)
    (hs : ∀ list ∈ scope, ¬ declares (scope_members list) tok.name)
    (hg : ¬ declares (global_members globals) tok.name) :
    (∀ fuel, expression uac globals scope (fuel + 7) (tok :: c :: rest) =
      .error (.error "undefined variable")) ∧
    (∀ fuel, expression uac globals scope fuel (tok :: c :: rest) = .error .out_of_fuel ∨
      expression uac globals scope fuel (tok :: c :: rest) =
        .error (.error "undefined variable")) := by
  have hp := fun fuel => primary_undeclared uac globals scope fuel tok c rest hk hc hs hg
  have ha := fun fuel => primary_undeclared_any uac globals scope fuel tok c rest hk hc hs hg
  constructor
  · intro fuel
    simp [expression, assign_expr, eq_expr, rel_expr, sum_expr, mul_expr, hp, bind, Except.bind]
  · intro fuel
    have h1 : ∀ fuel, mul_expr uac globals scope fuel (tok :: c :: rest) = .error .out_of_fuel ∨
        mul_expr uac globals scope fuel (tok :: c :: rest) =
          .error (.error "undefined variable") := by
      intro fuel
      cases fuel with
      | zero => left; rfl
      | succ fuel => rcases ha fuel with h | h <;> simp [mul_expr, h, bind, Except.bind]
    have h2 : ∀ fuel, sum_expr uac globals scope fuel (tok :: c :: rest) = .error .out_of_fuel ∨
        sum_expr uac globals scope fuel (tok :: c :: rest) =
          .error (.error "undefined variable") := by
      intro fuel
      cases fuel with
      | zero => left; rfl
      | succ fuel => rcases h1 fuel with h | h <;> simp [sum_expr, h, bind, Except.bind]
    have h3 : ∀ fuel, rel_expr uac globals scope fuel (tok :: c :: rest) = .error .out_of_fuel ∨
        rel_expr uac globals scope fuel (tok :: c :: rest) =
          .error (.error "undefined variable") := by
      intro fuel
      cases fuel with
      | zero => left; rfl
      | succ fuel => rcases h2 fuel with h | h <;> simp [rel_expr, h, bind, Except.bind]
    have h4 : ∀ fuel, eq_expr uac globals scope fuel (tok :: c :: rest) = .error .out_of_fuel ∨
        eq_expr uac globals scope fuel (tok :: c :: rest) =
          .error (.error "undefined variable") := by
      intro fuel
      cases fuel with
      | zero => left; rfl
      | succ fuel => rcases h3 fuel with h | h <;> simp [eq_expr, h, bind, Except.bind]
    have h5 : ∀ fuel, assign_expr uac globals scope fuel (tok :: c :: rest) =
          .error .out_of_fuel ∨
        assign_expr uac globals scope fuel (tok :: c :: rest) =
          .error (.error "undefined variable") := by
      intro fuel
      cases fuel with
      | zero => left; rfl
      | succ fuel => rcases h4 fuel with h | h <;> simp [assign_expr, h, bind, Except.bind]
    cases fuel with
    | zero => left; rfl
    | succ fuel => rcases h5 fuel with h | h <;> simp [expression, h]

/-- C7: for every identifier that no scope of the chain and no entry of the
global list declares, and that is not followed by `(`, `primary` fails with the
error "undefined variable" and returns no node, whatever the bound on the
depth; the same holds of an expression and of a statement that start with it,
so a parse that comes to such an identifier does not succeed. -/
theorem undeclared_identifier (uac : CType → CType → CType) (globals : Node)
    (scope : List Node) (tok c : Token) (rest : List Token)
    (hk : tok.kind = TK_IDENT) (hc : c.kind ≠ TK_OPENING_PARENTHESES)
    (hs : ∀ list ∈ scope, ¬ declares (scope_members list) tok.name)
    (hg : ¬ declares (global_members globals) tok.name) :
    (∀ fuel, primary uac globals scope (fuel + 1) (tok :: c :: rest) =
      .error (.error "undefined variable")) ∧
    (∀ fuel r, primary uac globals scope fuel (tok :: c :: rest) ≠ .ok r) ∧
    (∀ fuel, expression uac globals scope (fuel + 7) (tok :: c :: rest) =
      .error (.error "undefined variable")) ∧
    (∀ fuel r, expression uac globals scope fuel (tok :: c :: rest) ≠ .ok r) ∧
    (∀ fuel st, st.t = tok :: c :: rest → st.globals = globals → st.scope = scope →
      statement uac (fuel + 9) st = .error (.error "undefined variable")) ∧
    (∀ fuel st r, st.t = tok :: c :: rest → st.globals = globals → st.scope = scope →
      statement uac fuel st ≠ .ok r) := by
  have hp := fun fuel => primary_undeclared uac globals scope fuel tok c rest hk hc hs hg
  have ha := fun fuel => primary_undeclared_any uac globals scope fuel tok c rest hk hc hs hg
  have he := expression_undeclared uac globals scope tok c rest hk hc hs hg
  refine ⟨hp, ?_, he.1, ?_, ?_, ?_⟩
  · intro fuel r h
    rcases ha fuel with h' | h' <;> rw [h'] at h <;> cases h
  · intro fuel r h
    rcases he.2 fuel with h' | h' <;> rw [h'] at h <;> cases h
  · intro fuel st ht hg' hs'
    have h8 : expression uac globals scope (fuel + 8) (tok :: c :: rest) =
        .error (.error "undefined variable") := he.1 (fuel + 1)
    simp [statement, expr_stat, with_tokens, consume_st, match_, consume, ht, hg', hs', hk,
      h8, bind, Except.bind, pure, Except.pure]
  · intro fuel st r ht hg' hs' h
    cases fuel with
    | zero => cases h
    | succ fuel =>
      rcases he.2 fuel with h' | h' <;>
        simp [statement, expr_stat, with_tokens, consume_st, match_, consume, ht, hg', hs', hk,
          h', bind, Except.bind, pure, Except.pure] at h


theorem undeclared_identifier_witness :
    (∀ fuel, primary uac_left .null [] (fuel + 1) [tk_ident "y", tk TK_SIMI, tk TK_EOI] =
      .error (.error "undefined variable")) ∧
    (∀ fuel r, primary uac_left .null [] fuel [tk_ident "y", tk TK_SIMI, tk TK_EOI] ≠
      .ok r) ∧
    (∀ fuel, expression uac_left .null [] (fuel + 7)
      [tk_ident "y", tk TK_SIMI, tk TK_EOI] = .error (.error "undefined variable")) ∧
    (∀ fuel r, expression uac_left .null [] fuel
      [tk_ident "y", tk TK_SIMI, tk TK_EOI] ≠ .ok r) ∧
    (∀ fuel st, st.t = [tk_ident "y", tk TK_SIMI, tk TK_EOI] → st.globals = .null →
      st.scope = [] →
      statement uac_left (fuel + 9) st = .error (.error "undefined variable")) ∧
    (∀ fuel st r, st.t = [tk_ident "y", tk TK_SIMI, tk TK_EOI] → st.globals = .null →
      st.scope = [] → statement uac_left fuel st ≠ .ok r) :=
  undeclared_identifier uac_left .null [] (tk_ident "y") (tk TK_SIMI) [tk TK_EOI]
    (by decide) (by decide) (by decide) (by decide)

/-- The program `int x; int main() { y = x; }` is rejected. -/
theorem parse_undeclared_program :
    parse uac_left 20
      [tk TK_INT, tk_ident "x", tk TK_SIMI,
       tk TK_INT, tk_ident "main", tk TK_OPENING_PARENTHESES, tk TK_CLOSING_PARENTHESES,
       tk TK_OPENING_BRACES, tk_ident "y", tk TK_EQUAL, tk_ident "x", tk TK_SIMI,
       tk TK_CLOSING_BRACES, tk TK_EOI] = .error (.error "undefined variable") := by
  decide

/-! ## The lvalue check of `assign_expr` -/

theorem set_kind_self (n : Node) (h : n.kind = A_VAR) : n.set_kind A_VAR = n := by
  cases n with
  | null => rfl
  | mk a _ _ _ _ _ _ _ _ _ _ _ _ _ =>
    cases a
    simp only [Node.kind] at h
    simp [Node.set_kind, h]

theorem kind_var_ne_null (n : Node) (h : n.kind = A_VAR) : n ≠ .null := by
  rintro rfl
  simp [Node.kind] at h

/-- C8: in `assign_expr`, when the expression parsed by `eq_expr` is followed
by `=` and is not a variable node (kind `A_VAR`), parsing fails with the error
"lvalue expected!"; when it is a variable node, the assignment node is built by
`mkbinary(A_ASSIGN, ...)` with that node as its left child. -/
theorem assign_expr_lvalue (uac : CType → CType → CType) (globals : Node) (scope : List Node)
    (fuel : Nat) (t : List Token) (n : Node) (c : Token) (rest : List Token)
    (h1 : eq_expr uac globals scope fuel t = .ok (n, c :: rest)) (hc : c.kind = TK_EQUAL) :
    (n.kind ≠ A_VAR →
      assign_expr uac globals scope (fuel + 1) t = .error (.error "lvalue expected!")) ∧
    (n.kind = A_VAR → ∀ r t2, expression uac globals scope fuel rest = .ok (r, t2) →
      ∃ a, assign_expr uac globals scope (fuel + 1) t = .ok (a, t2) ∧
        mkbinary uac A_ASSIGN n r = .ok a ∧ a.kind = A_ASSIGN ∧ a.left = n) ∧
    (n.kind = A_VAR → ∀ e, expression uac globals scope fuel rest = .error e →
      assign_expr uac globals scope (fuel + 1) t = .error e) := by
  refine ⟨?_, ?_, ?_⟩
  · intro hk
    simp [assign_expr, h1, match_, hc, hk, bind, Except.bind]
  · intro hk r t2 hr
    have hn := kind_var_ne_null n hk
    have hr0 := (expr_ne_null uac globals scope fuel).2.2.2.2.2.2.2.2.2.2 _ _ _ hr
    have hm := mkbinary_assign_eq uac n r hn hr0
    refine ⟨_, ?_, hm, rfl, rfl⟩
    simp [assign_expr, h1, match_, hc, hk, expect, hr, set_kind_self n hk, hm, bind,
      Except.bind, pure, Except.pure]
  · intro hk e he
    simp [assign_expr, h1, match_, hc, hk, expect, he, bind, Except.bind]

theorem assign_expr_lvalue_witness :
    assign_expr uac_left globals_ab [] 7
      [tk_num 1, tk TK_EQUAL, tk_num 2, tk TK_SIMI, tk TK_EOI] =
        .error (.error "lvalue expected!") ∧
    assign_expr uac_left globals_ab [] 7
      [tk_ident "a", tk TK_ADD, tk_ident "b", tk TK_EQUAL, tk_num 3, tk TK_SIMI, tk TK_EOI] =
        .error (.error "lvalue expected!") ∧
    (∀ r t2, expression uac_left globals_ab [] 6 [tk_num 3, tk TK_SIMI, tk TK_EOI] = .ok (r, t2) →
      ∃ a, assign_expr uac_left globals_ab [] 7
          [tk_ident "b", tk TK_EQUAL, tk_num 3, tk TK_SIMI, tk TK_EOI] = .ok (a, t2) ∧
        mkbinary uac_left A_ASSIGN globals_ab r = .ok a ∧ a.kind = A_ASSIGN ∧
        a.left = globals_ab) :=
  ⟨(assign_expr_lvalue uac_left globals_ab [] 6 _ _ _ _
      (rfl : eq_expr uac_left globals_ab [] 6
        [tk_num 1, tk TK_EQUAL, tk_num 2, tk TK_SIMI, tk TK_EOI] =
        .ok (((mknode A_NUM).set_type inttype).set_intvalue 1,
          tk TK_EQUAL :: [tk_num 2, tk TK_SIMI, tk TK_EOI])) (by decide)).1 (by decide),
   (assign_expr_lvalue uac_left globals_ab [] 6
      [tk_ident "a", tk TK_ADD, tk_ident "b", tk TK_EQUAL, tk_num 3, tk TK_SIMI, tk TK_EOI]
      _ (tk TK_EQUAL) [tk_num 3, tk TK_SIMI, tk TK_EOI] rfl (by decide)).1 (by decide),
   (assign_expr_lvalue uac_left globals_ab [] 6
      [tk_ident "b", tk TK_EQUAL, tk_num 3, tk TK_SIMI, tk TK_EOI]
      globals_ab (tk TK_EQUAL) [tk_num 3, tk TK_SIMI, tk TK_EOI] rfl (by decide)).2.1
      (by decide)⟩

/-- The statements `1 = 2;` and `a + b = 3;` in a function body are rejected. -/
theorem parse_lvalue_programs :
    parse uac_left 20
      [tk TK_INT, tk_ident "main", tk TK_OPENING_PARENTHESES, tk TK_CLOSING_PARENTHESES,
       tk TK_OPENING_BRACES, tk_num 1, tk TK_EQUAL, tk_num 2, tk TK_SIMI,
       tk TK_CLOSING_BRACES, tk TK_EOI] = .error (.error "lvalue expected!") ∧
    parse uac_left 20
      [tk TK_INT, tk_ident "a", tk TK_SIMI, tk TK_LONG, tk_ident "b", tk TK_SIMI,
       tk TK_INT, tk_ident "main", tk TK_OPENING_PARENTHESES, tk TK_CLOSING_PARENTHESES,
       tk TK_OPENING_BRACES, tk_ident "a", tk TK_ADD, tk_ident "b", tk TK_EQUAL, tk_num 3,
       tk TK_SIMI, tk TK_CLOSING_BRACES, tk TK_EOI] = .error (.error "lvalue expected!") := by
  constructor <;> rfl

/-! ## What parsing leaves unchanged -/

theorem Frame.frefl (st : PState) : Frame st st := ⟨rfl, rfl, rfl⟩

theorem Frame.ftrans {a b c : PState} (h1 : Frame a b) (h2 : Frame b c) : Frame a c :=
  ⟨h2.1.trans h1.1, h2.2.1.trans h1.2.1, h2.2.2.trans h1.2.2⟩

theorem Frame.of_set_t (st : PState) (t : List Token) : Frame st (st.set_t t) := by
  simp [Frame]

theorem Frame.ffn {a b : PState} (h : Frame a b) (hf : a.is_function ≠ 0) :
    b.is_function ≠ 0 := by
  rw [h.2.2]; exact hf

theorem expect_st_frame {kind : TK} {st st' : PState} {c : Token}
    (h : expect_st kind st = .ok (c, st')) : Frame st st' := by
  simp only [expect_st, bind_eq_ok, Prod.exists, pure_eq_ok, Prod.mk.injEq] at h
  obtain ⟨_, t, _, _, rfl⟩ := h
  exact Frame.of_set_t st t

theorem consume_st_frame {kind : TK} {st st' : PState} {c : Option Token}
    (h : consume_st kind st = .ok (c, st')) : Frame st st' := by
  simp only [consume_st, bind_eq_ok, Prod.exists, pure_eq_ok, Prod.mk.injEq] at h
  obtain ⟨_, t, _, _, rfl⟩ := h
  exact Frame.of_set_t st t

theorem with_tokens_frame {f : Node → List Node → List Token → Except Failure (Node × List Token)}
    {st st' : PState} {n : Node} (h : with_tokens f st = .ok (n, st')) : Frame st st' := by
  simp only [with_tokens, bind_eq_ok, Prod.exists, pure_eq_ok, Prod.mk.injEq] at h
  obtain ⟨_, t, _, _, rfl⟩ := h
  exact Frame.of_set_t st t

theorem expr_stat_frame {uac : CType → CType → CType} {fuel : Nat} {st st' : PState} {n : Node}
    (h : expr_stat uac fuel st = .ok (n, st')) : Frame st st' := by
  simp only [expr_stat, bind_eq_ok, Prod.exists] at h
  obtain ⟨semi, st1, h1, h⟩ := h
  have f1 := consume_st_frame h1
  cases semi with
  | some _ =>
    simp only [pure_eq_ok, Prod.mk.injEq] at h
    rw [← h.2]; exact f1
  | none =>
    simp only [bind_eq_ok, Prod.exists, pure_eq_ok, Prod.mk.injEq] at h
    obtain ⟨_, st2, h2, _, st3, h3, _, rfl⟩ := h
    exact (f1.ftrans (with_tokens_frame h2)).ftrans (expect_st_frame h3)

theorem mklvar_ok {name : CStr} {ty : CType} {st st' : PState} {n : Node}
    (h : mklvar name ty st = .ok (n, st')) :
    ∃ list outer, st.scope = list :: outer ∧ find_scope name list = .null ∧
      n = (((mkvar name ty).set_is_global 0).set_next st.locals).set_scope_next list ∧
      st' = (st.set_locals n).set_scope (n :: outer) := by
  unfold mklvar at h
  split at h
  · cases h
  · rename_i list outer hs
    split at h
    · cases h
    · rename_i hf
      simp only [Except.ok.injEq, Prod.mk.injEq] at h
      refine ⟨list, outer, hs, not_not.mp hf, h.1.symm, ?_⟩
      rw [← h.2, ← h.1]

theorem find_scope_var (name nm : CStr) (ty : CType) (locals list : Node) :
    find_scope nm ((((mkvar name ty).set_is_global 0).set_next locals).set_scope_next list) =
      if nm = name then
        (((mkvar name ty).set_is_global 0).set_next locals).set_scope_next list
      else find_scope nm list := by
  simp [mkvar, mknode, Node.set_name, Node.set_type, Node.set_is_global, Node.set_next,
    Node.set_scope_next, find_scope]

theorem SameBlock.btrans {a b c : PState} (h1 : SameBlock a b) (h2 : SameBlock b c) :
    SameBlock a c := by
  obtain ⟨l1, l2, o1, ha, hb, hg1, hf1, hk1⟩ := h1
  obtain ⟨l2', l3, o2, hb', hc, hg2, hf2, hk2⟩ := h2
  rw [hb] at hb'
  injection hb' with e1 e2
  subst e1 e2
  refine ⟨l1, l3, o1, ha, hc, hg2.trans hg1, hf2.trans hf1, ?_⟩
  intro name hn
  have := hk1 name hn
  rw [hk2 name (by rw [this]; exact hn), this]

theorem SameBlock.of_frame {a b : PState} (h : Frame a b) (hs : a.scope ≠ []) :
    SameBlock a b := by
  cases hsc : a.scope with
  | nil => exact absurd hsc hs
  | cons list outer =>
    exact ⟨list, list, outer, hsc, by rw [h.1, hsc], h.2.1, h.2.2, fun _ _ => rfl⟩

theorem SameBlock.scope_ne {a b : PState} (h : SameBlock a b) : b.scope ≠ [] := by
  obtain ⟨_, _, _, _, hb, _⟩ := h
  rw [hb]; simp

theorem SameBlock.bfn {a b : PState} (h : SameBlock a b) (hf : a.is_function ≠ 0) :
    b.is_function ≠ 0 := by
  obtain ⟨_, _, _, _, _, _, hb, _⟩ := h
  rw [hb]; exact hf

theorem type_spec_frame_t {st : PState} {t : List Token} : Frame st (st.set_t t) :=
  Frame.of_set_t st t

theorem declaration_sameBlock {st st' : PState} {n : Node} (hf : st.is_function ≠ 0)
    (h : declaration st = .ok (n, st')) : SameBlock st st' := by
  simp only [declaration, bind_eq_ok, Prod.exists] at h
  obtain ⟨ty, t, _, tok, st1, h1, v, st2, h2, _, st3, h3, h⟩ := h
  simp only [pure_eq_ok, Prod.mk.injEq] at h
  have f1 : Frame st st1 := (Frame.of_set_t st t).ftrans (expect_st_frame h1)
  have hf1 : st1.is_function ≠ 0 := f1.ffn hf
  rw [if_pos hf1] at h2
  obtain ⟨list, outer, hs, hnone, hv, hst2⟩ := mklvar_ok h2
  have f3 := expect_st_frame h3
  rw [← h.2]
  refine ⟨list, v, outer, by rw [← f1.1, hs], by rw [f3.1, hst2]; simp, ?_, ?_, ?_⟩
  · rw [f3.2.1, hst2]; simp [f1.2.1]
  · rw [f3.2.2, hst2]; simp [f1.2.2]
  · intro name hn
    rw [hv, find_scope_var]
    have : ¬ name = tok.name := by
      rintro rfl; exact hn hnone
    rw [if_neg this]

theorem exit_scope_ok {st st' : PState} (h : exit_scope st = .ok st') :
    ∃ list outer, st.scope = list :: outer ∧ st' = st.set_scope outer := by
  unfold exit_scope at h
  split at h
  · cases h
  · rename_i list outer hs
    simp only [Except.ok.injEq] at h
    exact ⟨list, outer, hs, h.symm⟩

theorem statement_frame_step (uac : CType → CType → CType) (fuel : Nat)
    (ih_comp : ∀ st n st', st.is_function ≠ 0 → comp_stat uac fuel st = .ok (n, st') →
      Frame st st')
    (ih_if : ∀ st n st', st.is_function ≠ 0 → if_stat uac fuel st = .ok (n, st') →
      Frame st st')
    (ih_while : ∀ st n st', st.is_function ≠ 0 → while_stat uac fuel st = .ok (n, st') →
      Frame st st')
    (ih_do : ∀ st n st', st.is_function ≠ 0 → dowhile_stat uac fuel st = .ok (n, st') →
      Frame st st')
    (ih_for : ∀ st n st', st.is_function ≠ 0 → for_stat uac fuel st = .ok (n, st') →
      Frame st st') :
    ∀ st n st', st.is_function ≠ 0 → statement uac (fuel + 1) st = .ok (n, st') →
      Frame st st' := by
  intro st n st' hf h
  rw [statement] at h
  simp only [bind_eq_ok, Prod.exists] at h
  obtain ⟨b, _, h⟩ := h
  by_cases hb : b = true
  · rw [if_pos hb] at h; exact ih_comp _ _ _ hf h
  rw [if_neg hb] at h
  simp only [bind_eq_ok, Prod.exists] at h
  obtain ⟨c, st1, h1, h⟩ := h
  have f1 := consume_st_frame h1
  by_cases hc : c.isSome = true
  · rw [if_pos hc] at h
    simp only [bind_eq_ok, Prod.exists, pure_eq_ok, Prod.mk.injEq] at h
    obtain ⟨e, st2, h2, _, st3, h3, _, rfl⟩ := h
    exact (f1.ftrans (with_tokens_frame h2)).ftrans (expect_st_frame h3)
  rw [if_neg hc] at h
  simp only [bind_eq_ok, Prod.exists] at h
  obtain ⟨b, _, h⟩ := h
  by_cases hb : b = true
  · rw [if_pos hb] at h; exact f1.ftrans (ih_if _ _ _ (f1.ffn hf) h)
  rw [if_neg hb] at h
  simp only [bind_eq_ok, Prod.exists] at h
  obtain ⟨b, _, h⟩ := h
  by_cases hb : b = true
  · rw [if_pos hb] at h; exact f1.ftrans (ih_while _ _ _ (f1.ffn hf) h)
  rw [if_neg hb] at h
  simp only [bind_eq_ok, Prod.exists] at h
  obtain ⟨b, _, h⟩ := h
  by_cases hb : b = true
  · rw [if_pos hb] at h; exact f1.ftrans (ih_do _ _ _ (f1.ffn hf) h)
  rw [if_neg hb] at h
  simp only [bind_eq_ok, Prod.exists] at h
  obtain ⟨b, _, h⟩ := h
  by_cases hb : b = true
  · rw [if_pos hb] at h; exact f1.ftrans (ih_for _ _ _ (f1.ffn hf) h)
  rw [if_neg hb] at h
  simp only [bind_eq_ok, Prod.exists] at h
  obtain ⟨c, st2, h2, h⟩ := h
  have f2 := f1.ftrans (consume_st_frame h2)
  by_cases hc : c.isSome = true
  · rw [if_pos hc] at h
    simp only [bind_eq_ok, Prod.exists, pure_eq_ok, Prod.mk.injEq] at h
    obtain ⟨_, st3, h3, _, rfl⟩ := h
    exact f2.ftrans (expect_st_frame h3)
  rw [if_neg hc] at h
  simp only [bind_eq_ok, Prod.exists] at h
  obtain ⟨c, st3, h3, h⟩ := h
  have f3 := f2.ftrans (consume_st_frame h3)
  by_cases hc : c.isSome = true
  · rw [if_pos hc] at h
    simp only [bind_eq_ok, Prod.exists, pure_eq_ok, Prod.mk.injEq] at h
    obtain ⟨_, st4, h4, _, rfl⟩ := h
    exact f3.ftrans (expect_st_frame h4)
  rw [if_neg hc] at h
  simp only [bind_eq_ok, Prod.exists] at h
  obtain ⟨c, st4, h4, h⟩ := h
  have f4 := f3.ftrans (consume_st_frame h4)
  by_cases hc : c.isSome = true
  · rw [if_pos hc] at h
    simp only [bind_eq_ok, Prod.exists] at h
    obtain ⟨semi, st5, h5, h⟩ := h
    have f5 := f4.ftrans (consume_st_frame h5)
    by_cases hs : semi.isSome = true
    · rw [if_pos hs] at h
      simp only [pure_eq_ok, Prod.mk.injEq] at h
      rw [← h.2]; exact f5
    · rw [if_neg hs] at h
      simp only [bind_eq_ok, Prod.exists] at h
      obtain ⟨e, st6, h6, h⟩ := h
      have f6 := f5.ftrans (with_tokens_frame h6)
      split at h
      · simp only [bind_eq_ok, Prod.exists, pure_eq_ok, Prod.mk.injEq] at h
        obtain ⟨_, st7, h7, _, rfl⟩ := h
        exact f6.ftrans (expect_st_frame h7)
      · cases h
  · rw [if_neg hc] at h
    exact f4.ftrans (expr_stat_frame h)

theorem comp_stat_loop_step (uac : CType → CType → CType) (fuel : Nat)
    (ih_loop : ∀ body st n st', st.is_function ≠ 0 → st.scope ≠ [] →
      comp_stat_loop uac fuel body st = .ok (n, st') → SameBlock st st')
    (ih_stmt : ∀ st n st', st.is_function ≠ 0 → statement uac fuel st = .ok (n, st') →
      Frame st st') :
    ∀ body st n st', st.is_function ≠ 0 → st.scope ≠ [] →
      comp_stat_loop uac (fuel + 1) body st = .ok (n, st') → SameBlock st st' := by
  intro body st n st' hf hs h
  rw [comp_stat_loop] at h
  split at h
  · cases h
  · rename_i c rest ht
    by_cases hk : c.kind ≠ TK_CLOSING_BRACES
    · rw [if_pos hk] at h
      simp only [bind_eq_ok, Prod.exists] at h
      obtain ⟨n1, st1, h1, h⟩ := h
      have b1 : SameBlock st st1 := by
        by_cases hr : c.kind.toCtorIdx ≥ TK_VOID.toCtorIdx ∧
            c.kind.toCtorIdx ≤ TK_LONG.toCtorIdx
        · rw [if_pos hr] at h1
          exact declaration_sameBlock hf h1
        · rw [if_neg hr] at h1
          exact SameBlock.of_frame (ih_stmt _ _ _ hf h1) hs
      exact b1.btrans (ih_loop _ _ _ _ (b1.bfn hf) b1.scope_ne h)
    · rw [if_neg hk] at h
      simp only [pure_eq_ok, Prod.mk.injEq] at h
      rw [← h.2]
      exact SameBlock.of_frame (Frame.frefl st) hs

theorem comp_stat_step (uac : CType → CType → CType) (fuel : Nat)
    (ih_loop : ∀ body st n st', st.is_function ≠ 0 → st.scope ≠ [] →
      comp_stat_loop uac fuel body st = .ok (n, st') → SameBlock st st') :
    ∀ st n st', st.is_function ≠ 0 → comp_stat uac (fuel + 1) st = .ok (n, st') →
      Frame st st' := by
  intro st n st' hf h
  rw [comp_stat] at h
  simp only [bind_eq_ok, Prod.exists, pure_eq_ok, Prod.mk.injEq] at h
  obtain ⟨_, st1, h1, body, st3, h3, _, st4, h4, st5, h5, _, rfl⟩ := h
  have f1 := expect_st_frame h1
  have hf2 : (enter_scope st1).is_function ≠ 0 := by
    simp [enter_scope, f1.2.2, hf]
  have hs2 : (enter_scope st1).scope ≠ [] := by simp [enter_scope]
  obtain ⟨l, l', o, e1, e2, e3, e4, _⟩ := ih_loop _ _ _ _ hf2 hs2 h3
  simp only [enter_scope, PState.scope_set_scope, List.cons.injEq, PState.globals_set_scope,
    PState.is_function_set_scope] at e1 e3 e4
  have f4 := expect_st_frame h4
  obtain ⟨l5, o5, e5, rfl⟩ := exit_scope_ok h5
  rw [f4.1, e2] at e5
  injection e5 with _ e5
  refine ⟨?_, ?_, ?_⟩
  · simp only [PState.scope_set_scope]
    rw [← e5, ← e1.2, f1.1]
  · simp only [PState.globals_set_scope]
    rw [f4.2.1, e3, f1.2.1]
  · simp only [PState.is_function_set_scope]
    rw [f4.2.2, e4, f1.2.2]

theorem if_stat_step (uac : CType → CType → CType) (fuel : Nat)
    (ih_stmt : ∀ st n st', st.is_function ≠ 0 → statement uac fuel st = .ok (n, st') →
      Frame st st') :
    ∀ st n st', st.is_function ≠ 0 → if_stat uac (fuel + 1) st = .ok (n, st') →
      Frame st st' := by
  intro st n st' hf h
  rw [if_stat] at h
  simp only [bind_eq_ok, Prod.exists] at h
  obtain ⟨_, st1, h1, _, st2, h2, c, st3, h3, _, st4, h4, th, st5, h5, e, st6, h6, h⟩ := h
  have f4 : Frame st st4 := (((expect_st_frame h1).ftrans (expect_st_frame h2)).ftrans
    (with_tokens_frame h3)).ftrans (expect_st_frame h4)
  have f5 := f4.ftrans (ih_stmt _ _ _ (f4.ffn hf) h5)
  have f6 := f5.ftrans (consume_st_frame h6)
  by_cases he : e.isSome = true
  · rw [if_pos he] at h
    simp only [bind_eq_ok, Prod.exists, pure_eq_ok, Prod.mk.injEq] at h
    obtain ⟨_, st7, h7, _, rfl⟩ := h
    exact f6.ftrans (ih_stmt _ _ _ (f6.ffn hf) h7)
  · rw [if_neg he] at h
    simp only [pure_eq_ok, Prod.mk.injEq] at h
    rw [← h.2]; exact f6

theorem while_stat_step (uac : CType → CType → CType) (fuel : Nat)
    (ih_stmt : ∀ st n st', st.is_function ≠ 0 → statement uac fuel st = .ok (n, st') →
      Frame st st') :
    ∀ st n st', st.is_function ≠ 0 → while_stat uac (fuel + 1) st = .ok (n, st') →
      Frame st st' := by
  intro st n st' hf h
  rw [while_stat] at h
  simp only [bind_eq_ok, Prod.exists, pure_eq_ok, Prod.mk.injEq] at h
  obtain ⟨_, st1, h1, _, st2, h2, c, st3, h3, _, st4, h4, b, st5, h5, _, rfl⟩ := h
  have f4 : Frame st st4 := (((expect_st_frame h1).ftrans (expect_st_frame h2)).ftrans
    (with_tokens_frame h3)).ftrans (expect_st_frame h4)
  exact f4.ftrans (ih_stmt _ _ _ (f4.ffn hf) h5)

theorem dowhile_stat_step (uac : CType → CType → CType) (fuel : Nat)
    (ih_stmt : ∀ st n st', st.is_function ≠ 0 → statement uac fuel st = .ok (n, st') →
      Frame st st') :
    ∀ st n st', st.is_function ≠ 0 → dowhile_stat uac (fuel + 1) st = .ok (n, st') →
      Frame st st' := by
  intro st n st' hf h
  rw [dowhile_stat] at h
  simp only [bind_eq_ok, Prod.exists, pure_eq_ok, Prod.mk.injEq] at h
  obtain ⟨_, st1, h1, b, st2, h2, _, st3, h3, _, st4, h4, c, st5, h5, _, st6, h6, _, st7, h7,
    _, rfl⟩ := h
  have f1 := expect_st_frame h1
  have f2 := f1.ftrans (ih_stmt _ _ _ (f1.ffn hf) h2)
  exact ((((f2.ftrans (expect_st_frame h3)).ftrans (expect_st_frame h4)).ftrans
    (with_tokens_frame h5)).ftrans (expect_st_frame h6)).ftrans (expect_st_frame h7)

theorem for_stat_step (uac : CType → CType → CType) (fuel : Nat)
    (ih_stmt : ∀ st n st', st.is_function ≠ 0 → statement uac fuel st = .ok (n, st') →
      Frame st st') :
    ∀ st n st', st.is_function ≠ 0 → for_stat uac (fuel + 1) st = .ok (n, st') →
      Frame st st' := by
  intro st n st' hf h
  rw [for_stat] at h
  simp only [bind_eq_ok, Prod.exists, pure_eq_ok, Prod.mk.injEq] at h
  obtain ⟨_, st1, h1, _, st2, h2, semi, st3, h3, n4, st4, h4, semi2, st5, h5, n6, st6, h6,
    close, st7, h7, n8, st8, h8, b, st9, h9, _, rfl⟩ := h
  have f3 : Frame st st3 := ((expect_st_frame h1).ftrans (expect_st_frame h2)).ftrans
    (consume_st_frame h3)
  have f4 : Frame st3 st4 := by
    by_cases hs : semi.isSome = true
    · rw [if_pos hs] at h4
      simp only [pure_eq_ok, Prod.mk.injEq] at h4
      rw [← h4.2]; exact Frame.frefl _
    · rw [if_neg hs] at h4
      simp only [bind_eq_ok, Prod.exists, pure_eq_ok, Prod.mk.injEq] at h4
      obtain ⟨_, st', h', _, rfl⟩ := h4
      exact expr_stat_frame h'
  have f5 := consume_st_frame h5
  have f6 : Frame st5 st6 := by
    by_cases hs : semi2.isSome = true
    · rw [if_pos hs] at h6
      simp only [pure_eq_ok, Prod.mk.injEq] at h6
      rw [← h6.2]; exact Frame.frefl _
    · rw [if_neg hs] at h6
      simp only [bind_eq_ok, Prod.exists, pure_eq_ok, Prod.mk.injEq] at h6
      obtain ⟨_, st', h', _, st'', h'', _, rfl⟩ := h6
      exact (with_tokens_frame h').ftrans (expect_st_frame h'')
  have f7 := consume_st_frame h7
  have f8 : Frame st7 st8 := by
    by_cases hs : close.isSome = true
    · rw [if_pos hs] at h8
      simp only [pure_eq_ok, Prod.mk.injEq] at h8
      rw [← h8.2]; exact Frame.frefl _
    · rw [if_neg hs] at h8
      simp only [bind_eq_ok, Prod.exists, pure_eq_ok, Prod.mk.injEq] at h8
      obtain ⟨_, st', h', _, st'', h'', _, rfl⟩ := h8
      exact (with_tokens_frame h').ftrans (expect_st_frame h'')
  have f := ((((f3.ftrans f4).ftrans f5).ftrans f6).ftrans f7).ftrans f8
  exact f.ftrans (ih_stmt _ _ _ (f.ffn hf) h9)

/-- Parsing a statement leaves the scope chain, the global list and
`is_function` as they were; the loop of `comp_stat` stays in its block. -/
theorem statement_frame (uac : CType → CType → CType) (fuel : Nat) :
    (∀ st n st', st.is_function ≠ 0 → statement uac fuel st = .ok (n, st') → Frame st st') ∧
    (∀ body st n st', st.is_function ≠ 0 → st.scope ≠ [] →
      comp_stat_loop uac fuel body st = .ok (n, st') → SameBlock st st') ∧
    (∀ st n st', st.is_function ≠ 0 → comp_stat uac fuel st = .ok (n, st') → Frame st st') ∧
    (∀ st n st', st.is_function ≠ 0 → if_stat uac fuel st = .ok (n, st') → Frame st st') ∧
    (∀ st n st', st.is_function ≠ 0 → while_stat uac fuel st = .ok (n, st') → Frame st st') ∧
    (∀ st n st', st.is_function ≠ 0 → dowhile_stat uac fuel st = .ok (n, st') →
      Frame st st') ∧
    (∀ st n st', st.is_function ≠ 0 → for_stat uac fuel st = .ok (n, st') → Frame st st') := by
  induction fuel with
  | zero =>
    refine ⟨?_, ?_, ?_, ?_, ?_, ?_, ?_⟩ <;> intros <;>
      simp_all [statement, comp_stat_loop, comp_stat, if_stat, while_stat, dowhile_stat,
        for_stat]
  | succ fuel ih =>
    obtain ⟨i1, i2, i3, i4, i5, i6, i7⟩ := ih
    exact ⟨statement_frame_step uac fuel i3 i4 i5 i6 i7,
      comp_stat_loop_step uac fuel i2 i1,
      comp_stat_step uac fuel i2,
      if_stat_step uac fuel i1,
      while_stat_step uac fuel i1,
      dowhile_stat_step uac fuel i1,
      for_stat_step uac fuel i1⟩

/-! ## Names stay declared -/

theorem declares_iff_find_scope (name : CStr) (list : Node) :
    declares (scope_members list) name ↔ find_scope name list ≠ .null := by
  constructor
  · intro h; exact ((find_scope_spec name list).1 h).1
  · intro h
    by_contra hn
    exact h ((find_scope_spec name list).2 hn)

theorem declares_iff_find_global (name : CStr) (globals : Node) :
    declares (global_members globals) name ↔ find_global name globals ≠ .null := by
  constructor
  · intro h; exact ((find_global_spec name globals).1 h).1
  · intro h
    by_contra hn
    exact h ((find_global_spec name globals).2 hn)

theorem blockSteps_sameBlock {uac : CType → CType → CType} {st st' : PState}
    (hf : st.is_function ≠ 0) (hs : st.scope ≠ []) (h : BlockSteps uac st st') :
    SameBlock st st' := by
  induction h with
  | refl => exact SameBlock.of_frame (Frame.frefl _) hs
  | decl _ hd ih => exact ih.btrans (declaration_sameBlock (ih.bfn hf) hd)
  | stmt fuel _ hst ih =>
    exact ih.btrans
      (SameBlock.of_frame ((statement_frame uac fuel).1 _ _ _ (ih.bfn hf) hst) ih.scope_ne)

theorem declaration_redefine_local {st : PState} {list : Node} {outer : List Node}
    {ty : CType} {tok : Token} {rest : List Token}
    (hf : st.is_function ≠ 0) (hs : st.scope = list :: outer)
    (ht : type_spec st.t = .ok (ty, tok :: rest)) (hk : tok.kind = TK_IDENT)
    (hd : declares (scope_members list) tok.name) :
    declaration st = .error (.error "redefine local variable \"%s\"") := by
  have hfs := (declares_iff_find_scope tok.name list).1 hd
  simp [declaration, ht, expect_st, expect, hk, hf, mklvar, hs, hfs, bind, Except.bind,
    pure, Except.pure]

theorem declaration_redefine_global {st : PState}
    {ty : CType} {tok : Token} {rest : List Token}
    (hf : st.is_function = 0)
    (ht : type_spec st.t = .ok (ty, tok :: rest)) (hk : tok.kind = TK_IDENT)
    (hd : declares (global_members st.globals) tok.name) :
    declaration st = .error (.error "redefine global variable \"%s\"") := by
  have hfs := (declares_iff_find_global tok.name st.globals).1 hd
  simp [declaration, ht, expect_st, expect, hk, hf, mkgvar, hfs, bind, Except.bind,
    pure, Except.pure]

theorem mklvar_globals {name : CStr} {ty : CType} {st st' : PState} {n : Node}
    (h : mklvar name ty st = .ok (n, st')) :
    st'.globals = st.globals ∧ st'.is_function = st.is_function := by
  obtain ⟨list, outer, _, _, _, rfl⟩ := mklvar_ok h
  simp

theorem param_list_loop_globals (fuel : Nat) : ∀ (head : Node) (st st' : PState) (n : Node),
    param_list_loop fuel head st = .ok (n, st') →
    st'.globals = st.globals ∧ st'.is_function = st.is_function := by
  induction fuel with
  | zero => intro head st st' n h; simp [param_list_loop] at h
  | succ fuel ih =>
    intro head st st' n h
    rw [param_list_loop] at h
    simp only [bind_eq_ok, Prod.exists] at h
    obtain ⟨close, st1, h1, h⟩ := h
    have f1 := consume_st_frame h1
    cases close with
    | some _ =>
      simp only [pure_eq_ok, Prod.mk.injEq] at h
      rw [← h.2]; exact ⟨f1.2.1, f1.2.2⟩
    | none =>
      simp only [bind_eq_ok, Prod.exists] at h
      obtain ⟨ty, t, _, tok, st2, h2, v, st3, h3, b, _, h⟩ := h
      have f2 : Frame st1 st2 := (Frame.of_set_t st1 t).ftrans (expect_st_frame h2)
      have f3 := mklvar_globals h3
      have e3 : st3.globals = st.globals ∧ st3.is_function = st.is_function :=
        ⟨by rw [f3.1, f2.2.1, f1.2.1], by rw [f3.2, f2.2.2, f1.2.2]⟩
      by_cases hb : b = true
      · rw [if_pos hb] at h
        have := ih _ _ _ _ h
        exact ⟨this.1.trans e3.1, this.2.trans e3.2⟩
      · rw [if_neg hb] at h
        simp only [bind_eq_ok, Prod.exists] at h
        obtain ⟨_, st4, h4, h⟩ := h
        have f4 := expect_st_frame h4
        have := ih _ _ _ _ h
        exact ⟨this.1.trans (f4.2.1.trans e3.1), this.2.trans (f4.2.2.trans e3.2)⟩

theorem param_list_globals {fuel : Nat} {st st' : PState} {n : Node}
    (h : param_list fuel st = .ok (n, st')) :
    st'.globals = st.globals ∧ st'.is_function = st.is_function := by
  simp only [param_list, bind_eq_ok, Prod.exists] at h
  obtain ⟨_, st1, h1, h⟩ := h
  have f1 := expect_st_frame h1
  have := param_list_loop_globals fuel _ _ _ _ h
  exact ⟨this.1.trans f1.2.1, this.2.trans f1.2.2⟩

theorem global_members_of_next (n : Node) (h : n ≠ .null) :
    global_members n = n :: global_members n.next := by
  cases n with
  | null => exact absurd rfl h
  | mk _ _ _ _ _ _ _ _ _ _ _ _ _ _ => rfl

theorem chain_assign_names (f : Node → Node)
    (hf : ∀ n, n ≠ .null → f n ≠ .null ∧ (f n).name = n.name ∧ (f n).next = n.next)
    (k : Nat) (g : Node) :
    (global_members (chain_assign f k g)).map Node.name = (global_members g).map Node.name := by
  induction g with
  | null => rfl
  | mk a next scope_next left right body cond then_ els init post args params locals
      ih _ _ _ _ _ _ _ _ _ _ _ _ =>
    rw [chain_assign]
    split
    · obtain ⟨h1, h2, h3⟩ := hf (.mk a next scope_next left right body cond then_ els init post
        args params locals) (by simp)
      rw [global_members_of_next _ h1, h3]
      simp [global_members, h2, Node.next]
    · simp [global_members, ih, Node.name]

theorem declares_iff_names (l : List Node) (name : CStr) :
    declares l name ↔ name ∈ l.map Node.name := by
  simp [declares]

theorem set_params_keeps (p n : Node) (h : n ≠ .null) :
    n.set_params p ≠ .null ∧ (n.set_params p).name = n.name ∧
      (n.set_params p).next = n.next := by
  cases n with
  | null => exact absurd rfl h
  | mk _ _ _ _ _ _ _ _ _ _ _ _ _ _ => exact ⟨by simp [Node.set_params], rfl, rfl⟩

theorem set_body_keeps (p n : Node) (h : n ≠ .null) :
    n.set_body p ≠ .null ∧ (n.set_body p).name = n.name ∧ (n.set_body p).next = n.next := by
  cases n with
  | null => exact absurd rfl h
  | mk _ _ _ _ _ _ _ _ _ _ _ _ _ _ => exact ⟨by simp [Node.set_body], rfl, rfl⟩

theorem set_locals_keeps (p n : Node) (h : n ≠ .null) :
    n.set_locals p ≠ .null ∧ (n.set_locals p).name = n.name ∧
      (n.set_locals p).next = n.next := by
  cases n with
  | null => exact absurd rfl h
  | mk _ _ _ _ _ _ _ _ _ _ _ _ _ _ => exact ⟨by simp [Node.set_locals], rfl, rfl⟩

theorem function_names {uac : CType → CType → CType} {fuel : Nat} {st st' : PState} {n : Node}
    (hf : st.is_function ≠ 0) (h : function uac fuel st = .ok (n, st')) :
    ∃ fname, (global_members st'.globals).map Node.name =
      fname :: (global_members st.globals).map Node.name := by
  simp only [function, bind_eq_ok, Prod.exists, pure_eq_ok, Prod.mk.injEq] at h
  obtain ⟨ty, t, _, tok, st2, h2, params, st3, h3, body, st4, h4, st5, h5, _, rfl⟩ := h
  have f2 : st2.globals = st.globals ∧ st2.is_function = st.is_function := by
    have := expect_st_frame h2
    simpa [Frame] using this.2
  have f3 := param_list_globals h3
  simp only [enter_scope, PState.globals_set_scope, PState.globals_set_globals,
    PState.is_function_set_scope, PState.is_function_set_globals] at f3
  have f4 := (statement_frame uac fuel).2.2.1 _ _ _
    (by simp only [PState.is_function_set_globals]; rw [f3.2, f2.2]; exact hf) h4
  obtain ⟨_, outer, _, rfl⟩ := exit_scope_ok h5
  refine ⟨tok.name, ?_⟩
  simp only [PState.globals_set_scope, PState.globals_set_globals]
  rw [chain_assign_names _ (set_locals_keeps _), chain_assign_names _ (set_body_keeps _),
    f4.2.1]
  simp only [PState.globals_set_globals]
  rw [chain_assign_names _ (set_params_keeps _), f3.1, f2.1]
  simp [mknode, Node.set_type, Node.set_name, Node.set_is_function, Node.set_next,
    global_members, Node.name]

theorem check_next_globals {st st' : PState} (h : check_next_top_level_item st = .ok st') :
    st'.globals = st.globals ∧ st'.t = st.t := by
  simp only [check_next_top_level_item, bind_eq_ok, Prod.exists] at h
  obtain ⟨_, _, _, id, _, _, h⟩ := h
  cases id with
  | none =>
    simp only [pure_eq_ok] at h
    rw [← h]; simp
  | some _ =>
    simp only [bind_eq_ok, Prod.exists, pure_eq_ok] at h
    obtain ⟨_, _, _, rfl⟩ := h
    simp

theorem declaration_global_names {st st' : PState} {n : Node} (hf : st.is_function = 0)
    (h : declaration st = .ok (n, st')) :
    ∃ name, (global_members st'.globals).map Node.name =
      name :: (global_members st.globals).map Node.name := by
  simp only [declaration, bind_eq_ok, Prod.exists] at h
  obtain ⟨ty, t, _, tok, st1, h1, v, st2, h2, _, st3, h3, h⟩ := h
  simp only [pure_eq_ok, Prod.mk.injEq] at h
  have f1 : Frame st st1 := (Frame.of_set_t st t).ftrans (expect_st_frame h1)
  have hf1 : ¬ st1.is_function ≠ 0 := by rw [f1.2.2, hf]; simp
  rw [if_neg hf1] at h2
  unfold mkgvar at h2
  split at h2
  · cases h2
  · simp only [Except.ok.injEq, Prod.mk.injEq] at h2
    have f3 := expect_st_frame h3
    refine ⟨tok.name, ?_⟩
    rw [← h.2, f3.2.1, ← h2.2]
    simp [mkvar, mknode, Node.set_type, Node.set_name, Node.set_is_global, Node.set_next,
      global_members, Node.name, f1.2.1]

theorem topSteps_declares {uac : CType → CType → CType} {st st' : PState} {name : CStr}
    (hd : declares (global_members st.globals) name) (h : TopSteps uac st st') :
    declares (global_members st'.globals) name := by
  induction h with
  | refl => exact hd
  | @item st1 st1' st2 n fuel _ hc hi ih =>
    have hg := check_next_globals hc
    rw [declares_iff_names] at ih ⊢
    by_cases hf : st1'.is_function ≠ 0
    · rw [if_pos hf] at hi
      obtain ⟨fname, e⟩ := function_names hf hi
      rw [e, hg.1]
      exact List.mem_cons_of_mem _ ih
    · rw [if_neg hf] at hi
      obtain ⟨fname, e⟩ := declaration_global_names (not_not.mp hf) hi
      rw [e, hg.1]
      exact List.mem_cons_of_mem _ ih

/-! ## Redefinition -/

theorem type_spec_head {t t' : List Token} {ty : CType} (h : type_spec t = .ok (ty, t')) :
    ∃ c rest, t = c :: rest ∧ c.kind ≠ TK_CLOSING_BRACES ∧ c.kind ≠ TK_EOI ∧
      TK_VOID.toCtorIdx ≤ c.kind.toCtorIdx ∧ c.kind.toCtorIdx ≤ TK_LONG.toCtorIdx := by
  cases t with
  | nil => simp [type_spec, consume, bind, Except.bind] at h
  | cons c rest =>
    refine ⟨c, rest, rfl, ?_⟩
    by_cases h1 : c.kind = TK_VOID
    · rw [h1]; decide
    by_cases h2 : c.kind = TK_UNSIGNED
    · rw [h2]; decide
    by_cases h3 : c.kind = TK_CHAR
    · rw [h3]; decide
    by_cases h4 : c.kind = TK_SHORT
    · rw [h4]; decide
    by_cases h5 : c.kind = TK_INT
    · rw [h5]; decide
    by_cases h6 : c.kind = TK_LONG
    · rw [h6]; decide
    simp [type_spec, consume, h1, h2, h3, h4, h5, h6, bind, Except.bind, pure, Except.pure] at h

theorem comp_stat_loop_redefine {uac : CType → CType → CType} {st : PState} {list : Node}
    {outer : List Node} {ty : CType} {tok : Token} {rest : List Token}
    (hf : st.is_function ≠ 0) (hs : st.scope = list :: outer)
    (ht : type_spec st.t = .ok (ty, tok :: rest)) (hk : tok.kind = TK_IDENT)
    (hd : declares (scope_members list) tok.name) (fuel : Nat) (body : Node) :
    comp_stat_loop uac (fuel + 1) body st =
      .error (.error "redefine local variable \"%s\"") := by
  obtain ⟨c, r, hc, h1, _, h3, h4⟩ := type_spec_head ht
  have hdecl := declaration_redefine_local hf hs ht hk hd
  rw [comp_stat_loop]
  simp [hc, h1, h3, h4, hdecl, bind, Except.bind]

theorem trans_unit_redefine {uac : CType → CType → CType} {st : PState}
    {ty : CType} {tok c : Token} {rest : List Token}
    (ht : type_spec st.t = .ok (ty, tok :: c :: rest)) (hk : tok.kind = TK_IDENT)
    (hc : c.kind ≠ TK_OPENING_PARENTHESES)
    (hd : declares (global_members st.globals) tok.name) (fuel : Nat) :
    trans_unit uac (fuel + 1) st = .error (.error "redefine global variable \"%s\"") := by
  obtain ⟨c0, r, hc0, _, h2, _, _⟩ := type_spec_head ht
  have hchk : check_next_top_level_item st = .ok (st.set_is_function 0) := by
    simp [check_next_top_level_item, ht, consume, hk, hc, bind, Except.bind, pure, Except.pure]
  have hdecl : declaration (st.set_is_function 0) =
      .error (.error "redefine global variable \"%s\"") :=
    declaration_redefine_global (by simp) (by simpa using ht) hk (by simpa using hd)
  rw [trans_unit]
  simp [hc0, h2, hchk, hdecl, bind, Except.bind]

/-- C5: `mklvar(name, ty)` fails with the error "redefine local variable" if
and only if the list of the current, innermost scope holds a node of that name,
and `mkgvar(name, ty)` fails with "redefine global variable" if and only if the
global list holds an entry of that name; otherwise each succeeds and puts the
new node in front of its list. So, once a block has declared a name, a later
declaration of that name in the same block makes the loop of `comp_stat` fail,
and once the global list holds a name, a later global declaration of it makes
the loop of `trans_unit` fail. -/
theorem redefinition_check (uac : CType → CType → CType) (name : CStr) (ty : CType)
    (st : PState) :
    (∀ list outer, st.scope = list :: outer →
      (declares (scope_members list) name →
        mklvar name ty st = .error (.error "redefine local variable \"%s\"")) ∧
      (¬ declares (scope_members list) name →
        ∃ n, mklvar name ty st = .ok (n, (st.set_locals n).set_scope (n :: outer)) ∧
          n.name = name ∧ n.type = ty ∧ scope_members n = n :: scope_members list)) ∧
    (declares (global_members st.globals) name →
      mkgvar name ty st = .error (.error "redefine global variable \"%s\"")) ∧
    (¬ declares (global_members st.globals) name →
      ∃ n, mkgvar name ty st = .ok (n, st.set_globals n) ∧
        n.name = name ∧ n.type = ty ∧ global_members n = n :: global_members st.globals) ∧
    (∀ list outer st' ty2 tok rest, st.is_function ≠ 0 → st.scope = list :: outer →
      declares (scope_members list) name → BlockSteps uac st st' →
      type_spec st'.t = .ok (ty2, tok :: rest) → tok.kind = TK_IDENT → tok.name = name →
      declaration st' = .error (.error "redefine local variable \"%s\"") ∧
      ∀ fuel body, comp_stat_loop uac (fuel + 1) body st' =
        .error (.error "redefine local variable \"%s\"")) ∧
    (∀ st' ty2 tok c rest, declares (global_members st.globals) name → TopSteps uac st st' →
      type_spec st'.t = .ok (ty2, tok :: c :: rest) → tok.kind = TK_IDENT →
      c.kind ≠ TK_OPENING_PARENTHESES → tok.name = name →
      ∀ fuel, trans_unit uac (fuel + 1) st' =
        .error (.error "redefine global variable \"%s\"")) := by
  refine ⟨?_, ?_, ?_, ?_, ?_⟩
  · intro list outer hs
    constructor
    · intro hd
      have := (declares_iff_find_scope name list).1 hd
      simp [mklvar, hs, this]
    · intro hd
      have := (find_scope_spec name list).2 hd
      refine ⟨(((mkvar name ty).set_is_global 0).set_next st.locals).set_scope_next list,
        by simp [mklvar, hs, this], rfl, rfl, ?_⟩
      simp [mkvar, mknode, Node.set_type, Node.set_name, Node.set_is_global, Node.set_next,
        Node.set_scope_next, scope_members]
  · intro hd
    have := (declares_iff_find_global name st.globals).1 hd
    simp [mkgvar, this]
  · intro hd
    have := (find_global_spec name st.globals).2 hd
    refine ⟨((mkvar name ty).set_is_global 1).set_next st.globals,
      by simp [mkgvar, this], rfl, rfl, ?_⟩
    simp [mkvar, mknode, Node.set_type, Node.set_name, Node.set_is_global, Node.set_next,
      global_members]
  · intro list outer st' ty2 tok rest hf hs hd hsteps ht hk hn
    obtain ⟨l, l', o, e1, e2, _, e4, e5⟩ := blockSteps_sameBlock hf (by rw [hs]; simp) hsteps
    rw [hs] at e1
    injection e1 with e1a e1b
    subst e1a e1b
    have hd' : declares (scope_members l') tok.name := by
      rw [hn, declares_iff_find_scope]
      have hfound := (declares_iff_find_scope name list).1 hd
      rw [e5 name hfound]; exact hfound
    have hf' : st'.is_function ≠ 0 := by rw [e4]; exact hf
    exact ⟨declaration_redefine_local hf' e2 ht hk hd',
      fun fuel body => comp_stat_loop_redefine hf' e2 ht hk hd' fuel body⟩
  · intro st' ty2 tok c rest hd hsteps ht hk hc hn fuel
    have hd' := topSteps_declares hd hsteps
    rw [← hn] at hd'
    exact trans_unit_redefine ht hk hc hd' fuel

theorem redefinition_check_witness :
    mklvar (some "a") longtype state_in_block =
      .error (.error "redefine local variable \"%s\"") ∧
    (∃ n, mklvar (some "b") longtype state_in_block =
        .ok (n, (state_in_block.set_locals n).set_scope (n :: [.null])) ∧
      n.name = some "b" ∧ n.type = longtype ∧
      scope_members n = n :: scope_members local_a) ∧
    mkgvar (some "a") chartype state_top_level =
      .error (.error "redefine global variable \"%s\"") ∧
    (declaration state_in_block = .error (.error "redefine local variable \"%s\"") ∧
      ∀ fuel body, comp_stat_loop uac_left (fuel + 1) body state_in_block =
        .error (.error "redefine local variable \"%s\"")) ∧
    (∀ fuel, trans_unit uac_left (fuel + 1) state_top_level =
      .error (.error "redefine global variable \"%s\"")) :=
  ⟨((redefinition_check uac_left (some "a") longtype state_in_block).1
      local_a [.null] rfl).1 (by decide),
   ((redefinition_check uac_left (some "b") longtype state_in_block).1
      local_a [.null] rfl).2 (by decide),
   (redefinition_check uac_left (some "a") chartype state_top_level).2.1 (by decide),
   (redefinition_check uac_left (some "a") longtype state_in_block).2.2.2.1
      local_a [.null] state_in_block longtype (tk_ident "a")
      [tk TK_SIMI, tk TK_CLOSING_BRACES, tk TK_EOI] (by decide) rfl (by decide)
      (BlockSteps.refl _) rfl rfl rfl,
   (redefinition_check uac_left (some "a") chartype state_top_level).2.2.2.2
      state_top_level chartype (tk_ident "a") (tk TK_SIMI) [tk TK_EOI] (by decide)
      (TopSteps.refl _) rfl rfl (by decide) rfl⟩

/-- The programs `int main() { int a; a; long a; }` and
`int x; int f() { } int x;` are rejected. -/
theorem parse_redefine_programs :
    parse uac_left 20
      [tk TK_INT, tk_ident "main", tk TK_OPENING_PARENTHESES, tk TK_CLOSING_PARENTHESES,
       tk TK_OPENING_BRACES, tk TK_INT, tk_ident "a", tk TK_SIMI, tk_ident "a", tk TK_SIMI,
       tk TK_LONG, tk_ident "a", tk TK_SIMI, tk TK_CLOSING_BRACES, tk TK_EOI] =
      .error (.error "redefine local variable \"%s\"") ∧
    parse uac_left 20
      [tk TK_INT, tk_ident "x", tk TK_SIMI,
       tk TK_INT, tk_ident "f", tk TK_OPENING_PARENTHESES, tk TK_CLOSING_PARENTHESES,
       tk TK_OPENING_BRACES, tk TK_CLOSING_BRACES,
       tk TK_INT, tk_ident "x", tk TK_SIMI, tk TK_EOI] =
      .error (.error "redefine global variable \"%s\"") := by
  constructor <;> rfl

/-! ## Shadowing -/

/-- In `int a; int main() { a; long a; { char a; a; } a; }` the first use of
`a` is the global variable, the use in the nested block is the `char`
variable of that block, and the use after the nested block is the `long`
variable of the outer block. -/
theorem parse_shadowing_program :
    (returned (parse uac_left 20
      [tk TK_INT, tk_ident "a", tk TK_SIMI,
       tk TK_INT, tk_ident "main", tk TK_OPENING_PARENTHESES, tk TK_CLOSING_PARENTHESES,
       tk TK_OPENING_BRACES, tk_ident "a", tk TK_SIMI, tk TK_LONG, tk_ident "a", tk TK_SIMI,
       tk TK_OPENING_BRACES, tk TK_CHAR, tk_ident "a", tk TK_SIMI, tk_ident "a", tk TK_SIMI,
       tk TK_CLOSING_BRACES, tk_ident "a", tk TK_SIMI, tk TK_CLOSING_BRACES,
       tk TK_EOI])).1.body.body.body.type = inttype ∧
    (returned (parse uac_left 20
      [tk TK_INT, tk_ident "a", tk TK_SIMI,
       tk TK_INT, tk_ident "main", tk TK_OPENING_PARENTHESES, tk TK_CLOSING_PARENTHESES,
       tk TK_OPENING_BRACES, tk_ident "a", tk TK_SIMI, tk TK_LONG, tk_ident "a", tk TK_SIMI,
       tk TK_OPENING_BRACES, tk TK_CHAR, tk_ident "a", tk TK_SIMI, tk_ident "a", tk TK_SIMI,
       tk TK_CLOSING_BRACES, tk_ident "a", tk TK_SIMI, tk TK_CLOSING_BRACES,
       tk TK_EOI])).1.body.body.next.body.body.type = chartype ∧
    (returned (parse uac_left 20
      [tk TK_INT, tk_ident "a", tk TK_SIMI,
       tk TK_INT, tk_ident "main", tk TK_OPENING_PARENTHESES, tk TK_CLOSING_PARENTHESES,
       tk TK_OPENING_BRACES, tk_ident "a", tk TK_SIMI, tk TK_LONG, tk_ident "a", tk TK_SIMI,
       tk TK_OPENING_BRACES, tk TK_CHAR, tk_ident "a", tk TK_SIMI, tk_ident "a", tk TK_SIMI,
       tk TK_CLOSING_BRACES, tk_ident "a", tk TK_SIMI, tk TK_CLOSING_BRACES,
       tk TK_EOI])).1.body.body.next.next.body.type = longtype := by
  refine ⟨?_, ?_, ?_⟩ <;> rfl

/-! ## Return statements -/

theorem chain_append_null (a : Node) : chain_append a .null = a := by
  induction a with
  | null => rfl
  | mk a next scope_next left right body cond then_ els init post args params locals
      ih _ _ _ _ _ _ _ _ _ _ _ _ =>
    simp [chain_append, ih]

theorem returns_typed_chain_append (R : CType) (a b : Node)
    (ha : returns_typed R a) (hb : returns_typed R b) :
    returns_typed R (chain_append a b) := by
  induction a with
  | null => simpa [chain_append] using hb
  | mk a next scope_next left right body cond then_ els init post args params locals
      ih _ _ _ _ _ _ _ _ _ _ _ _ =>
    simp only [returns_typed] at ha
    simp only [chain_append, returns_typed]
    exact ⟨ih ha.1, ha.2.1, ha.2.2.1, ha.2.2.2⟩

theorem expr_stat_returns {uac : CType → CType → CType} {fuel : Nat} {st st' : PState}
    {n : Node} (R : CType) (h : expr_stat uac fuel st = .ok (n, st')) :
    returns_typed R n := by
  simp only [expr_stat, bind_eq_ok, Prod.exists] at h
  obtain ⟨semi, st1, h1, h⟩ := h
  cases semi with
  | some _ =>
    simp only [pure_eq_ok, Prod.mk.injEq] at h
    rw [← h.1]; trivial
  | none =>
    simp only [bind_eq_ok, Prod.exists, pure_eq_ok, Prod.mk.injEq] at h
    obtain ⟨_, st2, h2, _, st3, h3, rfl, _⟩ := h
    simp [returns_typed, mkaux, mknode, Node.set_body]

theorem statement_returns_step (uac : CType → CType → CType) (fuel : Nat)
    (ih_comp : ∀ st n st', st.is_function ≠ 0 → comp_stat uac fuel st = .ok (n, st') →
      returns_typed st.globals.type n)
    (ih_if : ∀ st n st', st.is_function ≠ 0 → if_stat uac fuel st = .ok (n, st') →
      returns_typed st.globals.type n)
    (ih_while : ∀ st n st', st.is_function ≠ 0 → while_stat uac fuel st = .ok (n, st') →
      returns_typed st.globals.type n)
    (ih_do : ∀ st n st', st.is_function ≠ 0 → dowhile_stat uac fuel st = .ok (n, st') →
      returns_typed st.globals.type n)
    (ih_for : ∀ st n st', st.is_function ≠ 0 → for_stat uac fuel st = .ok (n, st') →
      returns_typed st.globals.type n) :
    ∀ st n st', st.is_function ≠ 0 → statement uac (fuel + 1) st = .ok (n, st') →
      returns_typed st.globals.type n := by
  intro st n st' hf h
  rw [statement] at h
  simp only [bind_eq_ok, Prod.exists] at h
  obtain ⟨b, _, h⟩ := h
  by_cases hb : b = true
  · rw [if_pos hb] at h; exact ih_comp _ _ _ hf h
  rw [if_neg hb] at h
  simp only [bind_eq_ok, Prod.exists] at h
  obtain ⟨c, st1, h1, h⟩ := h
  have f1 := consume_st_frame h1
  by_cases hc : c.isSome = true
  · rw [if_pos hc] at h
    simp only [bind_eq_ok, Prod.exists, pure_eq_ok, Prod.mk.injEq] at h
    obtain ⟨e, st2, h2, _, st3, h3, rfl, _⟩ := h
    simp [returns_typed, mknode, Node.set_args, Node.set_callee_name, Node.set_type]
  rw [if_neg hc] at h
  simp only [bind_eq_ok, Prod.exists] at h
  obtain ⟨b, _, h⟩ := h
  by_cases hb : b = true
  · rw [if_pos hb] at h
    have := ih_if _ _ _ (f1.ffn hf) h
    rwa [f1.2.1] at this
  rw [if_neg hb] at h
  simp only [bind_eq_ok, Prod.exists] at h
  obtain ⟨b, _, h⟩ := h
  by_cases hb : b = true
  · rw [if_pos hb] at h
    have := ih_while _ _ _ (f1.ffn hf) h
    rwa [f1.2.1] at this
  rw [if_neg hb] at h
  simp only [bind_eq_ok, Prod.exists] at h
  obtain ⟨b, _, h⟩ := h
  by_cases hb : b = true
  · rw [if_pos hb] at h
    have := ih_do _ _ _ (f1.ffn hf) h
    rwa [f1.2.1] at this
  rw [if_neg hb] at h
  simp only [bind_eq_ok, Prod.exists] at h
  obtain ⟨b, _, h⟩ := h
  by_cases hb : b = true
  · rw [if_pos hb] at h
    have := ih_for _ _ _ (f1.ffn hf) h
    rwa [f1.2.1] at this
  rw [if_neg hb] at h
  simp only [bind_eq_ok, Prod.exists] at h
  obtain ⟨c, st2, h2, h⟩ := h
  have f2 := f1.ftrans (consume_st_frame h2)
  by_cases hc : c.isSome = true
  · rw [if_pos hc] at h
    simp only [bind_eq_ok, Prod.exists, pure_eq_ok, Prod.mk.injEq] at h
    obtain ⟨_, st3, h3, rfl, _⟩ := h
    simp [returns_typed, mknode]
  rw [if_neg hc] at h
  simp only [bind_eq_ok, Prod.exists] at h
  obtain ⟨c, st3, h3, h⟩ := h
  have f3 := f2.ftrans (consume_st_frame h3)
  by_cases hc : c.isSome = true
  · rw [if_pos hc] at h
    simp only [bind_eq_ok, Prod.exists, pure_eq_ok, Prod.mk.injEq] at h
    obtain ⟨_, st4, h4, rfl, _⟩ := h
    simp [returns_typed, mknode]
  rw [if_neg hc] at h
  simp only [bind_eq_ok, Prod.exists] at h
  obtain ⟨c, st4, h4, h⟩ := h
  have f4 := f3.ftrans (consume_st_frame h4)
  by_cases hc : c.isSome = true
  · rw [if_pos hc] at h
    simp only [bind_eq_ok, Prod.exists] at h
    obtain ⟨semi, st5, h5, h⟩ := h
    have f5 := f4.ftrans (consume_st_frame h5)
    by_cases hs : semi.isSome = true
    · rw [if_pos hs] at h
      simp only [pure_eq_ok, Prod.mk.injEq] at h
      rw [← h.1]
      simp [returns_typed, mknode, return_body_ok]
    · rw [if_neg hs] at h
      simp only [bind_eq_ok, Prod.exists] at h
      obtain ⟨e, st6, h6, h⟩ := h
      have f6 := f5.ftrans (with_tokens_frame h6)
      split at h
      · rename_i ea ga hea hga
        simp only [bind_eq_ok, Prod.exists, pure_eq_ok, Prod.mk.injEq] at h
        obtain ⟨_, st7, h7, rfl, _⟩ := h
        have he : e ≠ .null := by
          rintro rfl; simp [Node.attrs] at hea
        have hty : e.type = ea.type := by
          cases e with
          | null => exact absurd rfl he
          | mk _ _ _ _ _ _ _ _ _ _ _ _ _ _ =>
            simp only [Node.attrs, Option.some.injEq] at hea
            simp [Node.type, hea]
        have hR : st.globals.type = ga.type := by
          rw [← f6.2.1]
          cases hg : st6.globals with
          | null => rw [hg] at hga; simp [Node.attrs] at hga
          | mk _ _ _ _ _ _ _ _ _ _ _ _ _ _ =>
            rw [hg] at hga
            simp only [Node.attrs, Option.some.injEq] at hga
            simp [Node.type, hga]
        simp only [returns_typed, mknode, Node.set_body, true_and, A_RETURN, A_BLOCK, A_FOR,
          A_DOWHILE, A_IF]
        refine ⟨fun _ => Or.inr ⟨e, he, ?_⟩, fun hk => absurd hk (by decide),
          fun hk => absurd hk (by decide)⟩
        rw [hR, hty]
      · cases h
  · rw [if_neg hc] at h
    exact expr_stat_returns _ h

theorem declaration_node {st st' : PState} {n : Node} (h : declaration st = .ok (n, st')) :
    n = .null := by
  simp only [declaration, bind_eq_ok, Prod.exists, pure_eq_ok, Prod.mk.injEq] at h
  obtain ⟨_, _, _, _, _, _, _, _, _, _, _, _, h, _⟩ := h
  exact h.symm

theorem comp_stat_loop_returns_step (uac : CType → CType → CType) (fuel : Nat)
    (ih_loop : ∀ body st n st', st.is_function ≠ 0 → st.scope ≠ [] →
      returns_typed st.globals.type body →
      comp_stat_loop uac fuel body st = .ok (n, st') → returns_typed st.globals.type n)
    (ih_stmt : ∀ st n st', st.is_function ≠ 0 → statement uac fuel st = .ok (n, st') →
      returns_typed st.globals.type n) :
    ∀ body st n st', st.is_function ≠ 0 → st.scope ≠ [] →
      returns_typed st.globals.type body →
      comp_stat_loop uac (fuel + 1) body st = .ok (n, st') →
      returns_typed st.globals.type n := by
  intro body st n st' hf hs hb h
  rw [comp_stat_loop] at h
  split at h
  · cases h
  · rename_i c rest ht
    by_cases hk : c.kind ≠ TK_CLOSING_BRACES
    · rw [if_pos hk] at h
      simp only [bind_eq_ok, Prod.exists] at h
      obtain ⟨n1, st1, h1, h⟩ := h
      have b1 : SameBlock st st1 ∧ returns_typed st.globals.type n1 := by
        by_cases hr : c.kind.toCtorIdx ≥ TK_VOID.toCtorIdx ∧
            c.kind.toCtorIdx ≤ TK_LONG.toCtorIdx
        · rw [if_pos hr] at h1
          refine ⟨declaration_sameBlock hf h1, ?_⟩
          rw [declaration_node h1]; simp [returns_typed]
        · rw [if_neg hr] at h1
          exact ⟨SameBlock.of_frame ((statement_frame uac fuel).1 _ _ _ hf h1) hs,
            ih_stmt _ _ _ hf h1⟩
      have hg : st1.globals = st.globals := by
        obtain ⟨_, _, _, _, _, e3, _⟩ := b1.1
        exact e3
      have := ih_loop (chain_append body n1) st1 n st' (b1.1.bfn hf) b1.1.scope_ne
        (by rw [hg]; exact returns_typed_chain_append _ _ _ hb b1.2) h
      rwa [hg] at this
    · rw [if_neg hk] at h
      simp only [pure_eq_ok, Prod.mk.injEq] at h
      rw [← h.1]
      exact hb

theorem comp_stat_returns_step (uac : CType → CType → CType) (fuel : Nat)
    (ih_loop : ∀ body st n st', st.is_function ≠ 0 → st.scope ≠ [] →
      returns_typed st.globals.type body →
      comp_stat_loop uac fuel body st = .ok (n, st') → returns_typed st.globals.type n) :
    ∀ st n st', st.is_function ≠ 0 → comp_stat uac (fuel + 1) st = .ok (n, st') →
      returns_typed st.globals.type n := by
  intro st n st' hf h
  rw [comp_stat] at h
  simp only [bind_eq_ok, Prod.exists, pure_eq_ok, Prod.mk.injEq] at h
  obtain ⟨_, st1, h1, body, st3, h3, _, st4, h4, st5, h5, rfl, _⟩ := h
  have f1 := expect_st_frame h1
  have hf2 : (enter_scope st1).is_function ≠ 0 := by
    simp [enter_scope, f1.2.2, hf]
  have hs2 : (enter_scope st1).scope ≠ [] := by simp [enter_scope]
  have hg : (enter_scope st1).globals = st.globals := by
    simp [enter_scope, f1.2.1]
  have := ih_loop .null _ _ _ hf2 hs2 (by simp [returns_typed]) h3
  rw [hg] at this
  simp only [returns_typed, mkaux, mknode, Node.set_left, true_and, A_RETURN, A_BLOCK, A_FOR,
    A_DOWHILE, A_IF]
  exact ⟨fun hk => absurd hk (by decide), fun _ => this, fun hk => absurd hk (by decide)⟩

theorem if_stat_returns_step (uac : CType → CType → CType) (fuel : Nat)
    (ih_stmt : ∀ st n st', st.is_function ≠ 0 → statement uac fuel st = .ok (n, st') →
      returns_typed st.globals.type n) :
    ∀ st n st', st.is_function ≠ 0 → if_stat uac (fuel + 1) st = .ok (n, st') →
      returns_typed st.globals.type n := by
  intro st n st' hf h
  rw [if_stat] at h
  simp only [bind_eq_ok, Prod.exists] at h
  obtain ⟨_, st1, h1, _, st2, h2, c, st3, h3, _, st4, h4, th, st5, h5, e, st6, h6, h⟩ := h
  have f4 : Frame st st4 := (((expect_st_frame h1).ftrans (expect_st_frame h2)).ftrans
    (with_tokens_frame h3)).ftrans (expect_st_frame h4)
  have r5 := ih_stmt _ _ _ (f4.ffn hf) h5
  rw [f4.2.1] at r5
  have f5 := f4.ftrans ((statement_frame uac fuel).1 _ _ _ (f4.ffn hf) h5)
  have f6 := f5.ftrans (consume_st_frame h6)
  by_cases he : e.isSome = true
  · rw [if_pos he] at h
    simp only [bind_eq_ok, Prod.exists, pure_eq_ok, Prod.mk.injEq] at h
    obtain ⟨el, st7, h7, rfl, _⟩ := h
    have r7 := ih_stmt _ _ _ (f6.ffn hf) h7
    rw [f6.2.1] at r7
    simp only [returns_typed, mknode, Node.set_cond, Node.set_then_, Node.set_els, true_and,
      A_RETURN, A_BLOCK, A_FOR, A_DOWHILE, A_IF]
    exact ⟨fun hk => absurd hk (by decide), fun hk => absurd hk (by decide), fun _ => ⟨r5, r7⟩⟩
  · rw [if_neg he] at h
    simp only [pure_eq_ok, Prod.mk.injEq] at h
    rw [← h.1]
    simp only [returns_typed, mknode, Node.set_cond, Node.set_then_, true_and,
      A_RETURN, A_BLOCK, A_FOR, A_DOWHILE, A_IF]
    exact ⟨fun hk => absurd hk (by decide), fun hk => absurd hk (by decide),
      fun _ => ⟨r5, trivial⟩⟩

theorem while_stat_returns_step (uac : CType → CType → CType) (fuel : Nat)
    (ih_stmt : ∀ st n st', st.is_function ≠ 0 → statement uac fuel st = .ok (n, st') →
      returns_typed st.globals.type n) :
    ∀ st n st', st.is_function ≠ 0 → while_stat uac (fuel + 1) st = .ok (n, st') →
      returns_typed st.globals.type n := by
  intro st n st' hf h
  rw [while_stat] at h
  simp only [bind_eq_ok, Prod.exists, pure_eq_ok, Prod.mk.injEq] at h
  obtain ⟨_, st1, h1, _, st2, h2, c, st3, h3, _, st4, h4, b, st5, h5, rfl, _⟩ := h
  have f4 : Frame st st4 := (((expect_st_frame h1).ftrans (expect_st_frame h2)).ftrans
    (with_tokens_frame h3)).ftrans (expect_st_frame h4)
  have r5 := ih_stmt _ _ _ (f4.ffn hf) h5
  rw [f4.2.1] at r5
  simp only [returns_typed, mknode, Node.set_cond, Node.set_body, true_and,
    A_RETURN, A_BLOCK, A_FOR, A_DOWHILE, A_IF]
  exact ⟨fun hk => absurd hk (by decide), fun _ => r5, fun hk => absurd hk (by decide)⟩

theorem dowhile_stat_returns_step (uac : CType → CType → CType) (fuel : Nat)
    (ih_stmt : ∀ st n st', st.is_function ≠ 0 → statement uac fuel st = .ok (n, st') →
      returns_typed st.globals.type n) :
    ∀ st n st', st.is_function ≠ 0 → dowhile_stat uac (fuel + 1) st = .ok (n, st') →
      returns_typed st.globals.type n := by
  intro st n st' hf h
  rw [dowhile_stat] at h
  simp only [bind_eq_ok, Prod.exists, pure_eq_ok, Prod.mk.injEq] at h
  obtain ⟨_, st1, h1, b, st2, h2, _, st3, h3, _, st4, h4, c, st5, h5, _, st6, h6, _, st7, h7,
    rfl, _⟩ := h
  have f1 := expect_st_frame h1
  have r2 := ih_stmt _ _ _ (f1.ffn hf) h2
  rw [f1.2.1] at r2
  simp only [returns_typed, mknode, Node.set_cond, Node.set_body, true_and,
    A_RETURN, A_BLOCK, A_FOR, A_DOWHILE, A_IF]
  exact ⟨fun hk => absurd hk (by decide), fun _ => r2, fun hk => absurd hk (by decide)⟩

theorem set_body_returns (R : CType) (n b : Node) (hn : n ≠ .null) (hk : n.kind = A_FOR)
    (hnext : n.next = .null) (hb : returns_typed R b) : returns_typed R (n.set_body b) := by
  cases n with
  | null => exact absurd rfl hn
  | mk a next _ _ _ body _ then_ els _ _ _ _ _ =>
    simp only [Node.kind, Node.next] at hk hnext
    subst hnext
    simp only [Node.set_body, returns_typed, true_and, hk, A_RETURN, A_BLOCK, A_FOR, A_DOWHILE,
      A_IF]
    exact ⟨fun hk => absurd hk (by decide), fun _ => hb, fun hk => absurd hk (by decide)⟩

theorem for_head_set (n v : Node) (h : n ≠ .null ∧ n.kind = A_FOR ∧ n.next = .null) :
    (n.set_init v ≠ .null ∧ (n.set_init v).kind = A_FOR ∧ (n.set_init v).next = .null) ∧
    (n.set_cond v ≠ .null ∧ (n.set_cond v).kind = A_FOR ∧ (n.set_cond v).next = .null) ∧
    (n.set_post v ≠ .null ∧ (n.set_post v).kind = A_FOR ∧ (n.set_post v).next = .null) := by
  cases n with
  | null => exact absurd rfl h.1
  | mk a next _ _ _ body _ then_ els _ _ _ _ _ =>
    simpa [Node.set_init, Node.set_cond, Node.set_post, Node.kind, Node.next] using h.2

theorem for_stat_returns_step (uac : CType → CType → CType) (fuel : Nat)
    (ih_stmt : ∀ st n st', st.is_function ≠ 0 → statement uac fuel st = .ok (n, st') →
      returns_typed st.globals.type n) :
    ∀ st n st', st.is_function ≠ 0 → for_stat uac (fuel + 1) st = .ok (n, st') →
      returns_typed st.globals.type n := by
  intro st n st' hf h
  rw [for_stat] at h
  simp only [bind_eq_ok, Prod.exists, pure_eq_ok, Prod.mk.injEq] at h
  obtain ⟨_, st1, h1, _, st2, h2, semi, st3, h3, n4, st4, h4, semi2, st5, h5, n6, st6, h6,
    close, st7, h7, n8, st8, h8, b, st9, h9, rfl, _⟩ := h
  have f3 : Frame st st3 := ((expect_st_frame h1).ftrans (expect_st_frame h2)).ftrans
    (consume_st_frame h3)
  have k0 : mknode A_FOR ≠ .null ∧ (mknode A_FOR).kind = A_FOR ∧
      (mknode A_FOR).next = .null := by
    simp [mknode, Node.kind, Node.next]
  have f4 : Frame st3 st4 ∧ (n4 ≠ .null ∧ n4.kind = A_FOR ∧ n4.next = .null) := by
    by_cases hs : semi.isSome = true
    · rw [if_pos hs] at h4
      simp only [pure_eq_ok, Prod.mk.injEq] at h4
      rw [← h4.2, ← h4.1]; exact ⟨Frame.frefl _, k0⟩
    · rw [if_neg hs] at h4
      simp only [bind_eq_ok, Prod.exists, pure_eq_ok, Prod.mk.injEq] at h4
      obtain ⟨i, st', h', rfl, rfl⟩ := h4
      exact ⟨expr_stat_frame h', (for_head_set _ i k0).1⟩
  have f5 := consume_st_frame h5
  have f6 : Frame st5 st6 ∧ (n6 ≠ .null ∧ n6.kind = A_FOR ∧ n6.next = .null) := by
    by_cases hs : semi2.isSome = true
    · rw [if_pos hs] at h6
      simp only [pure_eq_ok, Prod.mk.injEq] at h6
      rw [← h6.2, ← h6.1]; exact ⟨Frame.frefl _, f4.2⟩
    · rw [if_neg hs] at h6
      simp only [bind_eq_ok, Prod.exists, pure_eq_ok, Prod.mk.injEq] at h6
      obtain ⟨c, st', h', _, st'', h'', rfl, rfl⟩ := h6
      exact ⟨(with_tokens_frame h').ftrans (expect_st_frame h''), (for_head_set _ c f4.2).2.1⟩
  have f7 := consume_st_frame h7
  have f8 : Frame st7 st8 ∧ (n8 ≠ .null ∧ n8.kind = A_FOR ∧ n8.next = .null) := by
    by_cases hs : close.isSome = true
    · rw [if_pos hs] at h8
      simp only [pure_eq_ok, Prod.mk.injEq] at h8
      rw [← h8.2, ← h8.1]; exact ⟨Frame.frefl _, f6.2⟩
    · rw [if_neg hs] at h8
      simp only [bind_eq_ok, Prod.exists, pure_eq_ok, Prod.mk.injEq] at h8
      obtain ⟨p, st', h', _, st'', h'', rfl, rfl⟩ := h8
      exact ⟨(with_tokens_frame h').ftrans (expect_st_frame h''),
        (for_head_set _ _ f6.2).2.2⟩
  have f := ((((f3.ftrans f4.1).ftrans f5).ftrans f6.1).ftrans f7).ftrans f8.1
  have r9 := ih_stmt _ _ _ (f.ffn hf) h9
  rw [f.2.1] at r9
  exact set_body_returns _ _ _ f8.2.1 f8.2.2.1 f8.2.2.2 r9

/-- Every `return` statement in a parsed statement carries either no
expression or an expression of the type at the head of `globals`, converted
where its own type differs. -/
theorem statement_returns (uac : CType → CType → CType) (fuel : Nat) :
    (∀ st n st', st.is_function ≠ 0 → statement uac fuel st = .ok (n, st') →
      returns_typed st.globals.type n) ∧
    (∀ body st n st', st.is_function ≠ 0 → st.scope ≠ [] →
      returns_typed st.globals.type body →
      comp_stat_loop uac fuel body st = .ok (n, st') → returns_typed st.globals.type n) ∧
    (∀ st n st', st.is_function ≠ 0 → comp_stat uac fuel st = .ok (n, st') →
      returns_typed st.globals.type n) ∧
    (∀ st n st', st.is_function ≠ 0 → if_stat uac fuel st = .ok (n, st') →
      returns_typed st.globals.type n) ∧
    (∀ st n st', st.is_function ≠ 0 → while_stat uac fuel st = .ok (n, st') →
      returns_typed st.globals.type n) ∧
    (∀ st n st', st.is_function ≠ 0 → dowhile_stat uac fuel st = .ok (n, st') →
      returns_typed st.globals.type n) ∧
    (∀ st n st', st.is_function ≠ 0 → for_stat uac fuel st = .ok (n, st') →
      returns_typed st.globals.type n) := by
  induction fuel with
  | zero =>
    refine ⟨?_, ?_, ?_, ?_, ?_, ?_, ?_⟩ <;> intros <;>
      simp_all [statement, comp_stat_loop, comp_stat, if_stat, while_stat, dowhile_stat,
        for_stat]
  | succ fuel ih =>
    obtain ⟨i1, i2, i3, i4, i5, i6, i7⟩ := ih
    exact ⟨statement_returns_step uac fuel i3 i4 i5 i6 i7,
      comp_stat_loop_returns_step uac fuel i2 i1,
      comp_stat_returns_step uac fuel i2,
      if_stat_returns_step uac fuel i1,
      while_stat_returns_step uac fuel i1,
      dowhile_stat_returns_step uac fuel i1,
      for_stat_returns_step uac fuel i1⟩

theorem chain_assign_head (f : Node → Node) (k : Nat) (n : Node) (hn : n ≠ .null)
    (hk : chain_length n.next = k) : chain_assign f k n = f n := by
  cases n with
  | null => exact absurd rfl hn
  | mk _ _ _ _ _ _ _ _ _ _ _ _ _ _ =>
    simp only [Node.next] at hk
    simp [chain_assign, hk]

/-- The function `function` leaves its node at the head of `globals`, with the
declared return type, and every `return` in its body is typed to it. -/
theorem function_returns {uac : CType → CType → CType} {fuel : Nat} {st st' : PState}
    {n : Node} (hf : st.is_function ≠ 0) (h : function uac fuel st = .ok (n, st')) :
    ∃ R t, type_spec st.t = .ok (R, t) ∧ st'.globals ≠ .null ∧
      st'.globals.kind = A_FUNC_DEF ∧ st'.globals.type = R ∧
      st'.globals.next = st.globals ∧ returns_typed R st'.globals.body := by
  simp only [function, bind_eq_ok, Prod.exists, pure_eq_ok, Prod.mk.injEq] at h
  obtain ⟨ty, t, h1, tok, st2, h2, params, st3, h3, body, st4, h4, st5, h5, _, rfl⟩ := h
  have f2 : st2.globals = st.globals ∧ st2.is_function = st.is_function := by
    have := expect_st_frame h2
    simpa [Frame] using this.2
  have f3 := param_list_globals h3
  simp only [enter_scope, PState.globals_set_scope, PState.globals_set_globals,
    PState.is_function_set_scope, PState.is_function_set_globals] at f3
  have hf3 : (st3.set_globals (chain_assign (fun n => n.set_params params)
      (chain_length st2.globals) st3.globals)).is_function ≠ 0 := by
    simp only [PState.is_function_set_globals]; rw [f3.2, f2.2]; exact hf
  have f4 := (statement_frame uac fuel).2.2.1 _ _ _ hf3 h4
  have r4 := (statement_returns uac fuel).2.2.1 _ _ _ hf3 h4
  obtain ⟨_, outer, _, rfl⟩ := exit_scope_ok h5
  refine ⟨ty, t, h1, ?_⟩
  simp only [PState.globals_set_scope, PState.globals_set_globals] at r4 ⊢
  rw [f4.2.1]
  simp only [PState.globals_set_globals]
  rw [f3.1] at r4 ⊢
  simp only [mknode, Node.set_type, Node.set_name, Node.set_is_function, Node.set_next,
    chain_assign, if_true, Node.set_params, Node.set_body, Node.set_locals, Node.type,
    Node.kind, Node.next, Node.body] at r4 ⊢
  rw [f2.1]
  refine ⟨?_, ?_, ?_, ?_, r4⟩ <;> first | rfl | trivial | simp

/-- The return branch of `statement` on `return e;`: the body of the node is
`e` when its type is the one at the head of `globals`, and a conversion node
of that type over `e` otherwise. -/
theorem statement_return_branch (uac : CType → CType → CType) (fuel : Nat) (st : PState)
    (c d s : Token) (r t' : List Token) (e : Node)
    (ht : st.t = c :: d :: r) (hc : c.kind = TK_RETURN) (hd : d.kind ≠ TK_SIMI)
    (he : expression uac st.globals st.scope fuel (d :: r) = .ok (e, s :: t'))
    (hs : s.kind = TK_SIMI) (hg : st.globals ≠ .null) :
    statement uac (fuel + 1) st = .ok ((mknode A_RETURN).set_body
      (if e.type ≠ st.globals.type then (mkaux A_CONVERSION e).set_type st.globals.type
       else e), st.set_t t') := by
  have hne : e ≠ .null := (expr_ne_null uac st.globals st.scope fuel).2.2.2.2.2.2.2.2.2.2 _ _ _ he
  rw [statement]
  simp [match_, consume_st, consume, ht, hc, hd, with_tokens, he, expect_st, expect, hs, bind,
    Except.bind, pure, Except.pure]
  cases e with
  | null => exact absurd rfl hne
  | mk _ _ _ _ _ _ _ _ _ _ _ _ _ _ =>
    cases hgg : st.globals with
    | null => exact absurd hgg hg
    | mk _ _ _ _ _ _ _ _ _ _ _ _ _ _ =>
      cases st
      simp [Node.attrs, Node.type, PState.set_t]

/-- C11: when `function` has parsed a function definition whose declared
return type is `R`, its node stands at the head of `globals` with type `R`,
and every A_RETURN node anywhere in its body (in nested blocks, branches of
`if` and loop bodies) has as body either nothing (`return;`) or a non-null
expression `e` itself when the type of `e` is `R`, and otherwise an
A_CONVERSION node of type `R` over `e`. The return branch of `statement` reads
`R` from the head of `globals`: on `return e;` it returns exactly that node.
While the items of a block inside a function are parsed, declarations
included, `globals` stays what it was, so the head is the enclosing function
all along. -/
theorem return_conversion (uac : CType → CType → CType) (fuel : Nat) (st st' : PState)
    (n : Node) (hf : st.is_function ≠ 0) (h : function uac fuel st = .ok (n, st')) :
    (∃ R t, type_spec st.t = .ok (R, t) ∧ st'.globals ≠ .null ∧
      st'.globals.kind = A_FUNC_DEF ∧ st'.globals.type = R ∧
      st'.globals.next = st.globals ∧ returns_typed R st'.globals.body) ∧
    (∀ (fuel1 : Nat) (s1 : PState) (c d s : Token) (r t' : List Token) (e : Node),
      s1.t = c :: d :: r → c.kind = TK_RETURN → d.kind ≠ TK_SIMI →
      expression uac s1.globals s1.scope fuel1 (d :: r) = .ok (e, s :: t') →
      s.kind = TK_SIMI → s1.globals ≠ .null →
      statement uac (fuel1 + 1) s1 = .ok ((mknode A_RETURN).set_body
        (if e.type ≠ s1.globals.type then (mkaux A_CONVERSION e).set_type s1.globals.type
         else e), s1.set_t t')) ∧
    (∀ s1 s2 : PState, s1.is_function ≠ 0 → s1.scope ≠ [] → BlockSteps uac s1 s2 →
      s2.globals = s1.globals) :=
  ⟨function_returns hf h,
   fun fuel1 s1 c d s r t' e ht hc hd he hs hg =>
     statement_return_branch uac fuel1 s1 c d s r t' e ht hc hd he hs hg,
   fun _ _ hf1 hs1 hb => by
     obtain ⟨_, _, _, _, _, e3, _⟩ := blockSteps_sameBlock hf1 hs1 hb
     exact e3⟩

theorem return_conversion_witness :
    ∃ R t, type_spec state_long_f.t = .ok (R, t) ∧
      (returned (function uac_left 20 state_long_f)).2.globals ≠ .null ∧
      (returned (function uac_left 20 state_long_f)).2.globals.kind = A_FUNC_DEF ∧
      (returned (function uac_left 20 state_long_f)).2.globals.type = R ∧
      (returned (function uac_left 20 state_long_f)).2.globals.next = state_long_f.globals ∧
      returns_typed R (returned (function uac_left 20 state_long_f)).2.globals.body :=
  (return_conversion uac_left 20 state_long_f
    (returned (function uac_left 20 state_long_f)).2
    (returned (function uac_left 20 state_long_f)).1 (by decide) rfl).1

/-- In `long f() { int x; if (x) return x; return; }` the first `return`
carries a conversion of `x` to `long`, the second carries nothing. -/
theorem parse_return_program :
    (returned (function uac_left 20 state_long_f)).2.globals.type = longtype ∧
    (returned (function uac_left 20 state_long_f)).2.globals.body.body.then_.body =
      (mkaux A_CONVERSION ((mkvar (some "x") inttype).set_is_global 0)).set_type longtype ∧
    (returned (function uac_left 20 state_long_f)).2.globals.body.body.next.kind = A_RETURN ∧
    (returned (function uac_left 20 state_long_f)).2.globals.body.body.next.body = .null := by
  refine ⟨rfl, rfl, rfl, rfl⟩

/-! ## Precedence and associativity -/

theorem spec_left_fold_cons (uac : CType → CType → CType) (first : Node) (k : Int) (r : Node)
    (ps : List (Int × Node)) (m : Node) :
    spec_left_fold uac first ((k, r) :: ps) = .ok m ↔
      ∃ m1, mkbinary uac k first r = .ok m1 ∧ spec_left_fold uac m1 ps = .ok m := by
  simp only [spec_left_fold, List.foldlM_cons, bind_eq_ok]

/-- A loop that reads an operator of its level, then an operand by `sub`, and
goes on with the node of the two, returns the left fold of the operands it
reads. -/
theorem loop_left_fold (uac : CType → CType → CType)
    (sub : Nat → List Token → Except Failure (Node × List Token)) (ops : TK → Option Int)
    (loop : Nat → Node → List Token → Except Failure (Node × List Token))
    (h0 : ∀ n t, loop 0 n t = .error .out_of_fuel)
    (hnil : ∀ fuel n, loop (fuel + 1) n [] = .error .undefined)
    (hcons : ∀ fuel n c rest, loop (fuel + 1) n (c :: rest) =
      match ops c.kind with
      | some k => do
        let (r, t) ← sub fuel rest
        loop fuel (← mkbinary uac k n r) t
      | none => pure (n, c :: rest))
    (fuel : Nat) : ∀ (n : Node) (t : List Token) (m : Node) (t' : List Token),
    loop fuel n t = .ok (m, t') ↔
      ∃ ps, spec_read_operands sub ops fuel t = .ok (ps, t') ∧
        spec_left_fold uac n ps = .ok m := by
  induction fuel with
  | zero => intro n t m t'; simp [h0, spec_read_operands]
  | succ fuel ih =>
    intro n t m t'
    cases t with
    | nil => simp [hnil, spec_read_operands]
    | cons c rest =>
      rw [hcons, spec_read_operands]
      cases hk : ops c.kind with
      | none =>
        simp only [pure_eq_ok, Prod.mk.injEq]
        constructor
        · rintro ⟨rfl, rfl⟩
          exact ⟨[], ⟨rfl, rfl⟩, rfl⟩
        · rintro ⟨ps, ⟨rfl, rfl⟩, h⟩
          simp only [spec_left_fold, List.foldlM_nil, pure_eq_ok] at h
          exact ⟨h, rfl⟩
      | some k =>
        simp only [bind_eq_ok, Prod.exists, pure_eq_ok, Prod.mk.injEq]
        constructor
        · rintro ⟨r, t1, h1, m1, h2, h3⟩
          obtain ⟨ps, h4, h5⟩ := (ih _ _ _ _).1 h3
          exact ⟨(k, r) :: ps, ⟨r, t1, h1, ps, t', h4, rfl, rfl⟩,
            (spec_left_fold_cons uac n k r ps m).2 ⟨m1, h2, h5⟩⟩
        · rintro ⟨ps, ⟨r, t1, h1, ps1, t2, h4, rfl, rfl⟩, h5⟩
          obtain ⟨m1, h2, h6⟩ := (spec_left_fold_cons uac n k r ps1 m).1 h5
          exact ⟨r, t1, h1, m1, h2, (ih _ _ _ _).2 ⟨ps1, h4, h6⟩⟩

theorem mul_expr_loop_cons (uac : CType → CType → CType) (globals : Node) (scope : List Node)
    (fuel : Nat) (n : Node) (c : Token) (rest : List Token) :
    mul_expr_loop uac globals scope (fuel + 1) n (c :: rest) =
      match mul_ops c.kind with
      | some k => do
        let (r, t) ← primary uac globals scope fuel rest
        mul_expr_loop uac globals scope fuel (← mkbinary uac k n r) t
      | none => pure (n, c :: rest) := by
  rw [mul_expr_loop]
  by_cases h1 : c.kind = TK_STAR
  · simp [consume, mul_ops, h1, bind, Except.bind]
  by_cases h2 : c.kind = TK_SLASH
  · simp [consume, mul_ops, h2, bind, Except.bind]
  simp [consume, mul_ops, h1, h2, bind, Except.bind]

theorem sum_expr_loop_cons (uac : CType → CType → CType) (globals : Node) (scope : List Node)
    (fuel : Nat) (n : Node) (c : Token) (rest : List Token) :
    sum_expr_loop uac globals scope (fuel + 1) n (c :: rest) =
      match sum_ops c.kind with
      | some k => do
        let (r, t) ← mul_expr uac globals scope fuel rest
        sum_expr_loop uac globals scope fuel (← mkbinary uac k n r) t
      | none => pure (n, c :: rest) := by
  rw [sum_expr_loop]
  by_cases h1 : c.kind = TK_ADD
  · simp [consume, sum_ops, h1, bind, Except.bind]
  by_cases h2 : c.kind = TK_SUB
  · simp [consume, sum_ops, h2, bind, Except.bind]
  simp [consume, sum_ops, h1, h2, bind, Except.bind]

theorem rel_expr_loop_cons (uac : CType → CType → CType) (globals : Node) (scope : List Node)
    (fuel : Nat) (n : Node) (c : Token) (rest : List Token) :
    rel_expr_loop uac globals scope (fuel + 1) n (c :: rest) =
      match rel_ops c.kind with
      | some k => do
        let (r, t) ← sum_expr uac globals scope fuel rest
        rel_expr_loop uac globals scope fuel (← mkbinary uac k n r) t
      | none => pure (n, c :: rest) := by
  rw [rel_expr_loop]
  by_cases h1 : c.kind = TK_GREATER
  · simp [consume, rel_ops, h1, bind, Except.bind]
  by_cases h2 : c.kind = TK_LESS
  · simp [consume, rel_ops, h2, bind, Except.bind]
  by_cases h3 : c.kind = TK_GREATEREQUAL
  · simp [consume, rel_ops, h3, bind, Except.bind]
  by_cases h4 : c.kind = TK_LESSEQUAL
  · simp [consume, rel_ops, h4, bind, Except.bind]
  simp [consume, rel_ops, h1, h2, h3, h4, bind, Except.bind]

theorem eq_expr_loop_cons (uac : CType → CType → CType) (globals : Node) (scope : List Node)
    (fuel : Nat) (n : Node) (c : Token) (rest : List Token) :
    eq_expr_loop uac globals scope (fuel + 1) n (c :: rest) =
      match eq_ops c.kind with
      | some k => do
        let (r, t) ← rel_expr uac globals scope fuel rest
        eq_expr_loop uac globals scope fuel (← mkbinary uac k n r) t
      | none => pure (n, c :: rest) := by
  rw [eq_expr_loop]
  by_cases h1 : c.kind = TK_EQUALEQUAL
  · simp [consume, eq_ops, h1, bind, Except.bind]
  by_cases h2 : c.kind = TK_NOTEQUAL
  · simp [consume, eq_ops, h2, bind, Except.bind]
  simp [consume, eq_ops, h1, h2, bind, Except.bind]

theorem mul_expr_left_fold (uac : CType → CType → CType) (globals : Node) (scope : List Node)
    (fuel : Nat) (t : List Token) (m : Node) (t' : List Token) :
    mul_expr uac globals scope (fuel + 1) t = .ok (m, t') ↔
      ∃ first t0 ps, primary uac globals scope fuel t = .ok (first, t0) ∧
        spec_read_operands (primary uac globals scope) mul_ops fuel t0 = .ok (ps, t') ∧
        spec_left_fold uac first ps = .ok m := by
  rw [mul_expr]
  simp only [bind_eq_ok, Prod.exists]
  refine exists_congr fun first => exists_congr fun t0 => ?_
  rw [loop_left_fold uac (primary uac globals scope) mul_ops (mul_expr_loop uac globals scope)
    (fun _ _ => by rw [mul_expr_loop]) (fun _ _ => by rw [mul_expr_loop]; rfl)
    (mul_expr_loop_cons uac globals scope)]
  simp only [exists_and_left]

theorem sum_expr_left_fold (uac : CType → CType → CType) (globals : Node) (scope : List Node)
    (fuel : Nat) (t : List Token) (m : Node) (t' : List Token) :
    sum_expr uac globals scope (fuel + 1) t = .ok (m, t') ↔
      ∃ first t0 ps, mul_expr uac globals scope fuel t = .ok (first, t0) ∧
        spec_read_operands (mul_expr uac globals scope) sum_ops fuel t0 = .ok (ps, t') ∧
        spec_left_fold uac first ps = .ok m := by
  rw [sum_expr]
  simp only [bind_eq_ok, Prod.exists]
  refine exists_congr fun first => exists_congr fun t0 => ?_
  rw [loop_left_fold uac (mul_expr uac globals scope) sum_ops (sum_expr_loop uac globals scope)
    (fun _ _ => by rw [sum_expr_loop]) (fun _ _ => by rw [sum_expr_loop]; rfl)
    (sum_expr_loop_cons uac globals scope)]
  simp only [exists_and_left]

theorem rel_expr_left_fold (uac : CType → CType → CType) (globals : Node) (scope : List Node)
    (fuel : Nat) (t : List Token) (m : Node) (t' : List Token) :
    rel_expr uac globals scope (fuel + 1) t = .ok (m, t') ↔
      ∃ first t0 ps, sum_expr uac globals scope fuel t = .ok (first, t0) ∧
        spec_read_operands (sum_expr uac globals scope) rel_ops fuel t0 = .ok (ps, t') ∧
        spec_left_fold uac first ps = .ok m := by
  rw [rel_expr]
  simp only [bind_eq_ok, Prod.exists]
  refine exists_congr fun first => exists_congr fun t0 => ?_
  rw [loop_left_fold uac (sum_expr uac globals scope) rel_ops (rel_expr_loop uac globals scope)
    (fun _ _ => by rw [rel_expr_loop]) (fun _ _ => by rw [rel_expr_loop]; rfl)
    (rel_expr_loop_cons uac globals scope)]
  simp only [exists_and_left]

theorem eq_expr_left_fold (uac : CType → CType → CType) (globals : Node) (scope : List Node)
    (fuel : Nat) (t : List Token) (m : Node) (t' : List Token) :
    eq_expr uac globals scope (fuel + 1) t = .ok (m, t') ↔
      ∃ first t0 ps, rel_expr uac globals scope fuel t = .ok (first, t0) ∧
        spec_read_operands (rel_expr uac globals scope) eq_ops fuel t0 = .ok (ps, t') ∧
        spec_left_fold uac first ps = .ok m := by
  rw [eq_expr]
  simp only [bind_eq_ok, Prod.exists]
  refine exists_congr fun first => exists_congr fun t0 => ?_
  rw [loop_left_fold uac (rel_expr uac globals scope) eq_ops (eq_expr_loop uac globals scope)
    (fun _ _ => by rw [eq_expr_loop]) (fun _ _ => by rw [eq_expr_loop]; rfl)
    (eq_expr_loop_cons uac globals scope)]
  simp only [exists_and_left]

/-- The right operand of `=` is a whole expression, read by the recursive call
of `expression`. -/
theorem assign_expr_right (uac : CType → CType → CType) (globals : Node) (scope : List Node)
    (fuel : Nat) (t : List Token) (l : Node) (c : Token) (rest : List Token)
    (hl : eq_expr uac globals scope fuel t = .ok (l, c :: rest)) (hc : c.kind = TK_EQUAL)
    (hk : l.kind = A_VAR) :
    assign_expr uac globals scope (fuel + 1) t =
      (do
        let (r, t') ← expression uac globals scope fuel rest
        pure (← mkbinary uac A_ASSIGN (l.set_kind A_VAR) r, t')) := by
  rw [assign_expr]
  simp [hl, match_, expect, hc, hk, bind, Except.bind, pure, Except.pure]

theorem uac_int_eq (uac : CType → CType → CType) (h : uac inttype inttype = inttype) :
    uac = fun a b => if a = inttype ∧ b = inttype then inttype else uac a b := by
  funext a b
  by_cases hab : a = inttype ∧ b = inttype
  · rw [if_pos hab, hab.1, hab.2, h]
  · rw [if_neg hab]

/-- The four example expressions over the global variables `int a; int b;
int c;`, for a conversion function that gives `int` on two `int` operands. -/
theorem parse_precedence_examples (uac : CType → CType → CType)
    (h : uac inttype inttype = inttype) :
    expression uac globals_abc [] 12
        [tk_ident "a", tk TK_ADD, tk_ident "b", tk TK_STAR, tk_ident "c", tk TK_SIMI] =
      .ok (binop A_ADD inttype var_a (binop A_MUL inttype var_b var_c), [tk TK_SIMI]) ∧
    expression uac globals_abc [] 12
        [tk_ident "a", tk TK_SUB, tk_ident "b", tk TK_SUB, tk_ident "c", tk TK_SIMI] =
      .ok (binop A_SUB inttype (binop A_SUB inttype var_a var_b) var_c, [tk TK_SIMI]) ∧
    expression uac globals_abc [] 12
        [tk_ident "a", tk TK_LESS, tk_ident "b", tk TK_EQUALEQUAL, tk_ident "c", tk TK_SIMI] =
      .ok (binop A_EQ inttype (binop A_LT inttype var_a var_b) var_c, [tk TK_SIMI]) ∧
    expression uac globals_abc [] 20
        [tk_ident "a", tk TK_EQUAL, tk_ident "b", tk TK_EQUAL, tk_ident "c", tk TK_SIMI] =
      .ok (binop A_ASSIGN inttype var_a (binop A_ASSIGN inttype var_b var_c), [tk TK_SIMI]) := by
  rw [uac_int_eq uac h]
  exact ⟨rfl, rfl, rfl, rfl⟩

/-- C12: each of `mul_expr`, `sum_expr`, `rel_expr` and `eq_expr` returns the
left fold of the operands it reads, and its operands are read by the function
of the next higher level: `primary` for `*` and `/`, `mul_expr` for `+` and
`-`, `sum_expr` for the relational operators, `rel_expr` for `==` and `!=`; so
each level binds tighter than the one after it and associates to the left. The
left operand of `=` is read by `eq_expr` and its right operand by the
recursive call of `expression`, so `=` binds least and associates to the
right. For the global variables `int a; int b; int c;` and a conversion that
gives `int` on two `int` operands, `a + b * c` parses to ADD(a, MUL(b, c)),
`a - b - c` to SUB(SUB(a, b), c), `a < b == c` to EQ(LT(a, b), c) and
`a = b = c` to ASSIGN(a, ASSIGN(b, c)). -/
theorem precedence_associativity (uac : CType → CType → CType) (globals : Node)
    (scope : List Node) :
    (∀ fuel t m t', mul_expr uac globals scope (fuel + 1) t = .ok (m, t') ↔
      ∃ first t0 ps, primary uac globals scope fuel t = .ok (first, t0) ∧
        spec_read_operands (primary uac globals scope) mul_ops fuel t0 = .ok (ps, t') ∧
        spec_left_fold uac first ps = .ok m) ∧
    (∀ fuel t m t', sum_expr uac globals scope (fuel + 1) t = .ok (m, t') ↔
      ∃ first t0 ps, mul_expr uac globals scope fuel t = .ok (first, t0) ∧
        spec_read_operands (mul_expr uac globals scope) sum_ops fuel t0 = .ok (ps, t') ∧
        spec_left_fold uac first ps = .ok m) ∧
    (∀ fuel t m t', rel_expr uac globals scope (fuel + 1) t = .ok (m, t') ↔
      ∃ first t0 ps, sum_expr uac globals scope fuel t = .ok (first, t0) ∧
        spec_read_operands (sum_expr uac globals scope) rel_ops fuel t0 = .ok (ps, t') ∧
        spec_left_fold uac first ps = .ok m) ∧
    (∀ fuel t m t', eq_expr uac globals scope (fuel + 1) t = .ok (m, t') ↔
      ∃ first t0 ps, rel_expr uac globals scope fuel t = .ok (first, t0) ∧
        spec_read_operands (rel_expr uac globals scope) eq_ops fuel t0 = .ok (ps, t') ∧
        spec_left_fold uac first ps = .ok m) ∧
    (∀ fuel t l c rest, eq_expr uac globals scope fuel t = .ok (l, c :: rest) →
      c.kind = TK_EQUAL → l.kind = A_VAR →
      assign_expr uac globals scope (fuel + 1) t =
        (do
          let (r, t') ← expression uac globals scope fuel rest
          pure (← mkbinary uac A_ASSIGN (l.set_kind A_VAR) r, t'))) ∧
    (uac inttype inttype = inttype →
      expression uac globals_abc [] 12
          [tk_ident "a", tk TK_ADD, tk_ident "b", tk TK_STAR, tk_ident "c", tk TK_SIMI] =
        .ok (binop A_ADD inttype var_a (binop A_MUL inttype var_b var_c), [tk TK_SIMI]) ∧
      expression uac globals_abc [] 12
          [tk_ident "a", tk TK_SUB, tk_ident "b", tk TK_SUB, tk_ident "c", tk TK_SIMI] =
        .ok (binop A_SUB inttype (binop A_SUB inttype var_a var_b) var_c, [tk TK_SIMI]) ∧
      expression uac globals_abc [] 12
          [tk_ident "a", tk TK_LESS, tk_ident "b", tk TK_EQUALEQUAL, tk_ident "c",
            tk TK_SIMI] =
        .ok (binop A_EQ inttype (binop A_LT inttype var_a var_b) var_c, [tk TK_SIMI]) ∧
      expression uac globals_abc [] 20
          [tk_ident "a", tk TK_EQUAL, tk_ident "b", tk TK_EQUAL, tk_ident "c", tk TK_SIMI] =
        .ok (binop A_ASSIGN inttype var_a (binop A_ASSIGN inttype var_b var_c),
          [tk TK_SIMI])) :=
  ⟨mul_expr_left_fold uac globals scope, sum_expr_left_fold uac globals scope,
   rel_expr_left_fold uac globals scope, eq_expr_left_fold uac globals scope,
   fun fuel t l c rest hl hc hk => assign_expr_right uac globals scope fuel t l c rest hl hc hk,
   parse_precedence_examples uac⟩

theorem precedence_associativity_witness :
    expression uac_left globals_abc [] 12
        [tk_ident "a", tk TK_ADD, tk_ident "b", tk TK_STAR, tk_ident "c", tk TK_SIMI] =
      .ok (binop A_ADD inttype var_a (binop A_MUL inttype var_b var_c), [tk TK_SIMI]) ∧
    expression uac_left globals_abc [] 12
        [tk_ident "a", tk TK_SUB, tk_ident "b", tk TK_SUB, tk_ident "c", tk TK_SIMI] =
      .ok (binop A_SUB inttype (binop A_SUB inttype var_a var_b) var_c, [tk TK_SIMI]) ∧
    expression uac_left globals_abc [] 12
        [tk_ident "a", tk TK_LESS, tk_ident "b", tk TK_EQUALEQUAL, tk_ident "c",
          tk TK_SIMI] =
      .ok (binop A_EQ inttype (binop A_LT inttype var_a var_b) var_c, [tk TK_SIMI]) ∧
    expression uac_left globals_abc [] 20
        [tk_ident "a", tk TK_EQUAL, tk_ident "b", tk TK_EQUAL, tk_ident "c", tk TK_SIMI] =
      .ok (binop A_ASSIGN inttype var_a (binop A_ASSIGN inttype var_b var_c),
        [tk TK_SIMI]) :=
  (precedence_associativity uac_left globals_abc []).2.2.2.2.2 rfl

/-- The operands `mul_expr` reads in `a * b / c` and their left fold. -/
theorem read_operands_example :
    spec_read_operands (primary uac_left globals_abc []) mul_ops 4
        [tk TK_STAR, tk_ident "b", tk TK_SLASH, tk_ident "c", tk TK_SIMI] =
      .ok ([(A_MUL, var_b), (A_DIV, var_c)], [tk TK_SIMI]) ∧
    spec_left_fold uac_left var_a [(A_MUL, var_b), (A_DIV, var_c)] =
      .ok (binop A_DIV inttype (binop A_MUL inttype var_a var_b) var_c) :=
  ⟨rfl, rfl⟩

/-! ## Failures inside a declaration -/

theorem bind_eq_error {ε α β : Type} (x : Except ε α) (f : α → Except ε β) (e : ε) :
    (x >>= f) = .error e ↔ x = .error e ∨ ∃ a, x = .ok a ∧ f a = .error e := by
  cases x with
  | error e1 =>
    simp only [bind, Except.bind]
    constructor
    · intro h; cases h; exact Or.inl rfl
    · rintro (h | ⟨a, h, _⟩)
      · cases h; rfl
      · cases h
  | ok a =>
    simp only [bind, Except.bind]
    constructor
    · intro h; exact Or.inr ⟨a, rfl, h⟩
    · rintro (h | ⟨a1, h, h2⟩)
      · cases h
      · cases h; exact h2

theorem declaration_split (st : PState) :
    declaration st = (do
      let (_, st) ← declaration_before_semi st
      let (_, st) ← expect_st TK_SIMI st
      pure (.null, st)) := by
  simp only [declaration, declaration_before_semi, bind_assoc]

theorem function_split (uac : CType → CType → CType) (fuel : Nat) (st : PState) :
    function uac fuel st = (do
      let (k, st) ← function_before_params st
      function_from_params uac fuel k st) := by
  simp only [function, function_before_params, function_from_params, bind_assoc, pure_bind]

theorem declaration_error_iff (st : PState) (e : Failure) :
    declaration st = .error e ↔ declaration_before_semi st = .error e ∨
      ∃ v st1, declaration_before_semi st = .ok (v, st1) ∧ expect_st TK_SIMI st1 = .error e := by
  rw [declaration_split, bind_eq_error]
  refine or_congr Iff.rfl ?_
  constructor
  · rintro ⟨⟨v, st1⟩, h1, h2⟩
    refine ⟨v, st1, h1, ?_⟩
    rw [bind_eq_error] at h2
    rcases h2 with h2 | ⟨_, _, h3⟩
    · exact h2
    · cases h3
  · rintro ⟨v, st1, h1, h2⟩
    refine ⟨(v, st1), h1, ?_⟩
    rw [bind_eq_error]
    exact Or.inl h2

theorem function_error_iff (uac : CType → CType → CType) (fuel : Nat) (st : PState)
    (e : Failure) :
    function uac fuel st = .error e ↔ function_before_params st = .error e ∨
      ∃ k st1, function_before_params st = .ok (k, st1) ∧
        function_from_params uac fuel k st1 = .error e := by
  rw [function_split, bind_eq_error]
  refine or_congr Iff.rfl ?_
  constructor
  · rintro ⟨⟨k, st1⟩, h1, h2⟩
    exact ⟨k, st1, h1, h2⟩
  · rintro ⟨k, st1, h1, h2⟩
    exact ⟨(k, st1), h1, h2⟩

/-- When the statements of `declaration` before `expect(TK_SIMI)` have run, the
node of the new variable stands at the head of its list, and inside a function
also at the head of the list of the innermost scope. -/
theorem declaration_before_semi_pushed {st st1 : PState} {v : Node}
    (h : declaration_before_semi st = .ok (v, st1)) :
    v ≠ .null ∧ v.kind = A_VAR ∧
    (st.is_function = 0 → st1.globals = v ∧ v.next = st.globals ∧ st1.locals = st.locals ∧
      st1.scope = st.scope) ∧
    (st.is_function ≠ 0 → st1.locals = v ∧ v.next = st.locals ∧
      st1.globals = st.globals ∧
      ∃ list outer, st.scope = list :: outer ∧ st1.scope = v :: outer ∧
        v.scope_next = list) := by
  simp only [declaration_before_semi, bind_eq_ok, Prod.exists] at h
  obtain ⟨ty, t, _, tok, st2, h2, h⟩ := h
  have f2 := (Frame.of_set_t st t).ftrans (expect_st_frame h2)
  have hl : st2.locals = st.locals := by
    simp only [expect_st, bind_eq_ok, Prod.exists, pure_eq_ok, Prod.mk.injEq] at h2
    obtain ⟨_, _, _, _, rfl⟩ := h2
    simp
  by_cases hf : st2.is_function ≠ 0
  · rw [if_pos hf] at h
    have hf0 : st.is_function ≠ 0 := by rw [← f2.2.2]; exact hf
    simp only [mklvar] at h
    split at h
    · cases h
    · rename_i list outer hs
      by_cases hd : find_scope tok.name list ≠ .null
      · rw [if_pos hd] at h; cases h
      · rw [if_neg hd] at h
        simp only [Except.ok.injEq, Prod.mk.injEq] at h
        obtain ⟨rfl, rfl⟩ := h
        refine ⟨by simp [mkvar, mknode, Node.set_name, Node.set_type, Node.set_is_global,
          Node.set_next, Node.set_scope_next], by simp [mkvar, mknode, Node.set_name,
          Node.set_type, Node.set_is_global, Node.set_next, Node.set_scope_next, Node.kind],
          fun h0 => absurd h0 hf0, fun _ => ⟨by simp, ?_, ?_, list, outer, ?_, ?_, ?_⟩⟩
        · simp [mkvar, mknode, Node.set_name, Node.set_type, Node.set_is_global,
            Node.set_next, Node.set_scope_next, Node.next, hl]
        · simp [f2.2.1]
        · rw [← f2.1, hs]
        · simp
        · simp [mkvar, mknode, Node.set_name, Node.set_type, Node.set_is_global,
            Node.set_next, Node.set_scope_next, Node.scope_next]
  · rw [if_neg hf] at h
    have hf0 : st.is_function = 0 := by rw [← f2.2.2]; exact not_not.1 hf
    simp only [mkgvar] at h
    by_cases hd : find_global tok.name st2.globals ≠ .null
    · rw [if_pos hd] at h; cases h
    · rw [if_neg hd] at h
      simp only [Except.ok.injEq, Prod.mk.injEq] at h
      obtain ⟨rfl, rfl⟩ := h
      refine ⟨by simp [mkvar, mknode, Node.set_name, Node.set_type, Node.set_is_global,
        Node.set_next], by simp [mkvar, mknode, Node.set_name,
        Node.set_type, Node.set_is_global, Node.set_next, Node.kind],
        fun _ => ⟨by simp, ?_, ?_, ?_⟩, fun h0 => absurd hf0 h0⟩
      · simp [mkvar, mknode, Node.set_name, Node.set_type, Node.set_is_global,
          Node.set_next, Node.next, f2.2.1]
      · simp [hl]
      · simp [f2.1]

/-- When the statements of `function` up to `enter_scope()` have run, the node
of the function stands at the head of `globals`. -/
theorem function_before_params_pushed {st st1 : PState} {k : Nat}
    (h : function_before_params st = .ok (k, st1)) :
    st1.globals ≠ .null ∧ st1.globals.kind = A_FUNC_DEF ∧ st1.globals.is_function = 1 ∧
      st1.globals.next = st.globals ∧ k = chain_length st.globals := by
  simp only [function_before_params, bind_eq_ok, Prod.exists, pure_eq_ok, Prod.mk.injEq] at h
  obtain ⟨ty, t, _, tok, st2, h2, rfl, rfl⟩ := h
  have f2 : st2.globals = st.globals := by
    have := expect_st_frame h2
    simpa [Frame] using this.2.1
  simp [enter_scope, mknode, Node.set_type, Node.set_name, Node.set_is_function, Node.set_next,
    Node.kind, Node.next, Node.is_function, f2]

theorem trans_unit_item_error (uac : CType → CType → CType) (fuel : Nat) (st st1 : PState)
    (c : Token) (rest : List Token) (e : Failure)
    (ht : st.t = c :: rest) (hc : c.kind ≠ TK_EOI)
    (h1 : check_next_top_level_item st = .ok st1)
    (h2 : (if st1.is_function ≠ 0 then function uac fuel st1 else declaration st1) = .error e) :
    trans_unit uac (fuel + 1) st = .error e := by
  rw [trans_unit]
  simp only [ht, if_pos hc, h1]
  simp only [bind, Except.bind, h2]

/-- The function `mklvar` fails only before it makes the node: with no scope
open, or at the redefinition check. -/
theorem mklvar_error {name : CStr} {ty : CType} {st : PState} {e : Failure}
    (h : mklvar name ty st = .error e) :
    (st.scope = [] ∧ e = .undefined) ∨
    ∃ list outer, st.scope = list :: outer ∧ find_scope name list ≠ .null ∧
      e = .error "redefine local variable \"%s\"" := by
  unfold mklvar at h
  split at h
  · rename_i hs
    simp only [Except.error.injEq] at h
    exact Or.inl ⟨hs, h.symm⟩
  · rename_i list outer hs
    by_cases hd : find_scope name list ≠ .null
    · rw [if_pos hd] at h
      simp only [Except.error.injEq] at h
      exact Or.inr ⟨list, outer, hs, hd, h.symm⟩
    · rw [if_neg hd] at h
      cases h

theorem declaration_before_semi_error {st : PState} {e : Failure}
    (h : declaration_before_semi st = .error e) :
    type_spec st.t = .error e ∨
    ∃ ty t, type_spec st.t = .ok (ty, t) ∧
      (expect TK_IDENT t = .error e ∨
       ∃ tok t1, expect TK_IDENT t = .ok (tok, t1) ∧
        ((st.is_function ≠ 0 ∧ mklvar tok.name ty ((st.set_t t).set_t t1) = .error e ∧
          ((st.scope = [] ∧ e = .undefined) ∨
           ∃ list outer, st.scope = list :: outer ∧ find_scope tok.name list ≠ .null ∧
             e = .error "redefine local variable \"%s\"")) ∨
         (st.is_function = 0 ∧ find_global tok.name st.globals ≠ .null ∧
           e = .error "redefine global variable \"%s\""))) := by
  simp only [declaration_before_semi, bind_eq_error, Prod.exists] at h
  rcases h with h | ⟨ty, t, h1, h⟩
  · exact Or.inl h
  refine Or.inr ⟨ty, t, h1, ?_⟩
  rcases h with h | ⟨tok, st2, h2, h⟩
  · left
    simp only [expect_st, bind_eq_error, Prod.exists, PState.t_set_t] at h
    rcases h with h | ⟨_, _, _, h⟩
    · exact h
    · cases h
  right
  simp only [expect_st, bind_eq_ok, Prod.exists, pure_eq_ok, Prod.mk.injEq,
    PState.t_set_t] at h2
  obtain ⟨tok1, t1, h2, rfl, rfl⟩ := h2
  refine ⟨tok1, t1, h2, ?_⟩
  by_cases hf : st.is_function ≠ 0
  · left
    rw [if_pos (by simpa using hf)] at h
    refine ⟨hf, h, ?_⟩
    simpa using mklvar_error h
  · right
    rw [if_neg (by simpa using hf)] at h
    simp only [mkgvar, PState.globals_set_t] at h
    by_cases hd : find_global tok1.name st.globals ≠ .null
    · rw [if_pos hd] at h
      cases h
      exact ⟨not_not.1 hf, hd, rfl⟩
    · rw [if_neg hd] at h; cases h

/-- C13, counterexample: on the global declaration `int x` with its `;`
missing, `declaration` fails at `expect(TK_SIMI)`, and the statements before
that call have already put the node of `x` at the head of `globals`: the
global list is not what it was before the declaration began. On
`int f() { + }`, `function` fails inside the body, after the node of `f` has
been put at the head of `globals`. -/
theorem no_partial_commit_counterexample :
    declaration state_int_x = .error (.error "parse: token of %s expected but got %s") ∧
    declaration_before_semi state_int_x =
      .ok (int_var "x", (state_int_x.set_t [tk TK_EOI]).set_globals (int_var "x")) ∧
    expect_st TK_SIMI ((state_int_x.set_t [tk TK_EOI]).set_globals (int_var "x")) =
      .error (.error "parse: token of %s expected but got %s") ∧
    ((state_int_x.set_t [tk TK_EOI]).set_globals (int_var "x")).globals ≠
      state_int_x.globals ∧
    function uac_left 20 state_bad_body =
      .error (.error "parse: primary get unexpected token") ∧
    (∃ k st1, function_before_params state_bad_body = .ok (k, st1) ∧
      function_from_params uac_left 20 k st1 =
        .error (.error "parse: primary get unexpected token") ∧
      st1.globals.name = some "f" ∧ st1.globals ≠ state_bad_body.globals) :=
  ⟨rfl, rfl, rfl, by decide, rfl, _, _, rfl, rfl, rfl, by decide⟩

/-- C13, amended: a failure inside a declaration ends the parse with that
failure, and nothing is put back. `declaration` fails either in its statements
before `expect(TK_SIMI)` or at that call. In the first case the failure is
that of `type_spec`, of `expect(TK_IDENT)`, or of `mklvar` or `mkgvar` called
with the lists as they were, at the check that comes before the node is made:
`mkgvar` fails with "redefine global variable", `mklvar` with "redefine local
variable" or, with no scope open, at the read of the scope. In the second case
the node of the new variable already stands at the head of `globals` (at top
level; `locals` and the scopes are as they were) or at the head of `locals`
and of the list of the innermost scope (inside a function; `globals` and the
outer scopes are as they were), linked to the lists as they were. `function`
fails either before its node is linked or in its parameters and body, and then
the node already stands at the head of `globals`. A failure of a top-level
item is the result of `trans_unit`, which returns no list. -/
theorem failed_declaration_state (uac : CType → CType → CType) (fuel : Nat) (st : PState)
    (e : Failure) :
    (declaration st = .error e ↔ declaration_before_semi st = .error e ∨
      ∃ v st1, declaration_before_semi st = .ok (v, st1) ∧
        expect_st TK_SIMI st1 = .error e) ∧
    (∀ v st1, declaration_before_semi st = .ok (v, st1) →
      v ≠ .null ∧ v.kind = A_VAR ∧
      (st.is_function = 0 → st1.globals = v ∧ v.next = st.globals ∧
        st1.locals = st.locals ∧ st1.scope = st.scope) ∧
      (st.is_function ≠ 0 → st1.locals = v ∧ v.next = st.locals ∧
        st1.globals = st.globals ∧
        ∃ list outer, st.scope = list :: outer ∧ st1.scope = v :: outer ∧
          v.scope_next = list)) ∧
    (declaration_before_semi st = .error e →
      type_spec st.t = .error e ∨
      ∃ ty t, type_spec st.t = .ok (ty, t) ∧
        (expect TK_IDENT t = .error e ∨
         ∃ tok t1, expect TK_IDENT t = .ok (tok, t1) ∧
          ((st.is_function ≠ 0 ∧ mklvar tok.name ty ((st.set_t t).set_t t1) = .error e ∧
            ((st.scope = [] ∧ e = .undefined) ∨
             ∃ list outer, st.scope = list :: outer ∧ find_scope tok.name list ≠ .null ∧
               e = .error "redefine local variable \"%s\"")) ∨
           (st.is_function = 0 ∧ find_global tok.name st.globals ≠ .null ∧
             e = .error "redefine global variable \"%s\"")))) ∧
    (function uac fuel st = .error e ↔ function_before_params st = .error e ∨
      ∃ k st1, function_before_params st = .ok (k, st1) ∧
        function_from_params uac fuel k st1 = .error e) ∧
    (∀ k st1, function_before_params st = .ok (k, st1) →
      st1.globals ≠ .null ∧ st1.globals.kind = A_FUNC_DEF ∧ st1.globals.is_function = 1 ∧
        st1.globals.next = st.globals ∧ k = chain_length st.globals) ∧
    (∀ c rest st1, st.t = c :: rest → c.kind ≠ TK_EOI →
      check_next_top_level_item st = .ok st1 →
      (if st1.is_function ≠ 0 then function uac fuel st1 else declaration st1) = .error e →
      trans_unit uac (fuel + 1) st = .error e) :=
  ⟨declaration_error_iff st e,
   fun _ _ h => declaration_before_semi_pushed h,
   fun h => declaration_before_semi_error h,
   function_error_iff uac fuel st e,
   fun _ _ h => function_before_params_pushed h,
   fun c rest st1 ht hc h1 h2 => trans_unit_item_error uac fuel st st1 c rest e ht hc h1 h2⟩

theorem failed_declaration_state_witness :
    trans_unit uac_left 1 state_int_x =
      .error (.error "parse: token of %s expected but got %s") ∧
    declaration state_local_no_semi =
      .error (.error "parse: token of %s expected but got %s") ∧
    (returned (declaration_before_semi state_local_no_semi)).2.locals =
      (returned (declaration_before_semi state_local_no_semi)).1 ∧
    (returned (declaration_before_semi state_local_no_semi)).1.next = local_a ∧
    (returned (declaration_before_semi state_local_no_semi)).2.globals =
      state_local_no_semi.globals ∧
    ∃ list outer, state_local_no_semi.scope = list :: outer ∧
      (returned (declaration_before_semi state_local_no_semi)).2.scope =
        (returned (declaration_before_semi state_local_no_semi)).1 :: outer ∧
      (returned (declaration_before_semi state_local_no_semi)).1.scope_next = list :=
  ⟨(failed_declaration_state uac_left 0 state_int_x
    (.error "parse: token of %s expected but got %s")).2.2.2.2.2
    (tk TK_INT) [tk_ident "x", tk TK_EOI] state_int_x rfl (by decide) rfl rfl, rfl,
   ((failed_declaration_state uac_left 0 state_local_no_semi
    (.error "parse: token of %s expected but got %s")).2.1
    (returned (declaration_before_semi state_local_no_semi)).1
    (returned (declaration_before_semi state_local_no_semi)).2 rfl).2.2.2 (by decide)⟩

/-- The parse of `int x` without `;` and of `int f() { + }` returns no list. -/
theorem parse_malformed_programs :
    parse uac_left 20 [tk TK_INT, tk_ident "x", tk TK_EOI] =
      .error (.error "parse: token of %s expected but got %s") ∧
    parse uac_left 20 [tk TK_INT, tk_ident "f", tk TK_OPENING_PARENTHESES,
      tk TK_CLOSING_PARENTHESES, tk TK_OPENING_BRACES, tk TK_ADD, tk TK_CLOSING_BRACES,
      tk TK_EOI] = .error (.error "parse: primary get unexpected token") :=
  ⟨rfl, rfl⟩

/-! ## The string table -/

theorem strlen_nul_free (a : List Nat) (h : ∀ c ∈ a, c ≠ 0) : strlen a = a.length := by
  unfold strlen
  rw [List.takeWhile_eq_self_iff.2]
  intro c hc
  simpa using h c hc

theorem hash_loop_take (n : Nat) : ∀ (s : List Nat) (h : Nat), n ≤ s.length →
    hash_loop s n h = hash_loop (s.take n) n h := by
  induction n with
  | zero => intro s h _; rfl
  | succ n ih =>
    intro s h hn
    cases s with
    | nil => simp at hn
    | cons c rest =>
      simp only [hash_loop, List.take_succ_cons, List.tail_cons, List.headD_cons]
      exact ih rest _ (by simpa using hn)

theorem strncmp_take (n : Nat) : ∀ (a s : List Nat), n ≤ s.length →
    strncmp a s n = strncmp a (s.take n) n := by
  induction n with
  | zero => intro a s _; rfl
  | succ n ih =>
    intro a s hn
    cases s with
    | nil => simp at hn
    | cons c rest =>
      simp only [strncmp, List.take_succ_cons, List.tail_cons, List.headD_cons]
      rw [ih a.tail rest (by simpa using hn)]

theorem strncmp_eq_zero_iff : ∀ (a b : List Nat), (∀ c ∈ a, c ≠ 0) → (∀ c ∈ b, c ≠ 0) →
    a.length = b.length → (strncmp a b b.length = 0 ↔ a = b) := by
  intro a
  induction a with
  | nil =>
    intro b _ _ hl
    cases b with
    | nil => simp [strncmp]
    | cons _ _ => simp at hl
  | cons x xs ih =>
    intro b ha hb hl
    cases b with
    | nil => simp at hl
    | cons y ys =>
      have hx : x ≠ 0 := ha x (by simp)
      simp only [List.length_cons, strncmp, List.headD_cons, List.tail_cons]
      by_cases hxy : x = y
      · subst hxy
        simp only [ne_eq, not_true_eq_false, if_false, if_neg hx]
        rw [ih ys (fun c hc => ha c (by simp [hc])) (fun c hc => hb c (by simp [hc]))
          (by simpa using hl)]
        simp
      · rw [if_pos hxy]
        simp only [List.cons.injEq, hxy, false_and, iff_false]
        omega

theorem strncpy_nul_free (s : List Nat) (n : Nat) (h : ∀ c ∈ s.take n, c ≠ 0) :
    strncpy s n = s.take n := by
  unfold strncpy
  rw [List.takeWhile_eq_self_iff.2]
  intro c hc
  simpa using h c hc

theorem tableInv_init : TableInv StringTable.init := by
  refine ⟨?_, ?_, ?_⟩ <;> simp [StringTable.init]

theorem find_some_spec {α : Type} (p : α → Bool) : ∀ (l : List α) (e : α),
    l.find? p = some e → e ∈ l ∧ p e = true := by
  intro l
  induction l with
  | nil => intro e h; simp at h
  | cons x xs ih =>
    intro e h
    rw [List.find?_cons] at h
    cases hx : p x with
    | true =>
      rw [hx] at h
      simp only [Option.some.injEq] at h
      subst h
      exact ⟨by simp, hx⟩
    | false =>
      rw [hx] at h
      exact ⟨List.mem_cons_of_mem _ (ih e h).1, (ih e h).2⟩

theorem pairwise_chars_unique : ∀ (l : List StrEntry),
    l.Pairwise (fun e1 e2 => e1.chars ≠ e2.chars) → ∀ e1 e2, e1 ∈ l → e2 ∈ l →
    e1.chars = e2.chars → e1 = e2 := by
  intro l
  induction l with
  | nil => intro _ e1 _ h; simp at h
  | cons x xs ih =>
    intro hp e1 e2 h1 h2 hc
    rw [List.pairwise_cons] at hp
    rw [List.mem_cons] at h1 h2
    rcases h1 with rfl | h1 <;> rcases h2 with rfl | h2
    · rfl
    · exact absurd hc (hp.1 _ h2)
    · exact absurd hc.symm (hp.1 _ h1)
    · exact ih hp.2 _ _ h1 h2 hc

theorem lookup_pred_iff {tb : StringTable} (hi : TableInv tb) {a : List Nat}
    (ha : ∀ c ∈ a, c ≠ 0) {h : Nat} {e : StrEntry} (he : e ∈ tb.string_table h) :
    (decide (strlen e.chars = a.length) && decide (strncmp e.chars a a.length = 0)) = true ↔
      e.chars = a := by
  have hn := (hi.1 h e he).1
  rw [Bool.and_eq_true, decide_eq_true_iff, decide_eq_true_iff, strlen_nul_free _ hn]
  constructor
  · rintro ⟨hl, hc⟩
    exact (strncmp_eq_zero_iff _ _ hn ha hl).1 hc
  · intro h1
    exact ⟨by rw [h1], (strncmp_eq_zero_iff _ _ hn ha (by rw [h1])).2 h1⟩

theorem stringn_found {tb : StringTable} (hi : TableInv tb) {a : List Nat}
    (ha : ∀ c ∈ a, c ≠ 0) {p : Nat}
    (hp : (⟨p, a⟩ : StrEntry) ∈ tb.string_table (hash a a.length % STSIZE)) :
    stringn a a.length tb = (p, tb) := by
  unfold stringn
  simp only
  cases hf : (tb.string_table (hash a a.length % STSIZE)).find?
      (fun i => decide (strlen i.chars = a.length) && decide (strncmp i.chars a a.length = 0))
    with
  | none =>
    have := List.find?_eq_none.1 hf _ hp
    exact absurd ((lookup_pred_iff hi ha hp).2 rfl) this
  | some e =>
    obtain ⟨he, hpe⟩ := find_some_spec _ _ _ hf
    have hc : e.chars = a := (lookup_pred_iff hi ha he).1 hpe
    have : e = ⟨p, a⟩ :=
      pairwise_chars_unique _ (hi.2.1 (hash a a.length % STSIZE)) _ _ he hp hc
    rw [this]

theorem stringn_new {tb : StringTable} (hi : TableInv tb) {a : List Nat}
    (ha : ∀ c ∈ a, c ≠ 0)
    (hp : ∀ p, (⟨p, a⟩ : StrEntry) ∉ tb.string_table (hash a a.length % STSIZE)) :
    stringn a a.length tb = (tb.allocated,
      ⟨fun k => if k = hash a a.length % STSIZE then ⟨tb.allocated, a⟩ :: tb.string_table k
        else tb.string_table k, tb.allocated + 1⟩) := by
  unfold stringn
  simp only
  cases hf : (tb.string_table (hash a a.length % STSIZE)).find?
      (fun i => decide (strlen i.chars = a.length) && decide (strncmp i.chars a a.length = 0))
    with
  | none =>
    simp only
    rw [strncpy_nul_free a a.length (by simpa using ha), List.take_length]
  | some e =>
    obtain ⟨he, hpe⟩ := find_some_spec _ _ _ hf
    have hc : e.chars = a := (lookup_pred_iff hi ha he).1 hpe
    have : (⟨e.s, a⟩ : StrEntry) = e := by
      cases e
      simp only at hc
      rw [hc]
    exact absurd (by rw [this]; exact he) (hp e.s)

theorem stringn_step {tb : StringTable} (hi : TableInv tb) {a : List Nat}
    (ha : ∀ c ∈ a, c ≠ 0) :
    TableInv (stringn a a.length tb).2 ∧
    (⟨(stringn a a.length tb).1, a⟩ : StrEntry) ∈
      (stringn a a.length tb).2.string_table (hash a a.length % STSIZE) ∧
    (∀ h e, e ∈ tb.string_table h → e ∈ (stringn a a.length tb).2.string_table h) := by
  by_cases hex : ∃ p, (⟨p, a⟩ : StrEntry) ∈ tb.string_table (hash a a.length % STSIZE)
  · obtain ⟨p, hp⟩ := hex
    rw [stringn_found hi ha hp]
    exact ⟨hi, hp, fun _ _ h => h⟩
  · have hno : ∀ p, (⟨p, a⟩ : StrEntry) ∉ tb.string_table (hash a a.length % STSIZE) :=
      fun p hp => hex ⟨p, hp⟩
    rw [stringn_new hi ha hno]
    simp only
    refine ⟨⟨?_, ?_, ?_⟩, ?_, ?_⟩
    · intro h e he
      dsimp only at he ⊢
      by_cases hh : h = hash a a.length % STSIZE
      · rw [if_pos hh, List.mem_cons] at he
        rcases he with rfl | he
        · exact ⟨ha, hh, Nat.lt_succ_self _⟩
        · obtain ⟨h1, h2, h3⟩ := hi.1 h e he
          exact ⟨h1, h2, Nat.lt_succ_of_lt h3⟩
      · rw [if_neg hh] at he
        obtain ⟨h1, h2, h3⟩ := hi.1 h e he
        exact ⟨h1, h2, Nat.lt_succ_of_lt h3⟩
    · intro h
      dsimp only
      by_cases hh : h = hash a a.length % STSIZE
      · rw [if_pos hh, List.pairwise_cons]
        refine ⟨?_, hi.2.1 h⟩
        intro e he hc
        simp only at hc
        apply hno e.s
        have : (⟨e.s, a⟩ : StrEntry) = e := by
          cases e
          simp only at hc
          rw [hc]
        rw [this, ← hh]
        exact he
      · rw [if_neg hh]
        exact hi.2.1 h
    · intro h1 h2 e1 e2 he1 he2 hs
      dsimp only at he1 he2
      have old : ∀ h e, e ∈ (if h = hash a a.length % STSIZE then
          (⟨tb.allocated, a⟩ : StrEntry) :: tb.string_table h else tb.string_table h) →
          e = ⟨tb.allocated, a⟩ ∨ e ∈ tb.string_table h := by
        intro h e he
        by_cases hh : h = hash a a.length % STSIZE
        · rw [if_pos hh, List.mem_cons] at he
          exact he
        · rw [if_neg hh] at he
          exact Or.inr he
      rcases old h1 e1 he1 with rfl | o1 <;> rcases old h2 e2 he2 with rfl | o2
      · rfl
      · have := (hi.1 h2 e2 o2).2.2
        simp only at hs
        omega
      · have := (hi.1 h1 e1 o1).2.2
        simp only at hs
        omega
      · exact hi.2.2 h1 h2 e1 e2 o1 o2 hs
    · simp
    · intro h e he
      by_cases hh : h = hash a a.length % STSIZE
      · rw [if_pos hh]
        exact List.mem_cons_of_mem _ he
      · rw [if_neg hh]
        exact he

theorem stringn_take (s : List Nat) (n : Nat) (tb : StringTable) (hn : n ≤ s.length) :
    stringn s n tb = stringn (s.take n) (s.take n).length tb := by
  have hl : (s.take n).length = n := by simp [hn]
  rw [hl]
  unfold stringn hash strncpy
  simp only [hash_loop_take n s _ hn, List.take_take, Nat.min_self]
  have : (fun i : StrEntry => decide (strlen i.chars = n) && decide (strncmp i.chars s n = 0)) =
      fun i => decide (strlen i.chars = n) && decide (strncmp i.chars (s.take n) n = 0) := by
    funext i
    rw [strncmp_take n i.chars s hn]
  rw [this]

theorem interns_inv {tb tb1 : StringTable} (hi : TableInv tb) (h : Interns tb tb1) :
    TableInv tb1 ∧ ∀ h e, e ∈ tb.string_table h → e ∈ tb1.string_table h := by
  induction h with
  | refl => exact ⟨hi, fun _ _ h => h⟩
  | call s n _ hr ih =>
    rw [stringn_take s n _ hr.1]
    obtain ⟨i1, _, i3⟩ := stringn_step ih.1 hr.2
    exact ⟨i1, fun h e he => i3 h e (ih.2 h e he)⟩

theorem string_nul_free (a : List Nat) (ha : ∀ c ∈ a, c ≠ 0) (tb : StringTable) :
    string a tb = stringn a a.length tb := by
  rw [string, strlen_nul_free a ha]

/-- After calls on ranges without NUL, `string(a)` returns an entry that holds
`a`; a later `string(b)` returns the same entry exactly when `b` is `a`, and a
later `string(a)` adds nothing. -/
theorem string_canonical {tb0 tb1 : StringTable} (h0 : Interns StringTable.init tb0)
    {a b : List Nat} (ha : ∀ c ∈ a, c ≠ 0) (hb : ∀ c ∈ b, c ≠ 0)
    (h1 : Interns (string a tb0).2 tb1) :
    (⟨(string a tb0).1, a⟩ : StrEntry) ∈
      (string a tb0).2.string_table (hash a a.length % STSIZE) ∧
    ((string b tb1).1 = (string a tb0).1 ↔ b = a) ∧
    string a tb1 = ((string a tb0).1, tb1) := by
  have i0 := (interns_inv tableInv_init h0).1
  rw [string_nul_free a ha, string_nul_free b hb] at *
  obtain ⟨ia, ma, _⟩ := stringn_step i0 ha
  obtain ⟨i1, p1⟩ := interns_inv ia h1
  have ma1 := p1 _ _ ma
  obtain ⟨ib, mb, pb⟩ := stringn_step i1 hb
  have fa := stringn_found i1 ha ma1
  refine ⟨ma, ⟨?_, ?_⟩, ?_⟩
  · intro hs
    have := ib.2.2 _ _ _ _ mb (pb _ _ ma1) hs
    exact this
  · rintro rfl
    rw [fa]
  · rw [string_nul_free a ha, fa]

/-- After calls on ranges without NUL no two entries hold the same string:
the strings of one bucket differ and a string stands only in the bucket of its
hash. -/
theorem table_no_duplicates {tb : StringTable} (h : Interns StringTable.init tb) :
    (∀ k, (tb.string_table k).Pairwise (fun e1 e2 => e1.chars ≠ e2.chars)) ∧
    (∀ k1 k2 e1 e2, e1 ∈ tb.string_table k1 → e2 ∈ tb.string_table k2 →
      e1.chars = e2.chars → k1 = k2 ∧ e1 = e2) := by
  have i := (interns_inv tableInv_init h).1
  refine ⟨i.2.1, ?_⟩
  intro k1 k2 e1 e2 h1 h2 hc
  have hk : k1 = k2 := by
    rw [(i.1 k1 e1 h1).2.1, (i.1 k2 e2 h2).2.1, hc]
  subst hk
  exact ⟨rfl, pairwise_chars_unique _ (i.2.1 k1) _ _ h1 h2 hc⟩

theorem take_strlen : ∀ (a : List Nat), a.take (strlen a) = a.takeWhile (fun c => c ≠ 0) ∧
    strlen a ≤ a.length := by
  intro a
  induction a with
  | nil => exact ⟨rfl, Nat.le_refl _⟩
  | cons x xs ih =>
    unfold strlen at ih ⊢
    by_cases hx : x ≠ 0
    · simp only [List.takeWhile_cons, hx, decide_True, if_true, List.length_cons,
        List.take_succ_cons, ne_eq, not_false_eq_true]
      exact ⟨by rw [ih.1], Nat.succ_le_succ ih.2⟩
    · simp [List.takeWhile_cons, hx]

/-- A call `string(a)` is a call of `stringn` on a range without NUL: the bytes
of `a` before its first NUL. -/
theorem interns_string {tb tb1 : StringTable} (a : List Nat) (h : Interns tb tb1) :
    Interns tb (string a tb1).2 := by
  refine Interns.call a (strlen a) h ⟨(take_strlen a).2, ?_⟩
  intro c hc
  rw [(take_strlen a).1] at hc
  simpa using List.mem_takeWhile_imp hc

theorem strncmp_nul_ne (n : Nat) : ∀ (a s : List Nat), strlen a = n → 0 ∈ s.take n →
    strncmp a s n ≠ 0 := by
  induction n with
  | zero => intro a s _ h0; simp at h0
  | succ n ih =>
    intro a s hl h0
    cases s with
    | nil => simp at h0
    | cons y ys =>
      cases a with
      | nil => simp [strlen] at hl
      | cons x xs =>
        have hx : x ≠ 0 := by
          intro hx
          subst hx
          simp [strlen] at hl
        have hxs : strlen xs = n := by
          simp only [strlen, List.takeWhile_cons] at hl
          rw [if_pos (by simpa using hx)] at hl
          simpa [strlen] using hl
        simp only [strncmp, List.headD_cons, List.tail_cons]
        by_cases hxy : x = y
        · subst hxy
          simp only [ne_eq, not_true_eq_false, if_false, if_neg hx]
          apply ih xs ys hxs
          simp only [List.take_succ_cons, List.mem_cons] at h0
          rcases h0 with h0 | h0
          · exact absurd h0.symm hx
          · exact h0
        · rw [if_pos hxy]
          omega

/-- A call `stringn(s, n)` with a NUL among its `n` bytes finds no entry,
whatever the table holds, and stores the bytes before the first NUL as a new
entry in the bucket of the hash of all `n` bytes. -/
theorem stringn_nul_adds (s : List Nat) (n : Nat) (tb : StringTable) (h0 : 0 ∈ s.take n) :
    stringn s n tb = (tb.allocated,
      ⟨fun k => if k = hash s n % STSIZE then
          (⟨tb.allocated, (s.take n).takeWhile (fun c => c ≠ 0)⟩ : StrEntry) ::
            tb.string_table k
        else tb.string_table k, tb.allocated + 1⟩) := by
  unfold stringn
  simp only
  have hf : (tb.string_table (hash s n % STSIZE)).find?
      (fun i => decide (strlen i.chars = n) && decide (strncmp i.chars s n = 0)) = none := by
    rw [List.find?_eq_none]
    intro e _
    simp only [Bool.and_eq_true, decide_eq_true_eq, not_and]
    intro hl
    exact strncmp_nul_ne n e.chars s hl h0
  rw [hf]
  rfl

/-- C19, counterexample: after `string("c")` and the call `stringn("c\0", 2)`,
whose two bytes hold a NUL, the table holds two entries with the string "c" in
one bucket, and `string("c")` returns the second entry, not the one it returned
before. -/
theorem string_interning_counterexample :
    InternsAny StringTable.init (stringn [99, 0] 2 (string [99] StringTable.init).2).2 ∧
    (string [99] StringTable.init).1 = 0 ∧
    (string [99] (stringn [99, 0] 2 (string [99] StringTable.init).2).2).1 = 1 ∧
    entries_of (stringn [99, 0] 2 (string [99] StringTable.init).2).2 [99] =
      [⟨1, [99]⟩, ⟨0, [99]⟩] :=
  ⟨InternsAny.call [99, 0] 2 (InternsAny.call [99] (strlen [99]) (InternsAny.refl _)
    (by decide)) (by decide), rfl, rfl, by decide⟩

/-- C19, amended: after any sequence of earlier calls of `string` and of
`stringn` on ranges without NUL, from the empty table, for all byte strings `a`
and `b` without NUL: `string(a)` returns an entry whose string is `a`; however
many such calls follow, `string(b)` returns that same entry if and only if `b`
and `a` are equal, and `string(a)` again returns it and leaves the table as it
is; and the table never holds two entries with the same string. A call
`stringn(s, n)` with a NUL among its `n` bytes, on any table, returns a new
entry: the bytes before the first NUL, put in front of the bucket of the hash
of all `n` bytes. -/
theorem string_interning (tb0 tb1 : StringTable) (a b : List Nat)
    (h0 : Interns StringTable.init tb0) (ha : ∀ c ∈ a, c ≠ 0) (hb : ∀ c ∈ b, c ≠ 0)
    (h1 : Interns (string a tb0).2 tb1) :
    (⟨(string a tb0).1, a⟩ : StrEntry) ∈
      (string a tb0).2.string_table (hash a a.length % STSIZE) ∧
    ((string b tb1).1 = (string a tb0).1 ↔ b = a) ∧
    string a tb1 = ((string a tb0).1, tb1) ∧
    (∀ k, (tb0.string_table k).Pairwise (fun e1 e2 => e1.chars ≠ e2.chars)) ∧
    (∀ k1 k2 e1 e2, e1 ∈ tb0.string_table k1 → e2 ∈ tb0.string_table k2 →
      e1.chars = e2.chars → k1 = k2 ∧ e1 = e2) ∧
    (∀ (s : List Nat) (n : Nat) (tb : StringTable), 0 ∈ s.take n →
      stringn s n tb = (tb.allocated,
        ⟨fun k => if k = hash s n % STSIZE then
            (⟨tb.allocated, (s.take n).takeWhile (fun c => c ≠ 0)⟩ : StrEntry) ::
              tb.string_table k
          else tb.string_table k, tb.allocated + 1⟩)) :=
  ⟨(string_canonical h0 ha hb h1).1, (string_canonical h0 ha hb h1).2.1,
   (string_canonical h0 ha hb h1).2.2, (table_no_duplicates h0).1,
   (table_no_duplicates h0).2, fun s n tb hz => stringn_nul_adds s n tb hz⟩

theorem string_interning_witness :
    (⟨(string [97] StringTable.init).1, [97]⟩ : StrEntry) ∈
      (string [97] StringTable.init).2.string_table (hash [97] [97].length % STSIZE) ∧
    ((string [98] (string [97] StringTable.init).2).1 = (string [97] StringTable.init).1 ↔
      [98] = [97]) ∧
    string [97] (string [97] StringTable.init).2 =
      ((string [97] StringTable.init).1, (string [97] StringTable.init).2) ∧
    stringn [99, 0] 2 (string [99] StringTable.init).2 =
      ((string [99] StringTable.init).2.allocated,
        ⟨fun k => if k = hash [99, 0] 2 % STSIZE then
            (⟨(string [99] StringTable.init).2.allocated,
              ([99, 0].take 2).takeWhile (fun c => c ≠ 0)⟩ : StrEntry) ::
              (string [99] StringTable.init).2.string_table k
          else (string [99] StringTable.init).2.string_table k,
          (string [99] StringTable.init).2.allocated + 1⟩) :=
  ⟨(string_interning StringTable.init (string [97] StringTable.init).2 [97] [98]
      (Interns.refl _) (by decide) (by decide) (Interns.refl _)).1,
   (string_interning StringTable.init (string [97] StringTable.init).2 [97] [98]
      (Interns.refl _) (by decide) (by decide) (Interns.refl _)).2.1,
   (string_interning StringTable.init (string [97] StringTable.init).2 [97] [98]
      (Interns.refl _) (by decide) (by decide) (Interns.refl _)).2.2.1,
   (string_interning StringTable.init (string [97] StringTable.init).2 [97] [98]
      (Interns.refl _) (by decide) (by decide) (Interns.refl _)).2.2.2.2.2
      [99, 0] 2 (string [99] StringTable.init).2 (by decide)⟩

/-! ## The code generator: jumps outside a loop, division -/

/-- C14: with no loop entered (`iterjumploc` null), `astgen` on an A_BREAK or
A_CONTINUE node reads `iterjumploc->lbreak` or `iterjumploc->lcontinue` through
the null pointer: the run ends there, without a line written for the node, and
not by a call of `error()`. -/
theorem break_outside_loop (findsym : CStr → Bool) (left mid right next : GNode)
    (intvalue : Int) (sym : CStr) (storreg : Int) (reg_stat : RegStat) (label_id : Int)
    (out : List Asm) :
    astgen findsym (.mk .A_BREAK left mid right next intvalue sym) storreg
        ⟨reg_stat, label_id, [], out⟩ = .error .undefined ∧
    astgen findsym (.mk .A_CONTINUE left mid right next intvalue sym) storreg
        ⟨reg_stat, label_id, [], out⟩ = .error .undefined ∧
    gen_break ⟨reg_stat, label_id, [], out⟩ = .error .undefined ∧
    gen_continue ⟨reg_stat, label_id, [], out⟩ = .error .undefined :=
  ⟨rfl, rfl, rfl, rfl⟩

theorem reg_list_ok (r : Int) (h0 : 0 ≤ r) (h3 : r < 4) : ∃ name, reg_list r = .ok name := by
  have : r = 0 ∨ r = 1 ∨ r = 2 ∨ r = 3 := by omega
  rcases this with rfl | rfl | rfl | rfl <;> exact ⟨_, rfl⟩

/-- C18: for busy registers `r1` and `r2`, `divide(r1, r2)` writes four lines:
the move of `r1` into `rax`, `cqo`, the instruction `div` by `r2`, which is the
unsigned division and not `idiv`, and the move of `rax` back into `r1`; it
returns `r1` and clears the flag of `r2`. -/
theorem divide_lowering (r1 r2 : Fin 4) (s : GState) (h2 : s.reg_stat r2 ≠ 0) :
    ∃ n1 n2, reg_list r1 = .ok n1 ∧ reg_list r2 = .ok n2 ∧
      divide r1 r2 s = .ok ((r1 : Int),
        ⟨Function.update s.reg_stat r2 0, s.label_id, s.iterjumploc,
          s.out ++ [.ins ("\tmov\t%" ++ n1 ++ ", %rax\n"), .ins "\tcqo\n",
            .ins ("\tdiv\t%" ++ n2 ++ "\n"), .ins ("\tmov\t%rax, %" ++ n1 ++ "\n")]⟩) := by
  obtain ⟨n1, hn1⟩ := reg_list_ok r1 (by omega) (by omega)
  obtain ⟨n2, hn2⟩ := reg_list_ok r2 (by omega) (by omega)
  refine ⟨n1, n2, hn1, hn2, ?_⟩
  obtain ⟨rs, l, j, o⟩ := s
  have hlt : ((r2 : ℕ) : Int).toNat < 4 := by simp
  have hfin : (⟨((r2 : ℕ) : Int).toNat, hlt⟩ : Fin 4) = r2 := by
    apply Fin.ext; simp
  simp only [divide, hn1, hn2, free_reg_st, free_reg, GState.emit, GState.set_reg_stat, bind,
    Except.bind, pure, Except.pure]
  have hneg : ¬ ((r2 : ℕ) : Int) < 0 := by omega
  simp only at h2
  rw [if_neg hneg, dif_pos hlt, hfin, if_neg h2]
  simp

theorem divide_lowering_witness :
    divide 0 1 state_two_busy = .ok (0,
      ⟨Function.update state_two_busy.reg_stat 1 0, 0, [],
        [.ins "\tmov\t%r8, %rax\n", .ins "\tcqo\n", .ins "\tdiv\t%r9\n",
          .ins "\tmov\t%rax, %r8\n"]⟩) ∧
    Asm.ins "\tdiv\t%r9\n" ≠ Asm.ins "\tidiv\t%r9\n" := by
  obtain ⟨n1, n2, h1, h2, h⟩ := divide_lowering 0 1 state_two_busy (by decide)
  have e1 : n1 = "r8" := by
    have : reg_list ((0 : Fin 4) : Int) = .ok "r8" := rfl
    rw [this] at h1; injection h1 with h1; exact h1.symm
  have e2 : n2 = "r9" := by
    have : reg_list ((1 : Fin 4) : Int) = .ok "r9" := rfl
    rw [this] at h2; injection h2 with h2; exact h2.symm
  subst e1 e2
  exact ⟨h, by decide⟩

/-- The lines of `6 / 3`: the division is written as `div`. -/
theorem astgen_division_example :
    lines (astgen findsym_all (g_node .A_DIV (g_num 6) .null (g_num 3)) (-1) GState.init) =
      [.ins "\tmov\t$6, %r8\n", .ins "\tmov\t$3, %r9\n", .ins "\tmov\t%r8, %rax\n",
        .ins "\tcqo\n", .ins "\tdiv\t%r9\n", .ins "\tmov\t%rax, %r8\n"] := by
  rfl

/-! ## Register balance of astgen -/

namespace GState

@[simp]
theorem reg_stat_emit (s : GState) (a : Asm) : (s.emit a).reg_stat = s.reg_stat := by
  cases s; rfl

@[simp]
theorem label_id_emit (s : GState) (a : Asm) : (s.emit a).label_id = s.label_id := by
  cases s; rfl

@[simp]
theorem iterjumploc_emit (s : GState) (a : Asm) : (s.emit a).iterjumploc = s.iterjumploc := by
  cases s; rfl

@[simp]
theorem out_emit (s : GState) (a : Asm) : (s.emit a).out = s.out ++ [a] := by
  cases s; rfl

@[simp]
theorem reg_stat_set_reg_stat (s : GState) (v : RegStat) : (s.set_reg_stat v).reg_stat = v := by
  cases s; rfl

@[simp]
theorem label_id_set_reg_stat (s : GState) (v : RegStat) :
    (s.set_reg_stat v).label_id = s.label_id := by
  cases s; rfl

@[simp]
theorem iterjumploc_set_reg_stat (s : GState) (v : RegStat) :
    (s.set_reg_stat v).iterjumploc = s.iterjumploc := by
  cases s; rfl

@[simp]
theorem out_set_reg_stat (s : GState) (v : RegStat) : (s.set_reg_stat v).out = s.out := by
  cases s; rfl

@[simp]
theorem reg_stat_set_label_id (s : GState) (v : Int) :
    (s.set_label_id v).reg_stat = s.reg_stat := by
  cases s; rfl

@[simp]
theorem label_id_set_label_id (s : GState) (v : Int) : (s.set_label_id v).label_id = v := by
  cases s; rfl

@[simp]
theorem iterjumploc_set_label_id (s : GState) (v : Int) :
    (s.set_label_id v).iterjumploc = s.iterjumploc := by
  cases s; rfl

@[simp]
theorem out_set_label_id (s : GState) (v : Int) : (s.set_label_id v).out = s.out := by
  cases s; rfl

@[simp]
theorem reg_stat_set_iterjumploc (s : GState) (v : List JumpLoc) :
    (s.set_iterjumploc v).reg_stat = s.reg_stat := by
  cases s; rfl

@[simp]
theorem label_id_set_iterjumploc (s : GState) (v : List JumpLoc) :
    (s.set_iterjumploc v).label_id = s.label_id := by
  cases s; rfl

@[simp]
theorem iterjumploc_set_iterjumploc (s : GState) (v : List JumpLoc) :
    (s.set_iterjumploc v).iterjumploc = v := by
  cases s; rfl

@[simp]
theorem out_set_iterjumploc (s : GState) (v : List JumpLoc) :
    (s.set_iterjumploc v).out = s.out := by
  cases s; rfl

end GState

/-! ## Register balance of astgen -/

theorem balanced_free {S S1 S2 : RegStat} {r : Int} (hb : Balanced S r S1)
    (hf : free_reg S1 r = .ok S2) : S2 = S := by
  rcases hb with ⟨rfl, rfl⟩ | ⟨i, rfl, hi, rfl⟩
  · rw [free_reg_negative _ _ (by decide)] at hf
    injection hf with hf
    exact hf.symm
  · obtain ⟨_, rfl⟩ := free_reg_ok_inv hf
    rw [Function.update_idem, ← hi, Function.update_eq_self]

theorem reg_list_inv {r : Int} {name : String} (h : reg_list r = .ok name) :
    ∃ i : Fin 4, r = (i.val : Int) := by
  unfold reg_list at h
  by_cases h0 : r = 0
  · exact ⟨0, by simp [h0]⟩
  by_cases h1 : r = 1
  · exact ⟨1, by simp [h1]⟩
  by_cases h2 : r = 2
  · exact ⟨2, by simp [h2]⟩
  by_cases h3 : r = 3
  · exact ⟨3, by rw [h3]; rfl⟩
  simp [h0, h1, h2, h3] at h

theorem balanced_reg {S S1 : RegStat} {r : Int} {name : String} (hb : Balanced S r S1)
    (hn : reg_list r = .ok name) :
    ∃ i : Fin 4, r = (i : Int) ∧ S i = 0 ∧ S1 = Function.update S i 1 := by
  rcases hb with ⟨rfl, _⟩ | h
  · simp [reg_list] at hn
  · exact h

/-- Two registers taken one after the other, the first freed: the pool holds
the second. -/
theorem balanced_free_first {S S1 S2 S3 : RegStat} {l r : Int} {nl nr : String}
    (hl : Balanced S l S1) (hr : Balanced S1 r S2)
    (hnl : reg_list l = .ok nl) (hnr : reg_list r = .ok nr)
    (hf : free_reg S2 l = .ok S3) : Balanced S r S3 := by
  obtain ⟨i, rfl, hi, rfl⟩ := balanced_reg hl hnl
  obtain ⟨j, rfl, hj, rfl⟩ := balanced_reg hr hnr
  obtain ⟨_, rfl⟩ := free_reg_ok_inv hf
  have hij : j ≠ i := by
    rintro rfl
    simp at hj
  refine Or.inr ⟨j, rfl, ?_, ?_⟩
  · simpa [Function.update, hij] using hj
  · funext k
    by_cases hki : k = i
    · subst hki
      simp [Function.update, Ne.symm hij, hi]
    · by_cases hkj : k = j
      · subst hkj
        simp [Function.update, hki]
      · simp [Function.update, hki, hkj]

/-- Two registers taken one after the other, the second freed: the pool holds
the first. -/
theorem balanced_free_second {S S1 S2 S3 : RegStat} {l r : Int} {nl : String}
    (hl : Balanced S l S1) (hr : Balanced S1 r S2)
    (hnl : reg_list l = .ok nl)
    (hf : free_reg S2 r = .ok S3) : Balanced S l S3 := by
  obtain ⟨i, rfl, hi, rfl⟩ := balanced_reg hl hnl
  have := balanced_free hr hf
  subst this
  exact Or.inr ⟨i, rfl, hi, rfl⟩

theorem free_reg_st_inv {r : Int} {s s' : GState} (h : free_reg_st r s = .ok s') :
    free_reg s.reg_stat r = .ok s'.reg_stat ∧ s'.label_id = s.label_id ∧
      s'.iterjumploc = s.iterjumploc ∧ s'.out = s.out := by
  simp only [free_reg_st, bind_eq_ok, pure_eq_ok] at h
  obtain ⟨rs, h1, rfl⟩ := h
  simp [h1]

theorem alloc_reg_st_inv {r : Int} {s s' : GState} (h : alloc_reg_st s = .ok (r, s')) :
    Balanced s.reg_stat r s'.reg_stat ∧ s'.label_id = s.label_id ∧
      s'.iterjumploc = s.iterjumploc ∧ s'.out = s.out := by
  simp only [alloc_reg_st, bind_eq_ok, pure_eq_ok, Prod.exists, Prod.mk.injEq] at h
  obtain ⟨r1, rs, h1, rfl, rfl⟩ := h
  exact ⟨Or.inr (alloc_reg_ok_inv h1), by simp, by simp, by simp⟩

theorem free_after {S : RegStat} {r : Int} {s1 s2 : GState} (hb : Balanced S r s1.reg_stat)
    (hf : free_reg_st r s1 = .ok s2) : s2.reg_stat = S :=
  balanced_free hb (free_reg_st_inv hf).1

theorem cmp_zero_inv {S : RegStat} {reg : Int} {s1 s2 : GState}
    (hb : Balanced S reg s1.reg_stat) (h : cmp_zero reg s1 = .ok s2) : s2.reg_stat = S := by
  simp only [cmp_zero, bind_eq_ok] at h
  obtain ⟨name, _, h⟩ := h
  exact free_after (by simpa using hb) h

theorem load_balanced {v : Int} {s s' : GState} {r : Int} (h : load v s = .ok (r, s')) :
    Balanced s.reg_stat r s'.reg_stat := by
  simp only [load, bind_eq_ok, pure_eq_ok, Prod.exists, Prod.mk.injEq] at h
  obtain ⟨r1, s1, h1, name, _, rfl, rfl⟩ := h
  simpa using (alloc_reg_st_inv h1).1

theorem loadglobal_balanced {findsym : CStr → Bool} {id : CStr} {s s' : GState} {r : Int}
    (h : loadglobal findsym id s = .ok (r, s')) : Balanced s.reg_stat r s'.reg_stat := by
  unfold loadglobal at h
  by_cases hf : (!findsym id) = true
  · rw [if_pos hf] at h; cases h
  · rw [if_neg hf] at h
    simp only [bind_eq_ok, pure_eq_ok, Prod.exists, Prod.mk.injEq] at h
    obtain ⟨r1, s1, h1, name, _, _, _, rfl, rfl⟩ := h
    simpa using (alloc_reg_st_inv h1).1

theorem storglobal_inv {findsym : CStr → Bool} {id : CStr} {r0 : Int} {s s' : GState} {r : Int}
    (h : storglobal findsym id r0 s = .ok (r, s')) :
    r = r0 ∧ s'.reg_stat = s.reg_stat ∧ ∃ name, reg_list r0 = .ok name := by
  unfold storglobal at h
  by_cases hf : (!findsym id) = true
  · rw [if_pos hf] at h; cases h
  · rw [if_neg hf] at h
    simp only [bind_eq_ok, pure_eq_ok, Prod.mk.injEq] at h
    obtain ⟨name, hn, _, _, rfl, rfl⟩ := h
    exact ⟨rfl, by simp, name, hn⟩

theorem print_inv {r1 : Int} {s s' : GState} {r : Int} (h : print r1 s = .ok (r, s')) :
    r = r1 ∧ s'.reg_stat = s.reg_stat ∧ ∃ name, reg_list r1 = .ok name := by
  simp only [print, bind_eq_ok, pure_eq_ok, Prod.mk.injEq] at h
  obtain ⟨name, hn, rfl, rfl⟩ := h
  exact ⟨rfl, by simp, name, hn⟩

theorem add_inv {r1 r2 : Int} {s s' : GState} {r : Int} (h : add r1 r2 s = .ok (r, s')) :
    r = r2 ∧ free_reg s.reg_stat r1 = .ok s'.reg_stat ∧
      (∃ n, reg_list r1 = .ok n) ∧ ∃ n, reg_list r2 = .ok n := by
  simp only [add, bind_eq_ok, pure_eq_ok, Prod.mk.injEq] at h
  obtain ⟨n1, h1, n2, h2, s1, hf, rfl, rfl⟩ := h
  exact ⟨rfl, by simpa using (free_reg_st_inv hf).1, ⟨n1, h1⟩, ⟨n2, h2⟩⟩

theorem mul_inv {r1 r2 : Int} {s s' : GState} {r : Int} (h : mul r1 r2 s = .ok (r, s')) :
    r = r2 ∧ free_reg s.reg_stat r1 = .ok s'.reg_stat ∧
      (∃ n, reg_list r1 = .ok n) ∧ ∃ n, reg_list r2 = .ok n := by
  simp only [mul, bind_eq_ok, pure_eq_ok, Prod.mk.injEq] at h
  obtain ⟨n1, h1, n2, h2, s1, hf, rfl, rfl⟩ := h
  exact ⟨rfl, by simpa using (free_reg_st_inv hf).1, ⟨n1, h1⟩, ⟨n2, h2⟩⟩

theorem sub_inv {r1 r2 : Int} {s s' : GState} {r : Int} (h : sub r1 r2 s = .ok (r, s')) :
    r = r1 ∧ free_reg s.reg_stat r2 = .ok s'.reg_stat ∧
      (∃ n, reg_list r1 = .ok n) ∧ ∃ n, reg_list r2 = .ok n := by
  simp only [sub, bind_eq_ok, pure_eq_ok, Prod.mk.injEq] at h
  obtain ⟨n2, h2, n1, h1, s1, hf, rfl, rfl⟩ := h
  exact ⟨rfl, by simpa using (free_reg_st_inv hf).1, ⟨n1, h1⟩, ⟨n2, h2⟩⟩

theorem divide_inv {r1 r2 : Int} {s s' : GState} {r : Int}
    (h : divide r1 r2 s = .ok (r, s')) :
    r = r1 ∧ free_reg s.reg_stat r2 = .ok s'.reg_stat ∧
      (∃ n, reg_list r1 = .ok n) ∧ ∃ n, reg_list r2 = .ok n := by
  simp only [divide, bind_eq_ok, pure_eq_ok, Prod.mk.injEq] at h
  obtain ⟨n1, h1, n2, h2, s1, hf, rfl, rfl⟩ := h
  exact ⟨rfl, by simpa using (free_reg_st_inv hf).1, ⟨n1, h1⟩, ⟨n2, h2⟩⟩

theorem compare_inv {r1 r2 : Int} {cd : String} {s s' : GState} {r : Int}
    (h : compare r1 r2 cd s = .ok (r, s')) :
    r = r1 ∧ free_reg s.reg_stat r2 = .ok s'.reg_stat ∧
      (∃ n, reg_list r1 = .ok n) ∧ ∃ n, reg_list r2 = .ok n := by
  simp only [compare, bind_eq_ok, pure_eq_ok, Prod.mk.injEq] at h
  obtain ⟨n2, h2, n1, h1, _, _, s1, hf, rfl, rfl⟩ := h
  exact ⟨rfl, by simpa using (free_reg_st_inv hf).1, ⟨n1, h1⟩, ⟨n2, h2⟩⟩

theorem iter_exit_inv {s s' : GState} {j : JumpLoc} (h : iter_exit s = .ok (j, s')) :
    s.iterjumploc = j :: s'.iterjumploc ∧ s'.reg_stat = s.reg_stat ∧
      s'.label_id = s.label_id ∧ s'.out = s.out := by
  unfold iter_exit at h
  split at h
  · cases h
  · rename_i j1 rest hs
    simp only [Except.ok.injEq, Prod.mk.injEq] at h
    obtain ⟨rfl, rfl⟩ := h
    simp [hs]

theorem gen_if_balanced {b : Bool} {cond tstat fstat : Gen} (hc : GenBalanced cond)
    (ht : GenBalanced tstat) (hf : GenBalanced fstat) {s s' : GState} {r : Int}
    (h : gen_if b cond tstat fstat s = .ok (r, s')) : r = -1 ∧ s'.reg_stat = s.reg_stat := by
  cases b
  · simp only [gen_if, new_label_st, Bool.false_eq_true, if_false, bind_eq_ok, pure_eq_ok,
      Prod.exists, Prod.mk.injEq] at h
    obtain ⟨reg, s1, h1, s2, h2, r3, s3, h3, s4, h4, s5, h5, rfl, rfl⟩ := h
    have e2 := cmp_zero_inv (hc _ _ _ h1) h2
    have e4 := free_after (ht _ _ _ h3) h4
    subst h5
    simp only [GState.reg_stat_emit, GState.reg_stat_set_label_id] at e2 e4 ⊢
    exact ⟨trivial, by rw [e4, e2]⟩
  · simp only [gen_if, new_label_st, if_true, bind_eq_ok, pure_eq_ok,
      Prod.exists, Prod.mk.injEq] at h
    obtain ⟨reg, s1, h1, s2, h2, r3, s3, h3, s4, h4, s5, ⟨r6, s6, h6, h7⟩, rfl, rfl⟩ := h
    have e2 := cmp_zero_inv (hc _ _ _ h1) h2
    have e4 := free_after (ht _ _ _ h3) h4
    have e7 := free_after (hf _ _ _ h6) h7
    simp only [GState.reg_stat_emit, GState.reg_stat_set_label_id] at e2 e4 e7 ⊢
    exact ⟨trivial, by rw [e7, e4, e2]⟩

theorem gen_while_balanced {cond stat : Gen} (hc : GenBalanced cond) (hs : GenBalanced stat)
    {s s' : GState} {r : Int} (h : gen_while cond stat s = .ok (r, s')) :
    r = -1 ∧ s'.reg_stat = s.reg_stat := by
  simp only [gen_while, new_label_st, bind_eq_ok, pure_eq_ok, Prod.exists,
    Prod.mk.injEq] at h
  obtain ⟨_, _, _, _, reg, s1, h1, s2, h2, _, _, _, _, r3, s3, h3, s4, h4, _, _, _, _, _, _,
    _, _, j, s5, h5, rfl, rfl⟩ := h
  have e2 := cmp_zero_inv (hc _ _ _ h1) h2
  have e4 := free_after (hs _ _ _ h3) h4
  have e5 := (iter_exit_inv h5).2.1
  simp only [GState.reg_stat_emit, GState.reg_stat_set_label_id, iter_enter,
    GState.reg_stat_set_iterjumploc] at e2 e4 e5 ⊢
  exact ⟨trivial, by rw [e5, e4, e2]⟩

theorem gen_dowhile_balanced {stat cond : Gen} (hs : GenBalanced stat) (hc : GenBalanced cond)
    {s s' : GState} {r : Int} (h : gen_dowhile stat cond s = .ok (r, s')) :
    r = -1 ∧ s'.reg_stat = s.reg_stat := by
  simp only [gen_dowhile, new_label_st, bind_eq_ok, pure_eq_ok, Prod.exists,
    Prod.mk.injEq] at h
  obtain ⟨_, _, _, _, r1, s1, h1, s2, h2, reg, s3, h3, s4, h4, _, _, _, _, j, s5, h5,
    rfl, rfl⟩ := h
  have e2 := free_after (hs _ _ _ h1) h2
  have e4 := cmp_zero_inv (hc _ _ _ h3) h4
  have e5 := (iter_exit_inv h5).2.1
  simp only [GState.reg_stat_emit, GState.reg_stat_set_label_id, iter_enter,
    GState.reg_stat_set_iterjumploc] at e2 e4 e5 ⊢
  refine ⟨trivial, ?_⟩
  cases j.lbreak <;> simp only [GState.reg_stat_emit] <;> rw [e5, e4, e2]

theorem gen_for_balanced {hc hp : Bool} {cond_expr stat post_expr : Gen}
    (h1 : GenBalanced cond_expr) (h2 : GenBalanced stat) (h3 : GenBalanced post_expr)
    {s s' : GState} {r : Int} (h : gen_for hc hp cond_expr stat post_expr s = .ok (r, s')) :
    r = -1 ∧ s'.reg_stat = s.reg_stat := by
  simp only [gen_for, new_label_st, bind_eq_ok, pure_eq_ok, Prod.exists,
    Prod.mk.injEq] at h
  obtain ⟨sa, ha, rb, sb, hb, sc, hcf, j, sd, hd, se, he, _, _, rfl, rfl⟩ := h
  have ea : sa.reg_stat = s.reg_stat := by
    cases hc
    · simp only [Bool.false_eq_true, if_false, pure_eq_ok] at ha
      subst ha; simp
    · simp only [if_true, bind_eq_ok, pure_eq_ok, Prod.exists] at ha
      obtain ⟨reg, s1, g1, s2, g2, rfl⟩ := ha
      have := cmp_zero_inv (h1 _ _ _ g1) g2
      simpa using this
  have eb := free_after (h2 _ _ _ hb) hcf
  have ed := (iter_exit_inv hd).2.1
  have ee : se.reg_stat = sd.reg_stat := by
    cases hp
    · simp only [Bool.false_eq_true, if_false, pure_eq_ok] at he
      subst he; rfl
    · simp only [if_true, bind_eq_ok, Prod.exists] at he
      obtain ⟨r1, s1, g1, g2⟩ := he
      have := free_after (h3 _ _ _ g1) g2
      rw [this]
      cases j.lcontinue <;> simp
  simp only [GState.reg_stat_emit, iter_enter, GState.reg_stat_set_iterjumploc] at eb ⊢
  exact ⟨trivial, by rw [ee, ed, eb, ea]⟩

theorem gen_func_balanced {b : Bool} {sym : CStr} {stat : Gen} (h1 : GenBalanced stat)
    {s s' : GState} {r : Int} (h : gen_func b sym stat s = .ok (r, s')) :
    r = -1 ∧ s'.reg_stat = s.reg_stat := by
  unfold gen_func at h
  cases b
  · simp only [Bool.false_eq_true, if_false, bind_eq_ok, pure_eq_ok, Prod.exists,
      Prod.mk.injEq] at h
    obtain ⟨_, _, r1, s1, g1, s2, g2, rfl, rfl⟩ := h
    have := free_after (h1 _ _ _ g1) g2
    simp only [GState.reg_stat_emit] at this ⊢
    exact ⟨trivial, this⟩
  · simp only [if_true] at h
    cases h

theorem gen_break_balanced {s s' : GState} {r : Int} (h : gen_break s = .ok (r, s')) :
    r = -1 ∧ s'.reg_stat = s.reg_stat := by
  unfold gen_break at h
  split at h
  · cases h
  · split at h <;>
    · simp only [new_label_st, Except.ok.injEq, Prod.mk.injEq] at h
      obtain ⟨rfl, rfl⟩ := h
      simp

theorem gen_continue_balanced {s s' : GState} {r : Int} (h : gen_continue s = .ok (r, s')) :
    r = -1 ∧ s'.reg_stat = s.reg_stat := by
  unfold gen_continue at h
  split at h
  · cases h
  · split at h <;>
    · simp only [new_label_st, Except.ok.injEq, Prod.mk.injEq] at h
      obtain ⟨rfl, rfl⟩ := h
      simp

theorem switch_binary {findsym : CStr → Bool} {op : Op} (hop : is_binary op = true)
    {iv : Int} {sym : CStr} {l r st reg : Int} {S S1 : RegStat} {s s' : GState}
    (hl : Balanced S l S1) (hr : Balanced S1 r s.reg_stat)
    (h : astgen_switch findsym op iv sym l r st s = .ok (reg, s')) :
    Balanced S reg s'.reg_stat := by
  cases op <;> simp only [is_binary, Bool.false_eq_true] at hop <;>
    simp only [astgen_switch] at h
  · obtain ⟨rfl, hf, ⟨_, n1⟩, ⟨_, n2⟩⟩ := add_inv h
    exact balanced_free_first hl hr n1 n2 hf
  · obtain ⟨rfl, hf, ⟨_, n1⟩, _⟩ := sub_inv h
    exact balanced_free_second hl hr n1 hf
  · obtain ⟨rfl, hf, ⟨_, n1⟩, _⟩ := divide_inv h
    exact balanced_free_second hl hr n1 hf
  · obtain ⟨rfl, hf, ⟨_, n1⟩, ⟨_, n2⟩⟩ := mul_inv h
    exact balanced_free_first hl hr n1 n2 hf
  all_goals
    obtain ⟨rfl, hf, ⟨_, n1⟩, _⟩ := compare_inv h
    exact balanced_free_second hl hr n1 hf

theorem expr_tail {S : RegStat} {reg : Int} {b : Bool} {sc sd : GState}
    (hb : Balanced S reg sc.reg_stat)
    (h : (if b = true then free_reg_st reg sc else pure sc : Except Failure GState) = .ok sd) :
    (b = false → Balanced S reg sd.reg_stat) ∧ (b = true → sd.reg_stat = S) := by
  cases b
  · simp only [Bool.false_eq_true, if_false, pure_eq_ok] at h
    subst h
    exact ⟨fun _ => hb, fun h => (by cases h)⟩
  · simp only [if_true] at h
    exact ⟨fun h => (by cases h), fun _ => free_after hb h⟩

theorem operand_balanced {b : Bool} {g : Gen} (hg : GenBalanced g) {s s' : GState} {r : Int}
    (h : (if b = true then g s else pure (-1, s) : Except Failure (Int × GState)) =
      .ok (r, s')) : Balanced s.reg_stat r s'.reg_stat := by
  cases b
  · simp only [Bool.false_eq_true, if_false, pure_eq_ok, Prod.mk.injEq] at h
    obtain ⟨rfl, rfl⟩ := h
    exact Or.inl ⟨rfl, rfl⟩
  · simp only [if_true] at h
    exact hg _ _ _ h

theorem astgen_expr_leaf {findsym : CStr → Bool} {op : Op} (hop : op = .A_NUM ∨ op = .A_IDENT)
    {iv : Int} {sym : CStr} {b : Bool} {left : Gen} {right : Int → Gen} {storreg : Int}
    {s s' : GState} {reg : Int}
    (h : astgen_expr findsym op iv sym false false b left right storreg s = .ok (reg, s')) :
    (b = false → Balanced s.reg_stat reg s'.reg_stat) ∧
      (b = true → s'.reg_stat = s.reg_stat) := by
  simp only [astgen_expr, Bool.false_eq_true, if_false, bind_eq_ok, pure_eq_ok, Prod.exists,
    Prod.mk.injEq] at h
  obtain ⟨_, _, ⟨rfl, rfl⟩, _, _, ⟨rfl, rfl⟩, reg1, sc, h3, sd, h4, rfl, rfl⟩ := h
  have hb : Balanced s.reg_stat reg1 sc.reg_stat := by
    rcases hop with rfl | rfl
    · exact load_balanced h3
    · exact loadglobal_balanced h3
  exact expr_tail hb h4

theorem astgen_expr_print {findsym : CStr → Bool}
    {iv : Int} {sym : CStr} {hl b : Bool} {left : Gen} {right : Int → Gen} {storreg : Int}
    (hleft : GenBalanced left) {s s' : GState} {reg : Int}
    (h : astgen_expr findsym .A_PRINT iv sym hl false b left right storreg s =
      .ok (reg, s')) :
    (b = false → Balanced s.reg_stat reg s'.reg_stat) ∧
      (b = true → s'.reg_stat = s.reg_stat) := by
  simp only [astgen_expr, Bool.false_eq_true, if_false, bind_eq_ok, pure_eq_ok, Prod.exists,
    Prod.mk.injEq] at h
  obtain ⟨lreg, sa, h1, _, _, ⟨rfl, rfl⟩, reg1, sc, h3, sd, h4, rfl, rfl⟩ := h
  have hb1 := operand_balanced hleft h1
  obtain ⟨rfl, e, _⟩ := print_inv h3
  exact expr_tail (by rw [e]; exact hb1) h4

theorem astgen_expr_binary {findsym : CStr → Bool} {op : Op} (hop : is_binary op = true)
    {iv : Int} {sym : CStr} {hl hr b : Bool} {left : Gen} {right : Int → Gen} {storreg : Int}
    (hleft : GenBalanced left) (hright : ∀ l, GenBalanced (right l))
    {s s' : GState} {reg : Int}
    (h : astgen_expr findsym op iv sym hl hr b left right storreg s = .ok (reg, s')) :
    (b = false → Balanced s.reg_stat reg s'.reg_stat) ∧
      (b = true → s'.reg_stat = s.reg_stat) := by
  simp only [astgen_expr, bind_eq_ok, pure_eq_ok, Prod.exists, Prod.mk.injEq] at h
  obtain ⟨lreg, sa, h1, rreg, sb, h2, reg1, sc, h3, sd, h4, rfl, rfl⟩ := h
  have hb1 := operand_balanced hleft h1
  have hb2 := operand_balanced (hright lreg) h2
  exact expr_tail (switch_binary hop hb1 hb2 h3) h4

theorem astgen_expr_assign {findsym : CStr → Bool}
    {iv : Int} {sym : CStr} {hl b : Bool} {left : Gen} {right : Int → Gen} {storreg : Int}
    (hleft : GenBalanced left)
    (hright : ∀ l s r s', right l s = .ok (r, s') → r = l ∧ s'.reg_stat = s.reg_stat ∧
      ∃ name, reg_list l = .ok name)
    {s s' : GState} {reg : Int}
    (h : astgen_expr findsym .A_ASSIGN iv sym hl true b left right storreg s =
      .ok (reg, s')) :
    (b = false → Balanced s.reg_stat reg s'.reg_stat) ∧
      (b = true → s'.reg_stat = s.reg_stat) := by
  simp only [astgen_expr, if_true, bind_eq_ok, pure_eq_ok, Prod.exists, Prod.mk.injEq] at h
  obtain ⟨lreg, sa, h1, rreg, sb, h2, reg1, sc, h3, sd, h4, rfl, rfl⟩ := h
  have hb1 := operand_balanced hleft h1
  obtain ⟨rfl, e, _⟩ := hright _ _ _ _ h2
  simp only [astgen_switch, Except.ok.injEq, Prod.mk.injEq] at h3
  obtain ⟨rfl, rfl⟩ := h3
  exact expr_tail (by rw [e]; exact hb1) h4

theorem astgen_null (findsym : CStr → Bool) (storreg : Int) (s : GState) :
    astgen findsym .null storreg s = .ok (-1, s) := by
  rw [astgen]

theorem astgen_lvident (findsym : CStr → Bool) (m : GNode) (iv : Int) (sym : CStr) (l : Int)
    (s : GState) :
    astgen findsym (.mk .A_LVIDENT .null m .null .null iv sym) l s =
      storglobal findsym sym l s := by
  rw [astgen]
  · simp only [astgen_expr, astgen_switch, ne_eq, not_true_eq_false, decide_False,
      Bool.false_eq_true, if_false, if_true, bind, Except.bind, pure, Except.pure]
    cases storglobal findsym sym l s <;> rfl
  all_goals (intro h; cases h)

theorem astgen_mk_expr (findsym : CStr → Bool) (op : Op) (left mid right next : GNode)
    (iv : Int) (sym : CStr) (storreg : Int) (s : GState)
    (h1 : op ≠ .A_IF) (h2 : op ≠ .A_WHILE) (h3 : op ≠ .A_DOWHILE) (h4 : op ≠ .A_FOR)
    (h5 : op ≠ .A_BREAK) (h6 : op ≠ .A_CONTINUE) (h7 : op ≠ .A_FUNCDEF) :
    astgen findsym (.mk op left mid right next iv sym) storreg s =
      (do
        let (reg, s) ← astgen_expr findsym op iv sym (decide (left ≠ .null))
          (decide (right ≠ .null)) (decide (next ≠ .null)) (astgen findsym left (-1))
          (astgen findsym right) storreg s
        if next = .null then pure (reg, s) else astgen findsym next storreg s) := by
  rw [astgen]
  all_goals assumption

theorem turn_finish {findsym : CStr → Bool} {next : GNode} {storreg : Int} {S : RegStat}
    {reg r : Int} {s1 s' : GState} (hn : GenBalanced (astgen findsym next storreg))
    (h1 : (next = .null → Balanced S reg s1.reg_stat) ∧ (next ≠ .null → s1.reg_stat = S))
    (h : (if next = .null then pure (reg, s1) else astgen findsym next storreg s1 :
      Except Failure (Int × GState)) = .ok (r, s')) : Balanced S r s'.reg_stat := by
  by_cases hx : next = .null
  · rw [if_pos hx] at h
    simp only [pure_eq_ok, Prod.mk.injEq] at h
    obtain ⟨rfl, rfl⟩ := h
    exact h1.1 hx
  · rw [if_neg hx] at h
    have := hn _ _ _ h
    rwa [h1.2 hx] at this

theorem stmt_turn {S : RegStat} {reg : Int} {s1 : GState} {next : GNode}
    (h : reg = -1 ∧ s1.reg_stat = S) :
    (next = .null → Balanced S reg s1.reg_stat) ∧ (next ≠ .null → s1.reg_stat = S) :=
  ⟨fun _ => Or.inl h, fun _ => h.2⟩

theorem expr_turn {S : RegStat} {reg : Int} {s1 : GState} {next : GNode}
    (h : (decide (next ≠ .null) = false → Balanced S reg s1.reg_stat) ∧
      (decide (next ≠ .null) = true → s1.reg_stat = S)) :
    (next = .null → Balanced S reg s1.reg_stat) ∧ (next ≠ .null → s1.reg_stat = S) :=
  ⟨fun hx => h.1 (by simp [hx]), fun hx => h.2 (by simp [hx])⟩

/-- The register balance of `astgen` on the chains of `wf_chain`. -/
theorem astgen_balanced (findsym : CStr → Bool) :
    ∀ n, wf_chain n → ∀ storreg, GenBalanced (astgen findsym n storreg) := by
  intro n
  induction n with
  | null =>
    intro _ storreg s r s' h
    rw [astgen_null] at h
    cases h
    exact Or.inl ⟨rfl, rfl⟩
  | mk op left mid right next iv sym ihl ihm ihr ihn =>
    intro hw storreg s r s' h
    simp only [wf_chain] at hw
    obtain ⟨hwn, hw⟩ := hw
    have hnext := ihn hwn storreg
    cases op
    case A_IF =>
      rw [astgen] at h
      simp only [bind_eq_ok, Prod.exists] at h
      obtain ⟨reg, s1, h1, h2⟩ := h
      exact turn_finish hnext (stmt_turn
        (gen_if_balanced (ihl hw.1 _) (ihm hw.2.1 _) (ihr hw.2.2 _) h1)) h2
    case A_WHILE =>
      rw [astgen] at h
      simp only [bind_eq_ok, Prod.exists] at h
      obtain ⟨reg, s1, h1, h2⟩ := h
      exact turn_finish hnext (stmt_turn
        (gen_while_balanced (ihl hw.1 _) (ihr hw.2 _) h1)) h2
    case A_DOWHILE =>
      rw [astgen] at h
      simp only [bind_eq_ok, Prod.exists] at h
      obtain ⟨reg, s1, h1, h2⟩ := h
      exact turn_finish hnext (stmt_turn
        (gen_dowhile_balanced (ihl hw.1 _) (ihr hw.2 _) h1)) h2
    case A_FOR =>
      rw [astgen] at h
      simp only [bind_eq_ok, Prod.exists] at h
      obtain ⟨reg, s1, h1, h2⟩ := h
      exact turn_finish hnext (stmt_turn
        (gen_for_balanced (ihl hw.1 _) (ihr hw.2.2 _) (ihm hw.2.1 _) h1)) h2
    case A_BREAK =>
      rw [astgen] at h
      simp only [bind_eq_ok, Prod.exists] at h
      obtain ⟨reg, s1, h1, h2⟩ := h
      exact turn_finish hnext (stmt_turn (gen_break_balanced h1)) h2
    case A_CONTINUE =>
      rw [astgen] at h
      simp only [bind_eq_ok, Prod.exists] at h
      obtain ⟨reg, s1, h1, h2⟩ := h
      exact turn_finish hnext (stmt_turn (gen_continue_balanced h1)) h2
    case A_FUNCDEF => exact absurd hw id
    case A_LVIDENT => exact absurd hw id
    case other => exact absurd hw id
    case A_NUM =>
      rw [astgen_mk_expr _ _ _ _ _ _ _ _ _ _ (by decide) (by decide) (by decide) (by decide)
        (by decide) (by decide) (by decide)] at h
      simp only [bind_eq_ok, Prod.exists] at h
      obtain ⟨reg, s1, h1, h2⟩ := h
      obtain ⟨rfl, rfl⟩ := hw
      exact turn_finish hnext (expr_turn (astgen_expr_leaf (Or.inl rfl) h1)) h2
    case A_IDENT =>
      rw [astgen_mk_expr _ _ _ _ _ _ _ _ _ _ (by decide) (by decide) (by decide) (by decide)
        (by decide) (by decide) (by decide)] at h
      simp only [bind_eq_ok, Prod.exists] at h
      obtain ⟨reg, s1, h1, h2⟩ := h
      obtain ⟨rfl, rfl⟩ := hw
      exact turn_finish hnext (expr_turn (astgen_expr_leaf (Or.inr rfl) h1)) h2
    case A_PRINT =>
      rw [astgen_mk_expr _ _ _ _ _ _ _ _ _ _ (by decide) (by decide) (by decide) (by decide)
        (by decide) (by decide) (by decide)] at h
      simp only [bind_eq_ok, Prod.exists] at h
      obtain ⟨reg, s1, h1, h2⟩ := h
      obtain ⟨hl, rfl⟩ := hw
      exact turn_finish hnext (expr_turn (astgen_expr_print (ihl hl _) h1)) h2
    case A_ASSIGN =>
      rw [astgen_mk_expr _ _ _ _ _ _ _ _ _ _ (by decide) (by decide) (by decide) (by decide)
        (by decide) (by decide) (by decide)] at h
      simp only [bind_eq_ok, Prod.exists] at h
      obtain ⟨reg, s1, h1, h2⟩ := h
      obtain ⟨hl, m, iv1, sym1, rfl⟩ := hw
      refine turn_finish hnext (expr_turn (astgen_expr_assign (ihl hl _) ?_ h1)) h2
      intro l sa ra sb hr
      rw [astgen_lvident] at hr
      exact storglobal_inv hr
    all_goals
      rw [astgen_mk_expr _ _ _ _ _ _ _ _ _ _ (by decide) (by decide) (by decide) (by decide)
        (by decide) (by decide) (by decide)] at h
      simp only [bind_eq_ok, Prod.exists] at h
      obtain ⟨reg, s1, h1, h2⟩ := h
      exact turn_finish hnext (expr_turn
        (astgen_expr_binary (by rfl) (ihl hw.1 _) (fun l => ihr hw.2 l) h1)) h2

theorem free_reg_st_minus_one (s : GState) : free_reg_st (-1) s = .ok s := by
  cases s
  simp [free_reg_st, free_reg_negative, GState.set_reg_stat, bind, Except.bind, pure,
    Except.pure]

theorem balanced_free_ok {S : RegStat} {r : Int} {s1 : GState}
    (hb : Balanced S r s1.reg_stat) : ∃ s2, free_reg_st r s1 = .ok s2 ∧ s2.reg_stat = S := by
  rcases hb with ⟨rfl, e⟩ | ⟨i, rfl, hi, e⟩
  · exact ⟨s1, free_reg_st_minus_one s1, e⟩
  · obtain ⟨S2, h2, _⟩ := free_reg_set s1.reg_stat i (by rw [e]; simp [busy])
    have h3 : free_reg_st (i : Int) s1 = .ok (s1.set_reg_stat S2) := by
      simp [free_reg_st, h2, bind, Except.bind, pure, Except.pure]
    exact ⟨_, h3, free_after (Or.inr ⟨i, rfl, hi, e⟩) h3⟩

theorem astgen_expr_next {findsym : CStr → Bool} {op : Op} {iv : Int} {sym : CStr}
    {hl hr : Bool} {left : Gen} {right : Int → Gen} {storreg : Int} {s sd : GState}
    {reg : Int}
    (h : astgen_expr findsym op iv sym hl hr true left right storreg s = .ok (reg, sd)) :
    ∃ sc, astgen_expr findsym op iv sym hl hr false left right storreg s = .ok (reg, sc) ∧
      free_reg_st reg sc = .ok sd := by
  simp only [astgen_expr, if_true, Bool.false_eq_true, if_false, bind_eq_ok, pure_eq_ok,
    Prod.exists, Prod.mk.injEq] at h ⊢
  obtain ⟨lreg, sa, h1, rreg, sb, h2, reg1, sc, h3, sd1, h4, rfl, rfl⟩ := h
  exact ⟨sc, ⟨lreg, sa, h1, rreg, sb, h2, reg1, sc, h3, sc, rfl, rfl, rfl⟩, h4⟩

/-- In a chain of siblings, the turn for a node that is not the last leaves the
pool as it found it before the turn for the next sibling starts. -/
theorem astgen_siblings (findsym : CStr → Bool) (op : Op) (left mid right next : GNode)
    (iv : Int) (sym : CStr) (hw : wf_chain (.mk op left mid right next iv sym))
    (hn : next ≠ .null) (storreg : Int) (s s' : GState) (r : Int)
    (h : astgen findsym (.mk op left mid right next iv sym) storreg s = .ok (r, s')) :
    ∃ r1 s1 s2, astgen findsym (.mk op left mid right .null iv sym) storreg s = .ok (r1, s1) ∧
      free_reg_st r1 s1 = .ok s2 ∧ s2.reg_stat = s.reg_stat ∧
      astgen findsym next storreg s2 = .ok (r, s') := by
  have hw1 : wf_chain (.mk op left mid right .null iv sym) := by
    simp only [wf_chain, true_and] at hw ⊢
    exact hw.2
  have hstmt : ∀ g : Gen, (∀ s r s', g s = .ok (r, s') → r = -1 ∧ s'.reg_stat = s.reg_stat) →
      ((do
        let (reg, s) ← g s
        if next = GNode.null then pure (reg, s) else astgen findsym next storreg s) =
          Except.ok (r, s')) →
      ∃ r1 s1 s2, (do
        let (reg, s) ← g s
        if GNode.null = GNode.null then pure (reg, s)
        else astgen findsym GNode.null storreg s) = Except.ok (r1, s1) ∧
        free_reg_st r1 s1 = .ok s2 ∧ s2.reg_stat = s.reg_stat ∧
        astgen findsym next storreg s2 = .ok (r, s') := by
    intro g hg h
    simp only [bind_eq_ok, Prod.exists, if_neg hn] at h
    obtain ⟨reg, s1, h1, h2⟩ := h
    obtain ⟨rfl, e⟩ := hg _ _ _ h1
    refine ⟨-1, s1, s1, ?_, free_reg_st_minus_one s1, e, h2⟩
    simp only [if_true, bind_eq_ok, Prod.exists, pure_eq_ok, Prod.mk.injEq]
    exact ⟨-1, s1, h1, rfl, rfl⟩
  have hexpr : op ≠ .A_IF → op ≠ .A_WHILE → op ≠ .A_DOWHILE → op ≠ .A_FOR → op ≠ .A_BREAK →
      op ≠ .A_CONTINUE → op ≠ .A_FUNCDEF →
      ∃ r1 s1 s2, astgen findsym (.mk op left mid right .null iv sym) storreg s =
          .ok (r1, s1) ∧
        free_reg_st r1 s1 = .ok s2 ∧ s2.reg_stat = s.reg_stat ∧
        astgen findsym next storreg s2 = .ok (r, s') := by
    intro h1 h2 h3 h4 h5 h6 h7
    rw [astgen_mk_expr _ _ _ _ _ _ _ _ _ _ h1 h2 h3 h4 h5 h6 h7] at h
    simp only [bind_eq_ok, Prod.exists, if_neg hn] at h
    obtain ⟨reg, sd, g1, g2⟩ := h
    have hd : decide (next ≠ GNode.null) = true := by simp [hn]
    rw [hd] at g1
    obtain ⟨sc, g3, g4⟩ := astgen_expr_next g1
    have g5 : astgen findsym (.mk op left mid right .null iv sym) storreg s = .ok (reg, sc) := by
      rw [astgen_mk_expr _ _ _ _ _ _ _ _ _ _ h1 h2 h3 h4 h5 h6 h7]
      simp only [ne_eq, not_true_eq_false, decide_False, if_true, bind_eq_ok, Prod.exists,
        pure_eq_ok, Prod.mk.injEq]
      exact ⟨reg, sc, g3, rfl, rfl⟩
    exact ⟨reg, sc, sd, g5, g4, free_after (astgen_balanced findsym _ hw1 storreg _ _ _ g5) g4,
      g2⟩
  have hb := fun n (h : wf_chain n) => astgen_balanced findsym n h (-1)
  simp only [wf_chain] at hw
  cases op
  case A_IF =>
    rw [astgen] at h ⊢
    exact hstmt _ (fun _ _ _ g =>
      gen_if_balanced (hb _ hw.2.1) (hb _ hw.2.2.1) (hb _ hw.2.2.2) g) h
  case A_WHILE =>
    rw [astgen] at h ⊢
    exact hstmt _ (fun _ _ _ g => gen_while_balanced (hb _ hw.2.1) (hb _ hw.2.2) g) h
  case A_DOWHILE =>
    rw [astgen] at h ⊢
    exact hstmt _ (fun _ _ _ g => gen_dowhile_balanced (hb _ hw.2.1) (hb _ hw.2.2) g) h
  case A_FOR =>
    rw [astgen] at h ⊢
    exact hstmt _ (fun _ _ _ g =>
      gen_for_balanced (hb _ hw.2.1) (hb _ hw.2.2.2) (hb _ hw.2.2.1) g) h
  case A_BREAK =>
    rw [astgen] at h ⊢
    exact hstmt _ (fun _ _ _ g => gen_break_balanced g) h
  case A_CONTINUE =>
    rw [astgen] at h ⊢
    exact hstmt _ (fun _ _ _ g => gen_continue_balanced g) h
  case A_FUNCDEF => exact absurd hw.2 id
  all_goals
    exact hexpr (fun hx => nomatch hx) (fun hx => nomatch hx) (fun hx => nomatch hx)
      (fun hx => nomatch hx) (fun hx => nomatch hx) (fun hx => nomatch hx)
      (fun hx => nomatch hx)

/-- C20: for every chain of `wf_chain` and every state from which `astgen`
returns, the value is either -1 with the pool as it was, or a register that was
free in the pool before the call and is the one flag set since. So
`free_reg(astgen(stat))` returns with the pool as it was before `astgen`, and
in a chain of siblings the turn of a node that is not the last, with its
`free_reg(reg)`, has put the pool back before the next sibling is generated. -/
theorem astgen_register_balance (findsym : CStr → Bool) (n : GNode) (storreg : Int)
    (s s' : GState) (r : Int) (hw : wf_chain n)
    (h : astgen findsym n storreg s = .ok (r, s')) :
    Balanced s.reg_stat r s'.reg_stat ∧
    (∃ s2, free_reg_st r s' = .ok s2 ∧ s2.reg_stat = s.reg_stat) ∧
    (∀ op left mid right next iv sym, n = .mk op left mid right next iv sym → next ≠ .null →
      ∃ r1 s1 s2, astgen findsym (.mk op left mid right .null iv sym) storreg s =
          .ok (r1, s1) ∧
        free_reg_st r1 s1 = .ok s2 ∧ s2.reg_stat = s.reg_stat ∧
        astgen findsym next storreg s2 = .ok (r, s')) :=
  ⟨astgen_balanced findsym n hw storreg s r s' h,
   balanced_free_ok (astgen_balanced findsym n hw storreg s r s' h),
   fun op left mid right next iv sym hn hx =>
     astgen_siblings findsym op left mid right next iv sym (hn ▸ hw) hx storreg s s' r
       (hn ▸ h)⟩

theorem astgen_register_balance_witness :
    Balanced GState.init.reg_stat
      (gen_returned (astgen findsym_all print_then_assign 0 GState.init)).1
      (gen_returned (astgen findsym_all print_then_assign 0 GState.init)).2.reg_stat ∧
    (gen_returned (astgen findsym_all print_then_assign 0 GState.init)).1 = 0 ∧
    lines (astgen findsym_all print_then_assign 0 GState.init) =
      [.ins "\tmov\t$1, %r8\n", .ins "\tmov\t$2, %r9\n", .ins "\tmov\t$3, %r10\n",
        .ins "\timul\t%r9, %r10\n", .ins "\tadd\t%r8, %r10\n", .ins "\tmov\t%r10, %rdi\n",
        .ins "\tpush\t%rbx\n", .ins "\tcall\tprint\n", .ins "\tpop\t%rbx\n",
        .ins "\tmov\t%rax, %r10\n", .ins "\tmov\t$4, %r8\n", .ins "\tmov\t$1, %r9\n",
        .ins "\tsub\t%r9, %r8\n", .ins "\tmov\t%r8, x(%rip)\n"] :=
  ⟨(astgen_register_balance findsym_all print_then_assign 0 GState.init
      (gen_returned (astgen findsym_all print_then_assign 0 GState.init)).2
      (gen_returned (astgen findsym_all print_then_assign 0 GState.init)).1
      (by simp [wf_chain, print_then_assign, g_seq, g_node, g_num]) rfl).1, rfl, rfl⟩

/-! ## Lowering of loops -/

theorem SlotLe.srefl (a : Option String) : SlotLe a a := fun _ h => h

theorem SlotLe.strans {a b c : Option String} (h1 : SlotLe a b) (h2 : SlotLe b c) :
    SlotLe a c := fun x h => h2 x (h1 x h)

theorem SlotLe.of_none (b : Option String) : SlotLe none b := fun _ h => nomatch h

theorem Filled.lrefl (st : List JumpLoc) : Filled st st :=
  ⟨rfl, rfl, SlotLe.srefl _, SlotLe.srefl _⟩

theorem Filled.ltrans {a b c : List JumpLoc} (h1 : Filled a b) (h2 : Filled b c) :
    Filled a c :=
  ⟨h2.1.trans h1.1, h2.2.1.trans h1.2.1, h1.2.2.1.strans h2.2.2.1, h1.2.2.2.strans h2.2.2.2⟩

theorem Filled.cons_inv {j : JumpLoc} {rest st' : List JumpLoc} (h : Filled (j :: rest) st') :
    ∃ j', st' = j' :: rest ∧ SlotLe j.lbreak j'.lbreak ∧ SlotLe j.lcontinue j'.lcontinue := by
  obtain ⟨h1, h2, h3, h4⟩ := h
  cases st' with
  | nil => simp at h1
  | cons j' rest' =>
    simp only [List.tail_cons] at h2
    subst h2
    exact ⟨j', rfl, h3, h4⟩

theorem Compatible.of_slotLe {b c : Option String} {L : String} (h : Compatible c L)
    (hs : SlotLe b c) : Compatible b L := fun x hx => h x (hs x hx)

theorem Track.tcomp {b1 b2 : Bool} {a b c : Option String} (h1 : Track b1 a b)
    (h2 : Track b2 b c) : Track (b1 || b2) a c := by
  constructor
  · intro h
    cases b2
    · simp only [Bool.or_false] at h
      rw [h2.2 rfl]
      exact h1.1 h
    · exact h2.1 rfl
  · intro h
    simp only [Bool.or_eq_false_iff] at h
    rw [h2.2 h.2, h1.2 h.1]

theorem Track.tfalse (a : Option String) : Track false a a :=
  ⟨fun h => (nomatch h), fun _ => rfl⟩

theorem Step.step_refl (s : GState) : Step s s [] := ⟨by simp, Filled.lrefl _⟩

theorem Step.step_trans {s1 s2 s3 : GState} {n1 n2 : List Asm} (h1 : Step s1 s2 n1)
    (h2 : Step s2 s3 n2) : Step s1 s3 (n1 ++ n2) :=
  ⟨by rw [h2.1, h1.1, List.append_assoc], h1.2.ltrans h2.2⟩

theorem InsOnly.irefl (s : GState) : InsOnly s s [] :=
  ⟨by simp, rfl, rfl, fun _ h => nomatch h⟩

theorem InsOnly.itrans {s1 s2 s3 : GState} {n1 n2 : List Asm} (h1 : InsOnly s1 s2 n1)
    (h2 : InsOnly s2 s3 n2) : InsOnly s1 s3 (n1 ++ n2) := by
  refine ⟨by rw [h2.1, h1.1, List.append_assoc], h2.2.1.trans h1.2.1, h2.2.2.1.trans h1.2.2.1,
    ?_⟩
  intro a ha
  rcases List.mem_append.1 ha with h | h
  · exact h1.2.2.2 a h
  · exact h2.2.2.2 a h

theorem InsOnly.emit_ins (s : GState) (t : String) : InsOnly s (s.emit (.ins t)) [.ins t] :=
  ⟨by simp, by simp, by simp, by simp [is_ins]⟩

theorem InsOnly.to_step {s s' : GState} {inss : List Asm} (h : InsOnly s s' inss) :
    Step s s' inss :=
  ⟨h.1, by rw [h.2.1]; exact Filled.lrefl _⟩

theorem free_reg_st_insOnly {r : Int} {s s' : GState} (h : free_reg_st r s = .ok s') :
    InsOnly s s' [] := by
  obtain ⟨_, h1, h2, h3⟩ := free_reg_st_inv h
  exact ⟨by simp [h3], h2, h1, fun _ h => nomatch h⟩

theorem alloc_reg_st_insOnly {r : Int} {s s' : GState} (h : alloc_reg_st s = .ok (r, s')) :
    InsOnly s s' [] := by
  obtain ⟨_, h1, h2, h3⟩ := alloc_reg_st_inv h
  exact ⟨by simp [h3], h2, h1, fun _ h => nomatch h⟩

theorem cmp_zero_insOnly {reg : Int} {s s' : GState} (h : cmp_zero reg s = .ok s') :
    ∃ cmp, is_ins cmp = true ∧ InsOnly s s' [cmp] := by
  simp only [cmp_zero, bind_eq_ok] at h
  obtain ⟨name, _, h⟩ := h
  exact ⟨.ins ("\tcmp\t$" ++ fmt_d 0 ++ ", %" ++ name ++ "\n"), rfl,
    (InsOnly.emit_ins s _).itrans (free_reg_st_insOnly h)⟩

theorem load_insOnly {v : Int} {s s' : GState} {r : Int} (h : load v s = .ok (r, s')) :
    ∃ inss, InsOnly s s' inss := by
  simp only [load, bind_eq_ok, pure_eq_ok, Prod.exists, Prod.mk.injEq] at h
  obtain ⟨r1, s1, h1, name, _, rfl, rfl⟩ := h
  exact ⟨_, (alloc_reg_st_insOnly h1).itrans (InsOnly.emit_ins _ _)⟩

theorem loadglobal_insOnly {findsym : CStr → Bool} {id : CStr} {s s' : GState} {r : Int}
    (h : loadglobal findsym id s = .ok (r, s')) : ∃ inss, InsOnly s s' inss := by
  unfold loadglobal at h
  by_cases hf : (!findsym id) = true
  · rw [if_pos hf] at h; cases h
  · rw [if_neg hf] at h
    simp only [bind_eq_ok, pure_eq_ok, Prod.exists, Prod.mk.injEq] at h
    obtain ⟨r1, s1, h1, name, _, _, _, rfl, rfl⟩ := h
    exact ⟨_, (alloc_reg_st_insOnly h1).itrans (InsOnly.emit_ins _ _)⟩

theorem storglobal_insOnly {findsym : CStr → Bool} {id : CStr} {r0 : Int} {s s' : GState}
    {r : Int} (h : storglobal findsym id r0 s = .ok (r, s')) : ∃ inss, InsOnly s s' inss := by
  unfold storglobal at h
  by_cases hf : (!findsym id) = true
  · rw [if_pos hf] at h; cases h
  · rw [if_neg hf] at h
    simp only [bind_eq_ok, pure_eq_ok, Prod.mk.injEq] at h
    obtain ⟨name, hn, _, _, rfl, rfl⟩ := h
    exact ⟨_, InsOnly.emit_ins _ _⟩

theorem print_insOnly {r1 : Int} {s s' : GState} {r : Int} (h : print r1 s = .ok (r, s')) :
    ∃ inss, InsOnly s s' inss := by
  simp only [print, bind_eq_ok, pure_eq_ok, Prod.mk.injEq] at h
  obtain ⟨name, hn, rfl, rfl⟩ := h
  exact ⟨_, ((((InsOnly.emit_ins _ _).itrans (InsOnly.emit_ins _ _)).itrans
    (InsOnly.emit_ins _ _)).itrans (InsOnly.emit_ins _ _)).itrans (InsOnly.emit_ins _ _)⟩

theorem add_insOnly {r1 r2 : Int} {s s' : GState} {r : Int} (h : add r1 r2 s = .ok (r, s')) :
    ∃ inss, InsOnly s s' inss := by
  simp only [add, bind_eq_ok, pure_eq_ok, Prod.mk.injEq] at h
  obtain ⟨n1, h1, n2, h2, s1, hf, rfl, rfl⟩ := h
  exact ⟨_, (InsOnly.emit_ins _ _).itrans (free_reg_st_insOnly hf)⟩

theorem mul_insOnly {r1 r2 : Int} {s s' : GState} {r : Int} (h : mul r1 r2 s = .ok (r, s')) :
    ∃ inss, InsOnly s s' inss := by
  simp only [mul, bind_eq_ok, pure_eq_ok, Prod.mk.injEq] at h
  obtain ⟨n1, h1, n2, h2, s1, hf, rfl, rfl⟩ := h
  exact ⟨_, (InsOnly.emit_ins _ _).itrans (free_reg_st_insOnly hf)⟩

theorem sub_insOnly {r1 r2 : Int} {s s' : GState} {r : Int} (h : sub r1 r2 s = .ok (r, s')) :
    ∃ inss, InsOnly s s' inss := by
  simp only [sub, bind_eq_ok, pure_eq_ok, Prod.mk.injEq] at h
  obtain ⟨n2, h2, n1, h1, s1, hf, rfl, rfl⟩ := h
  exact ⟨_, (InsOnly.emit_ins _ _).itrans (free_reg_st_insOnly hf)⟩

theorem divide_insOnly {r1 r2 : Int} {s s' : GState} {r : Int}
    (h : divide r1 r2 s = .ok (r, s')) : ∃ inss, InsOnly s s' inss := by
  simp only [divide, bind_eq_ok, pure_eq_ok, Prod.mk.injEq] at h
  obtain ⟨n1, h1, n2, h2, s1, hf, rfl, rfl⟩ := h
  exact ⟨_, ((((InsOnly.emit_ins _ _).itrans (InsOnly.emit_ins _ _)).itrans
    (InsOnly.emit_ins _ _)).itrans (InsOnly.emit_ins _ _)).itrans (free_reg_st_insOnly hf)⟩

theorem compare_insOnly {r1 r2 : Int} {cd : String} {s s' : GState} {r : Int}
    (h : compare r1 r2 cd s = .ok (r, s')) : ∃ inss, InsOnly s s' inss := by
  simp only [compare, bind_eq_ok, pure_eq_ok, Prod.mk.injEq] at h
  obtain ⟨n2, h2, n1, h1, _, _, s1, hf, rfl, rfl⟩ := h
  exact ⟨_, (((InsOnly.emit_ins _ _).itrans (InsOnly.emit_ins _ _)).itrans
    (InsOnly.emit_ins _ _)).itrans (free_reg_st_insOnly hf)⟩

theorem astgen_switch_insOnly {findsym : CStr → Bool} {op : Op} {iv : Int} {sym : CStr}
    {l r st reg : Int} {s s' : GState}
    (h : astgen_switch findsym op iv sym l r st s = .ok (reg, s')) :
    ∃ inss, InsOnly s s' inss := by
  cases op <;> simp only [astgen_switch] at h
  case A_PRINT => exact print_insOnly h
  case A_ADD => exact add_insOnly h
  case A_SUB => exact sub_insOnly h
  case A_DIV => exact divide_insOnly h
  case A_MUL => exact mul_insOnly h
  case A_NUM => exact load_insOnly h
  case A_IDENT => exact loadglobal_insOnly h
  case A_LVIDENT => exact storglobal_insOnly h
  case A_ASSIGN =>
    simp only [Except.ok.injEq, Prod.mk.injEq] at h
    obtain ⟨_, rfl⟩ := h
    exact ⟨[], InsOnly.irefl _⟩
  case A_EQ => exact compare_insOnly h
  case A_NOTEQ => exact compare_insOnly h
  case A_GT => exact compare_insOnly h
  case A_LT => exact compare_insOnly h
  case A_GE => exact compare_insOnly h
  case A_LE => exact compare_insOnly h
  all_goals cases h

theorem Ctx.cnil (s : GState) : Ctx s s [] false false :=
  ⟨Step.step_refl s, Track.tfalse _, Track.tfalse _⟩

theorem Ctx.comp {s1 s2 s3 : GState} {n1 n2 : List Asm} {b1 b2 c1 c2 : Bool}
    (h1 : Ctx s1 s2 n1 b1 c1) (h2 : Ctx s2 s3 n2 b2 c2) :
    Ctx s1 s3 (n1 ++ n2) (b1 || b2) (c1 || c2) :=
  ⟨h1.1.step_trans h2.1, h1.2.1.tcomp h2.2.1, h1.2.2.tcomp h2.2.2⟩

theorem Ctx.of_same {s s' : GState} {new : List Asm} (ho : s'.out = s.out ++ new)
    (hs : s'.iterjumploc = s.iterjumploc) : Ctx s s' new false false := by
  refine ⟨⟨ho, by rw [hs]; exact Filled.lrefl _⟩, ?_, ?_⟩ <;> rw [hs] <;> exact Track.tfalse _

theorem Ctx.of_insOnly {s s' : GState} {inss : List Asm} (h : InsOnly s s' inss) :
    Ctx s s' inss false false := Ctx.of_same h.1 h.2.1

theorem Ctx.emit (s : GState) (a : Asm) : Ctx s (s.emit a) [a] false false :=
  Ctx.of_same (by simp) (by simp)

theorem Ctx.new_label (s : GState) : Ctx s (new_label_st s).2 [] false false :=
  Ctx.of_same (by simp [new_label_st]) (by simp [new_label_st])

/-- The break target agreed at the end of a stretch is agreed at any point
before. -/
theorem Ctx.compat_break {s s' : GState} {new : List Asm} {bb cc : Bool} {B : String}
    (h : Ctx s s' new bb cc) (hc : Compatible (top_break s'.iterjumploc) B) :
    Compatible (top_break s.iterjumploc) B := hc.of_slotLe h.1.2.2.2.1

theorem Ctx.compat_continue {s s' : GState} {new : List Asm} {bb cc : Bool} {C : String}
    (h : Ctx s s' new bb cc) (hc : Compatible (top_continue s'.iterjumploc) C) :
    Compatible (top_continue s.iterjumploc) C := hc.of_slotLe h.1.2.2.2.2

theorem Ctx.cast {s s' : GState} {new new' : List Asm} {bb bb' cc cc' : Bool}
    (h : Ctx s s' new bb cc) (h1 : new = new') (h2 : bb = bb') (h3 : cc = cc') :
    Ctx s s' new' bb' cc' := by
  subst h1 h2 h3; exact h

theorem gen_break_inv {s s' : GState} {r : Int} (h : gen_break s = .ok (r, s')) :
    ∃ j rest L, s.iterjumploc = j :: rest ∧ s'.iterjumploc = ⟨j.lcontinue, some L⟩ :: rest ∧
      s'.out = s.out ++ [.jmp L] ∧ SlotLe j.lbreak (some L) ∧
      (j.lbreak = none → L = (new_label s.label_id).1 ∧
        s'.label_id = (new_label s.label_id).2) ∧
      (j.lbreak ≠ none → s'.label_id = s.label_id) ∧ s'.reg_stat = s.reg_stat := by
  unfold gen_break at h
  split at h
  · cases h
  · rename_i j rest hs
    obtain ⟨jc, jb⟩ := j
    cases jb with
    | none =>
      simp only [new_label_st, Except.ok.injEq, Prod.mk.injEq] at h
      obtain ⟨_, rfl⟩ := h
      exact ⟨_, rest, _, hs, by simp, by simp, SlotLe.of_none _, fun _ => ⟨rfl, by simp⟩,
        fun h => absurd rfl h, by simp⟩
    | some l =>
      simp only [Except.ok.injEq, Prod.mk.injEq] at h
      obtain ⟨_, rfl⟩ := h
      exact ⟨_, rest, l, hs, by simp [hs], by simp, SlotLe.srefl _, fun h => (nomatch h),
        fun _ => by simp, by simp⟩

theorem gen_continue_inv {s s' : GState} {r : Int} (h : gen_continue s = .ok (r, s')) :
    ∃ j rest L, s.iterjumploc = j :: rest ∧ s'.iterjumploc = ⟨some L, j.lbreak⟩ :: rest ∧
      s'.out = s.out ++ [.jmp L] ∧ SlotLe j.lcontinue (some L) ∧
      (j.lcontinue = none → L = (new_label s.label_id).1 ∧
        s'.label_id = (new_label s.label_id).2) ∧
      (j.lcontinue ≠ none → s'.label_id = s.label_id) ∧ s'.reg_stat = s.reg_stat := by
  unfold gen_continue at h
  split at h
  · cases h
  · rename_i j rest hs
    obtain ⟨jc, jb⟩ := j
    cases jc with
    | none =>
      simp only [new_label_st, Except.ok.injEq, Prod.mk.injEq] at h
      obtain ⟨_, rfl⟩ := h
      exact ⟨_, rest, _, hs, by simp, by simp, SlotLe.of_none _, fun _ => ⟨rfl, by simp⟩,
        fun h => absurd rfl h, by simp⟩
    | some l =>
      simp only [Except.ok.injEq, Prod.mk.injEq] at h
      obtain ⟨_, rfl⟩ := h
      exact ⟨_, rest, l, hs, by simp [hs], by simp, SlotLe.srefl _, fun h => (nomatch h),
        fun _ => by simp, by simp⟩

theorem gen_break_post {left mid right : GNode} {iv : Int} {sym : CStr} {s s' : GState}
    {r : Int} (h : gen_break s = .ok (r, s')) : NodePost .A_BREAK left mid right iv sym s s' := by
  obtain ⟨j, rest, L, h1, h2, h3, h4, _⟩ := gen_break_inv h
  refine ⟨[.jmp L], ⟨⟨h3, ?_⟩, ?_, ?_⟩, ?_⟩
  · rw [h1, h2]
    exact ⟨rfl, rfl, h4, SlotLe.srefl _⟩
  · rw [h2]
    exact ⟨fun _ => by simp [top_break], fun h => by simp [breaks_here] at h⟩
  · rw [h1, h2]
    exact ⟨fun h => by simp [continues_here] at h, fun _ => rfl⟩
  · intro B C hB _ next ox hn
    rw [h2] at hB
    have : L = B := hB L rfl
    subst this
    exact Lowers.break_ hn

theorem gen_continue_post {left mid right : GNode} {iv : Int} {sym : CStr} {s s' : GState}
    {r : Int} (h : gen_continue s = .ok (r, s')) :
    NodePost .A_CONTINUE left mid right iv sym s s' := by
  obtain ⟨j, rest, L, h1, h2, h3, h4, _⟩ := gen_continue_inv h
  refine ⟨[.jmp L], ⟨⟨h3, ?_⟩, ?_, ?_⟩, ?_⟩
  · rw [h1, h2]
    exact ⟨rfl, rfl, SlotLe.srefl _, h4⟩
  · rw [h1, h2]
    exact ⟨fun h => by simp [breaks_here] at h, fun _ => rfl⟩
  · rw [h2]
    exact ⟨fun _ => by simp [top_continue], fun h => by simp [continues_here] at h⟩
  · intro B C _ hC next ox hn
    rw [h2] at hC
    have : L = C := hC L rfl
    subst this
    exact Lowers.continue_ hn

/-- The lowering a call has produced holds for the targets agreed at any later
point of the same stretch. -/
theorem lowers_later {n : GNode} {s1 s2 : GState} {new o : List Asm} {bb cc : Bool}
    {B C : String}
    (hl : ∀ B C, Compatible (top_break s1.iterjumploc) B →
      Compatible (top_continue s1.iterjumploc) C → Lowers B C n o)
    (hc : Ctx s1 s2 new bb cc) (hB : Compatible (top_break s2.iterjumploc) B)
    (hC : Compatible (top_continue s2.iterjumploc) C) : Lowers B C n o :=
  hl B C (hc.compat_break hB) (hc.compat_continue hC)

theorem gen_if_post {left mid right : GNode} {iv : Int} {sym : CStr}
    {cond tstat fstat : Gen} (hc : GenLowers cond left) (ht : GenLowers tstat mid)
    (hf : GenLowers fstat right) {s s' : GState} {r : Int}
    (h : gen_if (decide (right ≠ .null)) cond tstat fstat s = .ok (r, s')) :
    NodePost .A_IF left mid right iv sym s s' := by
  by_cases hr : right = .null
  · subst hr
    simp only [gen_if, ne_eq, not_true_eq_false, decide_False, Bool.false_eq_true, if_false,
      bind_eq_ok, pure_eq_ok, Prod.exists, Prod.mk.injEq] at h
    obtain ⟨reg, s1, h1, s2, h2, r3, s3, h3, s4, h4, s5, h5, _, rfl⟩ := h
    subst h5
    obtain ⟨oc, c1, l1⟩ := hc _ _ _ h1
    obtain ⟨cmp, hcmp, i2⟩ := cmp_zero_insOnly h2
    obtain ⟨ot, c3, l3⟩ := ht _ _ _ h3
    have c0 := Ctx.new_label s
    have c2 := Ctx.of_insOnly i2
    have c2b := Ctx.emit s2 (.jz (new_label s.label_id).1)
    have c4 := Ctx.of_insOnly (free_reg_st_insOnly h4)
    have c5 := Ctx.emit s4 (.label (new_label s.label_id).1)
    have cb := c4.comp c5
    have ca := ((c2.comp c2b).comp c3).comp cb
    refine ⟨oc ++ [cmp, .jz (new_label s.label_id).1] ++ ot ++ [] ++
      [.label (new_label s.label_id).1], ?_, ?_⟩
    · refine ((c0.comp c1).comp ca).cast (by simp) ?_ ?_
      · simp [breaks_here]
      · simp [continues_here]
    · intro B C hB hC next ox hn
      have := @Lowers.if_ B C left mid GNode.null next iv sym _ _ _ _ (new_label s.label_id).1
        (new_label s.label_id).1 cmp hcmp (fun _ => rfl)
        (lowers_later l1 ca hB hC) (lowers_later l3 cb hB hC) (Lowers.null B C) hn
      simpa using this
  · simp only [gen_if, ne_eq, hr, not_false_eq_true, decide_True, if_true,
      bind_eq_ok, pure_eq_ok, Prod.exists, Prod.mk.injEq] at h
    obtain ⟨reg, s1, h1, s2, h2, r3, s3, h3, s4, h4, s5, ⟨r6, s6, h6, h7⟩, _, rfl⟩ := h
    obtain ⟨oc, c1, l1⟩ := hc _ _ _ h1
    obtain ⟨cmp, hcmp, i2⟩ := cmp_zero_insOnly h2
    obtain ⟨ot, c3, l3⟩ := ht _ _ _ h3
    obtain ⟨oe, c6, l6⟩ := hf _ _ _ h6
    have c0 := (Ctx.new_label s).comp (Ctx.new_label (new_label_st s).2)
    have c2 := Ctx.of_insOnly i2
    have c2b := Ctx.emit s2 (.jz (new_label (new_label s.label_id).2).1)
    have c4 := Ctx.of_insOnly (free_reg_st_insOnly h4)
    have c4b := (Ctx.emit s4 (.jmp (new_label s.label_id).1)).comp
      (Ctx.emit _ (.label (new_label (new_label s.label_id).2).1))
    have c7 := Ctx.of_insOnly (free_reg_st_insOnly h7)
    have c8 := Ctx.emit s5 (.label (new_label s.label_id).1)
    have cc := c7.comp c8
    have cb := ((c4.comp c4b).comp c6).comp cc
    have ca := ((c2.comp c2b).comp c3).comp cb
    refine ⟨oc ++ [cmp, .jz (new_label (new_label s.label_id).2).1] ++ ot ++
      ([.jmp (new_label s.label_id).1, .label (new_label (new_label s.label_id).2).1] ++ oe) ++
      [.label (new_label s.label_id).1], ?_, ?_⟩
    · refine ((c0.comp c1).comp ca).cast (by simp [new_label_st]) ?_ ?_
      · simp [breaks_here, Bool.or_assoc]
      · simp [continues_here, Bool.or_assoc]
    · intro B C hB hC next ox hn
      have := @Lowers.if_ B C left mid right next iv sym _ _ _ _ (new_label s.label_id).1
        (new_label (new_label s.label_id).2).1 cmp hcmp (fun h => absurd h hr)
        (lowers_later l1 ca hB hC) (lowers_later l3 cb hB hC) (lowers_later l6 cc hB hC) hn
      simpa [hr] using this

theorem iter_top_inv {s : GState} {j : JumpLoc} (h : iter_top s = .ok j) :
    ∃ rest, s.iterjumploc = j :: rest := by
  unfold iter_top at h
  split at h
  · cases h
  · rename_i j1 rest hs
    simp only [Except.ok.injEq] at h
    subst h
    exact ⟨rest, hs⟩

theorem str_arg_inv {a : Option String} {l : String} (h : str_arg a = .ok l) : a = some l := by
  cases a with
  | none => cases h
  | some x =>
    simp only [str_arg, Except.ok.injEq] at h
    rw [h]

/-- A label variable read from the first entry after a stretch that started
with the variable set gives the value it was set to. -/
theorem read_continue {c b : Option String} {st : List JumpLoc} {s1 : GState} {j : JumpLoc}
    {l lc : String} (hf : Filled (⟨c, b⟩ :: st) s1.iterjumploc) (hc : c = some lc)
    (hj : iter_top s1 = .ok j) (hl : str_arg j.lcontinue = .ok l) : l = lc := by
  obtain ⟨j', e, _, h2⟩ := hf.cons_inv
  obtain ⟨rest, e2⟩ := iter_top_inv hj
  rw [e] at e2
  injection e2 with e3 _
  subst e3
  have := h2 lc hc
  rw [str_arg_inv hl] at this
  injection this

theorem read_break {c b : Option String} {st : List JumpLoc} {s1 : GState} {j : JumpLoc}
    {l lb : String} (hf : Filled (⟨c, b⟩ :: st) s1.iterjumploc) (hb : b = some lb)
    (hj : iter_top s1 = .ok j) (hl : str_arg j.lbreak = .ok l) : l = lb := by
  obtain ⟨j', e, h1, _⟩ := hf.cons_inv
  obtain ⟨rest, e2⟩ := iter_top_inv hj
  rw [e] at e2
  injection e2 with e3 _
  subst e3
  have := h1 lb hb
  rw [str_arg_inv hl] at this
  injection this

theorem compat_of_filled {c b : Option String} {st : List JumpLoc} {s1 : GState}
    {lb lc : String} (hf : Filled (⟨c, b⟩ :: st) s1.iterjumploc)
    (hb : ∀ x, top_break s1.iterjumploc = some x → x = lb)
    (hc : c = some lc) :
    Compatible (top_break s1.iterjumploc) lb ∧ Compatible (top_continue s1.iterjumploc) lc := by
  obtain ⟨j', e, _, h2⟩ := hf.cons_inv
  refine ⟨hb, ?_⟩
  intro x hx
  rw [e] at hx
  simp only [top_continue] at hx
  rw [h2 lc hc] at hx
  injection hx with hx
  exact hx.symm

theorem compat_both {lc lb : String} {st st1 : List JumpLoc}
    (hf : Filled (⟨some lc, some lb⟩ :: st) st1) :
    Compatible (top_break st1) lb ∧ Compatible (top_continue st1) lc := by
  obtain ⟨j', e, h1, h2⟩ := hf.cons_inv
  subst e
  constructor
  · intro x hx
    simp only [top_break] at hx
    rw [h1 lb rfl] at hx
    injection hx with hx
    exact hx.symm
  · intro x hx
    simp only [top_continue] at hx
    rw [h2 lc rfl] at hx
    injection hx with hx
    exact hx.symm

theorem gen_while_post {left mid right : GNode} {iv : Int} {sym : CStr} {cond stat : Gen}
    (hc : GenLowers cond left) (hs : GenLowers stat right) {s s' : GState} {r : Int}
    (h : gen_while cond stat s = .ok (r, s')) : NodePost .A_WHILE left mid right iv sym s s' := by
  simp only [gen_while, new_label_st, bind_eq_ok, pure_eq_ok, Prod.exists, Prod.mk.injEq] at h
  obtain ⟨j0, hj0, l0, hl0, reg, s1, h1, s2, h2, j1, hj1, l1, hl1, r3, s3, h3, s4, h4,
    j2, hj2, l2, hl2, j3, hj3, l3, hl3, j4, s5, h5, _, rfl⟩ := h
  obtain ⟨oc, c1, lw1⟩ := hc _ _ _ h1
  obtain ⟨cmp, hcmp, i2⟩ := cmp_zero_insOnly h2
  obtain ⟨ob, c3, lw3⟩ := hs _ _ _ h3
  have i4 := free_reg_st_insOnly h4
  have f0 : Filled (⟨some (new_label s.label_id).1,
      some (new_label (new_label s.label_id).2).1⟩ :: s.iterjumploc)
      (⟨some (new_label s.label_id).1,
      some (new_label (new_label s.label_id).2).1⟩ :: s.iterjumploc) := Filled.lrefl _
  have e0 : l0 = (new_label s.label_id).1 :=
    @read_continue _ _ _ (iter_enter _ _ _) _ _ _ (by simpa [iter_enter] using f0) rfl hj0 hl0
  subst e0
  have f1 : Filled (⟨some (new_label s.label_id).1,
      some (new_label (new_label s.label_id).2).1⟩ :: s.iterjumploc) s1.iterjumploc := by
    have := c1.1.2
    simpa [iter_enter] using this
  have f2 : Filled (⟨some (new_label s.label_id).1,
      some (new_label (new_label s.label_id).2).1⟩ :: s.iterjumploc) s2.iterjumploc := by
    rw [i2.2.1]; exact f1
  have e1 : l1 = (new_label (new_label s.label_id).2).1 := read_break f2 rfl hj1 hl1
  subst e1
  have f3 : Filled (⟨some (new_label s.label_id).1,
      some (new_label (new_label s.label_id).2).1⟩ :: s.iterjumploc) s3.iterjumploc := by
    have := c3.1.2
    simp only [GState.iterjumploc_emit] at this
    exact f2.ltrans this
  have f4 : Filled (⟨some (new_label s.label_id).1,
      some (new_label (new_label s.label_id).2).1⟩ :: s.iterjumploc) s4.iterjumploc := by
    rw [i4.2.1]; exact f3
  have e2 : l2 = (new_label s.label_id).1 := read_continue f4 rfl hj2 hl2
  subst e2
  have e3 : l3 = (new_label (new_label s.label_id).2).1 :=
    @read_break _ _ _ (s4.emit _) _ _ _ (by simpa using f4) rfl hj3 hl3
  subst e3
  obtain ⟨x1, x2, _, x4⟩ := iter_exit_inv h5
  obtain ⟨j', e4, _, _⟩ := f4.cons_inv
  simp only [GState.iterjumploc_emit, e4, List.cons.injEq] at x1
  have ho : s5.out = s.out ++ ([.label (new_label s.label_id).1] ++ oc ++
      [cmp, .jz (new_label (new_label s.label_id).2).1] ++ ob ++
      [.jmp (new_label s.label_id).1, .label (new_label (new_label s.label_id).2).1]) := by
    rw [x4]
    simp only [GState.out_emit, i4.1, c3.1.1, i2.1, c1.1.1, iter_enter,
      GState.out_set_iterjumploc, GState.out_set_label_id]
    simp
  refine ⟨_, (Ctx.of_same ho x1.2.symm).cast rfl (by simp [breaks_here])
    (by simp [continues_here]), ?_⟩
  intro B C _ _ next ox hn
  have := @Lowers.while_ B C left mid right next iv sym _ _ _
    (new_label s.label_id).1 (new_label (new_label s.label_id).2).1 cmp hcmp
    (lw1 _ _ (compat_both f1).1 (compat_both f1).2)
    (lw3 _ _ (compat_both f3).1 (compat_both f3).2) hn
  simpa using this

theorem top_break_of_cons {st : List JumpLoc} {j : JumpLoc} {rest : List JumpLoc}
    (h : st = j :: rest) : top_break st = j.lbreak := by
  subst h; rfl

theorem top_continue_of_cons {st : List JumpLoc} {j : JumpLoc} {rest : List JumpLoc}
    (h : st = j :: rest) : top_continue st = j.lcontinue := by
  subst h; rfl

theorem compat_continue_some {lc : String} {b : Option String} {st st1 : List JumpLoc}
    (hf : Filled (⟨some lc, b⟩ :: st) st1) : Compatible (top_continue st1) lc := by
  obtain ⟨j', e, _, h2⟩ := hf.cons_inv
  subst e
  intro x hx
  simp only [top_continue] at hx
  rw [h2 lc rfl] at hx
  injection hx with hx
  exact hx.symm

theorem gen_dowhile_post {left mid right : GNode} {iv : Int} {sym : CStr} {stat cond : Gen}
    (hs : GenLowers stat left) (hc : GenLowers cond right) {s s' : GState} {r : Int}
    (h : gen_dowhile stat cond s = .ok (r, s')) :
    NodePost .A_DOWHILE left mid right iv sym s s' := by
  simp only [gen_dowhile, new_label_st, bind_eq_ok, pure_eq_ok, Prod.exists,
    Prod.mk.injEq] at h
  obtain ⟨j0, hj0, l0, hl0, r1, s1, h1, s2, h2, reg, s3, h3, s4, h4, j1, hj1, l1, hl1,
    j, s5, h5, _, rfl⟩ := h
  obtain ⟨ob, c1, lw1⟩ := hs _ _ _ h1
  have i2 := free_reg_st_insOnly h2
  obtain ⟨oc, c3, lw3⟩ := hc _ _ _ h3
  obtain ⟨cmp, hcmp, i4⟩ := cmp_zero_insOnly h4
  have e0 : l0 = (new_label s.label_id).1 :=
    @read_continue (some (new_label s.label_id).1) none s.iterjumploc (iter_enter _ _ _) _ _ _
      (by simpa [iter_enter] using Filled.lrefl _) rfl hj0 hl0
  subst e0
  have f1 : Filled (⟨some (new_label s.label_id).1, none⟩ :: s.iterjumploc)
      s1.iterjumploc := by
    have := c1.1.2
    simpa [iter_enter] using this
  have t1 : Track (breaks_here left) none (top_break s1.iterjumploc) := by
    have := c1.2.1
    simpa [iter_enter, top_break] using this
  have f13 : Filled s1.iterjumploc s3.iterjumploc := by
    have := c3.1.2
    rwa [i2.2.1] at this
  have t3 : Track (breaks_here right) (top_break s1.iterjumploc)
      (top_break s3.iterjumploc) := by
    have := c3.2.1
    rwa [i2.2.1] at this
  have t13 := t1.tcomp t3
  have f3 := f1.ltrans f13
  have f4 : Filled (⟨some (new_label s.label_id).1, none⟩ :: s.iterjumploc)
      s4.iterjumploc := by
    rw [i4.2.1]; exact f3
  have e1 : l1 = (new_label s.label_id).1 := read_continue f4 rfl hj1 hl1
  subst e1
  obtain ⟨x1, x2, _, x4⟩ := iter_exit_inv h5
  obtain ⟨j', e4, _, _⟩ := f4.cons_inv
  simp only [GState.iterjumploc_emit, e4, List.cons.injEq] at x1
  obtain ⟨rfl, x1⟩ := x1
  have hjb : top_break s3.iterjumploc = j'.lbreak := by
    rw [← i4.2.1]; exact top_break_of_cons e4
  rw [hjb] at t13
  have hB1 : ∀ L, Compatible j'.lbreak L → Compatible (top_break s1.iterjumploc) L := by
    intro L hL
    rw [← hjb] at hL
    exact hL.of_slotLe f13.2.2.1
  have hB3 : ∀ L, Compatible j'.lbreak L → Compatible (top_break s3.iterjumploc) L := by
    intro L hL
    rwa [hjb]
  have ho4 : s4.out = s.out ++ ([.label (new_label s.label_id).1] ++ ob ++ oc ++ [cmp]) := by
    simp only [i4.1, c3.1.1, i2.1, c1.1.1, iter_enter, GState.out_emit,
      GState.out_set_iterjumploc, GState.out_set_label_id]
    simp
  cases hb : j'.lbreak with
  | none =>
    rw [hb] at t13
    have hbf : (breaks_here left || breaks_here right) = false := by
      cases hbb : (breaks_here left || breaks_here right)
      · rfl
      · exact absurd rfl (t13.1 hbb)
    have ho : s5.out = s.out ++ ([.label (new_label s.label_id).1] ++ ob ++ oc ++
        [cmp, .jnz (new_label s.label_id).1]) := by
      rw [x4]
      simp only [GState.out_emit, ho4]
      simp
    refine ⟨_, (Ctx.of_same ho x1.symm).cast rfl (by simp [breaks_here])
      (by simp [continues_here]), ?_⟩
    intro B C _ _ next ox hn
    have := @Lowers.dowhile B C left mid right next iv sym _ _ _
      (new_label s.label_id).1 "" cmp hcmp
      (lw1 _ _ (hB1 _ (by rw [hb]; exact fun _ h => nomatch h)) (compat_continue_some f1))
      (lw3 _ _ (hB3 _ (by rw [hb]; exact fun _ h => nomatch h)) (compat_continue_some f3)) hn
    simpa [hbf] using this
  | some lend =>
    rw [hb] at t13
    have hbt : (breaks_here left || breaks_here right) = true := by
      cases hbb : (breaks_here left || breaks_here right)
      · exact absurd (t13.2 hbb) (by simp)
      · rfl
    have ho : (s5.emit (.label lend)).out = s.out ++ ([.label (new_label s.label_id).1] ++
        ob ++ oc ++ [cmp, .jnz (new_label s.label_id).1, .label lend]) := by
      simp only [GState.out_emit, x4, ho4]
      simp
    refine ⟨_, (Ctx.of_same ho (by simpa using x1.symm)).cast rfl (by simp [breaks_here])
      (by simp [continues_here]), ?_⟩
    intro B C _ _ next ox hn
    have hcl : Compatible j'.lbreak lend := by
      rw [hb]; intro x hx; injection hx with hx; exact hx.symm
    have := @Lowers.dowhile B C left mid right next iv sym _ _ _
      (new_label s.label_id).1 lend cmp hcmp
      (lw1 _ _ (hB1 _ hcl) (compat_continue_some f1))
      (lw3 _ _ (hB3 _ hcl) (compat_continue_some f3)) hn
    simpa [hbt] using this

theorem for_cond_part {left : GNode} {cond_expr : Gen} (hc : GenLowers cond_expr left)
    {lend : String} {s0 sA : GState}
    (h : (if decide (left ≠ .null) = true then do
        let (reg, s) ← cond_expr s0
        let s ← cmp_zero reg s
        pure (s.emit (.je lend))
      else pure s0 : Except Failure GState) = .ok sA) :
    ∃ oc cmp, is_ins cmp = true ∧
      Ctx s0 sA (if left ≠ .null then oc ++ [cmp, .je lend] else [])
        (breaks_here left) (continues_here left) ∧
      ∀ B C, Compatible (top_break sA.iterjumploc) B →
        Compatible (top_continue sA.iterjumploc) C → Lowers B C left oc := by
  by_cases hl : left = .null
  · subst hl
    simp only [ne_eq, not_true_eq_false, decide_False, Bool.false_eq_true, if_false,
      pure_eq_ok] at h
    subst h
    exact ⟨[], .ins "", rfl, by simpa [breaks_here, continues_here] using Ctx.cnil s0,
      fun B C _ _ => Lowers.null B C⟩
  · simp only [ne_eq, hl, not_false_eq_true, decide_True, if_true, bind_eq_ok, pure_eq_ok,
      Prod.exists] at h
    obtain ⟨reg, s1, h1, s2, h2, rfl⟩ := h
    obtain ⟨oc, c1, lw1⟩ := hc _ _ _ h1
    obtain ⟨cmp, hcmp, i2⟩ := cmp_zero_insOnly h2
    have c2 := (Ctx.of_insOnly i2).comp (Ctx.emit s2 (.je lend))
    refine ⟨oc, cmp, hcmp, (c1.comp c2).cast (by simp [hl]) (by simp) (by simp), ?_⟩
    intro B C hB hC
    exact lowers_later lw1 c2 hB hC

theorem for_post_part {mid : GNode} {post_expr : Gen} (hp : GenLowers post_expr mid)
    {jc : Option String} {sD sE : GState}
    (h : (if decide (mid ≠ .null) = true then do
        let s := match jc with
          | some l => sD.emit (.label l)
          | none => sD
        let (r, s) ← post_expr s
        free_reg_st r s
      else pure sD : Except Failure GState) = .ok sE) :
    ∃ op, Ctx sD sE ((if mid ≠ .null then (match jc with
          | some l => [Asm.label l]
          | none => []) else []) ++ op)
        (breaks_here mid) (continues_here mid) ∧
      ∀ B C, Compatible (top_break sE.iterjumploc) B →
        Compatible (top_continue sE.iterjumploc) C → Lowers B C mid op := by
  by_cases hm : mid = .null
  · subst hm
    simp only [ne_eq, not_true_eq_false, decide_False, Bool.false_eq_true, if_false,
      pure_eq_ok] at h
    subst h
    exact ⟨[], by simpa [breaks_here, continues_here] using Ctx.cnil sD,
      fun B C _ _ => Lowers.null B C⟩
  · simp only [ne_eq, hm, not_false_eq_true, decide_True, if_true, bind_eq_ok,
      Prod.exists] at h
    obtain ⟨r, s1, h1, h2⟩ := h
    obtain ⟨op, c1, lw1⟩ := hp _ _ _ h1
    have c2 := Ctx.of_insOnly (free_reg_st_insOnly h2)
    cases jc with
    | none =>
      simp only at h1 c1
      refine ⟨op, (c1.comp c2).cast (by simp [hm]) (by simp) (by simp), ?_⟩
      intro B C hB hC
      exact lowers_later lw1 c2 hB hC
    | some l =>
      simp only at h1 c1
      refine ⟨op, ((Ctx.emit sD (.label l)).comp (c1.comp c2)).cast (by simp [hm]) (by simp)
        (by simp), ?_⟩
      intro B C hB hC
      exact lowers_later lw1 c2 hB hC

theorem for_body_part {right : GNode} {stat : Gen} (hs : GenLowers stat right)
    {lc : Option String} {lend : String} {sA s1 s2 sD : GState} {r : Int} {j : JumpLoc}
    (h1 : stat (iter_enter lc (some lend) sA) = .ok (r, s1))
    (h2 : free_reg_st r s1 = .ok s2) (h3 : iter_exit s2 = .ok (j, sD)) :
    ∃ ob, sD.out = sA.out ++ ob ∧ sD.iterjumploc = sA.iterjumploc ∧ j.lbreak = some lend ∧
      SlotLe lc j.lcontinue ∧ Track (continues_here right) lc j.lcontinue ∧
      ∀ L, Compatible j.lcontinue L → Lowers lend L right ob := by
  obtain ⟨ob, c1, lw1⟩ := hs _ _ _ h1
  have i2 := free_reg_st_insOnly h2
  obtain ⟨x1, _, _, x4⟩ := iter_exit_inv h3
  have f1 : Filled (⟨lc, some lend⟩ :: sA.iterjumploc) s1.iterjumploc := by
    have := c1.1.2
    simpa [iter_enter] using this
  obtain ⟨j', e, g1, g2⟩ := f1.cons_inv
  rw [i2.2.1, e] at x1
  injection x1 with x1 x1'
  subst x1
  have t1 : Track (continues_here right) lc j'.lcontinue := by
    have := c1.2.2
    simpa [iter_enter, top_continue, e] using this
  refine ⟨ob, ?_, x1'.symm, g1 lend rfl, g2, t1, ?_⟩
  · rw [x4, i2.1, c1.1.1]
    simp [iter_enter]
  · intro L hL
    refine lw1 _ _ ?_ ?_
    · rw [e]
      intro x hx
      simp only [top_break] at hx
      rw [g1 lend rfl] at hx
      injection hx with hx
      exact hx.symm
    · rw [e]
      exact hL

theorem gen_for_post {left mid right : GNode} {iv : Int} {sym : CStr}
    {cond_expr stat post_expr : Gen} (hc : GenLowers cond_expr left)
    (hs : GenLowers stat right) (hp : GenLowers post_expr mid) {s s' : GState} {r : Int}
    (h : gen_for (decide (left ≠ .null)) (decide (mid ≠ .null)) cond_expr stat post_expr s =
      .ok (r, s')) :
    NodePost .A_FOR left mid right iv sym s s' := by
  simp only [gen_for, new_label_st, bind_eq_ok, Prod.exists, GState.label_id_set_label_id,
    pure_eq_ok, Prod.mk.injEq] at h
  obtain ⟨sA, hA, r1, s1, h1, s2, h2, j, sD, h3, sE, hE, lb, hlb, _, rfl⟩ := h
  obtain ⟨oc, cmp, hcmp, cA, lwA⟩ := for_cond_part hc hA
  obtain ⟨ob, oB, sB, jb, jc, tc, lwB⟩ := for_body_part hs h1 h2 h3
  obtain ⟨op, cE, lwE⟩ := for_post_part hp hE
  have elb : lb = (new_label (new_label s.label_id).2).1 := by
    have := str_arg_inv hlb
    rw [jb] at this
    injection this with this
    exact this.symm
  subst elb
  have c0 : Ctx s (((s.set_label_id (new_label s.label_id).2).set_label_id
      (new_label (new_label s.label_id).2).2).emit (.label (new_label s.label_id).1))
      [.label (new_label s.label_id).1] false false :=
    Ctx.of_same (by simp) (by simp)
  have cB : Ctx sA sD ob false false := Ctx.of_same oB sB
  have cF := (Ctx.emit sE (.jmp (new_label s.label_id).1)).comp
    (Ctx.emit _ (.label (new_label (new_label s.label_id).2).1))
  have cEF := cE.comp cF
  have cBEF := cB.comp cEF
  -- the continue target of the body
  have hcont : ∃ lcont, Compatible j.lcontinue lcont ∧ (mid = .null → lcont =
      (new_label s.label_id).1) ∧
      (if mid ≠ .null then (match j.lcontinue with
          | some l => [Asm.label l]
          | none => []) else []) =
        (if mid ≠ .null ∧ continues_here right = true then [Asm.label lcont] else []) := by
    by_cases hm : mid = .null
    · refine ⟨(new_label s.label_id).1, ?_, fun _ => rfl, by simp [hm]⟩
      have := jc (new_label s.label_id).1 (by simp [hm])
      rw [this]
      intro x hx
      injection hx with hx
      exact hx.symm
    · have tc' : Track (continues_here right) none j.lcontinue := by
        simpa [hm] using tc
      cases hj : j.lcontinue with
      | none =>
        rw [hj] at tc'
        have : continues_here right = false := by
          cases hb : continues_here right
          · rfl
          · exact absurd rfl (tc'.1 hb)
        exact ⟨"", fun _ h => (nomatch h), fun h => absurd h hm, by simp [hm, this]⟩
      | some l =>
        rw [hj] at tc'
        have : continues_here right = true := by
          cases hb : continues_here right
          · exact absurd (tc'.2 hb) (by simp)
          · rfl
        refine ⟨l, ?_, fun h => absurd h hm, by simp [hm, this]⟩
        intro x hx
        injection hx with hx
        exact hx.symm
  obtain ⟨lcont, hlc, hmid, hlab⟩ := hcont
  refine ⟨[.label (new_label s.label_id).1] ++
      (if left ≠ .null then oc ++ [cmp, .je (new_label (new_label s.label_id).2).1] else []) ++
      ob ++ (if mid ≠ .null ∧ continues_here right = true then [Asm.label lcont] else []) ++
      op ++ [.jmp (new_label s.label_id).1, .label (new_label (new_label s.label_id).2).1],
    ?_, ?_⟩
  · refine ((c0.comp cA).comp cBEF).cast ?_ (by simp [breaks_here]) (by simp [continues_here])
    rw [hlab]
    simp
  · intro B C hB hC next ox hn
    have := @Lowers.for_ B C left mid right next iv sym _ _ _ _ (new_label s.label_id).1
      (new_label (new_label s.label_id).2).1 lcont cmp hcmp hmid
      (lowers_later lwA cBEF hB hC) (lwB lcont hlc) (lowers_later lwE cF hB hC) hn
    simpa using this

theorem gen_func_post {left mid right : GNode} {iv : Int} {sym : CStr} {b : Bool} {stat : Gen}
    (hs : GenLowers stat right) {s s' : GState} {r : Int}
    (h : gen_func b sym stat s = .ok (r, s')) : NodePost .A_FUNCDEF left mid right iv sym s s' := by
  unfold gen_func at h
  cases b
  · simp only [Bool.false_eq_true, if_false, bind_eq_ok, pure_eq_ok, Prod.exists,
      Prod.mk.injEq] at h
    obtain ⟨name, hn, r1, s1, h1, s2, h2, _, rfl⟩ := h
    have := str_arg_inv hn
    subst this
    obtain ⟨ob, c1, lw1⟩ := hs _ _ _ h1
    have c0 := ((Ctx.emit s (.ins ".text\n")).comp
      (Ctx.emit _ (.ins (".global " ++ name ++ "\n")))).comp (Ctx.emit _ (.label name))
    have c2 := (Ctx.of_insOnly (free_reg_st_insOnly h2)).comp (Ctx.emit s2 (.ins "\tret\n"))
    refine ⟨[.ins ".text\n", .ins (".global " ++ name ++ "\n"), .label name] ++ ob ++
      [.ins "\tret\n"], ((c0.comp c1).comp c2).cast (by simp) (by simp [breaks_here])
      (by simp [continues_here]), ?_⟩
    intro B C hB hC next ox hx
    exact Lowers.func _ _ _ rfl rfl rfl (lowers_later lw1 c2 hB hC) hx
  · simp only [if_true] at h
    cases h

theorem breaks_here_expr {op : Op} (hop : is_stmt op = false) (left mid right next : GNode)
    (iv : Int) (sym : CStr) :
    breaks_here (.mk op left mid right next iv sym) =
      (breaks_here left || breaks_here right || breaks_here next) := by
  cases op <;> simp only [is_stmt, Bool.true_eq_false] at hop <;> simp [breaks_here]

theorem continues_here_expr {op : Op} (hop : is_stmt op = false) (left mid right next : GNode)
    (iv : Int) (sym : CStr) :
    continues_here (.mk op left mid right next iv sym) =
      (continues_here left || continues_here right || continues_here next) := by
  cases op <;> simp only [is_stmt, Bool.true_eq_false] at hop <;> simp [continues_here]

theorem operand_post {n : GNode} {g : Gen} (hg : GenLowers g n) {s s' : GState} {r : Int}
    (h : (if decide (n ≠ .null) = true then g s else pure (-1, s) :
      Except Failure (Int × GState)) = .ok (r, s')) : LowersPost n s s' := by
  by_cases hn : n = .null
  · subst hn
    simp only [ne_eq, not_true_eq_false, decide_False, Bool.false_eq_true, if_false,
      pure_eq_ok, Prod.mk.injEq] at h
    obtain ⟨_, rfl⟩ := h
    exact ⟨[], by simpa [breaks_here, continues_here] using Ctx.cnil s,
      fun B C _ _ => Lowers.null B C⟩
  · simp only [ne_eq, hn, not_false_eq_true, decide_True, if_true] at h
    exact hg _ _ _ h

theorem astgen_expr_post {findsym : CStr → Bool} {op : Op} (hop : is_stmt op = false)
    {left mid right : GNode} {iv : Int} {sym : CStr} {hn : Bool} {lg : Gen} {rg : Int → Gen}
    (hl : GenLowers lg left) (hr : ∀ l, GenLowers (rg l) right) {storreg : Int}
    {s s' : GState} {reg : Int}
    (h : astgen_expr findsym op iv sym (decide (left ≠ .null)) (decide (right ≠ .null)) hn
      lg rg storreg s = .ok (reg, s')) :
    NodePost op left mid right iv sym s s' := by
  simp only [astgen_expr, bind_eq_ok, pure_eq_ok, Prod.exists, Prod.mk.injEq] at h
  obtain ⟨lreg, sa, h1, rreg, sb, h2, reg1, sc, h3, sd, h4, _, rfl⟩ := h
  obtain ⟨ol, c1, lw1⟩ := operand_post hl h1
  obtain ⟨or_, c2, lw2⟩ := operand_post (hr lreg) h2
  obtain ⟨inss, i3⟩ := astgen_switch_insOnly h3
  have i4 : InsOnly sc sd [] := by
    cases hn
    · simp only [Bool.false_eq_true, if_false, pure_eq_ok] at h4
      subst h4
      exact InsOnly.irefl _
    · simp only [if_true] at h4
      exact free_reg_st_insOnly h4
  have c3 := (Ctx.of_insOnly i3).comp (Ctx.of_insOnly i4)
  have c23 := c2.comp c3
  refine ⟨ol ++ or_ ++ inss, (c1.comp c23).cast (by simp) ?_ ?_, ?_⟩
  · rw [breaks_here_expr hop]; simp [breaks_here]
  · rw [continues_here_expr hop]; simp [continues_here]
  · intro B C hB hC next ox hx
    exact Lowers.expr inss hop i3.2.2.2 (lowers_later lw1 c23 hB hC)
      (lowers_later lw2 c3 hB hC) hx

theorem breaks_here_next (op : Op) (left mid right next : GNode) (iv : Int) (sym : CStr) :
    breaks_here (.mk op left mid right next iv sym) =
      (breaks_here (.mk op left mid right .null iv sym) || breaks_here next) := by
  cases op <;> simp [breaks_here]

theorem continues_here_next (op : Op) (left mid right next : GNode) (iv : Int) (sym : CStr) :
    continues_here (.mk op left mid right next iv sym) =
      (continues_here (.mk op left mid right .null iv sym) || continues_here next) := by
  cases op <;> simp [continues_here]

theorem turn_lowers {findsym : CStr → Bool} {op : Op} {left mid right next : GNode} {iv : Int}
    {sym : CStr} {storreg : Int} {s s1 s' : GState} {reg r : Int}
    (hn : GenLowers (astgen findsym next storreg) next)
    (h1 : NodePost op left mid right iv sym s s1)
    (h : (if next = .null then pure (reg, s1) else astgen findsym next storreg s1 :
      Except Failure (Int × GState)) = .ok (r, s')) :
    LowersPost (.mk op left mid right next iv sym) s s' := by
  obtain ⟨new, c1, lw1⟩ := h1
  have h2 : LowersPost next s1 s' := by
    by_cases hx : next = .null
    · subst hx
      simp only [if_true, pure_eq_ok, Prod.mk.injEq] at h
      obtain ⟨_, rfl⟩ := h
      exact ⟨[], by simpa [breaks_here, continues_here] using Ctx.cnil s1,
        fun B C _ _ => Lowers.null B C⟩
    · rw [if_neg hx] at h
      exact hn _ _ _ h
  obtain ⟨ox, c2, lw2⟩ := h2
  refine ⟨new ++ ox, (c1.comp c2).cast rfl (breaks_here_next ..).symm
    (continues_here_next ..).symm, ?_⟩
  intro B C hB hC
  exact lw1 B C (c2.compat_break hB) (c2.compat_continue hC) next ox (lw2 B C hB hC)

/-- The lines `astgen` writes for a chain are a lowering of the chain, for the
break and continue targets that the first entry of `iterjumploc` holds when
`astgen` returns. -/
theorem astgen_lowers (findsym : CStr → Bool) :
    ∀ n storreg, GenLowers (astgen findsym n storreg) n := by
  intro n
  induction n with
  | null =>
    intro storreg s r s' h
    rw [astgen_null] at h
    simp only [Except.ok.injEq, Prod.mk.injEq] at h
    obtain ⟨_, rfl⟩ := h
    exact ⟨[], by simpa [breaks_here, continues_here] using Ctx.cnil s,
      fun B C _ _ => Lowers.null B C⟩
  | mk op left mid right next iv sym ihl ihm ihr ihn =>
    intro storreg s r s' h
    by_cases hop : is_stmt op = true
    · cases op <;> simp only [is_stmt, Bool.false_eq_true] at hop <;>
        rw [astgen] at h <;> simp only [bind_eq_ok, Prod.exists] at h <;>
        obtain ⟨reg, s1, h1, h2⟩ := h
      · exact turn_lowers (ihn storreg) (gen_if_post (ihl _) (ihm _) (ihr _) h1) h2
      · exact turn_lowers (ihn storreg) (gen_while_post (ihl _) (ihr _) h1) h2
      · exact turn_lowers (ihn storreg) (gen_dowhile_post (ihl _) (ihr _) h1) h2
      · exact turn_lowers (ihn storreg) (gen_for_post (ihl _) (ihr _) (ihm _) h1) h2
      · exact turn_lowers (ihn storreg) (gen_break_post h1) h2
      · exact turn_lowers (ihn storreg) (gen_continue_post h1) h2
      · exact turn_lowers (ihn storreg) (gen_func_post (ihr _) h1) h2
    · have hop' : is_stmt op = false := by
        cases hb : is_stmt op
        · rfl
        · exact absurd hb hop
      rw [astgen_mk_expr _ _ _ _ _ _ _ _ _ _ (fun hx => by subst hx; simp [is_stmt] at hop')
        (fun hx => by subst hx; simp [is_stmt] at hop')
        (fun hx => by subst hx; simp [is_stmt] at hop')
        (fun hx => by subst hx; simp [is_stmt] at hop')
        (fun hx => by subst hx; simp [is_stmt] at hop')
        (fun hx => by subst hx; simp [is_stmt] at hop')
        (fun hx => by subst hx; simp [is_stmt] at hop')] at h
      simp only [bind_eq_ok, Prod.exists] at h
      obtain ⟨reg, s1, h1, h2⟩ := h
      exact turn_lowers (ihn storreg) (astgen_expr_post hop' (ihl _) (fun l => ihr l) h1) h2

/-! ## Loops: the shape of their lines -/

theorem lowers_null_inv {B C : String} {o : List Asm} (h : Lowers B C .null o) : o = [] := by
  cases h; rfl

theorem lowers_while_inv {B C : String} {left mid right : GNode} {iv : Int} {sym : CStr}
    {new : List Asm} (h : Lowers B C (.mk .A_WHILE left mid right .null iv sym) new) :
    ∃ lcond lend cmp oc ob, is_ins cmp = true ∧
      new = [.label lcond] ++ oc ++ [cmp, .jz lend] ++ ob ++ [.jmp lcond, .label lend] ∧
      Lowers lend lcond left oc ∧ Lowers lend lcond right ob := by
  cases h with
  | while_ lcond lend cmp hcmp h1 h2 h3 =>
    have := lowers_null_inv h3
    subst this
    exact ⟨lcond, lend, cmp, _, _, hcmp, by simp, h1, h2⟩
  | expr inss hop _ _ _ _ => simp [is_stmt] at hop

theorem lowers_dowhile_inv {B C : String} {left mid right : GNode} {iv : Int} {sym : CStr}
    {new : List Asm} (h : Lowers B C (.mk .A_DOWHILE left mid right .null iv sym) new) :
    ∃ lstat lend cmp ob oc, is_ins cmp = true ∧
      new = [.label lstat] ++ ob ++ oc ++ [cmp, .jnz lstat] ++
        (if (breaks_here left || breaks_here right) = true then [.label lend] else []) ∧
      Lowers lend lstat left ob ∧ Lowers lend lstat right oc := by
  cases h with
  | dowhile lstat lend cmp hcmp h1 h2 h3 =>
    have := lowers_null_inv h3
    subst this
    exact ⟨lstat, lend, cmp, _, _, hcmp, by simp, h1, h2⟩
  | expr inss hop _ _ _ _ => simp [is_stmt] at hop

theorem lowers_for_inv {B C : String} {left mid right : GNode} {iv : Int} {sym : CStr}
    {new : List Asm} (h : Lowers B C (.mk .A_FOR left mid right .null iv sym) new) :
    ∃ lcond lend lcont cmp oc ob op, is_ins cmp = true ∧ (mid = .null → lcont = lcond) ∧
      new = [.label lcond] ++ (if left ≠ .null then oc ++ [cmp, .je lend] else []) ++ ob ++
        (if mid ≠ .null ∧ continues_here right = true then [.label lcont] else []) ++ op ++
        [.jmp lcond, .label lend] ∧
      Lowers B C left oc ∧ Lowers lend lcont right ob ∧ Lowers B C mid op := by
  cases h with
  | for_ lcond lend lcont cmp hcmp hm h1 h2 h3 h4 =>
    have := lowers_null_inv h4
    subst this
    exact ⟨lcond, lend, lcont, cmp, _, _, _, hcmp, hm, by simp, h1, h2, h3⟩
  | expr inss hop _ _ _ _ => simp [is_stmt] at hop

/-- The lines of a call of `astgen` are a lowering of the chain for some
targets of the loop around it. -/
theorem astgen_lowers_some (findsym : CStr → Bool) (n : GNode) (storreg : Int)
    (s s' : GState) (r : Int) (h : astgen findsym n storreg s = .ok (r, s')) :
    ∃ new B C, s'.out = s.out ++ new ∧ Lowers B C n new := by
  obtain ⟨new, c, lw⟩ := astgen_lowers findsym n storreg s r s' h
  refine ⟨new, (top_break s'.iterjumploc).getD "", (top_continue s'.iterjumploc).getD "",
    c.1.1, lw _ _ ?_ ?_⟩
  · intro x hx; rw [hx]; rfl
  · intro x hx; rw [hx]; rfl

/-- In a lowering, a chain that holds a `break` of the loop around it has a
jump to the break target among its lines. -/
theorem lowers_break_mem {B C : String} {n : GNode} {out : List Asm} (h : Lowers B C n out) :
    breaks_here n = true → .jmp B ∈ out := by
  induction h with
  | null => intro hb; simp [breaks_here] at hb
  | break_ _ _ => intro _; simp
  | continue_ _ ih =>
    intro hb
    simp only [breaks_here, Bool.false_or] at hb
    simp [ih hb]
  | @if_ B C left mid right next iv sym oc ot oe ox lend lfalse cmp _ hr _ _ _ _ ih1 ih2 ih3 ih4 =>
    intro hb
    simp only [breaks_here, Bool.or_eq_true] at hb
    rcases hb with ((hb | hb) | hb) | hb
    · simp [ih1 hb]
    · simp [ih2 hb]
    · have hne : right ≠ GNode.null := fun hx => by subst hx; simp [breaks_here] at hb
      simp [hne, ih3 hb]
    · simp [ih4 hb]
  | while_ lcond lend cmp _ _ _ _ _ _ ih3 =>
    intro hb
    simp only [breaks_here, Bool.false_or] at hb
    simp [ih3 hb]
  | dowhile lstat lend cmp _ _ _ _ _ _ ih3 =>
    intro hb
    simp only [breaks_here, Bool.false_or] at hb
    simp [ih3 hb]
  | @for_ B C left mid right next iv sym oc ob op ox lcond lend lcont cmp _ _ _ _ _ _ ih1 _ ih3 ih4 =>
    intro hb
    simp only [breaks_here, Bool.or_eq_true] at hb
    rcases hb with (hb | hb) | hb
    · have hne : left ≠ GNode.null := fun hx => by subst hx; simp [breaks_here] at hb
      simp [hne, ih1 hb]
    · simp [ih3 hb]
    · simp [ih4 hb]
  | func i1 i2 i3 _ _ _ _ _ ih1 ih2 =>
    intro hb
    simp only [breaks_here, Bool.or_eq_true] at hb
    rcases hb with hb | hb
    · simp [ih1 hb]
    · simp [ih2 hb]
  | expr inss hop _ _ _ _ ih1 ih2 ih3 =>
    intro hb
    rw [breaks_here_expr hop] at hb
    simp only [Bool.or_eq_true] at hb
    rcases hb with (hb | hb) | hb
    · simp [ih1 hb]
    · simp [ih2 hb]
    · simp [ih3 hb]

/-- In a lowering, a chain that holds a `continue` of the loop around it has a
jump to the continue target among its lines. -/
theorem lowers_continue_mem {B C : String} {n : GNode} {out : List Asm}
    (h : Lowers B C n out) : continues_here n = true → .jmp C ∈ out := by
  induction h with
  | null => intro hb; simp [continues_here] at hb
  | break_ _ ih =>
    intro hb
    simp only [continues_here, Bool.false_or] at hb
    simp [ih hb]
  | continue_ _ _ => intro _; simp
  | @if_ B C left mid right next iv sym oc ot oe ox lend lfalse cmp _ hr _ _ _ _ ih1 ih2 ih3 ih4 =>
    intro hb
    simp only [continues_here, Bool.or_eq_true] at hb
    rcases hb with ((hb | hb) | hb) | hb
    · simp [ih1 hb]
    · simp [ih2 hb]
    · have hne : right ≠ GNode.null := fun hx => by subst hx; simp [continues_here] at hb
      simp [hne, ih3 hb]
    · simp [ih4 hb]
  | while_ lcond lend cmp _ _ _ _ _ _ ih3 =>
    intro hb
    simp only [continues_here, Bool.false_or] at hb
    simp [ih3 hb]
  | dowhile lstat lend cmp _ _ _ _ _ _ ih3 =>
    intro hb
    simp only [continues_here, Bool.false_or] at hb
    simp [ih3 hb]
  | @for_ B C left mid right next iv sym oc ob op ox lcond lend lcont cmp _ _ _ _ _ _ ih1 _ ih3 ih4 =>
    intro hb
    simp only [continues_here, Bool.or_eq_true] at hb
    rcases hb with (hb | hb) | hb
    · have hne : left ≠ GNode.null := fun hx => by subst hx; simp [continues_here] at hb
      simp [hne, ih1 hb]
    · simp [ih3 hb]
    · simp [ih4 hb]
  | func i1 i2 i3 _ _ _ _ _ ih1 ih2 =>
    intro hb
    simp only [continues_here, Bool.or_eq_true] at hb
    rcases hb with hb | hb
    · simp [ih1 hb]
    · simp [ih2 hb]
  | expr inss hop _ _ _ _ ih1 ih2 ih3 =>
    intro hb
    rw [continues_here_expr hop] at hb
    simp only [Bool.or_eq_true] at hb
    rcases hb with (hb | hb) | hb
    · simp [ih1 hb]
    · simp [ih2 hb]
    · simp [ih3 hb]

/-- C15, counterexample: the loop `while (1) ;` has no `break` in its body, and
its lines end with the definition of `L1`, the label `gen_while` has put in the
break variable it registers with `iter_enter`: in `while (1) break;` the
`break` jumps to that same `L1`. The loop `for (;;) ;` defines its `L1` in the
same way. -/
theorem no_break_label_counterexample :
    breaks_here (GNode.null) = false ∧
    lines (astgen findsym_all while_plain (-1) GState.init) =
      [.label "L0", .ins "\tmov\t$1, %r8\n", .ins "\tcmp\t$0, %r8\n", .jz "L1", .jmp "L0",
        .label "L1"] ∧
    lines (astgen findsym_all while_with_break (-1) GState.init) =
      [.label "L0", .ins "\tmov\t$1, %r8\n", .ins "\tcmp\t$0, %r8\n", .jz "L1", .jmp "L1",
        .jmp "L0", .label "L1"] ∧
    lines (astgen findsym_all for_plain (-1) GState.init) =
      [.label "L0", .jmp "L0", .label "L1"] :=
  ⟨rfl, rfl, rfl, rfl⟩

/-- C15, amended: a `do-while` loop without a `break` that belongs to it ends
with the conditional jump to its head label: no break target is defined. A
`while` loop and a `for` loop always end with the definition of their end
label, which is the target of every `break` that belongs to the loop and of
the exit jump of the condition, whether or not the loop holds a `break`. -/
theorem loop_end_label (findsym : CStr → Bool) (op : Op) (left mid right : GNode) (iv : Int)
    (sym : CStr) (storreg : Int) (s s' : GState) (r : Int)
    (h : astgen findsym (.mk op left mid right .null iv sym) storreg s = .ok (r, s')) :
    (op = .A_DOWHILE → breaks_here left = false → breaks_here right = false →
      ∃ lstat lend cmp ob oc, is_ins cmp = true ∧
        s'.out = s.out ++ ([.label lstat] ++ ob ++ oc ++ [cmp, .jnz lstat]) ∧
        Lowers lend lstat left ob ∧ Lowers lend lstat right oc) ∧
    (op = .A_WHILE →
      ∃ lcond lend cmp oc ob, is_ins cmp = true ∧
        s'.out = s.out ++
          ([.label lcond] ++ oc ++ [cmp, .jz lend] ++ ob ++ [.jmp lcond, .label lend]) ∧
        Lowers lend lcond left oc ∧ Lowers lend lcond right ob) ∧
    (op = .A_FOR →
      ∃ lcond lend lcont cmp oc ob op B C, is_ins cmp = true ∧
        s'.out = s.out ++
          ([.label lcond] ++ (if left ≠ .null then oc ++ [cmp, .je lend] else []) ++ ob ++
            (if mid ≠ .null ∧ continues_here right = true then [.label lcont] else []) ++ op ++
            [.jmp lcond, .label lend]) ∧
        Lowers B C left oc ∧ Lowers lend lcont right ob ∧ Lowers B C mid op) := by
  obtain ⟨new, B, C, ho, lw⟩ := astgen_lowers_some findsym _ storreg s s' r h
  refine ⟨?_, ?_, ?_⟩
  · rintro rfl hb1 hb2
    obtain ⟨lstat, lend, cmp, ob, oc, hcmp, hn, l1, l2⟩ := lowers_dowhile_inv lw
    refine ⟨lstat, lend, cmp, ob, oc, hcmp, ?_, l1, l2⟩
    rw [ho, hn]
    simp [hb1, hb2]
  · rintro rfl
    obtain ⟨lcond, lend, cmp, oc, ob, hcmp, hn, l1, l2⟩ := lowers_while_inv lw
    exact ⟨lcond, lend, cmp, oc, ob, hcmp, by rw [ho, hn], l1, l2⟩
  · rintro rfl
    obtain ⟨lcond, lend, lcont, cmp, oc, ob, op, hcmp, _, hn, l1, l2, l3⟩ := lowers_for_inv lw
    exact ⟨lcond, lend, lcont, cmp, oc, ob, op, B, C, hcmp, by rw [ho, hn], l1, l2, l3⟩

theorem loop_end_label_witness :
    ∃ lcond lend cmp oc ob, is_ins cmp = true ∧
      (gen_returned (astgen findsym_all while_with_break (-1) GState.init)).2.out =
        GState.init.out ++
          ([.label lcond] ++ oc ++ [cmp, .jz lend] ++ ob ++ [.jmp lcond, .label lend]) ∧
      Lowers lend lcond (g_num 1) oc ∧
      Lowers lend lcond (g_node .A_BREAK .null .null .null) ob :=
  (loop_end_label findsym_all .A_WHILE (g_num 1) .null (g_node .A_BREAK .null .null .null) 0
    none (-1) GState.init (gen_returned (astgen findsym_all while_with_break (-1)
      GState.init)).2 (gen_returned (astgen findsym_all while_with_break (-1)
      GState.init)).1 rfl).2.1 rfl

/-- C17: a `do-while` loop without a `break` that belongs to it writes the
definition of its head label, then the lines of its body and of its condition,
then the comparison and the jump-if-nonzero to the head label, and nothing
after it: the loop itself defines one label. In the body and the condition the
continue target is the head label: every `continue` that belongs to the loop
is the line `jmp` to the head label, and such a line is there when the loop
holds a `continue`. -/
theorem dowhile_continue_lowering (findsym : CStr → Bool) (left mid right : GNode) (iv : Int)
    (sym : CStr) (storreg : Int) (s s' : GState) (r : Int)
    (h : astgen findsym (.mk .A_DOWHILE left mid right .null iv sym) storreg s = .ok (r, s'))
    (hb1 : breaks_here left = false) (hb2 : breaks_here right = false) :
    ∃ lstat lend cmp ob oc, is_ins cmp = true ∧
      s'.out = s.out ++ ([.label lstat] ++ ob ++ oc ++ [cmp, .jnz lstat]) ∧
      s'.out.getLast? = some (.jnz lstat) ∧
      Lowers lend lstat left ob ∧ Lowers lend lstat right oc ∧
      (continues_here left = true → .jmp lstat ∈ ob) ∧
      (continues_here right = true → .jmp lstat ∈ oc) := by
  obtain ⟨new, B, C, ho, lw⟩ := astgen_lowers_some findsym _ storreg s s' r h
  obtain ⟨lstat, lend, cmp, ob, oc, hcmp, hn, l1, l2⟩ := lowers_dowhile_inv lw
  have ho' : s'.out = s.out ++ ([.label lstat] ++ ob ++ oc ++ [cmp, .jnz lstat]) := by
    rw [ho, hn]
    simp [hb1, hb2]
  refine ⟨lstat, lend, cmp, ob, oc, hcmp, ho', ?_, l1, l2, lowers_continue_mem l1,
    lowers_continue_mem l2⟩
  rw [ho']
  have : s.out ++ ([.label lstat] ++ ob ++ oc ++ [cmp, .jnz lstat]) =
      (s.out ++ ([.label lstat] ++ ob ++ oc ++ [cmp])) ++ [.jnz lstat] := by simp
  rw [this, List.getLast?_concat]

theorem dowhile_continue_lowering_witness :
    (∃ lstat lend cmp ob oc, is_ins cmp = true ∧
      (gen_returned (astgen findsym_all dowhile_continue (-1) GState.init)).2.out =
        GState.init.out ++ ([.label lstat] ++ ob ++ oc ++ [cmp, .jnz lstat]) ∧
      (gen_returned (astgen findsym_all dowhile_continue (-1) GState.init)).2.out.getLast? =
        some (.jnz lstat) ∧
      Lowers lend lstat (g_node .A_CONTINUE .null .null .null) ob ∧
      Lowers lend lstat (g_num 1) oc ∧
      (continues_here (g_node .A_CONTINUE .null .null .null) = true → .jmp lstat ∈ ob) ∧
      (continues_here (g_num 1) = true → .jmp lstat ∈ oc)) ∧
    lines (astgen findsym_all dowhile_continue (-1) GState.init) =
      [.label "L0", .jmp "L0", .ins "\tmov\t$1, %r8\n", .ins "\tcmp\t$0, %r8\n", .jnz "L0"] :=
  ⟨dowhile_continue_lowering findsym_all (g_node .A_CONTINUE .null .null .null) .null (g_num 1)
    0 none (-1) GState.init
    (gen_returned (astgen findsym_all dowhile_continue (-1) GState.init)).2
    (gen_returned (astgen findsym_all dowhile_continue (-1) GState.init)).1 rfl rfl rfl, rfl⟩

/-! ## Labels are defined once -/

theorem lab_eq (k : Nat) : lab k = "L" ++ Nat.repr k := rfl

theorem lab_inj {a b : Nat} (h : lab a = lab b) : a = b :=
  label_text_injective a b h

theorem new_label_lab (s : GState) (lo : Nat) (h : s.label_id = (lo : Int))
    (hb : lo + 1 < 2 ^ 31) :
    (new_label s.label_id).1 = lab lo ∧ (new_label s.label_id).2 = ((lo + 1 : Nat) : Int) := by
  rw [h, new_label_nat lo (by omega)]
  exact ⟨rfl, rfl⟩

theorem no_label_of_ins {inss : List Asm} (h : ∀ a ∈ inss, is_ins a = true) (l : String) :
    Asm.label l ∉ inss := fun hm => by
  have := h _ hm
  simp [is_ins] at this

theorem DefsIn.defs_nolabel {new : List Asm} (h : ∀ l, Asm.label l ∉ new) (a b : Nat) :
    DefsIn new a b :=
  ⟨fun l hl => absurd hl (h l), fun l => by rw [List.count_eq_zero.2 (h l)]; omega⟩

theorem DefsIn.dnil (a b : Nat) : DefsIn [] a b :=
  DefsIn.defs_nolabel (fun _ h => by simp at h) a b

theorem DefsIn.defs_single {k a b : Nat} (h1 : a ≤ k) (h2 : k < b) :
    DefsIn [Asm.label (lab k)] a b := by
  refine ⟨?_, ?_⟩
  · intro l hl
    simp only [List.mem_singleton, Asm.label.injEq] at hl
    exact ⟨k, h1, h2, hl⟩
  · intro l
    by_cases hl : Asm.label l = Asm.label (lab k)
    · rw [hl]; simp
    · rw [List.count_eq_zero.2 (by simpa using hl)]; omega

theorem DefsIn.defs_mono {new : List Asm} {a b c d : Nat} (h : DefsIn new a b) (h1 : c ≤ a)
    (h2 : b ≤ d) : DefsIn new c d :=
  ⟨fun l hl => by
    obtain ⟨k, k1, k2, k3⟩ := h.1 l hl
    exact ⟨k, by omega, by omega, k3⟩, h.2⟩

theorem DefsIn.defs_append_mem {n1 n2 : List Asm} {a b : Nat} (h1 : DefsIn n1 a b)
    (h2 : DefsIn n2 a b) (hd : ∀ l, Asm.label l ∈ n1 → Asm.label l ∉ n2) :
    DefsIn (n1 ++ n2) a b := by
  refine ⟨?_, ?_⟩
  · intro l hl
    rcases List.mem_append.1 hl with h | h
    · exact h1.1 l h
    · exact h2.1 l h
  · intro l
    rw [List.count_append]
    by_cases hm : Asm.label l ∈ n1
    · rw [List.count_eq_zero.2 (hd l hm)]
      have := h1.2 l
      omega
    · rw [List.count_eq_zero.2 hm]
      have := h2.2 l
      omega

theorem DefsIn.defs_disjoint {n1 n2 : List Asm} {a b c d : Nat} (h1 : DefsIn n1 a b)
    (h2 : DefsIn n2 c d) (hr : b ≤ c ∨ d ≤ a) : ∀ l, Asm.label l ∈ n1 → Asm.label l ∉ n2 := by
  intro l m1 m2
  obtain ⟨k, k1, k2, rfl⟩ := h1.1 l m1
  obtain ⟨k', k1', k2', e⟩ := h2.1 _ m2
  have := lab_inj e
  omega

/-- Lines that define labels of two ranges apart define each label once. -/
theorem DefsIn.defs_append {n1 n2 : List Asm} {a b c d lo hi : Nat} (h1 : DefsIn n1 a b)
    (h2 : DefsIn n2 c d) (hr : b ≤ c ∨ d ≤ a) (g1 : lo ≤ a) (g2 : lo ≤ c) (g3 : b ≤ hi)
    (g4 : d ≤ hi) : DefsIn (n1 ++ n2) lo hi :=
  (h1.defs_mono g1 g3).defs_append_mem (h2.defs_mono g2 g4) (h1.defs_disjoint h2 hr)

theorem DefsIn.defs_not_mem {new : List Asm} {a b k : Nat} (h : DefsIn new a b)
    (hk : k < a ∨ b ≤ k) : Asm.label (lab k) ∉ new := by
  intro hm
  obtain ⟨k', k1, k2, e⟩ := h.1 _ hm
  have := lab_inj e
  omega

theorem SlotFresh.slot_same (a : Option String) (l h : Nat) (new : List Asm) :
    SlotFresh a a l h new := fun _ hx => Or.inl hx

theorem SlotFresh.slot_comp {a b c : Option String} {l1 h1 l2 h2 d1 e1 d2 e2 L H : Nat}
    {n1 n2 : List Asm} (f1 : SlotFresh a b l1 h1 n1) (f2 : SlotFresh b c l2 h2 n2)
    (g1 : DefsIn n1 d1 e1) (g2 : DefsIn n2 d2 e2)
    (hz : (h1 ≤ d2 ∨ e2 ≤ l1) ∧ (h2 ≤ d1 ∨ e1 ≤ l2) ∧ L ≤ l1 ∧ L ≤ l2 ∧ h1 ≤ H ∧ h2 ≤ H) :
    SlotFresh a c L H (n1 ++ n2) := by
  intro x hx
  rcases f2 x hx with hb | ⟨⟨k, k1, k2, rfl⟩, hn⟩
  · rcases f1 x hb with ha | ⟨⟨k, k1, k2, rfl⟩, hn⟩
    · exact Or.inl ha
    · refine Or.inr ⟨⟨k, by omega, by omega, rfl⟩, ?_⟩
      intro hm
      rcases List.mem_append.1 hm with hm | hm
      · exact hn hm
      · exact g2.defs_not_mem (by omega) hm
  · refine Or.inr ⟨⟨k, by omega, by omega, rfl⟩, ?_⟩
    intro hm
    rcases List.mem_append.1 hm with hm | hm
    · exact g1.defs_not_mem (by omega) hm
    · exact hn hm

theorem Seg.seg_comp {s s1 s2 : GState} {n1 n2 : List Asm} {a b l1 h1 c d l2 h2 A B L H : Nat}
    (x1 : Seg s s1 n1 a b l1 h1) (x2 : Seg s1 s2 n2 c d l2 h2)
    (hz : (b ≤ c ∨ d ≤ a) ∧ (h1 ≤ c ∨ d ≤ l1) ∧ (h2 ≤ a ∨ b ≤ l2) ∧ A ≤ a ∧ A ≤ c ∧ b ≤ B ∧
      d ≤ B ∧ L ≤ l1 ∧ L ≤ l2 ∧ h1 ≤ H ∧ h2 ≤ H) :
    Seg s s2 (n1 ++ n2) A B L H := by
  obtain ⟨z1, z2, z3, z4, z5, z6, z7, z8, z9, z10, z11⟩ := hz
  exact ⟨by rw [x2.1, x1.1, List.append_assoc],
    x1.2.1.defs_append x2.2.1 z1 z4 z5 z6 z7,
    x1.2.2.1.slot_comp x2.2.2.1 x1.2.1 x2.2.1 ⟨z2, z3, z8, z9, z10, z11⟩,
    x1.2.2.2.1.slot_comp x2.2.2.2.1 x1.2.1 x2.2.1 ⟨z2, z3, z8, z9, z10, z11⟩,
    x1.2.2.2.2.ltrans x2.2.2.2.2⟩

theorem Seg.seg_nolabel {s s' : GState} {new : List Asm} (ho : s'.out = s.out ++ new)
    (hl : ∀ l, Asm.label l ∉ new) (hs : s'.iterjumploc = s.iterjumploc) (a b l h : Nat) :
    Seg s s' new a b l h := by
  refine ⟨ho, DefsIn.defs_nolabel hl a b, ?_, ?_, ?_⟩ <;> rw [hs]
  · exact SlotFresh.slot_same _ _ _ _
  · exact SlotFresh.slot_same _ _ _ _
  · exact Filled.lrefl _

theorem Seg.seg_of_insOnly {s s' : GState} {inss : List Asm} (hi : InsOnly s s' inss)
    (a b l h : Nat) : Seg s s' inss a b l h :=
  Seg.seg_nolabel hi.1 (no_label_of_ins hi.2.2.2) hi.2.1 a b l h

theorem Seg.seg_label (s : GState) (k l h : Nat) :
    Seg s (s.emit (.label (lab k))) [.label (lab k)] k (k + 1) l h := by
  refine ⟨by simp, DefsIn.defs_single (Nat.le_refl _) (Nat.lt_succ_self _), ?_, ?_, ?_⟩ <;>
    simp only [GState.iterjumploc_emit]
  · exact SlotFresh.slot_same _ _ _ _
  · exact SlotFresh.slot_same _ _ _ _
  · exact Filled.lrefl _

theorem Seg.seg_emit (s : GState) (x : Asm) (hx : ∀ l, x ≠ .label l) (a b l h : Nat) :
    Seg s (s.emit x) [x] a b l h :=
  Seg.seg_nolabel (by simp) (fun l hm => by
    simp only [List.mem_singleton] at hm
    exact hx l hm.symm) (by simp) a b l h

theorem Seg.snil (s : GState) (a b l h : Nat) : Seg s s [] a b l h :=
  Seg.seg_nolabel (by simp) (fun _ hm => by simp at hm) rfl a b l h

theorem Seg.seg_cast {s s' : GState} {new new' : List Asm} {a b l h : Nat}
    (x : Seg s s' new a b l h) (e : new = new') : Seg s s' new' a b l h := by
  subst e; exact x

theorem label_bound_node (op : Op) (left mid right : GNode) (iv : Int) (sym : CStr) :
    label_bound (.mk op left mid right .null iv sym) =
      (match op with
        | .A_IF => 2
        | .A_WHILE => 2
        | .A_DOWHILE => 1
        | .A_FOR => 2
        | .A_BREAK => 1
        | .A_CONTINUE => 1
        | _ => 0) + label_bound left + label_bound mid + label_bound right := by
  simp [label_bound]

theorem gen_break_fresh {left mid right : GNode} {iv : Int} {sym : CStr} {s s' : GState}
    {r : Int} (h : gen_break s = .ok (r, s')) :
    FreshPost (.mk .A_BREAK left mid right .null iv sym) s s' := by
  intro lo hlo hb
  rw [label_bound_node] at hb
  simp only at hb
  obtain ⟨j, rest, L, h1, h2, h3, h4, h5, h6, _⟩ := gen_break_inv h
  cases hj : j.lbreak with
  | none =>
    obtain ⟨e1, e2⟩ := h5 hj
    obtain ⟨q1, q2⟩ := new_label_lab s lo hlo (by omega)
    rw [q1] at e1
    rw [q2] at e2
    subst e1
    refine ⟨lo + 1, [.jmp (lab lo)], e2, by omega, by rw [label_bound_node]; simp only; omega,
      h3, DefsIn.defs_nolabel (fun l hm => by simp at hm) _ _, ?_, ?_, ?_⟩
    · rw [h2]
      intro x hx
      simp only [top_break, Option.some.injEq] at hx
      subst hx
      exact Or.inr ⟨⟨lo, Nat.le_refl _, Nat.lt_succ_self _, rfl⟩, by simp⟩
    · rw [h1, h2]
      exact SlotFresh.slot_same _ _ _ _
    · rw [h1, h2]
      exact ⟨rfl, rfl, h4, SlotLe.srefl _⟩
  | some l =>
    have e := h6 (by rw [hj]; simp)
    have e4 := h4 l hj
    simp only [Option.some.injEq] at e4
    subst e4
    refine ⟨lo, [.jmp L], by rw [e, hlo], Nat.le_refl _, by omega,
      h3, DefsIn.defs_nolabel (fun l hm => by simp at hm) _ _, ?_, ?_, ?_⟩
    · rw [h1, h2]
      simp only [top_break, hj]
      exact SlotFresh.slot_same _ _ _ _
    · rw [h1, h2]
      exact SlotFresh.slot_same _ _ _ _
    · rw [h1, h2]
      exact ⟨rfl, rfl, h4, SlotLe.srefl _⟩

theorem gen_continue_fresh {left mid right : GNode} {iv : Int} {sym : CStr} {s s' : GState}
    {r : Int} (h : gen_continue s = .ok (r, s')) :
    FreshPost (.mk .A_CONTINUE left mid right .null iv sym) s s' := by
  intro lo hlo hb
  rw [label_bound_node] at hb
  simp only at hb
  obtain ⟨j, rest, L, h1, h2, h3, h4, h5, h6, _⟩ := gen_continue_inv h
  cases hj : j.lcontinue with
  | none =>
    obtain ⟨e1, e2⟩ := h5 hj
    obtain ⟨q1, q2⟩ := new_label_lab s lo hlo (by omega)
    rw [q1] at e1
    rw [q2] at e2
    subst e1
    refine ⟨lo + 1, [.jmp (lab lo)], e2, by omega, by rw [label_bound_node]; simp only; omega,
      h3, DefsIn.defs_nolabel (fun l hm => by simp at hm) _ _, ?_, ?_, ?_⟩
    · rw [h1, h2]
      exact SlotFresh.slot_same _ _ _ _
    · rw [h2]
      intro x hx
      simp only [top_continue, Option.some.injEq] at hx
      subst hx
      exact Or.inr ⟨⟨lo, Nat.le_refl _, Nat.lt_succ_self _, rfl⟩, by simp⟩
    · rw [h1, h2]
      exact ⟨rfl, rfl, SlotLe.srefl _, h4⟩
  | some l =>
    have e := h6 (by rw [hj]; simp)
    have e4 := h4 l hj
    simp only [Option.some.injEq] at e4
    subst e4
    refine ⟨lo, [.jmp L], by rw [e, hlo], Nat.le_refl _, by omega,
      h3, DefsIn.defs_nolabel (fun l hm => by simp at hm) _ _, ?_, ?_, ?_⟩
    · rw [h1, h2]
      exact SlotFresh.slot_same _ _ _ _
    · rw [h1, h2]
      simp only [top_continue, hj]
      exact SlotFresh.slot_same _ _ _ _
    · rw [h1, h2]
      exact ⟨rfl, rfl, SlotLe.srefl _, h4⟩

theorem gen_if_fresh {left mid right : GNode} {iv : Int} {sym : CStr}
    {cond tstat fstat : Gen} (hc : GenFresh cond left) (ht : GenFresh tstat mid)
    (hf : GenFresh fstat right) {s s' : GState} {r : Int}
    (h : gen_if (decide (right ≠ .null)) cond tstat fstat s = .ok (r, s')) :
    FreshPost (.mk .A_IF left mid right .null iv sym) s s' := by
  intro lo hlo hb
  rw [label_bound_node] at hb ⊢
  simp only at hb ⊢
  obtain ⟨q1, q2⟩ := new_label_lab s lo hlo (by omega)
  by_cases hr : right = .null
  · subst hr
    simp only [gen_if, new_label_st, ne_eq, not_true_eq_false, decide_False,
      Bool.false_eq_true, if_false, bind_eq_ok, pure_eq_ok, Prod.exists, Prod.mk.injEq,
      q1, q2] at h
    obtain ⟨reg, s1, h1, s2, h2, r3, s3, h3, s4, h4, s5, h5, _, rfl⟩ := h
    subst h5
    obtain ⟨hi1, oc, e1, b1, b1', x1⟩ := hc _ _ _ h1 (lo + 1) (by simp) (by omega)
    obtain ⟨cmp, hcmp, i2⟩ := cmp_zero_insOnly h2
    have e2 : (s2.emit (.jz (lab lo))).label_id = (hi1 : Int) := by
      simp [i2.2.2.1, e1]
    obtain ⟨hi2, ot, e3, b3, b3', x3⟩ := ht _ _ _ h3 hi1 e2 (by omega)
    have i4 := free_reg_st_insOnly h4
    have x0 : Seg s (s.set_label_id ((lo + 1 : Nat) : Int)) [] (lo + 1) (lo + 1) (lo + 1)
        (lo + 1) :=
      Seg.seg_nolabel (by simp) (fun _ hm => by simp at hm) (by simp) _ _ _ _
    have y1 : Seg s s1 ([] ++ oc) (lo + 1) hi1 (lo + 1) hi1 := x0.seg_comp x1 (by omega)
    have y2 : Seg s s2 ([] ++ oc ++ [cmp]) (lo + 1) hi1 (lo + 1) hi1 :=
      y1.seg_comp (Seg.seg_of_insOnly i2 hi1 hi1 hi1 hi1) (by omega)
    have y2b : Seg s (s2.emit (.jz (lab lo))) ([] ++ oc ++ [cmp] ++ [.jz (lab lo)]) (lo + 1) hi1
        (lo + 1) hi1 :=
      y2.seg_comp (Seg.seg_emit s2 _ (fun _ hx => by cases hx) hi1 hi1 hi1 hi1) (by omega)
    have y3 : Seg s s3 ([] ++ oc ++ [cmp] ++ [.jz (lab lo)] ++ ot) (lo + 1) hi2 (lo + 1) hi2 :=
      y2b.seg_comp x3 (by omega)
    have y4 : Seg s s4 ([] ++ oc ++ [cmp] ++ [.jz (lab lo)] ++ ot ++ []) (lo + 1) hi2
        (lo + 1) hi2 :=
      y3.seg_comp (Seg.seg_of_insOnly i4 hi2 hi2 hi2 hi2) (by omega)
    have y5 : Seg s (s4.emit (.label (lab lo)))
        ([] ++ oc ++ [cmp] ++ [.jz (lab lo)] ++ ot ++ [] ++ [.label (lab lo)]) lo hi2 lo hi2 :=
      y4.seg_comp (Seg.seg_label s4 lo hi2 hi2) (by omega)
    exact ⟨hi2, _, by simp [i4.2.2.1, e3], by omega, by omega, y5⟩
  · obtain ⟨p1, p2⟩ := new_label_lab (s.set_label_id ((lo + 1 : Nat) : Int)) (lo + 1)
      (by simp) (by omega)
    simp only [GState.label_id_set_label_id] at p1 p2
    simp only [gen_if, new_label_st, ne_eq, hr, not_false_eq_true, decide_True, if_true,
      bind_eq_ok, pure_eq_ok, Prod.exists, Prod.mk.injEq, q1, q2, p1, p2,
      GState.label_id_set_label_id] at h
    obtain ⟨reg, s1, h1, s2, h2, r3, s3, h3, s4, h4, s5, ⟨r6, s6, h6, h7⟩, _, rfl⟩ := h
    obtain ⟨hi1, oc, e1, b1, b1', x1⟩ := hc _ _ _ h1 (lo + 1 + 1) (by simp) (by omega)
    obtain ⟨cmp, hcmp, i2⟩ := cmp_zero_insOnly h2
    have e2 : (s2.emit (.jz (lab (lo + 1)))).label_id = (hi1 : Int) := by
      simp [i2.2.2.1, e1]
    obtain ⟨hi2, ot, e3, b3, b3', x3⟩ := ht _ _ _ h3 hi1 e2 (by omega)
    have i4 := free_reg_st_insOnly h4
    have e4 : ((s4.emit (.jmp (lab lo))).emit (.label (lab (lo + 1)))).label_id =
        (hi2 : Int) := by
      simp [i4.2.2.1, e3]
    obtain ⟨hi3, oe, e6, b6, b6', x6⟩ := hf _ _ _ h6 hi2 e4 (by omega)
    have i7 := free_reg_st_insOnly h7
    have x0 : Seg s ((s.set_label_id ((lo + 1 : Nat) : Int)).set_label_id
        ((lo + 1 + 1 : Nat) : Int)) [] (lo + 1 + 1) (lo + 1 + 1) (lo + 1 + 1) (lo + 1 + 1) :=
      Seg.seg_nolabel (by simp) (fun _ hm => by simp at hm) (by simp) _ _ _ _
    have y1 : Seg s s1 ([] ++ oc) (lo + 1 + 1) hi1 (lo + 1 + 1) hi1 := x0.seg_comp x1 (by omega)
    have y2 : Seg s s2 ([] ++ oc ++ [cmp]) (lo + 1 + 1) hi1 (lo + 1 + 1) hi1 :=
      y1.seg_comp (Seg.seg_of_insOnly i2 hi1 hi1 hi1 hi1) (by omega)
    have y2b : Seg s (s2.emit (.jz (lab (lo + 1)))) ([] ++ oc ++ [cmp] ++ [.jz (lab (lo + 1))])
        (lo + 1 + 1) hi1 (lo + 1 + 1) hi1 :=
      y2.seg_comp (Seg.seg_emit s2 _ (fun _ hx => by cases hx) hi1 hi1 hi1 hi1) (by omega)
    have y3 : Seg s s3 ([] ++ oc ++ [cmp] ++ [.jz (lab (lo + 1))] ++ ot) (lo + 1 + 1) hi2
        (lo + 1 + 1) hi2 := y2b.seg_comp x3 (by omega)
    have y4 : Seg s s4 ([] ++ oc ++ [cmp] ++ [.jz (lab (lo + 1))] ++ ot ++ []) (lo + 1 + 1) hi2
        (lo + 1 + 1) hi2 :=
      y3.seg_comp (Seg.seg_of_insOnly i4 hi2 hi2 hi2 hi2) (by omega)
    have y4b : Seg s (s4.emit (.jmp (lab lo)))
        ([] ++ oc ++ [cmp] ++ [.jz (lab (lo + 1))] ++ ot ++ [] ++ [.jmp (lab lo)]) (lo + 1 + 1) hi2
        (lo + 1 + 1) hi2 :=
      y4.seg_comp (Seg.seg_emit s4 _ (fun _ hx => by cases hx) hi2 hi2 hi2 hi2) (by omega)
    have y4c : Seg s ((s4.emit (.jmp (lab lo))).emit (.label (lab (lo + 1))))
        ([] ++ oc ++ [cmp] ++ [.jz (lab (lo + 1))] ++ ot ++ [] ++ [.jmp (lab lo)] ++
          [.label (lab (lo + 1))]) (lo + 1) hi2 (lo + 1 + 1) hi2 :=
      y4b.seg_comp (Seg.seg_label _ (lo + 1) hi2 hi2) (by omega)
    have y6 : Seg s s6
        ([] ++ oc ++ [cmp] ++ [.jz (lab (lo + 1))] ++ ot ++ [] ++ [.jmp (lab lo)] ++
          [.label (lab (lo + 1))] ++ oe) (lo + 1) hi3 (lo + 1 + 1) hi3 :=
      y4c.seg_comp x6 (by omega)
    have y7 : Seg s s5
        ([] ++ oc ++ [cmp] ++ [.jz (lab (lo + 1))] ++ ot ++ [] ++ [.jmp (lab lo)] ++
          [.label (lab (lo + 1))] ++ oe ++ []) (lo + 1) hi3 (lo + 1 + 1) hi3 :=
      y6.seg_comp (Seg.seg_of_insOnly i7 hi3 hi3 hi3 hi3) (by omega)
    have y8 : Seg s (s5.emit (.label (lab lo)))
        ([] ++ oc ++ [cmp] ++ [.jz (lab (lo + 1))] ++ ot ++ [] ++ [.jmp (lab lo)] ++
          [.label (lab (lo + 1))] ++ oe ++ [] ++ [.label (lab lo)]) lo hi3 lo hi3 :=
      y7.seg_comp (Seg.seg_label s5 lo hi3 hi3) (by omega)
    exact ⟨hi3, _, by simp [i7.2.2.1, e6], by omega, by omega, y8⟩
theorem DefsIn.defs_cast {new new' : List Asm} {a b : Nat} (h : DefsIn new a b)
    (e : new = new') : DefsIn new' a b := by
  subst e; exact h

theorem DefsIn.defs_ins {inss : List Asm} (h : ∀ a ∈ inss, is_ins a = true) (a b : Nat) :
    DefsIn inss a b :=
  DefsIn.defs_nolabel (no_label_of_ins h) a b

/-- The lines of a loop that are wrapped around the lines `X` of its parts:
the label `lab lo` before them, a jump and the label `lab (lo + 1)` after
them. -/
theorem DefsIn.defs_loop {X : List Asm} {lo hi : Nat} (x : Asm) (hx : ∀ l, x ≠ .label l)
    (h : DefsIn X (lo + 1 + 1) hi) (hh : lo + 1 + 1 ≤ hi) :
    DefsIn ([.label (lab lo)] ++ X ++ [x, .label (lab (lo + 1))]) lo hi := by
  have d0 : DefsIn [x] (lo + 1 + 1) hi :=
    DefsIn.defs_nolabel (fun l hm => by
      simp only [List.mem_singleton] at hm
      exact hx l hm.symm) _ _
  have d1 : DefsIn (X ++ [x]) (lo + 1 + 1) hi :=
    h.defs_append_mem d0 (fun l _ hm => by
      simp only [List.mem_singleton] at hm
      exact hx l hm.symm)
  have d2 : DefsIn (X ++ [x] ++ [.label (lab (lo + 1))]) (lo + 1) hi :=
    d1.defs_append (DefsIn.defs_single (Nat.le_refl (lo + 1)) (Nat.lt_succ_self _))
      (by omega) (by omega) (by omega) (by omega) (by omega)
  have d3 : DefsIn ([.label (lab lo)] ++ (X ++ [x] ++ [.label (lab (lo + 1))])) lo hi :=
    (DefsIn.defs_single (Nat.le_refl lo) (Nat.lt_succ_self _)).defs_append d2
      (by omega) (by omega) (by omega) (by omega) (by omega)
  exact d3.defs_cast (by simp)

theorem gen_while_fresh {left mid right : GNode} {iv : Int} {sym : CStr} {cond stat : Gen}
    (hc : GenFresh cond left) (hs : GenFresh stat right) {s s' : GState} {r : Int}
    (h : gen_while cond stat s = .ok (r, s')) :
    FreshPost (.mk .A_WHILE left mid right .null iv sym) s s' := by
  intro lo hlo hb
  rw [label_bound_node] at hb ⊢
  simp only at hb ⊢
  obtain ⟨q1, q2⟩ := new_label_lab s lo hlo (by omega)
  obtain ⟨p1, p2⟩ := new_label_lab (s.set_label_id ((lo + 1 : Nat) : Int)) (lo + 1)
    (by simp) (by omega)
  simp only [GState.label_id_set_label_id] at p1 p2
  simp only [gen_while, new_label_st, bind_eq_ok, pure_eq_ok, Prod.exists, Prod.mk.injEq,
    q1, q2, p1, p2, GState.label_id_set_label_id] at h
  obtain ⟨j0, hj0, l0, hl0, reg, s1, h1, s2, h2, j1, hj1, l1, hl1, r3, s3, h3, s4, h4,
    j2, hj2, l2, hl2, j3, hj3, l3, hl3, j4, s5, h5, _, rfl⟩ := h
  have f0 : Filled (⟨some (lab lo), some (lab (lo + 1))⟩ :: s.iterjumploc)
      (⟨some (lab lo), some (lab (lo + 1))⟩ :: s.iterjumploc) := Filled.lrefl _
  have e0 : l0 = lab lo :=
    @read_continue _ _ _ (iter_enter _ _ _) _ _ _ (by simpa [iter_enter] using f0) rfl hj0 hl0
  subst e0
  obtain ⟨hi1, oc, e1, b1, b1', x1⟩ := hc _ _ _ h1 (lo + 1 + 1) (by simp [iter_enter])
    (by omega)
  obtain ⟨cmp, hcmp, i2⟩ := cmp_zero_insOnly h2
  have f1 : Filled (⟨some (lab lo), some (lab (lo + 1))⟩ :: s.iterjumploc) s1.iterjumploc := by
    have := x1.2.2.2.2
    simpa [iter_enter] using this
  have f2 : Filled (⟨some (lab lo), some (lab (lo + 1))⟩ :: s.iterjumploc) s2.iterjumploc := by
    rw [i2.2.1]; exact f1
  have e1b : l1 = lab (lo + 1) := read_break f2 rfl hj1 hl1
  subst e1b
  obtain ⟨hi2, ob, e3, b3, b3', x3⟩ := hs _ _ _ h3 hi1 (by simp [i2.2.2.1, e1]) (by omega)
  have i4 := free_reg_st_insOnly h4
  have f3 : Filled (⟨some (lab lo), some (lab (lo + 1))⟩ :: s.iterjumploc) s3.iterjumploc := by
    have := x3.2.2.2.2
    simp only [GState.iterjumploc_emit] at this
    exact f2.ltrans this
  have f4 : Filled (⟨some (lab lo), some (lab (lo + 1))⟩ :: s.iterjumploc) s4.iterjumploc := by
    rw [i4.2.1]; exact f3
  have e2 : l2 = lab lo := read_continue f4 rfl hj2 hl2
  subst e2
  have e3b : l3 = lab (lo + 1) :=
    @read_break _ _ _ (s4.emit _) _ _ _ (by simpa using f4) rfl hj3 hl3
  subst e3b
  obtain ⟨z1, z2, z3, z4⟩ := iter_exit_inv h5
  obtain ⟨j', e4, _, _⟩ := f4.cons_inv
  simp only [GState.iterjumploc_emit, e4, List.cons.injEq] at z1
  have ho : s5.out = s.out ++ ([.label (lab lo)] ++ (oc ++ [cmp] ++ [.jz (lab (lo + 1))] ++ ob)
      ++ [.jmp (lab lo), .label (lab (lo + 1))]) := by
    rw [z4]
    simp only [GState.out_emit, i4.1, x3.1, i2.1, x1.1, iter_enter,
      GState.out_set_iterjumploc, GState.out_set_label_id]
    simp
  have d1 : DefsIn (oc ++ [cmp]) (lo + 1 + 1) hi1 :=
    x1.2.1.defs_append_mem (DefsIn.defs_ins i2.2.2.2 _ _)
      (fun l _ => no_label_of_ins i2.2.2.2 l)
  have d2 : DefsIn (oc ++ [cmp] ++ [.jz (lab (lo + 1))]) (lo + 1 + 1) hi1 :=
    d1.defs_append_mem (DefsIn.defs_nolabel (fun l hm => by simp at hm) _ _)
      (fun l _ hm => by simp at hm)
  have d3 : DefsIn (oc ++ [cmp] ++ [.jz (lab (lo + 1))] ++ ob) (lo + 1 + 1) hi2 :=
    d2.defs_append x3.2.1 (by omega) (by omega) (by omega) (by omega) (by omega)
  refine ⟨hi2, _, by rw [z3]; simp [i4.2.2.1, e3], by omega, by omega, ho,
    DefsIn.defs_loop _ (fun _ hx => by cases hx) d3 (by omega), ?_, ?_, ?_⟩ <;> rw [← z1.2]
  · exact SlotFresh.slot_same _ _ _ _
  · exact SlotFresh.slot_same _ _ _ _
  · exact Filled.lrefl _
theorem gen_dowhile_fresh {left mid right : GNode} {iv : Int} {sym : CStr} {stat cond : Gen}
    (hs : GenFresh stat left) (hc : GenFresh cond right) {s s' : GState} {r : Int}
    (h : gen_dowhile stat cond s = .ok (r, s')) :
    FreshPost (.mk .A_DOWHILE left mid right .null iv sym) s s' := by
  intro lo hlo hb
  rw [label_bound_node] at hb ⊢
  simp only at hb ⊢
  obtain ⟨q1, q2⟩ := new_label_lab s lo hlo (by omega)
  simp only [gen_dowhile, new_label_st, bind_eq_ok, pure_eq_ok, Prod.exists,
    Prod.mk.injEq, q1, q2] at h
  obtain ⟨j0, hj0, l0, hl0, r1, s1, h1, s2, h2, reg, s3, h3, s4, h4, j1, hj1, l1, hl1,
    j, s5, h5, _, rfl⟩ := h
  have e0 : l0 = lab lo :=
    @read_continue (some (lab lo)) none s.iterjumploc (iter_enter _ _ _) _ _ _
      (by simpa [iter_enter] using Filled.lrefl _) rfl hj0 hl0
  subst e0
  obtain ⟨hi1, ob, e1, b1, b1', x1⟩ := hs _ _ _ h1 (lo + 1) (by simp [iter_enter]) (by omega)
  have i2 := free_reg_st_insOnly h2
  obtain ⟨hi2, oc, e3, b3, b3', x3⟩ := hc _ _ _ h3 hi1 (by rw [i2.2.2.1, e1]) (by omega)
  obtain ⟨cmp, hcmp, i4⟩ := cmp_zero_insOnly h4
  have y2 : Seg _ s2 (ob ++ []) (lo + 1) hi1 (lo + 1) hi1 :=
    x1.seg_comp (Seg.seg_of_insOnly i2 hi1 hi1 hi1 hi1) (by omega)
  have y3 : Seg _ s3 (ob ++ [] ++ oc) (lo + 1) hi2 (lo + 1) hi2 := y2.seg_comp x3 (by omega)
  have y4 : Seg _ s4 (ob ++ [] ++ oc ++ [cmp]) (lo + 1) hi2 (lo + 1) hi2 :=
    y3.seg_comp (Seg.seg_of_insOnly i4 hi2 hi2 hi2 hi2) (by omega)
  have f4 : Filled (⟨some (lab lo), none⟩ :: s.iterjumploc) s4.iterjumploc := by
    have := y4.2.2.2.2
    simpa [iter_enter] using this
  have e1b : l1 = lab lo := read_continue f4 rfl hj1 hl1
  subst e1b
  have y5 : Seg _ (s4.emit (.jnz (lab lo))) (ob ++ [] ++ oc ++ [cmp] ++ [.jnz (lab lo)])
      (lo + 1) hi2 (lo + 1) hi2 :=
    y4.seg_comp (Seg.seg_emit s4 _ (fun _ hx => by cases hx) hi2 hi2 hi2 hi2) (by omega)
  obtain ⟨z1, z2, z3, z4⟩ := iter_exit_inv h5
  obtain ⟨j', e4, _, _⟩ := f4.cons_inv
  simp only [GState.iterjumploc_emit, e4, List.cons.injEq] at z1
  obtain ⟨rfl, z1⟩ := z1
  have hjb : top_break (s4.emit (.jnz (lab lo))).iterjumploc = j'.lbreak := by
    simp only [GState.iterjumploc_emit]
    exact top_break_of_cons e4
  have sf := y5.2.2.1
  rw [hjb] at sf
  simp only [iter_enter, GState.iterjumploc_emit, GState.iterjumploc_set_iterjumploc,
    top_break] at sf
  have ho5 : s5.out = s.out ++ ([.label (lab lo)] ++
      (ob ++ [] ++ oc ++ [cmp] ++ [.jnz (lab lo)])) := by
    rw [z4, y5.1]
    simp [iter_enter]
  have d1 : DefsIn ([.label (lab lo)] ++ (ob ++ [] ++ oc ++ [cmp] ++ [.jnz (lab lo)])) lo hi2 :=
    (DefsIn.defs_single (Nat.le_refl lo) (Nat.lt_succ_self _)).defs_append y5.2.1
      (by omega) (by omega) (by omega) (by omega) (by omega)
  have hl : s5.label_id = (hi2 : Int) := by
    rw [z3]; simp [i4.2.2.1, e3]
  cases hb2 : j'.lbreak with
  | none =>
    simp only
    refine ⟨hi2, _, hl, by omega, by omega, ho5, d1, ?_, ?_, ?_⟩ <;> rw [← z1]
    · exact SlotFresh.slot_same _ _ _ _
    · exact SlotFresh.slot_same _ _ _ _
    · exact Filled.lrefl _
  | some lend =>
    simp only
    rcases sf lend hb2 with hx | ⟨⟨k, k1, k2, rfl⟩, hn⟩
    · cases hx
    · have d2 : DefsIn ([.label (lab lo)] ++ (ob ++ [] ++ oc ++ [cmp] ++ [.jnz (lab lo)]) ++
          [.label (lab k)]) lo hi2 := by
        refine d1.defs_append_mem (DefsIn.defs_single (by omega) k2) ?_
        intro l hm hm2
        simp only [List.mem_singleton, Asm.label.injEq] at hm2
        subst hm2
        rcases List.mem_append.1 hm with hm | hm
        · simp only [List.mem_singleton, Asm.label.injEq] at hm
          have := lab_inj hm
          omega
        · exact hn hm
      refine ⟨hi2, _, by simpa using hl, by omega, by omega,
        by simp only [GState.out_emit, ho5, List.append_assoc], d2, ?_, ?_, ?_⟩ <;>
        simp only [GState.iterjumploc_emit] <;> rw [← z1]
      · exact SlotFresh.slot_same _ _ _ _
      · exact SlotFresh.slot_same _ _ _ _
      · exact Filled.lrefl _
/-- The lines of a loop around the lines `X` of its parts, which were written
under the `iterjumploc` the loop was entered with. -/
theorem Seg.seg_loop {s s0 sE s' : GState} {X : List Asm} {lo hi : Nat} (x : Asm)
    (hx : ∀ l, x ≠ .label l) (y : Seg s0 sE X (lo + 1 + 1) hi (lo + 1 + 1) hi)
    (h0 : s0.out = s.out ++ [.label (lab lo)]) (g0 : s0.iterjumploc = s.iterjumploc)
    (h1 : s'.out = sE.out ++ [x, .label (lab (lo + 1))])
    (g1 : s'.iterjumploc = sE.iterjumploc) (hh : lo + 1 + 1 ≤ hi) :
    Seg s s' ([.label (lab lo)] ++ X ++ [x, .label (lab (lo + 1))]) lo hi lo hi := by
  have key : ∀ a b : Option String, SlotFresh a b (lo + 1 + 1) hi X →
      SlotFresh a b lo hi ([.label (lab lo)] ++ X ++ [x, .label (lab (lo + 1))]) := by
    intro a b hs z hz
    rcases hs z hz with ha | ⟨⟨k, k1, k2, rfl⟩, hn⟩
    · exact Or.inl ha
    · refine Or.inr ⟨⟨k, by omega, k2, rfl⟩, ?_⟩
      intro hm
      simp only [List.mem_append, List.mem_singleton, Asm.label.injEq, List.mem_cons,
        List.mem_nil_iff, or_false] at hm
      rcases hm with (hm | hm) | hm | hm
      · have := lab_inj hm
        omega
      · exact hn hm
      · exact hx _ hm.symm
      · have := lab_inj hm
        omega
  refine ⟨?_, DefsIn.defs_loop x hx y.2.1 hh, ?_, ?_, ?_⟩
  · rw [h1, y.1, h0]
    simp
  · rw [g1, ← g0]
    exact key _ _ y.2.2.1
  · rw [g1, ← g0]
    exact key _ _ y.2.2.2.1
  · rw [g1, ← g0]
    exact y.2.2.2.2

theorem for_cond_fresh {left : GNode} {cond_expr : Gen} (hc : GenFresh cond_expr left)
    {lend : String} {s0 sA : GState}
    (h : (if decide (left ≠ .null) = true then do
        let (reg, s) ← cond_expr s0
        let s ← cmp_zero reg s
        pure (s.emit (.je lend))
      else pure s0 : Except Failure GState) = .ok sA)
    {m : Nat} (hm : s0.label_id = (m : Int)) (hb : m + label_bound left < 2 ^ 31) :
    ∃ (hi : Nat) (oc : List Asm), sA.label_id = (hi : Int) ∧ m ≤ hi ∧
      hi ≤ m + label_bound left ∧ Seg s0 sA oc m hi m hi := by
  by_cases hl : left = .null
  · subst hl
    simp only [ne_eq, not_true_eq_false, decide_False, Bool.false_eq_true, if_false,
      pure_eq_ok] at h
    subst h
    exact ⟨m, [], hm, Nat.le_refl _, by omega, Seg.snil _ _ _ _ _⟩
  · simp only [ne_eq, hl, not_false_eq_true, decide_True, if_true, bind_eq_ok, pure_eq_ok,
      Prod.exists] at h
    obtain ⟨reg, s1, h1, s2, h2, rfl⟩ := h
    obtain ⟨hi1, oc, e1, b1, b1', x1⟩ := hc _ _ _ h1 m hm hb
    obtain ⟨cmp, hcmp, i2⟩ := cmp_zero_insOnly h2
    have y2 : Seg s0 s2 (oc ++ [cmp]) m hi1 m hi1 :=
      x1.seg_comp (Seg.seg_of_insOnly i2 hi1 hi1 hi1 hi1) (by omega)
    have y3 : Seg s0 (s2.emit (.je lend)) (oc ++ [cmp] ++ [.je lend]) m hi1 m hi1 :=
      y2.seg_comp (Seg.seg_emit s2 _ (fun _ hx => by cases hx) hi1 hi1 hi1 hi1) (by omega)
    exact ⟨hi1, _, by simp [i2.2.2.1, e1], b1, b1', y3⟩

theorem Seg.seg_same {s s' : GState} {new : List Asm} {a b : Nat}
    (ho : s'.out = s.out ++ new) (hd : DefsIn new a b) (hs : s'.iterjumploc = s.iterjumploc)
    (l h : Nat) : Seg s s' new a b l h := by
  refine ⟨ho, hd, ?_, ?_, ?_⟩ <;> rw [hs]
  · exact SlotFresh.slot_same _ _ _ _
  · exact SlotFresh.slot_same _ _ _ _
  · exact Filled.lrefl _

theorem for_body_fresh {right : GNode} {stat : Gen} (hs : GenFresh stat right)
    {lc : Option String} {lend : String} {sA s1 s2 sD : GState} {r : Int} {j : JumpLoc}
    (h1 : stat (iter_enter lc (some lend) sA) = .ok (r, s1))
    (h2 : free_reg_st r s1 = .ok s2) (h3 : iter_exit s2 = .ok (j, sD))
    {m : Nat} (hm : sA.label_id = (m : Int)) (hb : m + label_bound right < 2 ^ 31) :
    ∃ (hi : Nat) (ob : List Asm), sD.label_id = (hi : Int) ∧ m ≤ hi ∧
      hi ≤ m + label_bound right ∧ sD.out = sA.out ++ ob ∧ DefsIn ob m hi ∧
      sD.iterjumploc = sA.iterjumploc ∧ j.lbreak = some lend ∧
      SlotFresh lc j.lcontinue m hi ob := by
  obtain ⟨hi, ob, e1, b1, b1', x1⟩ := hs _ _ _ h1 m (by simpa [iter_enter] using hm) hb
  have i2 := free_reg_st_insOnly h2
  obtain ⟨z1, _, z3, z4⟩ := iter_exit_inv h3
  have f1 : Filled (⟨lc, some lend⟩ :: sA.iterjumploc) s1.iterjumploc := by
    have := x1.2.2.2.2
    simpa [iter_enter] using this
  obtain ⟨j', e, g1, g2⟩ := f1.cons_inv
  rw [i2.2.1, e] at z1
  injection z1 with z1 z1'
  subst z1
  have sc := x1.2.2.2.1
  simp only [iter_enter, GState.iterjumploc_set_iterjumploc, top_continue, e] at sc
  refine ⟨hi, ob, by rw [z3, i2.2.2.1, e1], b1, b1', ?_, x1.2.1, z1'.symm, g1 lend rfl, sc⟩
  rw [z4, i2.1, x1.1]
  simp [iter_enter]

theorem for_post_fresh {mid : GNode} {post_expr : Gen} (hp : GenFresh post_expr mid)
    {lcond : String} {jc : Option String} {sA sD sE : GState} {ob : List Asm} {m m2 : Nat}
    (h : (if decide (mid ≠ .null) = true then do
        let s := match jc with
          | some l => sD.emit (.label l)
          | none => sD
        let (r, s) ← post_expr s
        free_reg_st r s
      else pure sD : Except Failure GState) = .ok sE)
    (hm : sD.label_id = (m2 : Int)) (hb : m2 + label_bound mid < 2 ^ 31) (hle : m ≤ m2)
    (ho : sD.out = sA.out ++ ob) (hd : DefsIn ob m m2) (hst : sD.iterjumploc = sA.iterjumploc)
    (sf : SlotFresh (if decide (mid ≠ .null) = true then none else some lcond) jc m m2 ob) :
    ∃ (hi : Nat) (Y : List Asm), sE.label_id = (hi : Int) ∧ m2 ≤ hi ∧
      hi ≤ m2 + label_bound mid ∧ Seg sA sE Y m hi m hi := by
  by_cases hn : mid = .null
  · subst hn
    simp only [ne_eq, not_true_eq_false, decide_False, Bool.false_eq_true, if_false,
      pure_eq_ok] at h
    subst h
    exact ⟨m2, ob, hm, Nat.le_refl _, by omega, Seg.seg_same ho hd hst _ _⟩
  · simp only [ne_eq, hn, not_false_eq_true, decide_True, if_true, bind_eq_ok,
      Prod.exists] at h sf
    obtain ⟨r, s1, h1, h2⟩ := h
    have i2 := free_reg_st_insOnly h2
    cases jc with
    | none =>
      simp only at h1
      obtain ⟨hi, op, e1, b1, b1', x1⟩ := hp _ _ _ h1 m2 hm hb
      have y1 : Seg sA s1 (ob ++ op) m hi m hi :=
        (Seg.seg_same ho hd hst m m2).seg_comp x1 (by omega)
      have y2 : Seg sA sE (ob ++ op ++ []) m hi m hi :=
        y1.seg_comp (Seg.seg_of_insOnly i2 hi hi hi hi) (by omega)
      exact ⟨hi, _, by rw [i2.2.2.1, e1], b1, b1', y2⟩
    | some l =>
      simp only at h1
      rcases sf l rfl with hx | ⟨⟨k, k1, k2, rfl⟩, hnm⟩
      · cases hx
      · obtain ⟨hi, op, e1, b1, b1', x1⟩ := hp _ _ _ h1 m2 (by simpa using hm) hb
        have d1 : DefsIn (ob ++ [.label (lab k)]) m m2 := by
          refine hd.defs_append_mem (DefsIn.defs_single k1 k2) ?_
          intro z hz hz2
          simp only [List.mem_singleton, Asm.label.injEq] at hz2
          subst hz2
          exact hnm hz
        have y0 : Seg sA (sD.emit (.label (lab k))) (ob ++ [.label (lab k)]) m m2 m m2 :=
          Seg.seg_same (by simp [ho]) d1 (by simpa using hst) _ _
        have y1 : Seg sA s1 (ob ++ [.label (lab k)] ++ op) m hi m hi :=
          y0.seg_comp x1 (by omega)
        have y2 : Seg sA sE (ob ++ [.label (lab k)] ++ op ++ []) m hi m hi :=
          y1.seg_comp (Seg.seg_of_insOnly i2 hi hi hi hi) (by omega)
        exact ⟨hi, _, by rw [i2.2.2.1, e1], b1, b1', y2⟩

theorem gen_for_fresh {left mid right : GNode} {iv : Int} {sym : CStr}
    {cond_expr stat post_expr : Gen} (hc : GenFresh cond_expr left)
    (hs : GenFresh stat right) (hp : GenFresh post_expr mid) {s s' : GState} {r : Int}
    (h : gen_for (decide (left ≠ .null)) (decide (mid ≠ .null)) cond_expr stat post_expr s =
      .ok (r, s')) :
    FreshPost (.mk .A_FOR left mid right .null iv sym) s s' := by
  intro lo hlo hb
  rw [label_bound_node] at hb ⊢
  simp only at hb ⊢
  obtain ⟨q1, q2⟩ := new_label_lab s lo hlo (by omega)
  obtain ⟨p1, p2⟩ := new_label_lab (s.set_label_id ((lo + 1 : Nat) : Int)) (lo + 1)
    (by simp) (by omega)
  simp only [GState.label_id_set_label_id] at p1 p2
  simp only [gen_for, new_label_st, bind_eq_ok, Prod.exists, GState.label_id_set_label_id,
    pure_eq_ok, Prod.mk.injEq, q1, q2, p1, p2] at h
  obtain ⟨sA, hA, r1, s1, h1, s2, h2, j, sD, h3, sE, hE, lb, hlb, _, rfl⟩ := h
  obtain ⟨hi1, oc, eA, bA, bA', xA⟩ := for_cond_fresh hc hA
    (show (((s.set_label_id ((lo + 1 : Nat) : Int)).set_label_id
      ((lo + 1 + 1 : Nat) : Int)).emit (.label (lab lo))).label_id = ((lo + 1 + 1 : Nat) : Int)
      by simp) (by omega)
  obtain ⟨hi2, ob, eD, bD, bD', oD, dD, stD, jb, sc⟩ := for_body_fresh hs h1 h2 h3 eA (by omega)
  obtain ⟨hi3, Y, eE, bE, bE', xE⟩ := for_post_fresh hp hE eD (by omega) bD oD dD stD sc
  have elb : lb = lab (lo + 1) := by
    have := str_arg_inv hlb
    rw [jb] at this
    exact (Option.some.inj this).symm
  subst elb
  have y : Seg _ sE (oc ++ Y) (lo + 1 + 1) hi3 (lo + 1 + 1) hi3 := xA.seg_comp xE (by omega)
  exact ⟨hi3, _, by simpa using eE, by omega, by omega,
    Seg.seg_loop (.jmp (lab lo)) (fun _ hx => by cases hx) y (by simp) (by simp) (by simp)
      (by simp) (by omega)⟩
theorem label_bound_next (op : Op) (left mid right next : GNode) (iv : Int) (sym : CStr) :
    label_bound (.mk op left mid right next iv sym) =
      label_bound (.mk op left mid right .null iv sym) + label_bound next := by
  simp [label_bound]

theorem label_bound_expr {op : Op} (hop : is_stmt op = false) (left mid right : GNode)
    (iv : Int) (sym : CStr) :
    label_bound (.mk op left mid right .null iv sym) =
      label_bound left + label_bound mid + label_bound right := by
  cases op <;> simp only [is_stmt, Bool.true_eq_false] at hop <;> simp [label_bound]

theorem no_funcdef_mk {op : Op} {left mid right next : GNode} {iv : Int} {sym : CStr}
    (h : no_funcdef (.mk op left mid right next iv sym) = true) :
    op ≠ .A_FUNCDEF ∧ no_funcdef left = true ∧ no_funcdef mid = true ∧
      no_funcdef right = true ∧ no_funcdef next = true := by
  simpa [no_funcdef, and_assoc] using h

theorem FreshPost.fresh_null (s : GState) : FreshPost .null s s := by
  intro lo hlo _
  exact ⟨lo, [], hlo, Nat.le_refl _, by omega, Seg.snil _ _ _ _ _⟩

theorem operand_fresh {n : GNode} {g : Gen} (hg : GenFresh g n) {s s' : GState} {r : Int}
    (h : (if decide (n ≠ .null) = true then g s else pure (-1, s) :
      Except Failure (Int × GState)) = .ok (r, s')) : FreshPost n s s' := by
  by_cases hn : n = .null
  · subst hn
    simp only [ne_eq, not_true_eq_false, decide_False, Bool.false_eq_true, if_false,
      pure_eq_ok, Prod.mk.injEq] at h
    obtain ⟨_, rfl⟩ := h
    exact FreshPost.fresh_null s
  · simp only [ne_eq, hn, not_false_eq_true, decide_True, if_true] at h
    exact hg _ _ _ h

theorem astgen_expr_fresh {findsym : CStr → Bool} {op : Op} (hop : is_stmt op = false)
    {left mid right : GNode} {iv : Int} {sym : CStr} {hn : Bool} {lg : Gen} {rg : Int → Gen}
    (hl : GenFresh lg left) (hr : ∀ l, GenFresh (rg l) right) {storreg : Int}
    {s s' : GState} {reg : Int}
    (h : astgen_expr findsym op iv sym (decide (left ≠ .null)) (decide (right ≠ .null)) hn
      lg rg storreg s = .ok (reg, s')) :
    FreshPost (.mk op left mid right .null iv sym) s s' := by
  simp only [astgen_expr, bind_eq_ok, pure_eq_ok, Prod.exists, Prod.mk.injEq] at h
  obtain ⟨lreg, sa, h1, rreg, sb, h2, reg1, sc, h3, sd, h4, _, rfl⟩ := h
  intro lo hlo hb
  rw [label_bound_expr hop] at hb ⊢
  obtain ⟨hi1, ol, e1, b1, b1', x1⟩ := operand_fresh hl h1 lo hlo (by omega)
  obtain ⟨hi2, or_, e2, b2, b2', x2⟩ := operand_fresh (hr lreg) h2 hi1 e1 (by omega)
  obtain ⟨inss, i3⟩ := astgen_switch_insOnly h3
  have i4 : InsOnly sc sd [] := by
    cases hn
    · simp only [Bool.false_eq_true, if_false, pure_eq_ok] at h4
      subst h4
      exact InsOnly.irefl _
    · simp only [if_true] at h4
      exact free_reg_st_insOnly h4
  have y2 : Seg s sb (ol ++ or_) lo hi2 lo hi2 := x1.seg_comp x2 (by omega)
  have y3 : Seg s sc (ol ++ or_ ++ inss) lo hi2 lo hi2 :=
    y2.seg_comp (Seg.seg_of_insOnly i3 hi2 hi2 hi2 hi2) (by omega)
  have y4 : Seg s sd (ol ++ or_ ++ inss ++ []) lo hi2 lo hi2 :=
    y3.seg_comp (Seg.seg_of_insOnly i4 hi2 hi2 hi2 hi2) (by omega)
  exact ⟨hi2, _, by rw [i4.2.2.1, i3.2.2.1, e2], by omega, by omega, y4⟩

theorem turn_fresh {findsym : CStr → Bool} {op : Op} {left mid right next : GNode} {iv : Int}
    {sym : CStr} {storreg : Int} {s s1 s' : GState} {reg r : Int}
    (hn : GenFresh (astgen findsym next storreg) next)
    (h1 : FreshPost (.mk op left mid right .null iv sym) s s1)
    (h : (if next = .null then pure (reg, s1) else astgen findsym next storreg s1 :
      Except Failure (Int × GState)) = .ok (r, s')) :
    FreshPost (.mk op left mid right next iv sym) s s' := by
  have h2 : FreshPost next s1 s' := by
    by_cases hx : next = .null
    · subst hx
      simp only [if_true, pure_eq_ok, Prod.mk.injEq] at h
      obtain ⟨_, rfl⟩ := h
      exact FreshPost.fresh_null s1
    · rw [if_neg hx] at h
      exact hn _ _ _ h
  intro lo hlo hb
  rw [label_bound_next] at hb ⊢
  obtain ⟨hi1, n1, e1, b1, b1', x1⟩ := h1 lo hlo (by omega)
  obtain ⟨hi2, n2, e2, b2, b2', x2⟩ := h2 hi1 e1 (by omega)
  exact ⟨hi2, _, e2, by omega, by omega, x1.seg_comp x2 (by omega)⟩

/-- The labels that `astgen` defines while it generates a chain without a
function definition are the ones `new_label` returns during the call, each
defined once, and a label it has put into a label variable of the loop around
the chain is not defined by the lines of the chain. -/
theorem astgen_fresh (findsym : CStr → Bool) :
    ∀ n, no_funcdef n = true → ∀ storreg, GenFresh (astgen findsym n storreg) n := by
  intro n
  induction n with
  | null =>
    intro _ storreg s r s' h
    rw [astgen_null] at h
    simp only [Except.ok.injEq, Prod.mk.injEq] at h
    obtain ⟨_, rfl⟩ := h
    exact FreshPost.fresh_null s
  | mk op left mid right next iv sym ihl ihm ihr ihn =>
    intro hnf storreg s r s' h
    obtain ⟨hf, nl, nm, nr, nn⟩ := no_funcdef_mk hnf
    have ihl := ihl nl
    have ihm := ihm nm
    have ihr := ihr nr
    have ihn := ihn nn
    by_cases hop : is_stmt op = true
    · cases op <;> simp only [is_stmt, Bool.false_eq_true] at hop <;>
        rw [astgen] at h <;> simp only [bind_eq_ok, Prod.exists] at h <;>
        obtain ⟨reg, s1, h1, h2⟩ := h
      · exact turn_fresh (ihn storreg) (gen_if_fresh (ihl _) (ihm _) (ihr _) h1) h2
      · exact turn_fresh (ihn storreg) (gen_while_fresh (ihl _) (ihr _) h1) h2
      · exact turn_fresh (ihn storreg) (gen_dowhile_fresh (ihl _) (ihr _) h1) h2
      · exact turn_fresh (ihn storreg) (gen_for_fresh (ihl _) (ihr _) (ihm _) h1) h2
      · exact turn_fresh (ihn storreg) (gen_break_fresh h1) h2
      · exact turn_fresh (ihn storreg) (gen_continue_fresh h1) h2
      · exact absurd rfl hf
    · have hop' : is_stmt op = false := by
        cases hb : is_stmt op
        · rfl
        · exact absurd hb hop
      rw [astgen_mk_expr _ _ _ _ _ _ _ _ _ _ (fun hx => by subst hx; simp [is_stmt] at hop')
        (fun hx => by subst hx; simp [is_stmt] at hop')
        (fun hx => by subst hx; simp [is_stmt] at hop')
        (fun hx => by subst hx; simp [is_stmt] at hop')
        (fun hx => by subst hx; simp [is_stmt] at hop')
        (fun hx => by subst hx; simp [is_stmt] at hop')
        (fun hx => by subst hx; simp [is_stmt] at hop')] at h
      simp only [bind_eq_ok, Prod.exists] at h
      obtain ⟨reg, s1, h1, h2⟩ := h
      exact turn_fresh (ihn storreg) (astgen_expr_fresh hop' (ihl _) (fun l => ihr l) h1) h2
/-! ## The target of a break -/

/-- A label that is defined by the last of some lines that define no label
twice is defined by no line before it. -/
theorem defs_last {pre : List Asm} {B : String} {lo hi : Nat}
    (d : DefsIn (pre ++ [.label B]) lo hi) :
    Asm.label B ∉ pre ∧ (pre ++ [Asm.label B]).count (.label B) = 1 ∧
      ∃ k, lo ≤ k ∧ k < hi ∧ B = lab k := by
  have h1 := d.2 B
  rw [List.count_append] at h1
  simp only [List.count_singleton_self] at h1
  have h0 : pre.count (Asm.label B) = 0 := by omega
  refine ⟨List.count_eq_zero.1 h0, ?_, d.1 B (by simp)⟩
  rw [List.count_append, h0]
  simp

theorem break_shape {s s' : GState} {new before ob after : List Asm} {B C : String}
    {body : GNode} {lo hi : Nat} (ho : s'.out = s.out ++ new)
    (hn : new = before ++ ob ++ after ++ [.label B]) (d : DefsIn new lo hi)
    (lw : Lowers B C body ob) (hbr : breaks_here body = true) :
    s'.out = s.out ++ (before ++ ob ++ after ++ [.label B]) ∧
      s'.out.getLast? = some (.label B) ∧
      Lowers B C body ob ∧ .jmp B ∈ ob ∧
      (∀ L, Asm.label L ∈ before ++ ob ++ after → L ≠ B) ∧
      (before ++ ob ++ after ++ [Asm.label B]).count (.label B) = 1 ∧
      ((∀ k, lo ≤ k → Asm.label (lab k) ∉ s.out) → s'.out.count (.label B) = 1) := by
  subst hn
  obtain ⟨g1, g2, k, k1, k2, hk⟩ := defs_last d
  refine ⟨ho, ?_, lw, lowers_break_mem lw hbr, ?_, g2, ?_⟩
  · rw [ho, ← List.append_assoc, List.getLast?_concat]
  · intro L hL hLB
    subst hLB
    exact g1 hL
  · intro hp
    rw [ho, List.count_append, g2, List.count_eq_zero.2 (by rw [hk]; exact hp k k1)]

/-- The loop `while (1) break;` in the function `L1`: its break target is the
second label `new_label` returns, `L1`, the text of the name the function
header has written as a label before; the output defines `L1` twice, once as
the function and once as the last line of the loop. -/
theorem label_defined_twice_counterexample :
    breaks_here (loop_body .A_WHILE (g_num 1) (g_node .A_BREAK .null .null .null)) = true ∧
    lines (astgen findsym_all while_with_break (-1) state_in_func_named_label) =
      [.ins ".text\n", .ins ".global L1\n", .label "L1",
        .label "L0", .ins "\tmov\t$1, %r8\n", .ins "\tcmp\t$0, %r8\n", .jz "L1", .jmp "L1",
        .jmp "L0", .label "L1"] ∧
    (lines (astgen findsym_all while_with_break (-1) state_in_func_named_label)).count
      (.label "L1") = 2 ∧
    lines (astgen findsym_all func_named_label (-1) GState.init) =
      [.ins ".text\n", .ins ".global L1\n", .label "L1",
        .label "L0", .ins "\tmov\t$1, %r8\n", .ins "\tcmp\t$0, %r8\n", .jz "L1", .jmp "L1",
        .jmp "L0", .label "L1", .ins "\tret\n"] ∧
    (lines (astgen findsym_all func_named_label (-1) GState.init)).count (.label "L1") = 2 :=
  ⟨rfl, rfl, by decide, rfl, by decide⟩

/-- C16, amended: a loop whose body holds a `break` that belongs to it writes,
as its last line, the definition of one label `B`; the body is lowered with `B`
as its break target, so that every `break` of the body that belongs to the
loop, before or after an inner loop, is the line `jmp B`, and such a line is
there. No line of the loop before the last one defines `B`: the label an inner
loop defines for its own breaks is another one, and `B` is defined once among
the lines of the loop. In the output as it stands when the loop has been
generated, the lines written before the loop followed by those of the loop,
`B` is defined once when no line written before the loop defines a label that
`new_label` has yet to return; the header of a function named like such a
label is a line that does. Lines written after the loop are not spoken of. The
loop holds no function definition and the label counter does not overflow. -/
theorem break_targeting (findsym : CStr → Bool) (op : Op) (left mid right : GNode) (iv : Int)
    (sym : CStr) (storreg : Int) (s s' : GState) (r : Int) (lo : Nat)
    (hop : op = .A_WHILE ∨ op = .A_DOWHILE ∨ op = .A_FOR)
    (hbr : breaks_here (loop_body op left right) = true)
    (hnf : no_funcdef (.mk op left mid right .null iv sym) = true)
    (hlo : s.label_id = (lo : Int))
    (hb : lo + label_bound (.mk op left mid right .null iv sym) < 2 ^ 31)
    (h : astgen findsym (.mk op left mid right .null iv sym) storreg s = .ok (r, s')) :
    ∃ B C before ob after,
      s'.out = s.out ++ (before ++ ob ++ after ++ [.label B]) ∧
      s'.out.getLast? = some (.label B) ∧
      Lowers B C (loop_body op left right) ob ∧ .jmp B ∈ ob ∧
      (∀ L, Asm.label L ∈ before ++ ob ++ after → L ≠ B) ∧
      (before ++ ob ++ after ++ [Asm.label B]).count (.label B) = 1 ∧
      ((∀ k, lo ≤ k → Asm.label (lab k) ∉ s.out) → s'.out.count (.label B) = 1) := by
  obtain ⟨new, B0, C0, ho, lw⟩ := astgen_lowers_some findsym _ storreg s s' r h
  obtain ⟨hi, new', _, _, _, x⟩ := astgen_fresh findsym _ hnf storreg s r s' h lo hlo hb
  have e : new' = new := List.append_cancel_left (x.1.symm.trans ho)
  subst e
  have d := x.2.1
  rcases hop with rfl | rfl | rfl
  · obtain ⟨lcond, lend, cmp, oc, ob, _, hn, _, l2⟩ := lowers_while_inv lw
    exact ⟨lend, lcond, [.label lcond] ++ oc ++ [cmp, .jz lend], ob, [.jmp lcond],
      break_shape ho (by rw [hn]; simp) d l2 hbr⟩
  · obtain ⟨lstat, lend, cmp, ob, oc, _, hn, l1, _⟩ := lowers_dowhile_inv lw
    have hbl : breaks_here left = true := hbr
    exact ⟨lend, lstat, [.label lstat], ob, oc ++ [cmp, .jnz lstat],
      break_shape ho (by rw [hn]; simp [hbl]) d l1 hbr⟩
  · obtain ⟨lcond, lend, lcont, cmp, oc, ob, op, _, _, hn, _, l2, _⟩ := lowers_for_inv lw
    exact ⟨lend, lcont,
      [.label lcond] ++ (if left ≠ .null then oc ++ [cmp, .je lend] else []), ob,
      (if mid ≠ .null ∧ continues_here right = true then [.label lcont] else []) ++ op ++
        [.jmp lcond], break_shape ho (by rw [hn]; simp) d l2 hbr⟩

theorem break_targeting_witness :
    (∃ B C before ob after,
      (gen_returned (astgen findsym_all while_nested_break (-1) GState.init)).2.out =
        GState.init.out ++ (before ++ ob ++ after ++ [.label B]) ∧
      (gen_returned (astgen findsym_all while_nested_break (-1) GState.init)).2.out.getLast? =
        some (.label B) ∧
      Lowers B C (loop_body .A_WHILE (g_num 1)
        (g_seq while_with_break (g_node .A_BREAK .null .null .null))) ob ∧ .jmp B ∈ ob ∧
      (∀ L, Asm.label L ∈ before ++ ob ++ after → L ≠ B) ∧
      (before ++ ob ++ after ++ [Asm.label B]).count (.label B) = 1 ∧
      ((∀ k, 0 ≤ k → Asm.label (lab k) ∉ GState.init.out) →
        (gen_returned (astgen findsym_all while_nested_break (-1)
          GState.init)).2.out.count (.label B) = 1)) ∧
    lines (astgen findsym_all while_nested_break (-1) GState.init) =
      [.label "L0", .ins "\tmov\t$1, %r8\n", .ins "\tcmp\t$0, %r8\n", .jz "L1",
        .label "L2", .ins "\tmov\t$1, %r8\n", .ins "\tcmp\t$0, %r8\n", .jz "L3", .jmp "L3",
        .jmp "L2", .label "L3", .jmp "L1", .jmp "L0", .label "L1"] ∧
    lines (astgen findsym_all dowhile_nested_break (-1) GState.init) =
      [.label "L0", .label "L1", .ins "\tmov\t$1, %r8\n", .ins "\tcmp\t$0, %r8\n", .jz "L2",
        .jmp "L2", .jmp "L1", .label "L2", .jmp "L3", .ins "\tmov\t$1, %r8\n",
        .ins "\tcmp\t$0, %r8\n", .jnz "L0", .label "L3"] :=
  ⟨break_targeting findsym_all .A_WHILE (g_num 1) .null
    (g_seq while_with_break (g_node .A_BREAK .null .null .null)) 0 none (-1) GState.init
    (gen_returned (astgen findsym_all while_nested_break (-1) GState.init)).2
    (gen_returned (astgen findsym_all while_nested_break (-1) GState.init)).1 0
    (Or.inl rfl) rfl rfl rfl (by decide) rfl, rfl, rfl⟩

/-- In `main() { while (1) break; } L1() { }` the break target `L1` of the loop
is defined once in the output up to the end of the loop, and again by the
header of the function that follows. -/
theorem label_defined_later_example :
    lines (astgen findsym_all func_label_after (-1) GState.init) =
      [.ins ".text\n", .ins ".global main\n", .label "main",
        .label "L0", .ins "\tmov\t$1, %r8\n", .ins "\tcmp\t$0, %r8\n", .jz "L1", .jmp "L1",
        .jmp "L0", .label "L1", .ins "\tret\n",
        .ins ".text\n", .ins ".global L1\n", .label "L1", .ins "\tret\n"] ∧
    (lines (astgen findsym_all func_label_after (-1) GState.init)).count (.label "L1") = 2 ∧
    ((lines (astgen findsym_all func_label_after (-1) GState.init)).take 10).count
      (.label "L1") = 1 :=
  ⟨rfl, by decide, by decide⟩
/-! ## The target of a continue -/

theorem count_twice (a : Asm) (A B C : List Asm) :
    2 ≤ ([a] ++ A ++ B ++ [a] ++ C).count a := by
  simp only [List.count_append, List.count_singleton_self]
  omega

theorem defs_count_one {new : List Asm} {lo hi : Nat} (d : DefsIn new lo hi) {l : String}
    (hm : Asm.label l ∈ new) : new.count (.label l) = 1 := by
  have h1 := d.2 l
  have h2 : 0 < new.count (Asm.label l) := List.count_pos_iff.2 hm
  omega

/-- C22, counterexample: the loop `for (;;2) continue;` in the function `L2`:
the target of its `continue` is the third label `new_label` returns, `L2`, the
text of the name the function header has written as a label before; the
output defines `L2` twice, once as the function and once between the lines of
the body and those of the post expression. -/
theorem continue_label_twice_counterexample :
    continues_here (g_node .A_CONTINUE .null .null .null) = true ∧
    lines (astgen findsym_all for_continue_post (-1) state_in_func_named_continue_label) =
      [.ins ".text\n", .ins ".global L2\n", .label "L2",
        .label "L0", .jmp "L2", .label "L2", .ins "\tmov\t$2, %r8\n", .jmp "L0",
        .label "L1"] ∧
    (lines (astgen findsym_all for_continue_post (-1)
      state_in_func_named_continue_label)).count (.label "L2") = 2 ∧
    lines (astgen findsym_all func_named_continue_label (-1) GState.init) =
      [.ins ".text\n", .ins ".global L2\n", .label "L2",
        .label "L0", .jmp "L2", .label "L2", .ins "\tmov\t$2, %r8\n", .jmp "L0",
        .label "L1", .ins "\tret\n"] ∧
    (lines (astgen findsym_all func_named_continue_label (-1) GState.init)).count
      (.label "L2") = 2 :=
  ⟨rfl, rfl, by decide, rfl, by decide⟩

/-- C22, amended: a `for` loop with a post expression whose body holds a
`continue` that belongs to it, with no function definition in the loop and a
label counter that does not overflow, lowers the body with one continue target
`lcont`, so that every such `continue` is the line `jmp lcont`; `lcont` is not
the condition label `lcond` the loop defines at its top, and it is defined
once among the lines of the loop, by the line between those of the body and
those of the post expression. With a post expression and no such `continue`
the lines of the post expression follow those of the body with no label
between them. A `for` loop without a post expression and a `while` loop lower
the body with the condition label as the continue target. Lines outside those
of the loop are not spoken of: the header of a function named like `lcont`
defines it as well. -/
theorem continue_targeting (findsym : CStr → Bool) (op : Op) (left mid right : GNode) (iv : Int)
    (sym : CStr) (storreg : Int) (s s' : GState) (r : Int)
    (h : astgen findsym (.mk op left mid right .null iv sym) storreg s = .ok (r, s')) :
    (op = .A_FOR → mid ≠ .null → continues_here right = true →
      no_funcdef (.mk op left mid right .null iv sym) = true →
      ∀ lo : Nat, s.label_id = (lo : Int) →
      lo + label_bound (.mk op left mid right .null iv sym) < 2 ^ 31 →
      ∃ lcond lend lcont cmp oc ob opost B C,
        s'.out = s.out ++
          ([.label lcond] ++ (if left ≠ .null then oc ++ [cmp, .je lend] else []) ++ ob ++
            [.label lcont] ++ opost ++ [.jmp lcond, .label lend]) ∧
        Lowers lend lcont right ob ∧ .jmp lcont ∈ ob ∧ Lowers B C mid opost ∧
        lcont ≠ lcond ∧
        List.count (Asm.label lcont)
          ([.label lcond] ++ (if left ≠ .null then oc ++ [cmp, .je lend] else []) ++ ob ++
            [.label lcont] ++ opost ++ [.jmp lcond, .label lend]) = 1) ∧
    (op = .A_FOR → mid ≠ .null → continues_here right = false →
      ∃ lcond lend lcont cmp oc ob opost B C,
        s'.out = s.out ++
          ([.label lcond] ++ (if left ≠ .null then oc ++ [cmp, .je lend] else []) ++ ob ++
            opost ++ [.jmp lcond, .label lend]) ∧
        Lowers lend lcont right ob ∧ Lowers B C mid opost) ∧
    (op = .A_FOR → mid = .null →
      ∃ lcond lend cmp oc ob,
        s'.out = s.out ++
          ([.label lcond] ++ (if left ≠ .null then oc ++ [cmp, .je lend] else []) ++ ob ++
            [.jmp lcond, .label lend]) ∧
        Lowers lend lcond right ob ∧ (continues_here right = true → .jmp lcond ∈ ob)) ∧
    (op = .A_WHILE →
      ∃ lcond lend cmp oc ob,
        s'.out = s.out ++
          ([.label lcond] ++ oc ++ [cmp, .jz lend] ++ ob ++ [.jmp lcond, .label lend]) ∧
        Lowers lend lcond left oc ∧ Lowers lend lcond right ob ∧
        (continues_here left = true → .jmp lcond ∈ oc) ∧
        (continues_here right = true → .jmp lcond ∈ ob)) := by
  obtain ⟨new, B, C, ho, lw⟩ := astgen_lowers_some findsym _ storreg s s' r h
  refine ⟨?_, ?_, ?_, ?_⟩
  · rintro rfl hm hc hnf lo hlo hb
    obtain ⟨hi, new', _, _, _, x⟩ := astgen_fresh findsym _ hnf storreg s r s' h lo hlo hb
    have e : new' = new := List.append_cancel_left (x.1.symm.trans ho)
    subst e
    have d := x.2.1
    obtain ⟨lcond, lend, lcont, cmp, oc, ob, opost, _, _, hn, _, l2, l3⟩ := lowers_for_inv lw
    have hn' : new' = [.label lcond] ++ (if left ≠ .null then oc ++ [cmp, .je lend] else []) ++
        ob ++ [.label lcont] ++ opost ++ [.jmp lcond, .label lend] := by
      rw [hn]; simp [hm, hc]
    refine ⟨lcond, lend, lcont, cmp, oc, ob, opost, B, C, by rw [ho, hn'], l2,
      lowers_continue_mem l2 hc, l3, ?_, ?_⟩
    · intro e
      subst e
      have h1 := d.2 lcont
      rw [hn'] at h1
      have h2 := count_twice (.label lcont)
        ((if left ≠ .null then oc ++ [cmp, .je lend] else [])) ob
        (opost ++ [.jmp lcont, .label lend])
      have h3 : ([Asm.label lcont] ++ (if left ≠ .null then oc ++ [cmp, .je lend] else []) ++
          ob ++ [.label lcont] ++ opost ++ [.jmp lcont, .label lend]) =
          ([Asm.label lcont] ++ (if left ≠ .null then oc ++ [cmp, .je lend] else []) ++
          ob ++ [.label lcont] ++ (opost ++ [.jmp lcont, .label lend])) := by simp
      rw [h3] at h1
      omega
    · rw [← hn']
      exact defs_count_one d (by rw [hn']; simp)
  · rintro rfl hm hc
    obtain ⟨lcond, lend, lcont, cmp, oc, ob, opost, _, _, hn, _, l2, l3⟩ := lowers_for_inv lw
    exact ⟨lcond, lend, lcont, cmp, oc, ob, opost, B, C, by rw [ho, hn]; simp [hc], l2, l3⟩
  · rintro rfl hm
    obtain ⟨lcond, lend, lcont, cmp, oc, ob, opost, _, hlc, hn, _, l2, l3⟩ := lowers_for_inv lw
    have e := hlc hm
    subst e
    subst hm
    have := lowers_null_inv l3
    subst this
    exact ⟨lcont, lend, cmp, oc, ob, by rw [ho, hn]; simp, l2, lowers_continue_mem l2⟩
  · rintro rfl
    obtain ⟨lcond, lend, cmp, oc, ob, _, hn, l1, l2⟩ := lowers_while_inv lw
    exact ⟨lcond, lend, cmp, oc, ob, by rw [ho, hn], l1, l2, lowers_continue_mem l1,
      lowers_continue_mem l2⟩

theorem continue_targeting_witness :
    (∃ lcond lend lcont cmp oc ob opost B C,
      (gen_returned (astgen findsym_all for_continue_post (-1) GState.init)).2.out =
        GState.init.out ++
          ([.label lcond] ++
            (if GNode.null ≠ GNode.null then oc ++ [cmp, .je lend] else []) ++ ob ++
            [.label lcont] ++ opost ++ [.jmp lcond, .label lend]) ∧
      Lowers lend lcont (g_node .A_CONTINUE .null .null .null) ob ∧ .jmp lcont ∈ ob ∧
      Lowers B C (g_num 2) opost ∧ lcont ≠ lcond ∧
      List.count (Asm.label lcont)
        ([.label lcond] ++ (if GNode.null ≠ GNode.null then oc ++ [cmp, .je lend] else []) ++
          ob ++ [.label lcont] ++ opost ++ [.jmp lcond, .label lend]) = 1) ∧
    lines (astgen findsym_all for_continue_post (-1) GState.init) =
      [.label "L0", .jmp "L2", .label "L2", .ins "\tmov\t$2, %r8\n", .jmp "L0",
        .label "L1"] ∧
    lines (astgen findsym_all for_post_plain (-1) GState.init) =
      [.label "L0", .ins "\tmov\t$2, %r8\n", .jmp "L0", .label "L1"] ∧
    lines (astgen findsym_all for_continue_plain (-1) GState.init) =
      [.label "L0", .jmp "L0", .jmp "L0", .label "L1"] ∧
    lines (astgen findsym_all while_continue (-1) GState.init) =
      [.label "L0", .ins "\tmov\t$1, %r8\n", .ins "\tcmp\t$0, %r8\n", .jz "L1", .jmp "L0",
        .jmp "L0", .label "L1"] :=
  ⟨(continue_targeting findsym_all .A_FOR .null (g_num 2)
    (g_node .A_CONTINUE .null .null .null) 0 none (-1) GState.init
    (gen_returned (astgen findsym_all for_continue_post (-1) GState.init)).2
    (gen_returned (astgen findsym_all for_continue_post (-1) GState.init)).1 rfl).1 rfl
    (by decide) rfl rfl 0 rfl (by decide), rfl, rfl, rfl, rfl⟩
/-! ## Labels and jump targets of the output -/

theorem jump_target_ins {a : Asm} (h : is_ins a = true) (t : String) :
    jump_target a ≠ some t := by
  cases a with
  | ins _ => simp [jump_target]
  | label _ => simp [jump_target]
  | jmp _ => simp [is_ins] at h
  | jz _ => simp [is_ins] at h
  | jnz _ => simp [is_ins] at h
  | je _ => simp [is_ins] at h

theorem Resolved.rnil (B C : String) (bb cc : Bool) (out : List Asm) :
    Resolved B C bb cc [] out := fun _ h => by simp at h

theorem Resolved.rappend {B C : String} {bb cc : Bool} {o1 o2 out : List Asm}
    (h1 : Resolved B C bb cc o1 out) (h2 : Resolved B C bb cc o2 out) :
    Resolved B C bb cc (o1 ++ o2) out := by
  intro a ha t ht
  rcases List.mem_append.1 ha with ha | ha
  · exact h1 a ha t ht
  · exact h2 a ha t ht

theorem Resolved.of_ins {B C : String} {bb cc : Bool} {inss out : List Asm}
    (h : ∀ a ∈ inss, is_ins a = true) : Resolved B C bb cc inss out :=
  fun a ha t ht => absurd ht (jump_target_ins (h a ha) t)

theorem Resolved.of_label (B C : String) (bb cc : Bool) (l : String) (out : List Asm) :
    Resolved B C bb cc [.label l] out := by
  intro a ha t ht
  simp only [List.mem_singleton] at ha
  subst ha
  simp [jump_target] at ht

/-- A jump to a label that the lines `out` define. -/
theorem Resolved.of_jump {B C : String} {bb cc : Bool} {a : Asm} {l : String}
    {out : List Asm} (ha : jump_target a = some l ∨ jump_target a = none)
    (hl : Asm.label l ∈ out) : Resolved B C bb cc [a] out := by
  intro x hx t ht
  simp only [List.mem_singleton] at hx
  subst hx
  rcases ha with ha | ha
  · rw [ha] at ht
    rw [← Option.some.inj ht]
    exact Or.inl hl
  · rw [ha] at ht
    cases ht

/-- The lines of a part of a statement, resolved for their own targets, are
resolved in the lines of the statement for the targets of the statement. -/
theorem Resolved.lift {B C B1 C1 : String} {bb cc b1 c1 : Bool} {o o1 out : List Asm}
    (h : Resolved B1 C1 b1 c1 o o1) (hs : ∀ x ∈ o1, x ∈ out)
    (hB : b1 = true → Asm.label B1 ∈ out ∨ (B1 = B ∧ bb = true))
    (hC : c1 = true → Asm.label C1 ∈ out ∨ (C1 = C ∧ cc = true)) :
    Resolved B C bb cc o out := by
  intro a ha t ht
  rcases h a ha t ht with h1 | ⟨rfl, h2⟩ | ⟨rfl, h2⟩
  · exact Or.inl (hs _ h1)
  · rcases hB h2 with h3 | h3
    · exact Or.inl h3
    · exact Or.inr (Or.inl h3)
  · rcases hC h2 with h3 | h3
    · exact Or.inl h3
    · exact Or.inr (Or.inr h3)

theorem Resolved.of_cmp_jump {B C : String} {bb cc : Bool} {cmp j : Asm} {l : String}
    {out : List Asm} (hc : is_ins cmp = true) (hj : jump_target j = some l)
    (hl : Asm.label l ∈ out) : Resolved B C bb cc [cmp, j] out := by
  intro a ha t ht
  simp only [List.mem_cons, List.mem_singleton, List.not_mem_nil, or_false] at ha
  rcases ha with rfl | rfl
  · exact absurd ht (jump_target_ins hc t)
  · rw [hj] at ht
    rw [← Option.some.inj ht]
    exact Or.inl hl

theorem Resolved.of_jmp_label {B C : String} {bb cc : Bool} {l l2 : String}
    {out : List Asm} (hl : Asm.label l ∈ out) :
    Resolved B C bb cc [.jmp l, .label l2] out := by
  intro a ha t ht
  simp only [List.mem_cons, List.mem_singleton, List.not_mem_nil, or_false] at ha
  rcases ha with rfl | rfl
  · simp only [jump_target, Option.some.injEq] at ht
    rw [← ht]
    exact Or.inl hl
  · simp [jump_target] at ht

theorem Resolved.of_func_head {B C : String} {bb cc : Bool} {i1 i2 : Asm} {name : String}
    {out : List Asm} (h1 : is_ins i1 = true) (h2 : is_ins i2 = true) :
    Resolved B C bb cc [i1, i2, .label name] out := by
  intro a ha t ht
  simp only [List.mem_cons, List.mem_singleton, List.not_mem_nil, or_false] at ha
  rcases ha with rfl | rfl | rfl
  · exact absurd ht (jump_target_ins h1 t)
  · exact absurd ht (jump_target_ins h2 t)
  · simp [jump_target] at ht

theorem Resolved.of_ins_one {B C : String} {bb cc : Bool} {i : Asm} {out : List Asm}
    (h : is_ins i = true) : Resolved B C bb cc [i] out :=
  Resolved.of_ins (fun a ha => by
    simp only [List.mem_singleton] at ha
    subst ha
    exact h)

/-- In a lowering every jump goes to a label the lines define, or to the break
target when the chain holds a `break` of the loop around it, or to the
continue target when it holds a `continue` of that loop. -/
theorem lowers_targets {B C : String} {n : GNode} {out : List Asm} (h : Lowers B C n out) :
    Resolved B C (breaks_here n) (continues_here n) out out := by
  induction h with
  | null => exact Resolved.rnil _ _ _ _ _
  | @break_ B C left mid right next iv sym ox _ ih =>
    have e : (Asm.jmp B :: ox) = [Asm.jmp B] ++ ox := rfl
    rw [e]
    refine Resolved.rappend ?_ ?_
    · intro a ha t ht
      simp only [List.mem_singleton] at ha
      subst ha
      simp only [jump_target, Option.some.injEq] at ht
      exact Or.inr (Or.inl ⟨ht.symm, by simp [breaks_here]⟩)
    · exact ih.lift (fun x hx => by simp [hx])
        (fun hb => Or.inr ⟨rfl, by simp [breaks_here]⟩)
        (fun hc => Or.inr ⟨rfl, by simp [continues_here, hc]⟩)
  | @continue_ B C left mid right next iv sym ox _ ih =>
    have e : (Asm.jmp C :: ox) = [Asm.jmp C] ++ ox := rfl
    rw [e]
    refine Resolved.rappend ?_ ?_
    · intro a ha t ht
      simp only [List.mem_singleton] at ha
      subst ha
      simp only [jump_target, Option.some.injEq] at ht
      exact Or.inr (Or.inr ⟨ht.symm, by simp [continues_here]⟩)
    · exact ih.lift (fun x hx => by simp [hx])
        (fun hb => Or.inr ⟨rfl, by simp [breaks_here, hb]⟩)
        (fun hc => Or.inr ⟨rfl, by simp [continues_here]⟩)
  | @if_ B C left mid right next iv sym oc ot oe ox lend lfalse cmp hcmp hr _ _ _ _
      ih1 ih2 ih3 ih4 =>
    by_cases hne : right = GNode.null
    · have hf := hr hne
      subst hf
      subst hne
      simp only [ne_eq, not_true_eq_false, if_false, List.append_nil]
      repeat' apply Resolved.rappend
      · exact ih1.lift (fun x hx => by simp [hx])
          (fun hb => Or.inr ⟨rfl, by simp [breaks_here, hb]⟩)
          (fun hc => Or.inr ⟨rfl, by simp [continues_here, hc]⟩)
      · exact Resolved.of_cmp_jump hcmp rfl (by simp)
      · exact ih2.lift (fun x hx => by simp [hx])
          (fun hb => Or.inr ⟨rfl, by simp [breaks_here, hb]⟩)
          (fun hc => Or.inr ⟨rfl, by simp [continues_here, hc]⟩)
      · exact Resolved.of_label _ _ _ _ _ _
      · exact ih4.lift (fun x hx => by simp [hx])
          (fun hb => Or.inr ⟨rfl, by simp [breaks_here, hb]⟩)
          (fun hc => Or.inr ⟨rfl, by simp [continues_here, hc]⟩)
    · simp only [ne_eq, hne, not_false_eq_true, if_true]
      repeat' apply Resolved.rappend
      · exact ih1.lift (fun x hx => by simp [hx])
          (fun hb => Or.inr ⟨rfl, by simp [breaks_here, hb]⟩)
          (fun hc => Or.inr ⟨rfl, by simp [continues_here, hc]⟩)
      · exact Resolved.of_cmp_jump hcmp rfl (by simp)
      · exact ih2.lift (fun x hx => by simp [hx])
          (fun hb => Or.inr ⟨rfl, by simp [breaks_here, hb]⟩)
          (fun hc => Or.inr ⟨rfl, by simp [continues_here, hc]⟩)
      · exact Resolved.of_jmp_label (by simp)
      · exact ih3.lift (fun x hx => by simp [hx])
          (fun hb => Or.inr ⟨rfl, by simp [breaks_here, hb]⟩)
          (fun hc => Or.inr ⟨rfl, by simp [continues_here, hc]⟩)
      · exact Resolved.of_label _ _ _ _ _ _
      · exact ih4.lift (fun x hx => by simp [hx])
          (fun hb => Or.inr ⟨rfl, by simp [breaks_here, hb]⟩)
          (fun hc => Or.inr ⟨rfl, by simp [continues_here, hc]⟩)
  | @while_ B C left mid right next iv sym oc ob ox lcond lend cmp hcmp _ _ _ ih1 ih2 ih3 =>
    repeat' apply Resolved.rappend
    · exact Resolved.of_label _ _ _ _ _ _
    · exact ih1.lift (fun x hx => by simp [hx]) (fun _ => Or.inl (by simp))
        (fun _ => Or.inl (by simp))
    · exact Resolved.of_cmp_jump hcmp rfl (by simp)
    · exact ih2.lift (fun x hx => by simp [hx]) (fun _ => Or.inl (by simp))
        (fun _ => Or.inl (by simp))
    · exact Resolved.of_jmp_label (by simp)
    · exact ih3.lift (fun x hx => by simp [hx])
        (fun hb => Or.inr ⟨rfl, by simp [breaks_here, hb]⟩)
        (fun hc => Or.inr ⟨rfl, by simp [continues_here, hc]⟩)
  | @dowhile B C left mid right next iv sym ob oc ox lstat lend cmp hcmp _ _ _ ih1 ih2 ih3 =>
    repeat' apply Resolved.rappend
    · exact Resolved.of_label _ _ _ _ _ _
    · exact ih1.lift (fun x hx => by simp [hx]) (fun hb => Or.inl (by simp [hb]))
        (fun _ => Or.inl (by simp))
    · exact ih2.lift (fun x hx => by simp [hx]) (fun hb => Or.inl (by simp [hb]))
        (fun _ => Or.inl (by simp))
    · exact Resolved.of_cmp_jump hcmp rfl (by simp)
    · by_cases hbb : (breaks_here left || breaks_here right) = true
      · rw [if_pos hbb]; exact Resolved.of_label _ _ _ _ _ _
      · rw [if_neg hbb]; exact Resolved.rnil _ _ _ _ _
    · exact ih3.lift (fun x hx => by simp [hx])
        (fun hb => Or.inr ⟨rfl, by simp [breaks_here, hb]⟩)
        (fun hc => Or.inr ⟨rfl, by simp [continues_here, hc]⟩)
  | @for_ B C left mid right next iv sym oc ob op ox lcond lend lcont cmp hcmp hm _ _ _ _
      ih1 ih2 ih3 ih4 =>
    repeat' apply Resolved.rappend
    · exact Resolved.of_label _ _ _ _ _ _
    · by_cases hl : left = GNode.null
      · simp only [ne_eq, hl, not_true_eq_false, if_false]
        exact Resolved.rnil _ _ _ _ _
      · simp only [ne_eq, hl, not_false_eq_true, if_true]
        refine Resolved.rappend ?_ (Resolved.of_cmp_jump hcmp rfl (by simp))
        exact ih1.lift (fun x hx => by simp [hx])
          (fun hb => Or.inr ⟨rfl, by simp [breaks_here, hb]⟩)
          (fun hc => Or.inr ⟨rfl, by simp [continues_here, hc]⟩)
    · refine ih2.lift (fun x hx => by simp [hx]) (fun _ => Or.inl (by simp)) ?_
      intro hc
      by_cases hmid : mid = GNode.null
      · rw [hm hmid]
        exact Or.inl (by simp)
      · exact Or.inl (by simp [hmid, hc])
    · by_cases hx : mid ≠ GNode.null ∧ continues_here right = true
      · rw [if_pos hx]; exact Resolved.of_label _ _ _ _ _ _
      · rw [if_neg hx]; exact Resolved.rnil _ _ _ _ _
    · exact ih3.lift (fun x hx => by simp [hx])
        (fun hb => Or.inr ⟨rfl, by simp [breaks_here, hb]⟩)
        (fun hc => Or.inr ⟨rfl, by simp [continues_here, hc]⟩)
    · exact Resolved.of_jmp_label (by simp)
    · exact ih4.lift (fun x hx => by simp [hx])
        (fun hb => Or.inr ⟨rfl, by simp [breaks_here, hb]⟩)
        (fun hc => Or.inr ⟨rfl, by simp [continues_here, hc]⟩)
  | @func B C left mid right next iv name ob ox i1 i2 i3 h1 h2 h3 _ _ ih1 ih2 =>
    repeat' apply Resolved.rappend
    · exact Resolved.of_func_head h1 h2
    · exact ih1.lift (fun x hx => by simp [hx])
        (fun hb => Or.inr ⟨rfl, by simp [breaks_here, hb]⟩)
        (fun hc => Or.inr ⟨rfl, by simp [continues_here, hc]⟩)
    · exact Resolved.of_ins_one h3
    · exact ih2.lift (fun x hx => by simp [hx])
        (fun hb => Or.inr ⟨rfl, by simp [breaks_here, hb]⟩)
        (fun hc => Or.inr ⟨rfl, by simp [continues_here, hc]⟩)
  | @expr B C op left mid right next iv sym ol or_ ox inss hop hins _ _ _ ih1 ih2 ih3 =>
    repeat' apply Resolved.rappend
    · exact ih1.lift (fun x hx => by simp [hx])
        (fun hb => Or.inr ⟨rfl, by rw [breaks_here_expr hop]; simp [hb]⟩)
        (fun hc => Or.inr ⟨rfl, by rw [continues_here_expr hop]; simp [hc]⟩)
    · exact ih2.lift (fun x hx => by simp [hx])
        (fun hb => Or.inr ⟨rfl, by rw [breaks_here_expr hop]; simp [hb]⟩)
        (fun hc => Or.inr ⟨rfl, by rw [continues_here_expr hop]; simp [hc]⟩)
    · exact Resolved.of_ins hins
    · exact ih3.lift (fun x hx => by simp [hx])
        (fun hb => Or.inr ⟨rfl, by rw [breaks_here_expr hop]; simp [hb]⟩)
        (fun hc => Or.inr ⟨rfl, by rw [continues_here_expr hop]; simp [hc]⟩)

/-- A chain generated with no loop entered, or one that holds no `break` and no
`continue` of the loop around it, has no jump to a target of that loop. -/
theorem astgen_closed (findsym : CStr → Bool) (n : GNode) (storreg : Int) (s s' : GState)
    (r : Int)
    (hj : s.iterjumploc ≠ [] → breaks_here n = false ∧ continues_here n = false)
    (h : astgen findsym n storreg s = .ok (r, s')) :
    ∃ new, s'.out = s.out ++ new ∧ Resolved "" "" false false new new := by
  obtain ⟨new, c, lw⟩ := astgen_lowers findsym n storreg s r s' h
  have hbc : breaks_here n = false ∧ continues_here n = false := by
    by_cases he : s.iterjumploc = []
    · have hl : s'.iterjumploc = [] := by
        have := c.1.2.1
        rw [he] at this
        exact List.length_eq_zero.1 this
      constructor
      · cases hb : breaks_here n
        · rfl
        · have := c.2.1.1 hb
          rw [hl] at this
          exact absurd rfl this
      · cases hc : continues_here n
        · rfl
        · have := c.2.2.1 hc
          rw [hl] at this
          exact absurd rfl this
    · exact hj he
  have lw1 := lw ((top_break s'.iterjumploc).getD "") ((top_continue s'.iterjumploc).getD "")
    (fun x hx => by rw [hx]; rfl) (fun x hx => by rw [hx]; rfl)
  have res := lowers_targets lw1
  rw [hbc.1, hbc.2] at res
  refine ⟨new, c.1.1, ?_⟩
  intro a ha t ht
  rcases res a ha t ht with h1 | ⟨_, h2⟩ | ⟨_, h2⟩
  · exact Or.inl h1
  · cases h2
  · cases h2

/-- C23: the lines `astgen` writes for a chain without a function definition,
called with no loop entered or on a chain that holds no `break` or `continue`
of a loop around it, define no label twice, and every label that a `jmp`, `jz`,
`jnz` or `je` among them names is defined by exactly one of them. Called with
no loop entered, `astgen` returns only if every `break` and `continue` of the
chain lies in a loop of the chain. The label counter does not overflow. -/
theorem label_wellformed (findsym : CStr → Bool) (n : GNode) (storreg : Int) (s s' : GState)
    (r : Int) (lo : Nat) (hnf : no_funcdef n = true) (hlo : s.label_id = (lo : Int))
    (hb : lo + label_bound n < 2 ^ 31)
    (hj : s.iterjumploc ≠ [] → breaks_here n = false ∧ continues_here n = false)
    (h : astgen findsym n storreg s = .ok (r, s')) :
    ∃ new, s'.out = s.out ++ new ∧
      (∀ l, new.count (Asm.label l) ≤ 1) ∧
      (∀ a ∈ new, ∀ t, jump_target a = some t → new.count (Asm.label t) = 1) ∧
      (s.iterjumploc = [] → breaks_here n = false ∧ continues_here n = false) := by
  obtain ⟨new, ho, res⟩ := astgen_closed findsym n storreg s s' r hj h
  obtain ⟨hi, new', _, _, _, x⟩ := astgen_fresh findsym n hnf storreg s r s' h lo hlo hb
  have e : new' = new := List.append_cancel_left (x.1.symm.trans ho)
  subst e
  refine ⟨new', ho, x.2.1.2, ?_, ?_⟩
  · intro a ha t ht
    rcases res a ha t ht with h1 | ⟨_, h2⟩ | ⟨_, h2⟩
    · exact defs_count_one x.2.1 h1
    · cases h2
    · cases h2
  · intro he
    obtain ⟨_, c, _⟩ := astgen_lowers findsym n storreg s r s' h
    have hl : s'.iterjumploc = [] := by
      have := c.1.2.1
      rw [he] at this
      exact List.length_eq_zero.1 this
    constructor
    · cases hb : breaks_here n
      · rfl
      · have := c.2.1.1 hb
        rw [hl] at this
        exact absurd rfl this
    · cases hc : continues_here n
      · rfl
      · have := c.2.2.1 hc
        rw [hl] at this
        exact absurd rfl this

theorem label_wellformed_witness :
    (∃ new, (gen_returned (astgen findsym_all (g_seq while_nested_break if_with_loops) (-1)
        GState.init)).2.out = GState.init.out ++ new ∧
      (∀ l, new.count (Asm.label l) ≤ 1) ∧
      (∀ a ∈ new, ∀ t, jump_target a = some t → new.count (Asm.label t) = 1) ∧
      (GState.init.iterjumploc = [] →
        breaks_here (g_seq while_nested_break if_with_loops) = false ∧
        continues_here (g_seq while_nested_break if_with_loops) = false)) ∧
    lines (astgen findsym_all if_with_loops (-1) GState.init) =
      [.ins "\tmov\t$1, %r8\n", .ins "\tcmp\t$0, %r8\n", .jz "L1",
        .label "L2", .jmp "L2", .ins "\tmov\t$2, %r8\n", .ins "\tcmp\t$0, %r8\n",
        .jnz "L2", .jmp "L0", .label "L1",
        .label "L3", .ins "\tmov\t$3, %r8\n", .ins "\tcmp\t$0, %r8\n", .je "L4",
        .jmp "L4", .ins "\tmov\t$4, %r8\n", .jmp "L3", .label "L4", .label "L0"] :=
  ⟨label_wellformed findsym_all (g_seq while_nested_break if_with_loops) (-1) GState.init
    (gen_returned (astgen findsym_all (g_seq while_nested_break if_with_loops) (-1)
      GState.init)).2
    (gen_returned (astgen findsym_all (g_seq while_nested_break if_with_loops) (-1)
      GState.init)).1 0 rfl rfl (by decide) (fun hx => absurd rfl hx) rfl, rfl⟩
/-! ## Function definitions are not checked for redefinition -/

theorem find_global_head (n : Node) (hn : n ≠ .null) : find_global n.name n = n := by
  cases n with
  | null => exact absurd rfl hn
  | mk _ _ _ _ _ _ _ _ _ _ _ _ _ _ => simp [find_global, Node.name]

/-- A definition `ty name() { }` is parsed whatever `globals` holds. -/
theorem function_empty_body (uac : CType → CType → CType) (st : PState) (ty : CType)
    (tok : Token) (rest : List Token) (fuel : Nat)
    (ht : type_spec st.t = .ok (ty, tok :: tk TK_OPENING_PARENTHESES ::
      tk TK_CLOSING_PARENTHESES :: tk TK_OPENING_BRACES :: tk TK_CLOSING_BRACES :: rest))
    (hk : tok.kind = TK_IDENT) :
    function uac (fuel + 2) st =
      .ok (.null, ⟨rest, .null, empty_function ty tok.name st.globals, st.scope,
        st.is_function⟩) := by
  obtain ⟨t, locals, globals, scope, isf⟩ := st
  simp only [PState.t] at ht
  simp [function, ht, expect_st, expect, hk, param_list, param_list_loop, consume_st,
    consume, tk, comp_stat, comp_stat_loop, enter_scope, exit_scope, chain_assign,
    empty_function, mknode, Node.set_type, Node.set_name, Node.set_is_function,
    Node.set_next, Node.set_params, Node.set_body, Node.set_locals, mklist, mkaux,
    PState.set_t, PState.set_locals, PState.set_globals, PState.set_scope, bind, Except.bind,
    pure, Except.pure]

/-- The statements of `function` up to `enter_scope()` read the type and the
name and link the node in; `globals` is not searched. -/
theorem function_before_params_ok (st : PState) (ty : CType) (tok : Token)
    (t t1 : List Token) (ht : type_spec st.t = .ok (ty, t))
    (hi : expect TK_IDENT t = .ok (tok, t1)) :
    function_before_params st = .ok (chain_length st.globals,
      ⟨t1, .null, ((((mknode A_FUNC_DEF).set_type ty).set_name tok.name).set_is_function
        1).set_next st.globals, Node.null :: st.scope, st.is_function⟩) := by
  obtain ⟨t0, locals, globals, scope, isf⟩ := st
  simp only [PState.t] at ht
  simp [function_before_params, ht, expect_st, hi, enter_scope, PState.set_t,
    PState.set_locals, PState.set_globals, PState.set_scope, bind, Except.bind, pure,
    Except.pure]

/-- The call `name()` of a name that `find_global` finds as a function. -/
theorem primary_call (uac : CType → CType → CType) (globals : Node) (scope : List Node)
    (tok : Token) (rest : List Token) (fuel : Nat) (hk : tok.kind = TK_IDENT)
    (hf : find_global tok.name globals ≠ .null)
    (hfn : (find_global tok.name globals).is_function ≠ 0) :
    primary uac globals scope (fuel + 3)
        (tok :: tk TK_OPENING_PARENTHESES :: tk TK_CLOSING_PARENTHESES :: rest) =
      .ok (empty_call (find_global tok.name globals).type tok.name, rest) := by
  have hk2 : tok.kind ≠ TK_NUM := by rw [hk]; decide
  simp [primary, arg_list, arg_list_loop, consume, expect, match_, hk, hk2, tk, hf, hfn,
    empty_call, mknode, Node.set_callee_name, Node.set_args, Node.set_type,
    Node.callee_name, mklist, mkaux, Node.set_body, bind, Except.bind, pure, Except.pure]

/-- The node of a function definition that `function` has parsed stands at the
head of `globals`, in front of the list as it was. -/
theorem function_pushed {uac : CType → CType → CType} {fuel : Nat} {st st' : PState}
    {n : Node} (hf : st.is_function ≠ 0) (h : function uac fuel st = .ok (n, st')) :
    ∃ ty t tok t1, type_spec st.t = .ok (ty, t) ∧ expect TK_IDENT t = .ok (tok, t1) ∧
      st'.globals ≠ .null ∧ st'.globals.kind = A_FUNC_DEF ∧ st'.globals.is_function = 1 ∧
      st'.globals.type = ty ∧ st'.globals.name = tok.name ∧
      st'.globals.next = st.globals := by
  simp only [function, bind_eq_ok, Prod.exists, pure_eq_ok, Prod.mk.injEq] at h
  obtain ⟨ty, t, h1, tok, st2, h2, params, st3, h3, body, st4, h4, st5, h5, _, rfl⟩ := h
  have f2 : st2.globals = st.globals ∧ st2.is_function = st.is_function := by
    have := expect_st_frame h2
    simpa [Frame] using this.2
  have h2' : ∃ t1, expect TK_IDENT t = .ok (tok, t1) := by
    simp only [expect_st, bind_eq_ok, Prod.exists, pure_eq_ok, Prod.mk.injEq] at h2
    obtain ⟨c, t1, h2, rfl, _⟩ := h2
    exact ⟨t1, by simpa using h2⟩
  obtain ⟨t1, h2'⟩ := h2'
  have f3 := param_list_globals h3
  simp only [enter_scope, PState.globals_set_scope, PState.globals_set_globals,
    PState.is_function_set_scope, PState.is_function_set_globals] at f3
  have hf3 : (st3.set_globals (chain_assign (fun n => n.set_params params)
      (chain_length st2.globals) st3.globals)).is_function ≠ 0 := by
    simp only [PState.is_function_set_globals]; rw [f3.2, f2.2]; exact hf
  have f4 := (statement_frame uac fuel).2.2.1 _ _ _ hf3 h4
  obtain ⟨_, outer, _, rfl⟩ := exit_scope_ok h5
  refine ⟨ty, t, tok, t1, h1, h2', ?_⟩
  simp only [PState.globals_set_scope, PState.globals_set_globals]
  rw [f4.2.1]
  simp only [PState.globals_set_globals]
  rw [f3.1]
  simp only [mknode, Node.set_type, Node.set_name, Node.set_is_function, Node.set_next,
    chain_assign, if_true, Node.set_params, Node.set_body, Node.set_locals, Node.type,
    Node.kind, Node.next, Node.body, Node.name, Node.is_function]
  rw [f2.1]
  refine ⟨?_, ?_, ?_, ?_, ?_, ?_⟩ <;> first | rfl | trivial | simp

/-- The list `globals` while `function` parses the body of a definition: the
node of the function stands at its head, with its name, its type and the flag
`is_function`, so that `find_global` on the name returns it. -/
theorem function_body_globals {fuel k : Nat} {st st1 st2 : PState} {params : Node}
    (h1 : function_before_params st = .ok (k, st1))
    (h2 : param_list fuel st1 = .ok (params, st2)) :
    ∃ ty t tok t1, type_spec st.t = .ok (ty, t) ∧ expect TK_IDENT t = .ok (tok, t1) ∧
      find_global tok.name (chain_assign (fun n => n.set_params params) k st2.globals) =
        chain_assign (fun n => n.set_params params) k st2.globals ∧
      (chain_assign (fun n => n.set_params params) k st2.globals).is_function = 1 ∧
      (chain_assign (fun n => n.set_params params) k st2.globals).type = ty ∧
      (chain_assign (fun n => n.set_params params) k st2.globals).next = st.globals := by
  simp only [function_before_params, bind_eq_ok, Prod.exists, pure_eq_ok, Prod.mk.injEq] at h1
  obtain ⟨ty, t, ht, tok, st3, h3, rfl, rfl⟩ := h1
  have f3 : st3.globals = st.globals := by
    have := expect_st_frame h3
    simpa [Frame] using this.2.1
  have h3' : ∃ t1, expect TK_IDENT t = .ok (tok, t1) := by
    simp only [expect_st, bind_eq_ok, Prod.exists, pure_eq_ok, Prod.mk.injEq] at h3
    obtain ⟨c, t1, h3, rfl, _⟩ := h3
    exact ⟨t1, by simpa using h3⟩
  obtain ⟨t1, h3'⟩ := h3'
  have f2 := (param_list_globals h2).1
  simp only [enter_scope, PState.globals_set_scope, PState.globals_set_globals] at f2
  refine ⟨ty, t, tok, t1, ht, h3', ?_⟩
  rw [f2, f3]
  simp [mknode, Node.set_type, Node.set_name, Node.set_is_function, Node.set_next,
    chain_assign, Node.set_params, find_global, Node.is_function, Node.type, Node.next]

theorem expect_inv {kind : TK} {t t1 : List Token} {tok : Token}
    (h : expect kind t = .ok (tok, t1)) : t = tok :: t1 ∧ tok.kind = kind := by
  cases t with
  | nil => simp [expect] at h
  | cons c rest =>
    simp only [expect] at h
    by_cases hc : c.kind = kind
    · rw [if_pos hc] at h
      simp only [Except.ok.injEq, Prod.mk.injEq] at h
      obtain ⟨rfl, rfl⟩ := h
      exact ⟨rfl, hc⟩
    · rw [if_neg hc] at h
      cases h

/-- C25: `function` reads the type and the name of a definition and links its
node in at the head of `globals` without a search of the list: the statements
up to `enter_scope()` return whatever `globals` holds, a variable or a function
of the same name included. While the body is parsed the node stands at the
head of `globals` with its name, its type and the flag `is_function`, so a call
of the name in the body is given the type of this node. When `function`
returns, its node is in front of the list as it was, every earlier entry is
still there, and `find_global` on the name returns the new node. A definition
with no parameter and an empty body is parsed whatever `globals` holds. -/
theorem function_redefinition_unchecked (uac : CType → CType → CType) (st : PState)
    (ty : CType) (tok : Token) (t t1 : List Token) (ht : type_spec st.t = .ok (ty, t))
    (hi : expect TK_IDENT t = .ok (tok, t1)) :
    function_before_params st = .ok (chain_length st.globals,
      ⟨t1, .null, ((((mknode A_FUNC_DEF).set_type ty).set_name tok.name).set_is_function
        1).set_next st.globals, Node.null :: st.scope, st.is_function⟩) ∧
    (∀ fuel params st2,
      param_list fuel ⟨t1, .null,
        ((((mknode A_FUNC_DEF).set_type ty).set_name tok.name).set_is_function 1).set_next
          st.globals, Node.null :: st.scope, st.is_function⟩ = .ok (params, st2) →
      find_global tok.name
          (chain_assign (fun n => n.set_params params) (chain_length st.globals) st2.globals) =
        chain_assign (fun n => n.set_params params) (chain_length st.globals) st2.globals ∧
      (chain_assign (fun n => n.set_params params) (chain_length st.globals)
        st2.globals).is_function = 1 ∧
      (chain_assign (fun n => n.set_params params) (chain_length st.globals)
        st2.globals).next = st.globals ∧
      ∀ (scope : List Node) (c : Token) (rest : List Token) (fuel2 : Nat),
        c.kind = TK_IDENT → c.name = tok.name →
        primary uac
            (chain_assign (fun n => n.set_params params) (chain_length st.globals) st2.globals)
            scope (fuel2 + 3)
            (c :: tk TK_OPENING_PARENTHESES :: tk TK_CLOSING_PARENTHESES :: rest) =
          .ok (empty_call ty tok.name, rest)) ∧
    (∀ fuel n st', st.is_function ≠ 0 → function uac fuel st = .ok (n, st') →
      st'.globals ≠ .null ∧ st'.globals.kind = A_FUNC_DEF ∧ st'.globals.is_function = 1 ∧
      st'.globals.type = ty ∧ st'.globals.name = tok.name ∧ st'.globals.next = st.globals ∧
      global_members st'.globals = st'.globals :: global_members st.globals ∧
      find_global tok.name st'.globals = st'.globals) ∧
    (∀ rest fuel, t1 = tk TK_OPENING_PARENTHESES :: tk TK_CLOSING_PARENTHESES ::
        tk TK_OPENING_BRACES :: tk TK_CLOSING_BRACES :: rest →
      function uac (fuel + 2) st =
        .ok (.null, ⟨rest, .null, empty_function ty tok.name st.globals, st.scope,
          st.is_function⟩) ∧
      global_members (empty_function ty tok.name st.globals) =
        empty_function ty tok.name st.globals :: global_members st.globals ∧
      find_global tok.name (empty_function ty tok.name st.globals) =
        empty_function ty tok.name st.globals) := by
  have hb := function_before_params_ok st ty tok t t1 ht hi
  obtain ⟨rfl, hk⟩ := expect_inv hi
  refine ⟨hb, ?_, ?_, ?_⟩
  · intro fuel params st2 hp
    obtain ⟨ty', t', tok', t1', ht', hi', g1, g2, g3, g4⟩ := function_body_globals hb hp
    rw [ht] at ht'
    simp only [Except.ok.injEq, Prod.mk.injEq] at ht'
    obtain ⟨rfl, rfl⟩ := ht'
    rw [hi] at hi'
    simp only [Except.ok.injEq, Prod.mk.injEq] at hi'
    obtain ⟨rfl, rfl⟩ := hi'
    refine ⟨g1, g2, g4, ?_⟩
    intro scope c rest fuel2 hc hn
    have hne : chain_assign (fun n => n.set_params params) (chain_length st.globals)
        st2.globals ≠ .null := by
      intro e
      rw [e] at g2
      simp [Node.is_function] at g2
    have e1 : find_global c.name (chain_assign (fun n => n.set_params params)
        (chain_length st.globals) st2.globals) =
        chain_assign (fun n => n.set_params params) (chain_length st.globals)
          st2.globals := by
      rw [hn]; exact g1
    have := primary_call uac _ scope c rest fuel2 hc (by rw [e1]; exact hne)
      (by rw [e1, g2]; decide)
    rw [this, e1, g3, hn]
  · intro fuel n st' hf h
    obtain ⟨ty', t', tok', t1', ht', hi', g1, g2, g3, g4, g5, g6⟩ := function_pushed hf h
    rw [ht] at ht'
    simp only [Except.ok.injEq, Prod.mk.injEq] at ht'
    obtain ⟨rfl, rfl⟩ := ht'
    rw [hi] at hi'
    simp only [Except.ok.injEq, Prod.mk.injEq] at hi'
    obtain ⟨rfl, rfl⟩ := hi'
    refine ⟨g1, g2, g3, g4, g5, g6, ?_, ?_⟩
    · rw [global_members_of_next _ g1, g6]
    · rw [← g5]; exact find_global_head _ g1
  · intro rest fuel e
    subst e
    refine ⟨function_empty_body uac st ty tok rest fuel ht hk, ?_, ?_⟩
    · simp [empty_function, mknode, Node.set_type, Node.set_name, Node.set_is_function,
        Node.set_next, Node.set_params, Node.set_body, Node.set_locals, global_members]
    · simp [empty_function, mknode, Node.set_type, Node.set_name, Node.set_is_function,
        Node.set_next, Node.set_params, Node.set_body, Node.set_locals, find_global]

theorem function_redefinition_unchecked_witness :
    (function uac_left 2 state_x_declared =
        .ok (.null, ⟨[tk TK_EOI], .null,
          empty_function inttype (some "x") state_x_declared.globals,
          state_x_declared.scope, state_x_declared.is_function⟩) ∧
      global_members (empty_function inttype (some "x") state_x_declared.globals) =
        empty_function inttype (some "x") state_x_declared.globals ::
          global_members state_x_declared.globals ∧
      find_global (some "x") (empty_function inttype (some "x") state_x_declared.globals) =
        empty_function inttype (some "x") state_x_declared.globals) ∧
    (global_members (returned (parse uac_left 20 tokens_var_then_function)).1).map
        (fun n => (n.name, n.is_function)) = [(some "x", 1), (some "x", 0)] ∧
    (find_global (some "x")
      (returned (parse uac_left 20 tokens_var_then_function)).1).is_function = 1 ∧
    (global_members (returned (parse uac_left 20 tokens_function_twice)).1).map
        (fun n => (n.name, n.is_function, n.type)) =
      [(some "f", 1, longtype), (some "f", 1, inttype)] ∧
    (find_global (some "f")
      (returned (parse uac_left 20 tokens_function_twice)).1).type = longtype ∧
    (returned (parse uac_left 20 tokens_function_twice)).1.body.body.body =
      empty_call longtype (some "f") :=
  ⟨(function_redefinition_unchecked uac_left state_x_declared inttype (tk_ident "x")
      [tk_ident "x", tk TK_OPENING_PARENTHESES, tk TK_CLOSING_PARENTHESES,
        tk TK_OPENING_BRACES, tk TK_CLOSING_BRACES, tk TK_EOI]
      [tk TK_OPENING_PARENTHESES, tk TK_CLOSING_PARENTHESES,
        tk TK_OPENING_BRACES, tk TK_CLOSING_BRACES, tk TK_EOI] rfl rfl).2.2.2
      [tk TK_EOI] 0 rfl, rfl, rfl, rfl, rfl, rfl⟩
/-! ## Register demand of expressions -/

theorem busy_count_le (S : RegStat) : busy_count S ≤ 4 := by
  unfold busy_count
  split_ifs <;> omega

theorem busy_count_set (S : RegStat) (i : Fin 4) (hi : S i = 0) :
    busy_count (Function.update S i 1) = busy_count S + 1 := by
  fin_cases i <;> simp only [Fin.zero_eta, Fin.mk_one, Fin.reduceFinMk] at hi ⊢ <;>
    simp [busy_count, Function.update, hi] <;> omega

theorem busy_count_clear (S : RegStat) (i : Fin 4) (hi : S i ≠ 0) :
    busy_count (Function.update S i 0) + 1 = busy_count S := by
  fin_cases i <;> simp only [Fin.zero_eta, Fin.mk_one, Fin.reduceFinMk] at hi ⊢ <;>
    simp [busy_count, Function.update, hi] <;> omega

theorem busy_count_lt (S : RegStat) (h : busy_count S < 4) : ∃ i, S i = 0 := by
  by_contra hn
  have h0 : S 0 ≠ 0 := fun e => hn ⟨0, e⟩
  have h1 : S 1 ≠ 0 := fun e => hn ⟨1, e⟩
  have h2 : S 2 ≠ 0 := fun e => hn ⟨2, e⟩
  have h3 : S 3 ≠ 0 := fun e => hn ⟨3, e⟩
  simp [busy_count, h0, h1, h2, h3] at h

theorem busy_count_full (S : RegStat) (h : 4 ≤ busy_count S) : ∀ i, busy S i := by
  intro i hi
  unfold busy_count at h
  fin_cases i <;> simp only [Fin.zero_eta, Fin.mk_one, Fin.reduceFinMk] at hi <;>
    simp only [hi, ne_eq, not_true_eq_false, if_false] at h <;> split_ifs at h <;> omega

theorem reg_list_fin (i : Fin 4) : ∃ name, reg_list (i.val : Int) = .ok name :=
  reg_list_ok _ (by omega) (by omega)

theorem reg_list_b_fin (i : Fin 4) : ∃ name, reg_list_b (i.val : Int) = .ok name := by
  fin_cases i <;> exact ⟨_, rfl⟩

theorem load_ok (v : Int) (s : GState) (h : busy_count s.reg_stat < 4) :
    ∃ (i : Fin 4) (s' : GState), load v s = .ok ((i.val : Int), s') ∧ s.reg_stat i = 0 ∧
      s'.reg_stat = Function.update s.reg_stat i 1 := by
  obtain ⟨i, hi, hlt⟩ := exists_least_clear s.reg_stat (busy_count_lt _ h)
  obtain ⟨name, hn⟩ := reg_list_fin i
  refine ⟨i, ?_⟩
  simp only [load, alloc_reg_st, alloc_reg_at s.reg_stat i hi hlt, hn, bind, Except.bind,
    pure, Except.pure]
  exact ⟨_, rfl, hi, by simp⟩

theorem load_full (v : Int) (s : GState) (h : 4 ≤ busy_count s.reg_stat) :
    load v s = .error (.error "out of registers") := by
  simp only [load, alloc_reg_st, alloc_reg_all_busy s.reg_stat (busy_count_full _ h), bind,
    Except.bind]

theorem free_reg_st_ok (s : GState) (i : Fin 4) (hi : s.reg_stat i ≠ 0) :
    free_reg_st (i.val : Int) s = .ok (s.set_reg_stat (Function.update s.reg_stat i 0)) := by
  have hn : ¬ ((i.val : Int) < 0) := by omega
  simp [free_reg_st, free_reg, hn, hi, bind, Except.bind, pure, Except.pure]

/-- The functions the `switch` calls for an arithmetic operator or a
comparison return when both operand registers are busy; one of the two is
freed and the other is the value. -/
theorem switch_binary_ok (findsym : CStr → Bool) {op : Op} (hop : is_binary op = true)
    (iv : Int) (sym : CStr) (i j : Fin 4) (st : Int) (s : GState)
    (hi : s.reg_stat i ≠ 0) (hj : s.reg_stat j ≠ 0) :
    ∃ s', (astgen_switch findsym op iv sym (i.val : Int) (j.val : Int) st s =
          .ok ((j.val : Int), s') ∧ s'.reg_stat = Function.update s.reg_stat i 0) ∨
      (astgen_switch findsym op iv sym (i.val : Int) (j.val : Int) st s =
          .ok ((i.val : Int), s') ∧ s'.reg_stat = Function.update s.reg_stat j 0) := by
  obtain ⟨n1, h1⟩ := reg_list_fin i
  obtain ⟨n2, h2⟩ := reg_list_fin j
  obtain ⟨b1, h3⟩ := reg_list_b_fin i
  cases op <;> simp only [is_binary, Bool.false_eq_true] at hop
  case A_ADD =>
    simp only [astgen_switch, add, h1, h2, bind, Except.bind]
    rw [free_reg_st_ok _ i (by simpa using hi)]
    exact ⟨_, Or.inl ⟨rfl, by simp⟩⟩
  case A_MUL =>
    simp only [astgen_switch, mul, h1, h2, bind, Except.bind]
    rw [free_reg_st_ok _ i (by simpa using hi)]
    exact ⟨_, Or.inl ⟨rfl, by simp⟩⟩
  case A_SUB =>
    simp only [astgen_switch, sub, h1, h2, bind, Except.bind]
    rw [free_reg_st_ok _ j (by simpa using hj)]
    exact ⟨_, Or.inr ⟨rfl, by simp⟩⟩
  case A_DIV =>
    simp only [astgen_switch, divide, h1, h2, bind, Except.bind]
    rw [free_reg_st_ok _ j (by simpa using hj)]
    exact ⟨_, Or.inr ⟨rfl, by simp⟩⟩
  all_goals
    simp only [astgen_switch, compare, h1, h2, h3, bind, Except.bind]
    rw [free_reg_st_ok _ j (by simpa using hj)]
    exact ⟨_, Or.inr ⟨rfl, by simp⟩⟩

theorem is_binary_not_stmt {op : Op} (hop : is_binary op = true) :
    op ≠ .A_IF ∧ op ≠ .A_WHILE ∧ op ≠ .A_DOWHILE ∧ op ≠ .A_FOR ∧ op ≠ .A_BREAK ∧
      op ≠ .A_CONTINUE ∧ op ≠ .A_FUNCDEF ∧ op ≠ .A_NUM := by
  cases op <;> simp [is_binary] at hop <;> simp

theorem astgen_num (findsym : CStr → Bool) (mid : GNode) (iv : Int) (sym : CStr)
    (storreg : Int) (s : GState) :
    astgen findsym (.mk .A_NUM .null mid .null .null iv sym) storreg s = load iv s := by
  rw [astgen_mk_expr _ _ _ _ _ _ _ _ _ _ (by decide) (by decide) (by decide) (by decide)
    (by decide) (by decide) (by decide)]
  cases h : load iv s with
  | error e => simp [astgen_expr, astgen_switch, h, bind, Except.bind, pure, Except.pure]
  | ok v => simp [astgen_expr, astgen_switch, h, bind, Except.bind, pure, Except.pure]

theorem astgen_binary (findsym : CStr → Bool) {op : Op} (hop : is_binary op = true)
    {left right : GNode} (hl : left ≠ .null) (hr : right ≠ .null) (mid : GNode) (iv : Int)
    (sym : CStr) (storreg : Int) (s : GState) :
    astgen findsym (.mk op left mid right .null iv sym) storreg s =
      (match astgen findsym left (-1) s with
        | .error e => .error e
        | .ok (lreg, s1) =>
          match astgen findsym right lreg s1 with
          | .error e => .error e
          | .ok (rreg, s2) => astgen_switch findsym op iv sym lreg rreg storreg s2) := by
  obtain ⟨h1, h2, h3, h4, h5, h6, h7, _⟩ := is_binary_not_stmt hop
  rw [astgen_mk_expr _ _ _ _ _ _ _ _ _ _ h1 h2 h3 h4 h5 h6 h7]
  cases e1 : astgen findsym left (-1) s with
  | error e => simp [astgen_expr, hl, e1, bind, Except.bind]
  | ok v =>
    obtain ⟨lreg, s1⟩ := v
    cases e2 : astgen findsym right lreg s1 with
    | error e => simp [astgen_expr, hl, hr, e1, e2, bind, Except.bind]
    | ok w =>
      obtain ⟨rreg, s2⟩ := w
      cases e3 : astgen_switch findsym op iv sym lreg rreg storreg s2 with
      | error e => simp [astgen_expr, hl, hr, e1, e2, e3, bind, Except.bind]
      | ok u => simp [astgen_expr, hl, hr, e1, e2, e3, bind, Except.bind, pure, Except.pure]

theorem expr_peak_num (findsym : CStr → Bool) (mid : GNode) (iv : Int) (sym : CStr)
    (storreg : Int) (s : GState) :
    expr_peak findsym (.mk .A_NUM .null mid .null .null iv sym) storreg s =
      (match load iv s with
        | .error _ => busy_count s.reg_stat
        | .ok (_, s3) => max (busy_count s.reg_stat) (busy_count s3.reg_stat)) := by
  rw [expr_peak]
  simp only [if_true, astgen_switch]

theorem expr_peak_binary (findsym : CStr → Bool) (op : Op)
    {left right : GNode} (hl : left ≠ .null) (hr : right ≠ .null) (mid : GNode) (iv : Int)
    (sym : CStr) (storreg : Int) (s : GState) :
    expr_peak findsym (.mk op left mid right .null iv sym) storreg s =
      (match astgen findsym left (-1) s with
        | .error _ => max (busy_count s.reg_stat) (expr_peak findsym left (-1) s)
        | .ok (lreg, s1) =>
          match astgen findsym right lreg s1 with
          | .error _ => max (max (busy_count s.reg_stat) (expr_peak findsym left (-1) s))
              (expr_peak findsym right lreg s1)
          | .ok (rreg, s2) =>
            match astgen_switch findsym op iv sym lreg rreg storreg s2 with
            | .error _ => max (max (busy_count s.reg_stat) (expr_peak findsym left (-1) s))
                (expr_peak findsym right lreg s1)
            | .ok (_, s3) =>
              max (max (max (busy_count s.reg_stat) (expr_peak findsym left (-1) s))
                (expr_peak findsym right lreg s1)) (busy_count s3.reg_stat)) := by
  rw [expr_peak]
  simp only [hl, hr, if_false, if_true]

theorem need_binary {op : Op} (hop : is_binary op = true) (left mid right next : GNode)
    (iv : Int) (sym : CStr) :
    need (.mk op left mid right next iv sym) = max (need left) (1 + need right) := by
  cases op <;> simp [is_binary] at hop <;> rfl

theorem num_expr_mk {op : Op} {left mid right next : GNode} {iv : Int} {sym : CStr}
    (h : num_expr (.mk op left mid right next iv sym) = true) :
    next = .null ∧ ((op = .A_NUM ∧ left = .null ∧ right = .null) ∨
      (is_binary op = true ∧ num_expr left = true ∧ num_expr right = true)) := by
  simp only [num_expr, Bool.and_eq_true, decide_eq_true_eq] at h
  refine ⟨h.1, ?_⟩
  have h2 := h.2
  cases op <;> simp_all [is_binary]

theorem num_expr_ne_null {e : GNode} (h : num_expr e = true) : e ≠ .null := by
  rintro rfl
  simp [num_expr] at h

theorem peak_leaf (k : Nat) : max k (k + 1) = k + 1 := by
  simp only [Nat.max_def]
  split_ifs <;> omega

theorem peak_binary (k nl nr : Nat) (h : 1 ≤ nl) :
    max (max (max k (k + nl)) (k + 1 + nr)) (k + 1) = k + max nl (1 + nr) := by
  simp only [Nat.max_def]
  split_ifs <;> omega

theorem peak_fail_right (k nl : Nat) (h : k + nl ≤ 4) : max (max k (k + nl)) 4 = 4 := by
  simp only [Nat.max_def]
  split_ifs <;> omega

theorem peak_fail_left (k : Nat) (h : k ≤ 4) : max k 4 = 4 :=
  max_eq_right h

theorem need_fits (k nl nr : Nat) :
    k + max nl (1 + nr) ≤ 4 ↔ k + nl ≤ 4 ∧ k + 1 + nr ≤ 4 := by
  simp only [Nat.max_def]
  split_ifs <;> omega

theorem need_pos (nl nr : Nat) : 1 ≤ max nl (1 + nr) := by
  simp only [Nat.max_def]
  split_ifs <;> omega

/-- What a run of `astgen` on the expression tree `e` does from a pool with
`k` flags set: with `k + need e ≤ 4` it returns a register that was free and
is the one flag set since, and the largest number of flags set during the run
is `k + need e`; otherwise it fails in `alloc_reg` with all four flags set. -/
theorem demand_induction (findsym : CStr → Bool) :
    ∀ e, num_expr e = true → 1 ≤ need e ∧ ∀ (storreg : Int) (s : GState),
      (busy_count s.reg_stat + need e ≤ 4 →
        ∃ (i : Fin 4) (s' : GState), astgen findsym e storreg s = .ok ((i.val : Int), s') ∧
          s.reg_stat i = 0 ∧ s'.reg_stat = Function.update s.reg_stat i 1 ∧
          expr_peak findsym e storreg s = busy_count s.reg_stat + need e) ∧
      (4 < busy_count s.reg_stat + need e →
        astgen findsym e storreg s = .error (.error "out of registers") ∧
          expr_peak findsym e storreg s = 4) := by
  intro e
  induction e with
  | null => intro h; simp [num_expr] at h
  | mk op left mid right next iv sym ihl _ ihr _ =>
    intro h
    obtain ⟨hn, hk⟩ := num_expr_mk h
    subst hn
    rcases hk with ⟨rfl, rfl, rfl⟩ | ⟨hop, hl, hr⟩
    · refine ⟨by simp [need], ?_⟩
      intro storreg s
      have hle := busy_count_le s.reg_stat
      have hneed : need (GNode.mk Op.A_NUM GNode.null mid GNode.null GNode.null iv sym) = 1 :=
        rfl
      rw [hneed, astgen_num, expr_peak_num]
      constructor
      · intro hc
        obtain ⟨i, s', e1, hi, hs'⟩ := load_ok iv s (by omega)
        refine ⟨i, s', e1, hi, hs', ?_⟩
        rw [e1]
        simp only
        rw [hs', busy_count_set _ _ hi]
        exact peak_leaf _
      · intro hc
        have e1 := load_full iv s (by omega)
        refine ⟨e1, ?_⟩
        rw [e1]
        simp only
        omega
    · obtain ⟨nl1, ihl⟩ := ihl hl
      obtain ⟨nr1, ihr⟩ := ihr hr
      have hln := num_expr_ne_null hl
      have hrn := num_expr_ne_null hr
      have hneed := need_binary hop left mid right GNode.null iv sym
      refine ⟨by rw [hneed]; exact need_pos _ _, ?_⟩
      intro storreg s
      have hle := busy_count_le s.reg_stat
      have hfit := need_fits (busy_count s.reg_stat) (need left) (need right)
      rw [hneed, astgen_binary findsym hop hln hrn, expr_peak_binary findsym op hln hrn]
      by_cases c1 : busy_count s.reg_stat + need left ≤ 4
      · obtain ⟨i, s1, e1, hi, hs1, p1⟩ := (ihl (-1) s).1 c1
        have b1 : busy_count s1.reg_stat = busy_count s.reg_stat + 1 := by
          rw [hs1, busy_count_set _ _ hi]
        by_cases c2 : busy_count s.reg_stat + 1 + need right ≤ 4
        · obtain ⟨j, s2, e2, hj, hs2, p2⟩ := (ihr (i.val : Int) s1).1 (by rw [b1]; exact c2)
          have hij : j ≠ i := by
            rintro rfl
            rw [hs1] at hj
            simp at hj
          have hi2 : s2.reg_stat i ≠ 0 := by
            rw [hs2, hs1]
            simp [Function.update, Ne.symm hij]
          have hj2 : s2.reg_stat j ≠ 0 := by
            rw [hs2]
            simp
          have hsj : s.reg_stat j = 0 := by
            rw [hs1] at hj
            simpa [Function.update, hij] using hj
          obtain ⟨s3, ⟨e3, hs3⟩ | ⟨e3, hs3⟩⟩ :=
            switch_binary_ok findsym hop iv sym i j storreg s2 hi2 hj2
          · have hfin : s3.reg_stat = Function.update s.reg_stat j 1 := by
              rw [hs3, hs2, hs1]
              funext k
              by_cases hki : k = i
              · subst hki
                simp [Function.update, Ne.symm hij, hi]
              · by_cases hkj : k = j
                · subst hkj
                  simp [Function.update, hki]
                · simp [Function.update, hki, hkj]
            have b3 : busy_count s3.reg_stat = busy_count s.reg_stat + 1 := by
              rw [hfin, busy_count_set _ _ hsj]
            constructor
            · intro _
              refine ⟨j, s3, by simp only [e1, e2, e3], hsj, hfin, ?_⟩
              simp only [e1, e2, e3, p1, p2, b1, b3]
              exact peak_binary _ _ _ nl1
            · intro hc
              exact absurd (hfit.2 ⟨c1, c2⟩) (by omega)
          · have hfin : s3.reg_stat = Function.update s.reg_stat i 1 := by
              rw [hs3, hs2, hs1]
              funext k
              by_cases hkj : k = j
              · subst hkj
                simp [Function.update, hij, hsj]
              · simp [Function.update, hkj]
            have b3 : busy_count s3.reg_stat = busy_count s.reg_stat + 1 := by
              rw [hfin, busy_count_set _ _ hi]
            constructor
            · intro _
              refine ⟨i, s3, by simp only [e1, e2, e3], hi, hfin, ?_⟩
              simp only [e1, e2, e3, p1, p2, b1, b3]
              exact peak_binary _ _ _ nl1
            · intro hc
              exact absurd (hfit.2 ⟨c1, c2⟩) (by omega)
        · obtain ⟨e2, p2⟩ := (ihr (i.val : Int) s1).2 (by rw [b1]; omega)
          constructor
          · intro hc
            exact absurd (hfit.1 hc).2 c2
          · intro _
            refine ⟨by simp only [e1, e2], ?_⟩
            simp only [e1, e2, p1, p2]
            exact peak_fail_right _ _ c1
      · obtain ⟨e1, p1⟩ := (ihl (-1) s).2 (by omega)
        constructor
        · intro hc
          exact absurd (hfit.1 hc).1 c1
        · intro _
          refine ⟨by simp only [e1], ?_⟩
          simp only [e1, p1]
          exact peak_fail_left _ hle

theorem busy_count_free : busy_count free_all_reg = 0 := by
  simp [busy_count, free_all_reg]

theorem num_expr_left_nested (n : Nat) : num_expr (left_nested n) = true := by
  induction n with
  | zero => rfl
  | succ n ih =>
    simp only [left_nested, g_node, g_num, num_expr, ih]
    rfl

theorem need_left_nested (n : Nat) : need (left_nested n) ≤ 2 := by
  induction n with
  | zero => simp [left_nested, g_num, need]
  | succ n ih =>
    have h : need (left_nested (n + 1)) = max (need (left_nested n)) (1 + 1) := rfl
    rw [h]
    exact max_le ih (le_refl _)

theorem min_need (n : Nat) (h : n ≤ 4) : n = min n 4 := by
  omega

theorem min_four (n : Nat) (h : 4 < n) : 4 = min n 4 := by
  omega

/-- C24: with `need` 1 for a numeric literal and `max (need l) (1 + need r)`
for an operator, for every expression tree `e` over numeric literals `astgen`
started from the all-free pool succeeds exactly when `need e ≤ 4`, fails with
"out of registers" otherwise, and the largest number of flags set during the
run is `min (need e) 4`; a left-nested sum of any length succeeds with at most
two flags set, and the right-nested `1 + (2 + (3 + (4 + 5)))` fails with
"out of registers". -/
theorem register_demand (findsym : CStr → Bool) (e : GNode) (storreg : Int) (s : GState)
    (he : num_expr e = true) (hs : s.reg_stat = free_all_reg) :
    ((∃ r s', astgen findsym e storreg s = .ok (r, s')) ↔ need e ≤ 4) ∧
    (4 < need e → astgen findsym e storreg s = .error (.error "out of registers")) ∧
    expr_peak findsym e storreg s = min (need e) 4 ∧
    (∀ n, (∃ r s', astgen findsym (left_nested n) storreg s = .ok (r, s')) ∧
      expr_peak findsym (left_nested n) storreg s ≤ 2) ∧
    astgen findsym right_nested_five storreg s = .error (.error "out of registers") := by
  have hb : busy_count s.reg_stat = 0 := by rw [hs]; exact busy_count_free
  have key : ∀ e, num_expr e = true →
      (need e ≤ 4 → (∃ r s', astgen findsym e storreg s = .ok (r, s')) ∧
        expr_peak findsym e storreg s = need e) ∧
      (4 < need e → astgen findsym e storreg s = .error (.error "out of registers") ∧
        expr_peak findsym e storreg s = 4) := by
    intro e he
    have h := (demand_induction findsym e he).2 storreg s
    rw [hb, Nat.zero_add] at h
    refine ⟨fun hc => ?_, h.2⟩
    obtain ⟨i, s', e1, _, _, p⟩ := h.1 hc
    exact ⟨⟨_, _, e1⟩, p⟩
  have k := key e he
  refine ⟨⟨?_, fun hc => (k.1 hc).1⟩, fun hc => (k.2 hc).1, ?_, ?_, ?_⟩
  · rintro ⟨r, s', h⟩
    by_contra hc
    rw [(k.2 (by omega)).1] at h
    exact Except.noConfusion h
  · by_cases hc : need e ≤ 4
    · rw [(k.1 hc).2]
      exact min_need _ hc
    · rw [(k.2 (by omega)).2]
      exact min_four _ (by omega)
  · intro n
    have hn := need_left_nested n
    have kn := (key (left_nested n) (num_expr_left_nested n)).1 (by omega)
    exact ⟨kn.1, by rw [kn.2]; exact hn⟩
  · exact ((key right_nested_five rfl).2 (by decide)).1

theorem register_demand_witness :
    num_expr right_nested_four = true ∧ GState.init.reg_stat = free_all_reg ∧
    need right_nested_four = 4 ∧ need right_nested_five = 5 ∧
    (∃ r s', astgen (fun _ => true) right_nested_four 0 GState.init = .ok (r, s')) ∧
    expr_peak (fun _ => true) right_nested_four 0 GState.init = 4 ∧
    expr_peak (fun _ => true) right_nested_five 0 GState.init = 4 ∧
    expr_peak (fun _ => true) (left_nested 7) 0 GState.init = 2 ∧
    astgen (fun _ => true) right_nested_five 0 GState.init =
      .error (.error "out of registers") := by
  have h := register_demand (fun _ => true) right_nested_four 0 GState.init rfl rfl
  have h5 := register_demand (fun _ => true) right_nested_five 0 GState.init rfl rfl
  have n4 : need right_nested_four = 4 := by decide
  have n5 : need right_nested_five = 5 := by decide
  have n7 : need (left_nested 7) = 2 := by decide
  have h7 := register_demand (fun _ => true) (left_nested 7) 0 GState.init
    (num_expr_left_nested 7) rfl
  refine ⟨rfl, rfl, n4, n5, h.1.2 (by omega), ?_, ?_, ?_, h.2.2.2.2⟩
  · rw [h.2.2.1, n4]
    rfl
  · rw [h5.2.2.1, n5]
    rfl
  · rw [h7.2.2.1, n7]
    rfl
/-! ## The conversion-node invariant -/

theorem conv_ok_mk (a : Attrs)
    (next scope_next left right body cond then_ els init post args params locals : Node) :
    conv_ok (.mk a next scope_next left right body cond then_ els init post args params
      locals) = true ↔
      (a.kind = A_CONVERSION → body ≠ .null ∧ a.type ≠ body.type) ∧
      conv_ok next = true ∧ conv_ok scope_next = true ∧ conv_ok left = true ∧
      conv_ok right = true ∧ conv_ok body = true ∧ conv_ok cond = true ∧
      conv_ok then_ = true ∧ conv_ok els = true ∧ conv_ok init = true ∧
      conv_ok post = true ∧ conv_ok args = true ∧ conv_ok params = true ∧
      conv_ok locals = true := by
  simp only [conv_ok, Bool.and_eq_true, Bool.or_eq_true, decide_eq_true_eq, and_assoc]
  constructor
  · rintro ⟨h, r⟩
    refine ⟨fun hk => ?_, r⟩
    rcases h with h | h
    · exact absurd hk h
    · exact h
  · rintro ⟨h, r⟩
    refine ⟨?_, r⟩
    by_cases hk : a.kind = A_CONVERSION
    · exact Or.inr (h hk)
    · exact Or.inl hk

theorem conv_ok_child {n c : Node} (h : conv_ok n = true) (hc : c ∈ children n) :
    conv_ok c = true := by
  cases n with
  | null => simp [children] at hc
  | mk a next scope_next left right body cond then_ els init post args params locals =>
    rw [conv_ok_mk] at h
    simp only [children, List.mem_cons, List.mem_singleton, List.not_mem_nil, or_false] at hc
    obtain ⟨_, h1, h2, h3, h4, h5, h6, h7, h8, h9, h10, h11, h12, h13⟩ := h
    rcases hc with rfl | rfl | rfl | rfl | rfl | rfl | rfl | rfl | rfl | rfl | rfl | rfl | rfl <;>
      assumption

theorem conv_ok_reaches {n m : Node} (h : conv_ok n = true) (hr : Reaches n m) :
    conv_ok m = true := by
  induction hr with
  | here _ => exact h
  | step hc _ ih => exact ih (conv_ok_child h hc)

theorem conv_ok_here {n : Node} (h : conv_ok n = true) (hk : n.kind = A_CONVERSION) :
    n.body ≠ .null ∧ n.type ≠ n.body.type := by
  cases n with
  | null => simp [Node.kind, A_CONVERSION] at hk
  | mk a next scope_next left right body cond then_ els init post args params locals =>
    rw [conv_ok_mk] at h
    exact h.1 hk

theorem state_conv_ok_iff (st : PState) :
    state_conv_ok st = true ↔ conv_ok st.globals = true ∧ conv_ok st.locals = true ∧
      ∀ l ∈ st.scope, conv_ok l = true := by
  simp [state_conv_ok, and_assoc]

theorem state_conv_ok_set_t {st : PState} (t : List Token) (h : state_conv_ok st = true) :
    state_conv_ok (st.set_t t) = true := by
  cases st
  exact h

theorem conv_ok_chain_append {a b : Node} (ha : conv_ok a = true) (hb : conv_ok b = true) :
    conv_ok (chain_append a b) = true := by
  induction a with
  | null => simpa [chain_append] using hb
  | mk a next scope_next left right body cond then_ els init post args params locals
      ih _ _ _ _ _ _ _ _ _ _ _ _ =>
    rw [conv_ok_mk] at ha
    simp only [chain_append]
    rw [conv_ok_mk]
    exact ⟨ha.1, ih ha.2.1, ha.2.2⟩

theorem conv_ok_find_scope (name : CStr) {l : Node} (h : conv_ok l = true) :
    conv_ok (find_scope name l) = true := by
  induction l with
  | null => rfl
  | mk a next scope_next left right body cond then_ els init post args params locals
      _ ih _ _ _ _ _ _ _ _ _ _ _ =>
    simp only [find_scope]
    split
    · exact h
    · rw [conv_ok_mk] at h
      exact ih h.2.2.1

theorem conv_ok_find_global (name : CStr) {l : Node} (h : conv_ok l = true) :
    conv_ok (find_global name l) = true := by
  induction l with
  | null => rfl
  | mk a next scope_next left right body cond then_ els init post args params locals
      ih _ _ _ _ _ _ _ _ _ _ _ _ =>
    simp only [find_global]
    split
    · exact h
    · rw [conv_ok_mk] at h
      exact ih h.2.1

theorem conv_ok_find_var_scopes (name : CStr) {scope : List Node}
    (h : ∀ l ∈ scope, conv_ok l = true) : conv_ok (find_var_scopes name scope) = true := by
  induction scope with
  | nil => rfl
  | cons l outer ih =>
    simp only [find_var_scopes]
    split
    · exact conv_ok_find_scope name (h l (List.mem_cons_self _ _))
    · exact ih (fun x hx => h x (List.mem_cons_of_mem _ hx))

theorem conv_ok_find_var {name : CStr} {globals v : Node} {scope : List Node}
    (hg : conv_ok globals = true) (hs : ∀ l ∈ scope, conv_ok l = true)
    (h : find_var name globals scope = .ok v) : conv_ok v = true := by
  simp only [find_var] at h
  split at h
  · injection h with h
    rw [← h]
    exact conv_ok_find_var_scopes name hs
  · split at h
    · cases h
    · injection h with h
      rw [← h]
      exact conv_ok_find_global name hg

theorem conv_ok_conversion {e : Node} {ty : CType} (he : e ≠ .null) (hty : ty ≠ e.type)
    (hc : conv_ok e = true) : conv_ok ((mkaux A_CONVERSION e).set_type ty) = true := by
  simp only [mkaux, mknode, Node.set_body, Node.set_type]
  rw [conv_ok_mk]
  exact ⟨fun _ => ⟨he, hty⟩, rfl, rfl, rfl, rfl, hc, rfl, rfl, rfl, rfl, rfl, rfl, rfl, rfl⟩

theorem conv_ok_wrap {e : Node} {ty : CType} (he : e ≠ .null) (hc : conv_ok e = true) :
    conv_ok (if e.type ≠ ty then (mkaux A_CONVERSION e).set_type ty else e) = true := by
  split
  · rename_i h
    exact conv_ok_conversion he (fun h2 => h h2.symm) hc
  · exact hc

theorem conv_ok_binary_node {k : Int} {ty : CType} {l r : Node} (hk : k ≠ A_CONVERSION)
    (hl : conv_ok l = true) (hr : conv_ok r = true) :
    conv_ok ((((mknode k).set_type ty).set_left l).set_right r) = true := by
  simp only [mknode, Node.set_type, Node.set_left, Node.set_right]
  rw [conv_ok_mk]
  exact ⟨fun h => absurd h hk, rfl, rfl, hl, hr, rfl, rfl, rfl, rfl, rfl, rfl, rfl, rfl, rfl⟩

theorem mkbinary_operands {uac : CType → CType → CType} {k : Int} {l r n : Node}
    (h : mkbinary uac k l r = .ok n) : l ≠ .null ∧ r ≠ .null := by
  constructor
  · rintro rfl
    simp [mkbinary, Node.attrs] at h
  · rintro rfl
    cases l <;> simp [mkbinary, Node.attrs] at h

theorem conv_ok_mkbinary {uac : CType → CType → CType} {k : Int} {l r n : Node}
    (hk : k ≠ A_CONVERSION) (hl : conv_ok l = true) (hr : conv_ok r = true)
    (h : mkbinary uac k l r = .ok n) : conv_ok n = true := by
  obtain ⟨nl, nr⟩ := mkbinary_operands h
  by_cases ha : k = A_ASSIGN
  · subst ha
    rw [mkbinary_assign_eq uac l r nl nr] at h
    injection h with h
    subst h
    refine conv_ok_binary_node hk hl ?_
    split
    · rename_i hne
      exact conv_ok_conversion nr hne hr
    · exact hr
  · rw [mkbinary_other_eq uac k l r ha nl nr] at h
    injection h with h
    subst h
    exact conv_ok_binary_node hk (conv_ok_wrap nl hl) (conv_ok_wrap nr hr)

theorem conv_ok_mklist {e : Node} (h : conv_ok e = true) : conv_ok (mklist e) = true := by
  simp only [mklist, mkaux, mknode, Node.set_body]
  rw [conv_ok_mk]
  exact ⟨fun hk => absurd hk (by decide), rfl, rfl, rfl, rfl, h, rfl, rfl, rfl, rfl, rfl, rfl,
    rfl, rfl⟩

theorem primary_conv_step (uac : CType → CType → CType) (globals : Node) (scope : List Node)
    (fuel : Nat) (hg : conv_ok globals = true) (hs : ∀ l ∈ scope, conv_ok l = true)
    (ih1 : ExprConv (arg_list uac globals scope fuel))
    (ih2 : ExprConv (eq_expr uac globals scope fuel)) :
    ExprConv (primary uac globals scope (fuel + 1)) := by
  intro t n t' h
  simp only [primary, bind_eq_ok, Prod.exists] at h
  obtain ⟨num, t1, h1, h⟩ := h
  cases num with
  | some tok =>
    simp only [pure_eq_ok, Prod.mk.injEq] at h
    rw [← h.1]
    simp [mknode, Node.set_type, Node.set_intvalue, conv_ok_mk, conv_ok]
  | none =>
    simp only [bind_eq_ok, Prod.exists] at h
    obtain ⟨id, t2, h2, h⟩ := h
    cases id with
    | some tok =>
      simp only [bind_eq_ok, Prod.exists] at h
      obtain ⟨b, hb, h⟩ := h
      cases b with
      | true =>
        simp only [if_true, bind_eq_ok, Prod.exists] at h
        obtain ⟨args, t3, h3, h⟩ := h
        have ha := ih1 _ _ _ h3
        split at h
        · cases h
        · split at h
          · cases h
          · simp only [pure_eq_ok, Prod.mk.injEq] at h
            rw [← h.1]
            simp only [mknode, Node.set_type, Node.set_callee_name, Node.set_args]
            rw [conv_ok_mk]
            exact ⟨fun hk => absurd hk (show A_FUNC_CALL ≠ A_CONVERSION by decide), rfl, rfl,
              rfl, rfl, rfl, rfl, rfl, rfl, rfl, rfl, ha, rfl, rfl⟩
      | false =>
        simp only [Bool.false_eq_true, if_false, bind_eq_ok] at h
        obtain ⟨v, hv, h⟩ := h
        split at h
        · cases h
        · simp only [pure_eq_ok, Prod.mk.injEq] at h
          rw [← h.1]
          exact conv_ok_find_var hg hs hv
    | none =>
      simp only [bind_eq_ok, Prod.exists] at h
      obtain ⟨par, t3, h3, h⟩ := h
      cases par with
      | some _ =>
        simp only [bind_eq_ok, Prod.exists, pure_eq_ok, Prod.mk.injEq] at h
        obtain ⟨m, t4, h4, _, t5, _, h⟩ := h
        rw [← h.1]
        exact ih2 _ _ _ h4
      | none => cases h

theorem arg_list_loop_conv_step (uac : CType → CType → CType) (globals : Node)
    (scope : List Node) (fuel : Nat)
    (ih1 : ExprConv (expression uac globals scope fuel))
    (ih2 : LoopConv (arg_list_loop uac globals scope fuel)) :
    LoopConv (arg_list_loop uac globals scope (fuel + 1)) := by
  intro n0 t n t' h0 h
  simp only [arg_list_loop, bind_eq_ok, Prod.exists] at h
  obtain ⟨c, t1, _, h⟩ := h
  cases c with
  | some _ =>
    simp only [pure_eq_ok, Prod.mk.injEq] at h
    rw [← h.1]
    exact h0
  | none =>
    simp only [bind_eq_ok, Prod.exists] at h
    obtain ⟨e, t2, he, b, _, h⟩ := h
    have hh : conv_ok (list_insert n0 (mklist e)) = true :=
      conv_ok_chain_append h0 (conv_ok_mklist (ih1 _ _ _ he))
    cases b with
    | true =>
      simp only [if_true] at h
      exact ih2 _ _ _ _ hh h
    | false =>
      simp only [Bool.false_eq_true, if_false, bind_eq_ok, Prod.exists] at h
      obtain ⟨_, t3, _, h⟩ := h
      exact ih2 _ _ _ _ hh h

theorem arg_list_conv_step (uac : CType → CType → CType) (globals : Node)
    (scope : List Node) (fuel : Nat)
    (ih : LoopConv (arg_list_loop uac globals scope fuel)) :
    ExprConv (arg_list uac globals scope (fuel + 1)) := by
  intro t n t' h
  simp only [arg_list, bind_eq_ok, Prod.exists] at h
  obtain ⟨_, t1, _, h⟩ := h
  exact ih _ _ _ _ (conv_ok_mklist (e := .null) rfl) h

theorem mul_expr_loop_conv_step (uac : CType → CType → CType) (globals : Node)
    (scope : List Node) (fuel : Nat)
    (ih1 : ExprConv (primary uac globals scope fuel))
    (ih2 : LoopConv (mul_expr_loop uac globals scope fuel)) :
    LoopConv (mul_expr_loop uac globals scope (fuel + 1)) := by
  intro n0 t n t' h0 h
  simp only [mul_expr_loop, bind_eq_ok, Prod.exists] at h
  obtain ⟨c, t1, _, h⟩ := h
  cases c with
  | some _ =>
    simp only [bind_eq_ok, Prod.exists] at h
    obtain ⟨r, t2, hr, m, hm, h⟩ := h
    exact ih2 _ _ _ _ (conv_ok_mkbinary (by decide) h0 (ih1 _ _ _ hr) hm) h
  | none =>
    simp only [bind_eq_ok, Prod.exists] at h
    obtain ⟨c, t1, _, h⟩ := h
    cases c with
    | some _ =>
      simp only [bind_eq_ok, Prod.exists] at h
      obtain ⟨r, t2, hr, m, hm, h⟩ := h
      exact ih2 _ _ _ _ (conv_ok_mkbinary (by decide) h0 (ih1 _ _ _ hr) hm) h
    | none =>
      simp only [pure_eq_ok, Prod.mk.injEq] at h
      rw [← h.1]
      exact h0

theorem sum_expr_loop_conv_step (uac : CType → CType → CType) (globals : Node)
    (scope : List Node) (fuel : Nat)
    (ih1 : ExprConv (mul_expr uac globals scope fuel))
    (ih2 : LoopConv (sum_expr_loop uac globals scope fuel)) :
    LoopConv (sum_expr_loop uac globals scope (fuel + 1)) := by
  intro n0 t n t' h0 h
  simp only [sum_expr_loop, bind_eq_ok, Prod.exists] at h
  obtain ⟨c, t1, _, h⟩ := h
  cases c with
  | some _ =>
    simp only [bind_eq_ok, Prod.exists] at h
    obtain ⟨r, t2, hr, m, hm, h⟩ := h
    exact ih2 _ _ _ _ (conv_ok_mkbinary (by decide) h0 (ih1 _ _ _ hr) hm) h
  | none =>
    simp only [bind_eq_ok, Prod.exists] at h
    obtain ⟨c, t1, _, h⟩ := h
    cases c with
    | some _ =>
      simp only [bind_eq_ok, Prod.exists] at h
      obtain ⟨r, t2, hr, m, hm, h⟩ := h
      exact ih2 _ _ _ _ (conv_ok_mkbinary (by decide) h0 (ih1 _ _ _ hr) hm) h
    | none =>
      simp only [pure_eq_ok, Prod.mk.injEq] at h
      rw [← h.1]
      exact h0

theorem rel_expr_loop_conv_step (uac : CType → CType → CType) (globals : Node)
    (scope : List Node) (fuel : Nat)
    (ih1 : ExprConv (sum_expr uac globals scope fuel))
    (ih2 : LoopConv (rel_expr_loop uac globals scope fuel)) :
    LoopConv (rel_expr_loop uac globals scope (fuel + 1)) := by
  intro n0 t n t' h0 h
  simp only [rel_expr_loop, bind_eq_ok, Prod.exists] at h
  obtain ⟨c, t1, _, h⟩ := h
  cases c with
  | some _ =>
    simp only [bind_eq_ok, Prod.exists] at h
    obtain ⟨r, t2, hr, m, hm, h⟩ := h
    exact ih2 _ _ _ _ (conv_ok_mkbinary (by decide) h0 (ih1 _ _ _ hr) hm) h
  | none =>
    simp only [bind_eq_ok, Prod.exists] at h
    obtain ⟨c, t1, _, h⟩ := h
    cases c with
    | some _ =>
      simp only [bind_eq_ok, Prod.exists] at h
      obtain ⟨r, t2, hr, m, hm, h⟩ := h
      exact ih2 _ _ _ _ (conv_ok_mkbinary (by decide) h0 (ih1 _ _ _ hr) hm) h
    | none =>
      simp only [bind_eq_ok, Prod.exists] at h
      obtain ⟨c, t1, _, h⟩ := h
      cases c with
      | some _ =>
        simp only [bind_eq_ok, Prod.exists] at h
        obtain ⟨r, t2, hr, m, hm, h⟩ := h
        exact ih2 _ _ _ _ (conv_ok_mkbinary (by decide) h0 (ih1 _ _ _ hr) hm) h
      | none =>
        simp only [bind_eq_ok, Prod.exists] at h
        obtain ⟨c, t1, _, h⟩ := h
        cases c with
        | some _ =>
          simp only [bind_eq_ok, Prod.exists] at h
          obtain ⟨r, t2, hr, m, hm, h⟩ := h
          exact ih2 _ _ _ _ (conv_ok_mkbinary (by decide) h0 (ih1 _ _ _ hr) hm) h
        | none =>
          simp only [pure_eq_ok, Prod.mk.injEq] at h
          rw [← h.1]
          exact h0

theorem eq_expr_loop_conv_step (uac : CType → CType → CType) (globals : Node)
    (scope : List Node) (fuel : Nat)
    (ih1 : ExprConv (rel_expr uac globals scope fuel))
    (ih2 : LoopConv (eq_expr_loop uac globals scope fuel)) :
    LoopConv (eq_expr_loop uac globals scope (fuel + 1)) := by
  intro n0 t n t' h0 h
  simp only [eq_expr_loop, bind_eq_ok, Prod.exists] at h
  obtain ⟨c, t1, _, h⟩ := h
  cases c with
  | some _ =>
    simp only [bind_eq_ok, Prod.exists] at h
    obtain ⟨r, t2, hr, m, hm, h⟩ := h
    exact ih2 _ _ _ _ (conv_ok_mkbinary (by decide) h0 (ih1 _ _ _ hr) hm) h
  | none =>
    simp only [bind_eq_ok, Prod.exists] at h
    obtain ⟨c, t1, _, h⟩ := h
    cases c with
    | some _ =>
      simp only [bind_eq_ok, Prod.exists] at h
      obtain ⟨r, t2, hr, m, hm, h⟩ := h
      exact ih2 _ _ _ _ (conv_ok_mkbinary (by decide) h0 (ih1 _ _ _ hr) hm) h
    | none =>
      simp only [pure_eq_ok, Prod.mk.injEq] at h
      rw [← h.1]
      exact h0

theorem mul_expr_conv_step (uac : CType → CType → CType) (globals : Node)
    (scope : List Node) (fuel : Nat)
    (ih1 : ExprConv (primary uac globals scope fuel))
    (ih2 : LoopConv (mul_expr_loop uac globals scope fuel)) :
    ExprConv (mul_expr uac globals scope (fuel + 1)) := by
  intro t n t' h
  simp only [mul_expr, bind_eq_ok, Prod.exists] at h
  obtain ⟨m, t1, hm, h⟩ := h
  exact ih2 _ _ _ _ (ih1 _ _ _ hm) h

theorem sum_expr_conv_step (uac : CType → CType → CType) (globals : Node)
    (scope : List Node) (fuel : Nat)
    (ih1 : ExprConv (mul_expr uac globals scope fuel))
    (ih2 : LoopConv (sum_expr_loop uac globals scope fuel)) :
    ExprConv (sum_expr uac globals scope (fuel + 1)) := by
  intro t n t' h
  simp only [sum_expr, bind_eq_ok, Prod.exists] at h
  obtain ⟨m, t1, hm, h⟩ := h
  exact ih2 _ _ _ _ (ih1 _ _ _ hm) h

theorem rel_expr_conv_step (uac : CType → CType → CType) (globals : Node)
    (scope : List Node) (fuel : Nat)
    (ih1 : ExprConv (sum_expr uac globals scope fuel))
    (ih2 : LoopConv (rel_expr_loop uac globals scope fuel)) :
    ExprConv (rel_expr uac globals scope (fuel + 1)) := by
  intro t n t' h
  simp only [rel_expr, bind_eq_ok, Prod.exists] at h
  obtain ⟨m, t1, hm, h⟩ := h
  exact ih2 _ _ _ _ (ih1 _ _ _ hm) h

theorem eq_expr_conv_step (uac : CType → CType → CType) (globals : Node)
    (scope : List Node) (fuel : Nat)
    (ih1 : ExprConv (rel_expr uac globals scope fuel))
    (ih2 : LoopConv (eq_expr_loop uac globals scope fuel)) :
    ExprConv (eq_expr uac globals scope (fuel + 1)) := by
  intro t n t' h
  simp only [eq_expr, bind_eq_ok, Prod.exists] at h
  obtain ⟨m, t1, hm, h⟩ := h
  exact ih2 _ _ _ _ (ih1 _ _ _ hm) h

theorem assign_expr_conv_step (uac : CType → CType → CType) (globals : Node)
    (scope : List Node) (fuel : Nat)
    (ih1 : ExprConv (eq_expr uac globals scope fuel))
    (ih2 : ExprConv (expression uac globals scope fuel)) :
    ExprConv (assign_expr uac globals scope (fuel + 1)) := by
  intro t n t' h
  simp only [assign_expr, bind_eq_ok, Prod.exists] at h
  obtain ⟨m, t1, hm, b, _, h⟩ := h
  split at h
  · simp only [pure_eq_ok, Prod.mk.injEq] at h
    rw [← h.1]
    exact ih1 _ _ _ hm
  · split at h
    · cases h
    · rename_i hk
      simp only [bind_eq_ok, Prod.exists, pure_eq_ok, Prod.mk.injEq] at h
      obtain ⟨_, _, _, r, t3, hr, a, ha, h⟩ := h
      rw [← h.1]
      rw [set_kind_self m (by simpa using hk)] at ha
      exact conv_ok_mkbinary (by decide) (ih1 _ _ _ hm) (ih2 _ _ _ hr) ha

/-- Every expression function, called with lists that satisfy `conv_ok`,
returns only nodes that satisfy it. -/
theorem expr_conv (uac : CType → CType → CType) (globals : Node) (scope : List Node)
    (hg : conv_ok globals = true) (hs : ∀ l ∈ scope, conv_ok l = true) (fuel : Nat) :
    ExprConv (primary uac globals scope fuel) ∧
    LoopConv (arg_list_loop uac globals scope fuel) ∧
    ExprConv (arg_list uac globals scope fuel) ∧
    LoopConv (mul_expr_loop uac globals scope fuel) ∧
    ExprConv (mul_expr uac globals scope fuel) ∧
    LoopConv (sum_expr_loop uac globals scope fuel) ∧
    ExprConv (sum_expr uac globals scope fuel) ∧
    LoopConv (rel_expr_loop uac globals scope fuel) ∧
    ExprConv (rel_expr uac globals scope fuel) ∧
    LoopConv (eq_expr_loop uac globals scope fuel) ∧
    ExprConv (eq_expr uac globals scope fuel) ∧
    ExprConv (assign_expr uac globals scope fuel) ∧
    ExprConv (expression uac globals scope fuel) := by
  induction fuel with
  | zero =>
    refine ⟨?_, ?_, ?_, ?_, ?_, ?_, ?_, ?_, ?_, ?_, ?_, ?_, ?_⟩ <;> intro _ _ _ <;>
      simp [primary, arg_list_loop, arg_list, mul_expr_loop, mul_expr, sum_expr_loop, sum_expr,
        rel_expr_loop, rel_expr, eq_expr_loop, eq_expr, assign_expr, expression]
  | succ fuel ih =>
    obtain ⟨i1, i2, i3, i4, i5, i6, i7, i8, i9, i10, i11, i12, i13⟩ := ih
    refine ⟨primary_conv_step uac globals scope fuel hg hs i3 i11,
      arg_list_loop_conv_step uac globals scope fuel i13 i2,
      arg_list_conv_step uac globals scope fuel i2,
      mul_expr_loop_conv_step uac globals scope fuel i1 i4,
      mul_expr_conv_step uac globals scope fuel i1 i4,
      sum_expr_loop_conv_step uac globals scope fuel i5 i6,
      sum_expr_conv_step uac globals scope fuel i5 i6,
      rel_expr_loop_conv_step uac globals scope fuel i7 i8,
      rel_expr_conv_step uac globals scope fuel i7 i8,
      eq_expr_loop_conv_step uac globals scope fuel i9 i10,
      eq_expr_conv_step uac globals scope fuel i9 i10,
      assign_expr_conv_step uac globals scope fuel i11 i13, ?_⟩
    intro t n t' h
    simp only [expression] at h
    exact i12 _ _ _ h

theorem expect_st_conv {kind : TK} {st st' : PState} {c : Token}
    (hk : state_conv_ok st = true) (h : expect_st kind st = .ok (c, st')) :
    state_conv_ok st' = true := by
  simp only [expect_st, bind_eq_ok, Prod.exists, pure_eq_ok, Prod.mk.injEq] at h
  obtain ⟨_, t, _, _, rfl⟩ := h
  exact state_conv_ok_set_t t hk

theorem consume_st_conv {kind : TK} {st st' : PState} {c : Option Token}
    (hk : state_conv_ok st = true) (h : consume_st kind st = .ok (c, st')) :
    state_conv_ok st' = true := by
  simp only [consume_st, bind_eq_ok, Prod.exists, pure_eq_ok, Prod.mk.injEq] at h
  obtain ⟨_, t, _, _, rfl⟩ := h
  exact state_conv_ok_set_t t hk

theorem with_tokens_conv {f : Node → List Node → List Token → Except Failure (Node × List Token)}
    {st st' : PState} {n : Node}
    (hf : ∀ g s, conv_ok g = true → (∀ l ∈ s, conv_ok l = true) → ExprConv (f g s))
    (hk : state_conv_ok st = true) (h : with_tokens f st = .ok (n, st')) :
    conv_ok n = true ∧ state_conv_ok st' = true := by
  simp only [with_tokens, bind_eq_ok, Prod.exists, pure_eq_ok, Prod.mk.injEq] at h
  obtain ⟨m, t, h1, rfl, rfl⟩ := h
  have k := (state_conv_ok_iff st).1 hk
  exact ⟨hf _ _ k.1 k.2.2 _ _ _ h1, state_conv_ok_set_t t hk⟩

theorem expression_conv (uac : CType → CType → CType) (fuel : Nat) (g : Node) (s : List Node)
    (hg : conv_ok g = true) (hs : ∀ l ∈ s, conv_ok l = true) :
    ExprConv (expression uac g s fuel) :=
  (expr_conv uac g s hg hs fuel).2.2.2.2.2.2.2.2.2.2.2.2

theorem eq_expr_conv (uac : CType → CType → CType) (fuel : Nat) (g : Node) (s : List Node)
    (hg : conv_ok g = true) (hs : ∀ l ∈ s, conv_ok l = true) :
    ExprConv (eq_expr uac g s fuel) :=
  (expr_conv uac g s hg hs fuel).2.2.2.2.2.2.2.2.2.2.1

theorem conv_ok_mkvar (name : CStr) (ty : CType) (ig : Int) {nx sn : Node}
    (h1 : conv_ok nx = true) (h2 : conv_ok sn = true) :
    conv_ok ((((mkvar name ty).set_is_global ig).set_next nx).set_scope_next sn) = true := by
  simp only [mkvar, mknode, Node.set_name, Node.set_type, Node.set_is_global, Node.set_next,
    Node.set_scope_next]
  rw [conv_ok_mk]
  exact ⟨fun hk => absurd hk (show A_VAR ≠ A_CONVERSION by decide), h1, h2, rfl, rfl, rfl, rfl,
    rfl, rfl, rfl, rfl, rfl, rfl, rfl⟩

theorem mklvar_conv {name : CStr} {ty : CType} {st st' : PState} {n : Node}
    (hk : state_conv_ok st = true) (h : mklvar name ty st = .ok (n, st')) :
    conv_ok n = true ∧ state_conv_ok st' = true := by
  obtain ⟨list, outer, hs, _, hn, rfl⟩ := mklvar_ok h
  have k := (state_conv_ok_iff st).1 hk
  rw [hs] at k
  have c : conv_ok n = true := by
    rw [hn]
    exact conv_ok_mkvar name ty 0 k.2.1 (k.2.2 list (List.mem_cons_self _ _))
  refine ⟨c, (state_conv_ok_iff _).2 ⟨?_, ?_, ?_⟩⟩
  · simpa using k.1
  · simpa using c
  · intro l hl
    simp only [PState.scope_set_scope, List.mem_cons] at hl
    rcases hl with rfl | hl
    · exact c
    · exact k.2.2 l (List.mem_cons_of_mem _ hl)

theorem mkgvar_conv {name : CStr} {ty : CType} {st st' : PState} {n : Node}
    (hk : state_conv_ok st = true) (h : mkgvar name ty st = .ok (n, st')) :
    conv_ok n = true ∧ state_conv_ok st' = true := by
  have k := (state_conv_ok_iff st).1 hk
  simp only [mkgvar] at h
  split at h
  · cases h
  · simp only [Except.ok.injEq, Prod.mk.injEq] at h
    obtain ⟨rfl, rfl⟩ := h
    have c : conv_ok (((mkvar name ty).set_is_global 1).set_next st.globals) = true := by
      simp only [mkvar, mknode, Node.set_name, Node.set_type, Node.set_is_global, Node.set_next]
      rw [conv_ok_mk]
      exact ⟨fun hk => absurd hk (show A_VAR ≠ A_CONVERSION by decide), k.1, rfl, rfl, rfl, rfl,
        rfl, rfl, rfl, rfl, rfl, rfl, rfl, rfl⟩
    refine ⟨c, (state_conv_ok_iff _).2 ⟨?_, ?_, ?_⟩⟩
    · simpa using c
    · simpa using k.2.1
    · simpa using k.2.2

theorem declaration_conv : StmtConv declaration := by
  intro st n st' hk h
  simp only [declaration, bind_eq_ok, Prod.exists] at h
  obtain ⟨ty, t, _, tok, st1, h1, v, st2, h2, _, st3, h3, h⟩ := h
  simp only [pure_eq_ok, Prod.mk.injEq] at h
  have k1 := expect_st_conv (state_conv_ok_set_t t hk) h1
  have k2 : state_conv_ok st2 = true := by
    split at h2
    · exact (mklvar_conv k1 h2).2
    · exact (mkgvar_conv k1 h2).2
  rw [← h.1, ← h.2]
  exact ⟨rfl, expect_st_conv k2 h3⟩

theorem enter_scope_conv {st : PState} (hk : state_conv_ok st = true) :
    state_conv_ok (enter_scope st) = true := by
  have k := (state_conv_ok_iff st).1 hk
  refine (state_conv_ok_iff _).2 ⟨by simpa [enter_scope] using k.1,
    by simpa [enter_scope] using k.2.1, ?_⟩
  intro l hl
  simp only [enter_scope, PState.scope_set_scope, List.mem_cons] at hl
  rcases hl with rfl | hl
  · rfl
  · exact k.2.2 l hl

theorem exit_scope_conv {st st' : PState} (hk : state_conv_ok st = true)
    (h : exit_scope st = .ok st') : state_conv_ok st' = true := by
  obtain ⟨list, outer, hs, rfl⟩ := exit_scope_ok h
  have k := (state_conv_ok_iff st).1 hk
  rw [hs] at k
  refine (state_conv_ok_iff _).2 ⟨by simpa using k.1, by simpa using k.2.1, ?_⟩
  intro l hl
  simp only [PState.scope_set_scope] at hl
  exact k.2.2 l (List.mem_cons_of_mem _ hl)

theorem conv_ok_mkaux {k : Int} {e : Node} (hk : k ≠ A_CONVERSION) (h : conv_ok e = true) :
    conv_ok (mkaux k e) = true := by
  simp only [mkaux, mknode, Node.set_body]
  rw [conv_ok_mk]
  exact ⟨fun h2 => absurd h2 hk, rfl, rfl, rfl, rfl, h, rfl, rfl, rfl, rfl, rfl, rfl, rfl, rfl⟩

theorem expr_stat_conv (uac : CType → CType → CType) (fuel : Nat) :
    StmtConv (expr_stat uac fuel) := by
  intro st n st' hk h
  simp only [expr_stat, bind_eq_ok, Prod.exists] at h
  obtain ⟨semi, st1, h1, h⟩ := h
  have k1 := consume_st_conv hk h1
  cases semi with
  | some _ =>
    simp only [pure_eq_ok, Prod.mk.injEq] at h
    rw [← h.1, ← h.2]
    exact ⟨rfl, k1⟩
  | none =>
    simp only [bind_eq_ok, Prod.exists, pure_eq_ok, Prod.mk.injEq] at h
    obtain ⟨e, st2, h2, _, st3, h3, rfl, rfl⟩ := h
    have k2 := with_tokens_conv (expression_conv uac fuel) k1 h2
    exact ⟨conv_ok_mkaux (by decide) k2.1, expect_st_conv k2.2 h3⟩

theorem statement_conv_step (uac : CType → CType → CType) (fuel : Nat)
    (ih_comp : StmtConv (comp_stat uac fuel)) (ih_if : StmtConv (if_stat uac fuel))
    (ih_while : StmtConv (while_stat uac fuel)) (ih_do : StmtConv (dowhile_stat uac fuel))
    (ih_for : StmtConv (for_stat uac fuel)) : StmtConv (statement uac (fuel + 1)) := by
  intro st n st' hk h
  rw [statement] at h
  simp only [bind_eq_ok, Prod.exists] at h
  obtain ⟨b, _, h⟩ := h
  by_cases hb : b = true
  · rw [if_pos hb] at h; exact ih_comp _ _ _ hk h
  rw [if_neg hb] at h
  simp only [bind_eq_ok, Prod.exists] at h
  obtain ⟨c, st1, h1, h⟩ := h
  have k1 := consume_st_conv hk h1
  by_cases hc : c.isSome = true
  · rw [if_pos hc] at h
    simp only [bind_eq_ok, Prod.exists, pure_eq_ok, Prod.mk.injEq] at h
    obtain ⟨e, st2, h2, _, st3, h3, rfl, rfl⟩ := h
    have k2 := with_tokens_conv (expression_conv uac fuel) k1 h2
    refine ⟨?_, expect_st_conv k2.2 h3⟩
    have ha : conv_ok (list_insert (mklist .null) (mklist e)) = true :=
      conv_ok_chain_append (conv_ok_mklist (e := .null) rfl) (conv_ok_mklist k2.1)
    simp only [mknode, Node.set_args, Node.set_callee_name, Node.set_type]
    rw [conv_ok_mk]
    exact ⟨fun hk => absurd hk (show A_FUNC_CALL ≠ A_CONVERSION by decide), rfl, rfl, rfl, rfl,
      rfl, rfl, rfl, rfl, rfl, rfl, ha, rfl, rfl⟩
  rw [if_neg hc] at h
  simp only [bind_eq_ok, Prod.exists] at h
  obtain ⟨b, _, h⟩ := h
  by_cases hb : b = true
  · rw [if_pos hb] at h; exact ih_if _ _ _ k1 h
  rw [if_neg hb] at h
  simp only [bind_eq_ok, Prod.exists] at h
  obtain ⟨b, _, h⟩ := h
  by_cases hb : b = true
  · rw [if_pos hb] at h; exact ih_while _ _ _ k1 h
  rw [if_neg hb] at h
  simp only [bind_eq_ok, Prod.exists] at h
  obtain ⟨b, _, h⟩ := h
  by_cases hb : b = true
  · rw [if_pos hb] at h; exact ih_do _ _ _ k1 h
  rw [if_neg hb] at h
  simp only [bind_eq_ok, Prod.exists] at h
  obtain ⟨b, _, h⟩ := h
  by_cases hb : b = true
  · rw [if_pos hb] at h; exact ih_for _ _ _ k1 h
  rw [if_neg hb] at h
  simp only [bind_eq_ok, Prod.exists] at h
  obtain ⟨c, st2, h2, h⟩ := h
  have k2 := consume_st_conv k1 h2
  by_cases hc : c.isSome = true
  · rw [if_pos hc] at h
    simp only [bind_eq_ok, Prod.exists, pure_eq_ok, Prod.mk.injEq] at h
    obtain ⟨_, st3, h3, rfl, rfl⟩ := h
    exact ⟨rfl, expect_st_conv k2 h3⟩
  rw [if_neg hc] at h
  simp only [bind_eq_ok, Prod.exists] at h
  obtain ⟨c, st3, h3, h⟩ := h
  have k3 := consume_st_conv k2 h3
  by_cases hc : c.isSome = true
  · rw [if_pos hc] at h
    simp only [bind_eq_ok, Prod.exists, pure_eq_ok, Prod.mk.injEq] at h
    obtain ⟨_, st4, h4, rfl, rfl⟩ := h
    exact ⟨rfl, expect_st_conv k3 h4⟩
  rw [if_neg hc] at h
  simp only [bind_eq_ok, Prod.exists] at h
  obtain ⟨c, st4, h4, h⟩ := h
  have k4 := consume_st_conv k3 h4
  by_cases hc : c.isSome = true
  · rw [if_pos hc] at h
    simp only [bind_eq_ok, Prod.exists] at h
    obtain ⟨semi, st5, h5, h⟩ := h
    have k5 := consume_st_conv k4 h5
    by_cases hs : semi.isSome = true
    · rw [if_pos hs] at h
      simp only [pure_eq_ok, Prod.mk.injEq] at h
      rw [← h.1, ← h.2]
      exact ⟨rfl, k5⟩
    · rw [if_neg hs] at h
      simp only [bind_eq_ok, Prod.exists] at h
      obtain ⟨e, st6, h6, h⟩ := h
      have k6 := with_tokens_conv (expression_conv uac fuel) k5 h6
      split at h
      · rename_i ea ga hea hga
        simp only [bind_eq_ok, Prod.exists, pure_eq_ok, Prod.mk.injEq] at h
        obtain ⟨_, st7, h7, rfl, rfl⟩ := h
        refine ⟨?_, expect_st_conv k6.2 h7⟩
        have he : e ≠ .null := by
          rintro rfl; simp [Node.attrs] at hea
        have hty : e.type = ea.type := by
          cases e with
          | null => exact absurd rfl he
          | mk _ _ _ _ _ _ _ _ _ _ _ _ _ _ =>
            simp only [Node.attrs, Option.some.injEq] at hea
            simp [Node.type, hea]
        have hb : conv_ok (if ea.type ≠ ga.type then (mkaux A_CONVERSION e).set_type ga.type
            else e) = true := by
          rw [← hty]
          exact conv_ok_wrap he k6.1
        simp only [mknode, Node.set_body]
        rw [conv_ok_mk]
        exact ⟨fun hk => absurd hk (show A_RETURN ≠ A_CONVERSION by decide), rfl, rfl, rfl, rfl,
          hb, rfl, rfl, rfl, rfl, rfl, rfl, rfl, rfl⟩
      · cases h
  · rw [if_neg hc] at h
    exact expr_stat_conv uac fuel _ _ _ k4 h

theorem comp_stat_loop_conv_step (uac : CType → CType → CType) (fuel : Nat)
    (ih_loop : ∀ body st n st', conv_ok body = true → state_conv_ok st = true →
      comp_stat_loop uac fuel body st = .ok (n, st') →
      conv_ok n = true ∧ state_conv_ok st' = true)
    (ih_stmt : StmtConv (statement uac fuel)) :
    ∀ body st n st', conv_ok body = true → state_conv_ok st = true →
      comp_stat_loop uac (fuel + 1) body st = .ok (n, st') →
      conv_ok n = true ∧ state_conv_ok st' = true := by
  intro body st n st' hb hk h
  rw [comp_stat_loop] at h
  split at h
  · cases h
  · rename_i c rest ht
    by_cases hc : c.kind ≠ TK_CLOSING_BRACES
    · rw [if_pos hc] at h
      simp only [bind_eq_ok, Prod.exists] at h
      obtain ⟨n1, st1, h1, h⟩ := h
      have b1 : conv_ok n1 = true ∧ state_conv_ok st1 = true := by
        split at h1
        · exact declaration_conv _ _ _ hk h1
        · exact ih_stmt _ _ _ hk h1
      exact ih_loop _ _ _ _ (conv_ok_chain_append hb b1.1) b1.2 h
    · rw [if_neg hc] at h
      simp only [pure_eq_ok, Prod.mk.injEq] at h
      rw [← h.1, ← h.2]
      exact ⟨hb, hk⟩

theorem comp_stat_conv_step (uac : CType → CType → CType) (fuel : Nat)
    (ih_loop : ∀ body st n st', conv_ok body = true → state_conv_ok st = true →
      comp_stat_loop uac fuel body st = .ok (n, st') →
      conv_ok n = true ∧ state_conv_ok st' = true) :
    StmtConv (comp_stat uac (fuel + 1)) := by
  intro st n st' hk h
  rw [comp_stat] at h
  simp only [bind_eq_ok, Prod.exists, pure_eq_ok, Prod.mk.injEq] at h
  obtain ⟨_, st1, h1, body, st3, h3, _, st4, h4, st5, h5, rfl, rfl⟩ := h
  have k1 := expect_st_conv hk h1
  have k3 := ih_loop .null _ _ _ rfl (enter_scope_conv k1) h3
  have k4 := expect_st_conv k3.2 h4
  exact ⟨conv_ok_mkaux (by decide) k3.1, exit_scope_conv k4 h5⟩

theorem if_stat_conv_step (uac : CType → CType → CType) (fuel : Nat)
    (ih_stmt : StmtConv (statement uac fuel)) : StmtConv (if_stat uac (fuel + 1)) := by
  intro st n st' hk h
  rw [if_stat] at h
  simp only [bind_eq_ok, Prod.exists] at h
  obtain ⟨_, st1, h1, _, st2, h2, c, st3, h3, _, st4, h4, th, st5, h5, e, st6, h6, h⟩ := h
  have k2 := expect_st_conv (expect_st_conv hk h1) h2
  have k3 := with_tokens_conv (expression_conv uac fuel) k2 h3
  have k4 := expect_st_conv k3.2 h4
  have k5 := ih_stmt _ _ _ k4 h5
  have k6 := consume_st_conv k5.2 h6
  by_cases he : e.isSome = true
  · rw [if_pos he] at h
    simp only [bind_eq_ok, Prod.exists, pure_eq_ok, Prod.mk.injEq] at h
    obtain ⟨el, st7, h7, rfl, rfl⟩ := h
    have k7 := ih_stmt _ _ _ k6 h7
    refine ⟨?_, k7.2⟩
    simp only [mknode, Node.set_cond, Node.set_then_, Node.set_els]
    rw [conv_ok_mk]
    exact ⟨fun hk => absurd hk (show A_IF ≠ A_CONVERSION by decide), rfl, rfl, rfl, rfl, rfl,
      k3.1, k5.1, k7.1, rfl, rfl, rfl, rfl, rfl⟩
  · rw [if_neg he] at h
    simp only [pure_eq_ok, Prod.mk.injEq] at h
    rw [← h.1, ← h.2]
    refine ⟨?_, k6⟩
    simp only [mknode, Node.set_cond, Node.set_then_]
    rw [conv_ok_mk]
    exact ⟨fun hk => absurd hk (show A_IF ≠ A_CONVERSION by decide), rfl, rfl, rfl, rfl, rfl,
      k3.1, k5.1, rfl, rfl, rfl, rfl, rfl, rfl⟩

theorem while_stat_conv_step (uac : CType → CType → CType) (fuel : Nat)
    (ih_stmt : StmtConv (statement uac fuel)) : StmtConv (while_stat uac (fuel + 1)) := by
  intro st n st' hk h
  rw [while_stat] at h
  simp only [bind_eq_ok, Prod.exists, pure_eq_ok, Prod.mk.injEq] at h
  obtain ⟨_, st1, h1, _, st2, h2, c, st3, h3, _, st4, h4, b, st5, h5, rfl, rfl⟩ := h
  have k2 := expect_st_conv (expect_st_conv hk h1) h2
  have k3 := with_tokens_conv (eq_expr_conv uac fuel) k2 h3
  have k4 := expect_st_conv k3.2 h4
  have k5 := ih_stmt _ _ _ k4 h5
  refine ⟨?_, k5.2⟩
  simp only [mknode, Node.set_cond, Node.set_body]
  rw [conv_ok_mk]
  exact ⟨fun hk => absurd hk (show A_FOR ≠ A_CONVERSION by decide), rfl, rfl, rfl, rfl, k5.1,
    k3.1, rfl, rfl, rfl, rfl, rfl, rfl, rfl⟩

theorem dowhile_stat_conv_step (uac : CType → CType → CType) (fuel : Nat)
    (ih_stmt : StmtConv (statement uac fuel)) : StmtConv (dowhile_stat uac (fuel + 1)) := by
  intro st n st' hk h
  rw [dowhile_stat] at h
  simp only [bind_eq_ok, Prod.exists, pure_eq_ok, Prod.mk.injEq] at h
  obtain ⟨_, st1, h1, b, st2, h2, _, st3, h3, _, st4, h4, c, st5, h5, _, st6, h6, _, st7, h7,
    rfl, rfl⟩ := h
  have k1 := expect_st_conv hk h1
  have k2 := ih_stmt _ _ _ k1 h2
  have k4 := expect_st_conv (expect_st_conv k2.2 h3) h4
  have k5 := with_tokens_conv (expression_conv uac fuel) k4 h5
  have k7 := expect_st_conv (expect_st_conv k5.2 h6) h7
  refine ⟨?_, k7⟩
  simp only [mknode, Node.set_cond, Node.set_body]
  rw [conv_ok_mk]
  exact ⟨fun hk => absurd hk (show A_DOWHILE ≠ A_CONVERSION by decide), rfl, rfl, rfl, rfl,
    k2.1, k5.1, rfl, rfl, rfl, rfl, rfl, rfl, rfl⟩

theorem conv_ok_set_field {n v : Node} (hn : conv_ok n = true) (hv : conv_ok v = true) :
    conv_ok (n.set_init v) = true ∧ conv_ok (n.set_cond v) = true ∧
      conv_ok (n.set_post v) = true ∧ conv_ok (n.set_params v) = true ∧
      conv_ok (n.set_locals v) = true := by
  cases n with
  | null => exact ⟨rfl, rfl, rfl, rfl, rfl⟩
  | mk a next scope_next left right body cond then_ els init post args params locals =>
    rw [conv_ok_mk] at hn
    simp only [Node.set_init, Node.set_cond, Node.set_post, Node.set_params, Node.set_locals]
    obtain ⟨h0, h1, h2, h3, h4, h5, h6, h7, h8, h9, h10, h11, h12, h13⟩ := hn
    refine ⟨?_, ?_, ?_, ?_, ?_⟩ <;> rw [conv_ok_mk]
    · exact ⟨h0, h1, h2, h3, h4, h5, h6, h7, h8, hv, h10, h11, h12, h13⟩
    · exact ⟨h0, h1, h2, h3, h4, h5, hv, h7, h8, h9, h10, h11, h12, h13⟩
    · exact ⟨h0, h1, h2, h3, h4, h5, h6, h7, h8, h9, hv, h11, h12, h13⟩
    · exact ⟨h0, h1, h2, h3, h4, h5, h6, h7, h8, h9, h10, h11, hv, h13⟩
    · exact ⟨h0, h1, h2, h3, h4, h5, h6, h7, h8, h9, h10, h11, h12, hv⟩

theorem conv_ok_set_body {n v : Node} (hk : n.kind ≠ A_CONVERSION) (hn : conv_ok n = true)
    (hv : conv_ok v = true) : conv_ok (n.set_body v) = true := by
  cases n with
  | null => rfl
  | mk a next scope_next left right body cond then_ els init post args params locals =>
    rw [conv_ok_mk] at hn
    simp only [Node.set_body]
    rw [conv_ok_mk]
    obtain ⟨h0, h1, h2, h3, h4, h5, h6, h7, h8, h9, h10, h11, h12, h13⟩ := hn
    exact ⟨fun h => absurd h hk, h1, h2, h3, h4, hv, h6, h7, h8, h9, h10, h11, h12, h13⟩

theorem kind_set_field (n v : Node) :
    (n.set_init v).kind = n.kind ∧ (n.set_cond v).kind = n.kind ∧
      (n.set_post v).kind = n.kind ∧ (n.set_params v).kind = n.kind ∧
      (n.set_locals v).kind = n.kind ∧ (n.set_body v).kind = n.kind := by
  cases n <;> exact ⟨rfl, rfl, rfl, rfl, rfl, rfl⟩

theorem for_stat_conv_step (uac : CType → CType → CType) (fuel : Nat)
    (ih_stmt : StmtConv (statement uac fuel)) : StmtConv (for_stat uac (fuel + 1)) := by
  intro st n st' hk h
  rw [for_stat] at h
  simp only [bind_eq_ok, Prod.exists, pure_eq_ok, Prod.mk.injEq] at h
  obtain ⟨_, st1, h1, _, st2, h2, semi, st3, h3, n4, st4, h4, semi2, st5, h5, n6, st6, h6,
    close, st7, h7, n8, st8, h8, b, st9, h9, rfl, rfl⟩ := h
  have k3 := consume_st_conv (expect_st_conv (expect_st_conv hk h1) h2) h3
  have k4 : (conv_ok n4 = true ∧ n4.kind = A_FOR) ∧ state_conv_ok st4 = true := by
    by_cases hs : semi.isSome = true
    · rw [if_pos hs] at h4
      simp only [pure_eq_ok, Prod.mk.injEq] at h4
      rw [← h4.1, ← h4.2]
      exact ⟨⟨rfl, rfl⟩, k3⟩
    · rw [if_neg hs] at h4
      simp only [bind_eq_ok, Prod.exists, pure_eq_ok, Prod.mk.injEq] at h4
      obtain ⟨i, sti, hi, rfl, rfl⟩ := h4
      have ki := expr_stat_conv uac fuel _ _ _ k3 hi
      exact ⟨⟨(conv_ok_set_field (n := mknode A_FOR) rfl ki.1).1, rfl⟩, ki.2⟩
  have k5 := consume_st_conv k4.2 h5
  have k6 : (conv_ok n6 = true ∧ n6.kind = A_FOR) ∧ state_conv_ok st6 = true := by
    by_cases hs : semi2.isSome = true
    · rw [if_pos hs] at h6
      simp only [pure_eq_ok, Prod.mk.injEq] at h6
      rw [← h6.1, ← h6.2]
      exact ⟨k4.1, k5⟩
    · rw [if_neg hs] at h6
      simp only [bind_eq_ok, Prod.exists, pure_eq_ok, Prod.mk.injEq] at h6
      obtain ⟨c, stc, hc, _, std, hd, rfl, rfl⟩ := h6
      have kc := with_tokens_conv (expression_conv uac fuel) k5 hc
      exact ⟨⟨(conv_ok_set_field k4.1.1 kc.1).2.1, by rw [(kind_set_field n4 c).2.1, k4.1.2]⟩,
        expect_st_conv kc.2 hd⟩
  have k7 := consume_st_conv k6.2 h7
  have k8 : (conv_ok n8 = true ∧ n8.kind = A_FOR) ∧ state_conv_ok st8 = true := by
    by_cases hs : close.isSome = true
    · rw [if_pos hs] at h8
      simp only [pure_eq_ok, Prod.mk.injEq] at h8
      rw [← h8.1, ← h8.2]
      exact ⟨k6.1, k7⟩
    · rw [if_neg hs] at h8
      simp only [bind_eq_ok, Prod.exists, pure_eq_ok, Prod.mk.injEq] at h8
      obtain ⟨p, stp, hp, _, stq, hq, rfl, rfl⟩ := h8
      have kp := with_tokens_conv (expression_conv uac fuel) k7 hp
      exact ⟨⟨(conv_ok_set_field k6.1.1 (conv_ok_mkaux (k := A_EXPR_STAT) (by decide)
        kp.1)).2.2.1, by rw [(kind_set_field n6 _).2.2.1, k6.1.2]⟩, expect_st_conv kp.2 hq⟩
  have k9 := ih_stmt _ _ _ k8.2 h9
  exact ⟨conv_ok_set_body (by rw [k8.1.2]; decide) k8.1.1 k9.1, k9.2⟩

/-- Every statement function, called in a state whose lists satisfy `conv_ok`,
returns only nodes that satisfy it and leaves lists that do. -/
theorem statement_conv (uac : CType → CType → CType) (fuel : Nat) :
    StmtConv (statement uac fuel) ∧
    (∀ body st n st', conv_ok body = true → state_conv_ok st = true →
      comp_stat_loop uac fuel body st = .ok (n, st') →
      conv_ok n = true ∧ state_conv_ok st' = true) ∧
    StmtConv (comp_stat uac fuel) ∧ StmtConv (if_stat uac fuel) ∧
    StmtConv (while_stat uac fuel) ∧ StmtConv (dowhile_stat uac fuel) ∧
    StmtConv (for_stat uac fuel) := by
  induction fuel with
  | zero =>
    refine ⟨?_, ?_, ?_, ?_, ?_, ?_, ?_⟩
    · intro _ _ _ _ h; simp [statement] at h
    · intro _ _ _ _ _ _ h; simp [comp_stat_loop] at h
    · intro _ _ _ _ h; simp [comp_stat] at h
    · intro _ _ _ _ h; simp [if_stat] at h
    · intro _ _ _ _ h; simp [while_stat] at h
    · intro _ _ _ _ h; simp [dowhile_stat] at h
    · intro _ _ _ _ h; simp [for_stat] at h
  | succ fuel ih =>
    obtain ⟨i1, i2, i3, i4, i5, i6, i7⟩ := ih
    exact ⟨statement_conv_step uac fuel i3 i4 i5 i6 i7,
      comp_stat_loop_conv_step uac fuel i2 i1,
      comp_stat_conv_step uac fuel i2,
      if_stat_conv_step uac fuel i1,
      while_stat_conv_step uac fuel i1,
      dowhile_stat_conv_step uac fuel i1,
      for_stat_conv_step uac fuel i1⟩

theorem param_list_loop_conv (fuel : Nat) : ∀ (head : Node) (st st' : PState) (n : Node),
    conv_ok head = true → state_conv_ok st = true →
    param_list_loop fuel head st = .ok (n, st') →
    conv_ok n = true ∧ state_conv_ok st' = true := by
  induction fuel with
  | zero => intro head st st' n _ _ h; simp [param_list_loop] at h
  | succ fuel ih =>
    intro head st st' n hh hk h
    rw [param_list_loop] at h
    simp only [bind_eq_ok, Prod.exists] at h
    obtain ⟨close, st1, h1, h⟩ := h
    have k1 := consume_st_conv hk h1
    cases close with
    | some _ =>
      simp only [pure_eq_ok, Prod.mk.injEq] at h
      rw [← h.1, ← h.2]
      exact ⟨hh, k1⟩
    | none =>
      simp only [bind_eq_ok, Prod.exists] at h
      obtain ⟨ty, t, _, tok, st2, h2, v, st3, h3, b, _, h⟩ := h
      have k2 := expect_st_conv (state_conv_ok_set_t t k1) h2
      have k3 := mklvar_conv k2 h3
      have hh2 : conv_ok (list_insert head (mklist v)) = true :=
        conv_ok_chain_append hh (conv_ok_mklist k3.1)
      by_cases hb : b = true
      · rw [if_pos hb] at h
        exact ih _ _ _ _ hh2 k3.2 h
      · rw [if_neg hb] at h
        simp only [bind_eq_ok, Prod.exists] at h
        obtain ⟨_, st4, h4, h⟩ := h
        exact ih _ _ _ _ hh2 (expect_st_conv k3.2 h4) h

theorem param_list_conv (fuel : Nat) : StmtConv (param_list fuel) := by
  intro st n st' hk h
  simp only [param_list, bind_eq_ok, Prod.exists] at h
  obtain ⟨_, st1, h1, h⟩ := h
  exact param_list_loop_conv fuel _ _ _ _ (conv_ok_mklist (e := .null) rfl)
    (expect_st_conv hk h1) h

/-- The function `function`, called in a state whose lists satisfy `conv_ok`,
leaves lists that do. -/
theorem function_conv {uac : CType → CType → CType} {fuel : Nat} {st st' : PState}
    {n : Node} (hf : st.is_function ≠ 0) (hk : state_conv_ok st = true)
    (h : function uac fuel st = .ok (n, st')) : state_conv_ok st' = true := by
  simp only [function, bind_eq_ok, Prod.exists, pure_eq_ok, Prod.mk.injEq] at h
  obtain ⟨ty, t, h1, tok, st2, h2, params, st3, h3, body, st4, h4, st5, h5, _, rfl⟩ := h
  have k := (state_conv_ok_iff st).1 hk
  have kA : state_conv_ok ((st.set_locals .null).set_t t) = true :=
    (state_conv_ok_iff _).2 ⟨by simpa using k.1, by simp [conv_ok], by simpa using k.2.2⟩
  have k2 := expect_st_conv kA h2
  have f2 : st2.globals = st.globals ∧ st2.is_function = st.is_function := by
    have := expect_st_frame h2
    simpa [Frame] using this.2
  have c2 := ((state_conv_ok_iff st2).1 k2)
  have cN : conv_ok (((((mknode A_FUNC_DEF).set_type ty).set_name tok.name).set_is_function
      1).set_next st2.globals) = true := by
    simp only [mknode, Node.set_type, Node.set_name, Node.set_is_function, Node.set_next]
    rw [conv_ok_mk]
    exact ⟨fun hk => absurd hk (show A_FUNC_DEF ≠ A_CONVERSION by decide), c2.1, rfl, rfl, rfl,
      rfl, rfl, rfl, rfl, rfl, rfl, rfl, rfl, rfl⟩
  have kP : state_conv_ok (enter_scope (st2.set_globals
      (((((mknode A_FUNC_DEF).set_type ty).set_name tok.name).set_is_function
        1).set_next st2.globals))) = true :=
    enter_scope_conv ((state_conv_ok_iff _).2
      ⟨by simpa using cN, by simpa using c2.2.1, by simpa using c2.2.2⟩)
  have k3 := param_list_conv fuel _ _ _ kP h3
  have f3 := param_list_globals h3
  simp only [enter_scope, PState.globals_set_scope, PState.globals_set_globals,
    PState.is_function_set_scope, PState.is_function_set_globals] at f3
  have c3 := (state_conv_ok_iff st3).1 k3.2
  have hf3 : (st3.set_globals (chain_assign (fun n => n.set_params params)
      (chain_length st2.globals) st3.globals)).is_function ≠ 0 := by
    simp only [PState.is_function_set_globals]; rw [f3.2, f2.2]; exact hf
  have kB : state_conv_ok (st3.set_globals (chain_assign (fun n => n.set_params params)
      (chain_length st2.globals) st3.globals)) = true := by
    refine (state_conv_ok_iff _).2 ⟨?_, by simpa using c3.2.1, by simpa using c3.2.2⟩
    simp only [PState.globals_set_globals]
    rw [f3.1]
    simp only [mknode, Node.set_type, Node.set_name, Node.set_is_function, Node.set_next,
      chain_assign, if_true, Node.set_params]
    rw [conv_ok_mk]
    exact ⟨fun hk => absurd hk (show A_FUNC_DEF ≠ A_CONVERSION by decide), c2.1, rfl, rfl, rfl,
      rfl, rfl, rfl, rfl, rfl, rfl, rfl, k3.1, rfl⟩
  have f4 := (statement_frame uac fuel).2.2.1 _ _ _ hf3 h4
  have k4 := (statement_conv uac fuel).2.2.1 _ _ _ kB h4
  have c4 := (state_conv_ok_iff st4).1 k4.2
  obtain ⟨l0, outer, hs, rfl⟩ := exit_scope_ok h5
  simp only [PState.scope_set_globals] at hs
  refine (state_conv_ok_iff _).2 ⟨?_, by simpa using c4.2.1, ?_⟩
  · simp only [PState.globals_set_scope, PState.globals_set_globals,
      PState.locals_set_globals]
    rw [f4.2.1]
    simp only [PState.globals_set_globals]
    rw [f3.1]
    simp only [mknode, Node.set_type, Node.set_name, Node.set_is_function, Node.set_next,
      chain_assign, if_true, Node.set_params, Node.set_body, Node.set_locals]
    rw [conv_ok_mk]
    exact ⟨fun hk => absurd hk (show A_FUNC_DEF ≠ A_CONVERSION by decide), c2.1, rfl, rfl, rfl,
      k4.1, rfl, rfl, rfl, rfl, rfl, rfl, k3.1, c4.2.1⟩
  · intro l hl
    simp only [PState.scope_set_scope] at hl
    exact c4.2.2 l (by rw [hs]; exact List.mem_cons_of_mem _ hl)

theorem check_next_conv {st st' : PState} (hk : state_conv_ok st = true)
    (h : check_next_top_level_item st = .ok st') : state_conv_ok st' = true := by
  have key : ∀ v, state_conv_ok (st.set_is_function v) = true := by
    intro v
    cases st
    exact hk
  simp only [check_next_top_level_item, bind_eq_ok, Prod.exists] at h
  obtain ⟨_, t, _, id, t1, _, h⟩ := h
  cases id with
  | none =>
    simp only [pure_eq_ok] at h
    rw [← h]
    exact key _
  | some _ =>
    simp only [bind_eq_ok, Prod.exists, pure_eq_ok] at h
    obtain ⟨_, _, _, h⟩ := h
    rw [← h]
    exact key _

theorem trans_unit_conv (uac : CType → CType → CType) (fuel : Nat) :
    StmtConv (trans_unit uac fuel) := by
  induction fuel with
  | zero => intro _ _ _ _ h; simp [trans_unit] at h
  | succ fuel ih =>
    intro st n st' hk h
    rw [trans_unit] at h
    split at h
    · cases h
    · rename_i c rest ht
      by_cases hc : c.kind ≠ TK_EOI
      · rw [if_pos hc] at h
        simp only [bind_eq_ok, Prod.exists] at h
        obtain ⟨st1, h1, _, st2, h2, h⟩ := h
        have k1 := check_next_conv hk h1
        have k2 : state_conv_ok st2 = true := by
          by_cases hf : st1.is_function ≠ 0
          · rw [if_pos hf] at h2
            exact function_conv hf k1 h2
          · rw [if_neg hf] at h2
            exact (declaration_conv _ _ _ k1 h2).2
        exact ih _ _ _ k2 h
      · rw [if_neg hc] at h
        simp only [pure_eq_ok, Prod.mk.injEq] at h
        rw [← h.1, ← h.2]
        exact ⟨((state_conv_ok_iff st).1 hk).1, hk⟩

theorem Reaches.rtrans {a b c : Node} (h1 : Reaches a b) (h2 : Reaches b c) : Reaches a c := by
  induction h1 with
  | here _ => exact h2
  | step hc _ ih => exact Reaches.step hc (ih h2)

theorem reaches_fields (n : Node) :
    Reaches n n.body ∧ Reaches n n.next ∧ Reaches n n.left ∧ Reaches n n.right := by
  cases n with
  | null => exact ⟨Reaches.here _, Reaches.here _, Reaches.here _, Reaches.here _⟩
  | mk a next scope_next left right body cond then_ els init post args params locals =>
    refine ⟨Reaches.step ?_ (Reaches.here _), Reaches.step ?_ (Reaches.here _),
      Reaches.step ?_ (Reaches.here _), Reaches.step ?_ (Reaches.here _)⟩ <;>
      simp [children, Node.body, Node.next, Node.left, Node.right]

/-- C21: in the AST a successful `parse` returns, every A_CONVERSION node,
reached from the returned list through any chain of node pointers, wraps a
node (its `body`) and has a `type` different from the `type` of that node,
whatever the kind of the wrapped node is, another conversion included. This
covers the conversions `mkbinary` puts around the right-hand side of an
assignment and around the operands of the other binary operators and the one
the `return` branch of `statement` puts around the returned value. -/
theorem conversion_invariant (uac : CType → CType → CType) (fuel : Nat) (root : List Token)
    (g : Node) (st' : PState) (h : parse uac fuel root = .ok (g, st')) :
    ∀ c, Reaches g c → c.kind = A_CONVERSION → c.body ≠ .null ∧ c.type ≠ c.body.type := by
  intro c hr hk
  have k := (trans_unit_conv uac fuel _ _ _ (by rfl) h).1
  exact conv_ok_here (conv_ok_reaches k hr) hk

theorem conversion_invariant_witness :
    parse uac_left 30 tokens_conversions =
        .ok (returned (parse uac_left 30 tokens_conversions)) ∧
    (returned (parse uac_left 30 tokens_conversions)).1.body.body.body.right.kind =
      A_CONVERSION ∧
    (returned (parse uac_left 30 tokens_conversions)).1.body.body.body.right.body ≠ .null ∧
    (returned (parse uac_left 30 tokens_conversions)).1.body.body.body.right.type ≠
      (returned (parse uac_left 30 tokens_conversions)).1.body.body.body.right.body.type :=
  ⟨rfl, rfl, conversion_invariant uac_left 30 tokens_conversions
    (returned (parse uac_left 30 tokens_conversions)).1
    (returned (parse uac_left 30 tokens_conversions)).2 rfl
    (returned (parse uac_left 30 tokens_conversions)).1.body.body.body.right
    ((((reaches_fields _).1.rtrans (reaches_fields _).1).rtrans (reaches_fields _).1).rtrans
      (reaches_fields _).2.2.2) rfl⟩

/-- In `long f() { char c; int i; long l; l = i; i = c + l; return i; }`,
parsed with the type of the left operand as the usual arithmetic conversion,
there are four conversion nodes: of `i` to `long` in `l = i`, of `l` to `char`
in `c + l`, of `c + l` to `int` in the assignment to `i`, and of `i` to `long`
in the `return`. -/
theorem parse_conversions_program :
    (returned (parse uac_left 30 tokens_conversions)).1.kind = A_FUNC_DEF ∧
    (returned (parse uac_left 30 tokens_conversions)).1.body.body.body.right =
      (mkaux A_CONVERSION ((returned (parse uac_left 30
        tokens_conversions)).1.body.body.body.right.body)).set_type longtype ∧
    (returned (parse uac_left 30 tokens_conversions)).1.body.body.body.right.body.type =
      inttype ∧
    (returned (parse uac_left 30 tokens_conversions)).1.body.body.next.body.right.kind =
      A_CONVERSION ∧
    (returned (parse uac_left 30 tokens_conversions)).1.body.body.next.body.right.type =
      inttype ∧
    (returned (parse uac_left 30 tokens_conversions)).1.body.body.next.body.right.body.kind =
      A_ADD ∧
    (returned (parse uac_left 30 tokens_conversions)).1.body.body.next.body.right.body.type =
      chartype ∧
    (returned (parse uac_left 30
      tokens_conversions)).1.body.body.next.body.right.body.right.kind = A_CONVERSION ∧
    (returned (parse uac_left 30
      tokens_conversions)).1.body.body.next.body.right.body.right.type = chartype ∧
    (returned (parse uac_left 30
      tokens_conversions)).1.body.body.next.body.right.body.right.body.type = longtype ∧
    (returned (parse uac_left 30 tokens_conversions)).1.body.body.next.next.kind = A_RETURN ∧
    (returned (parse uac_left 30 tokens_conversions)).1.body.body.next.next.body.kind =
      A_CONVERSION ∧
    (returned (parse uac_left 30 tokens_conversions)).1.body.body.next.next.body.type =
      longtype ∧
    (returned (parse uac_left 30 tokens_conversions)).1.body.body.next.next.body.body.type =
      inttype := by
  refine ⟨rfl, rfl, rfl, rfl, rfl, rfl, rfl, rfl, rfl, rfl, rfl, rfl, rfl, rfl⟩

end Learncc
